import Mathlib

/-!
# ncbray/cmdline: the token-dispatch parser and its observers

A shallow embedding of `parse.go`, of the parts of `cmdline.go` and of the value
handlers that the parser talks to, and of the mock observer of `parse_test.go`.

Conventions of the embedding.

* Go strings are Lean `String`s and `[]rune(s)` is `s.data`; `string(r)` of a
  rune slice is `String.mk r`.  Tokens are therefore valid Unicode text, for
  which the two conversions are inverse to each other.  The last section,
  `bytes`, reads a Go string as the list of its bytes, valid UTF-8 or not, and
  gives `parse.go` and `completionClipPoint` once more on such strings.
* A Go method with a pointer receiver becomes a function that takes the
  receiver's state and returns the new state next to its result.
* A callee that is handed a `CompletionObserver` can only call
  `FinalCompletion` and `PartialCompletion` on it; it is modelled as returning
  the list of those calls, which the caller then replays on the parser.
* Loops carry a fuel argument; the callers pass the number of unread tokens,
  which is shown below to be enough for the loop to stop by its own condition.
-/

namespace cmdline

/-! ## parse.go -/

/-- One call on a `CompletionObserver` (parse.go, lines 25-28). -/
inductive Completion where
  | Final (completion : String)
  | Partial (completion : String)
  deriving DecidableEq, Repr

/-- The interface `parseObserver` (parse.go, lines 3-23) over the observer's
state `σ`, together with the embedded `Logger` (cmdline.go, lines 10-13).
`NumErrors` is a getter; every other method may change the observer. -/
structure parseObserver (σ : Type) where
  Error : String → σ → σ
  NumErrors : σ → Nat
  longFlagInfo : String → σ → (Bool × Bool) × σ
  shortFlagInfo : Char → σ → (Bool × Bool) × σ
  notifyLongFlag : String → σ → Bool × σ
  notifyLongFlagValue : String → String → σ → Bool × σ
  notifyShortFlag : Char → σ → Bool × σ
  notifyShortFlagValue : Char → String → σ → Bool × σ
  notifyArg : String → σ → Bool × σ
  completeLongFlag : String → σ → List Completion × σ
  completeLongFlagValue : String → String → σ → List Completion × σ
  completeShortFlag : σ → List Completion × σ
  completeShortFlagValue : Char → String → σ → List Completion × σ
  completeArg : String → σ → List Completion × σ
  acceptingArgs : σ → Bool × σ

/-- The struct `parser` (parse.go, lines 30-39). -/
structure parser where
  args : List String
  current : Nat
  parseOK : Bool
  completing : Bool
  prependCompletion : String
  completions : List String
  isPartial : Bool
  deriving DecidableEq, Repr

/-- `hasNext` (parse.go, lines 41-43). -/
def parser.hasNext (p : parser) : Bool :=
  decide (p.current < p.args.length)

/-- `getNext` (parse.go, lines 45-49): the token under the cursor and the
parser with the cursor advanced.  Every call in the source is guarded by
`hasNext`, so the default of `getD` is never read. -/
def parser.getNext (p : parser) : String × parser :=
  (p.args.getD p.current "", { p with current := p.current + 1 })

/-- `shouldComplete` (parse.go, lines 51-53). -/
def parser.shouldComplete (p : parser) : Bool :=
  p.completing && !p.hasNext

/-- `status` (parse.go, lines 55-59). -/
def parser.status (p : parser) (ok : Bool) : parser :=
  if !ok then { p with parseOK := false } else p

/-- `FinalCompletion` (parse.go, lines 61-63). -/
def parser.FinalCompletion (p : parser) (completion : String) : parser :=
  { p with completions := p.completions ++ [p.prependCompletion ++ completion] }

/-- `PartialCompletion` (parse.go, lines 65-68). -/
def parser.PartialCompletion (p : parser) (completion : String) : parser :=
  { p with
    completions := p.completions ++ [p.prependCompletion ++ completion]
    isPartial := true }

/-- Replays on the parser the calls a completion callback made on it. -/
def parser.deliver (p : parser) (calls : List Completion) : parser :=
  calls.foldl
    (fun q c =>
      match c with
      | Completion.Final t => q.FinalCompletion t
      | Completion.Partial t => q.PartialCompletion t)
    p

/-- `handleLongFlagValue` (parse.go, lines 70-76). -/
def handleLongFlagValue {σ : Type} (p : parser) (name value : String)
    (observer : parseObserver σ) (s : σ) : parser × σ :=
  if p.shouldComplete then
    (p.deliver (observer.completeLongFlagValue name value s).1,
      (observer.completeLongFlagValue name value s).2)
  else
    (p.status (observer.notifyLongFlagValue name value s).1,
      (observer.notifyLongFlagValue name value s).2)

/-- `completeLongFlag` (parse.go, lines 168-174).  The `&&` of the source is
short-circuit: `acceptingArgs` is only called for the empty prefix. -/
def completeLongFlag {σ : Type} (p : parser) (pfx : String)
    (observer : parseObserver σ) (s : σ) : parser × σ :=
  let p1 : parser := { p with prependCompletion := "--" }
  if pfx = "" then
    let a := observer.acceptingArgs s
    let p2 := if a.1 then p1.FinalCompletion "" else p1
    (p2.deliver (observer.completeLongFlag pfx a.2).1, (observer.completeLongFlag pfx a.2).2)
  else
    (p1.deliver (observer.completeLongFlag pfx s).1, (observer.completeLongFlag pfx s).2)

/-- `completeShortFlag` (parse.go, lines 176-182); `len(current)` is the byte
length of the Go string. -/
def completeShortFlag {σ : Type} (p : parser) (current : String)
    (observer : parseObserver σ) (s : σ) : parser × σ :=
  let p1 : parser := { p with prependCompletion := current }
  let p2 := if current.utf8ByteSize > 1 then p1.FinalCompletion "" else p1
  (p2.deliver (observer.completeShortFlag s).1, (observer.completeShortFlag s).2)

/-- `completeAnyFlag` (parse.go, lines 184-187). -/
def completeAnyFlag {σ : Type} (p : parser) (observer : parseObserver σ) (s : σ) :
    parser × σ :=
  let r := completeShortFlag p "-" observer s
  completeLongFlag r.1 "" observer r.2

/-- The scan for the first `=` of `parseLongFlag` (parse.go, lines 79-87):
started at index `c` on the runes from `c` on, it returns the final `c` and
`equals`. -/
def scanEquals : List Char → Nat → Nat × Bool
  | [], c => (c, false)
  | ch :: rest, c => if ch = '=' then (c, true) else scanEquals rest (c + 1)

/-- `parseLongFlag` (parse.go, lines 78-123). -/
def parseLongFlag {σ : Type} (p : parser) (arg : List Char)
    (observer : parseObserver σ) (s : σ) : parser × σ :=
  let c := (scanEquals arg 0).1
  let equals := (scanEquals arg 0).2
  let name := String.mk (arg.take c)
  let info := observer.longFlagInfo name s
  let «exists» := info.1.1
  let takesValue := info.1.2
  let s1 := info.2
  if equals then
    if !«exists» then
      (p.status false, observer.Error ("unrecognized flag --" ++ name) s1)
    else if takesValue then
      let value := String.mk (arg.drop (c + 1))
      let p1 : parser := { p with prependCompletion := "--" ++ String.mk (arg.take (c + 1)) }
      handleLongFlagValue p1 name value observer s1
    else
      (p.status false, observer.Error ("--" ++ name ++ " does not take an argument") s1)
  else
    if p.shouldComplete then
      completeLongFlag p name observer s1
    else if !«exists» then
      (p.status false, observer.Error ("unrecognized flag --" ++ name) s1)
    else if takesValue then
      if p.hasNext then
        let value := p.getNext.1
        let p1 : parser := { p.getNext.2 with prependCompletion := "" }
        handleLongFlagValue p1 name value observer s1
      else
        (p.status false, observer.Error ("--" ++ name ++ " requires an argument") s1)
    else
      (p.status (observer.notifyLongFlag name s1).1, (observer.notifyLongFlag name s1).2)

/-- `handleShortFlagValue` (parse.go, lines 125-131). -/
def handleShortFlagValue {σ : Type} (p : parser) (name : Char) (value : String)
    (observer : parseObserver σ) (s : σ) : parser × σ :=
  if p.shouldComplete then
    (p.deliver (observer.completeShortFlagValue name value s).1,
      (observer.completeShortFlagValue name value s).2)
  else
    (p.status (observer.notifyShortFlagValue name value s).1,
      (observer.notifyShortFlagValue name value s).2)

/-- The `for` loop of `parseShortFlag` (parse.go, lines 134-160) at index `c`,
given as the runes `arg[c:]` still to scan; `arg` is the whole cluster.  The
first component of the result says whether the function returned from inside
the loop (line 156). -/
def parseShortFlagLoop {σ : Type} (observer : parseObserver σ) (arg : List Char) :
    List Char → parser → σ → Bool × parser × σ
  | [], p, s => (false, p, s)
  | name :: rest, p, s =>
    if !p.parseOK then (false, p, s)
    else
      let info := observer.shortFlagInfo name s
      let s1 := info.2
      if !info.1.1 then
        parseShortFlagLoop observer arg rest (p.status false)
          (observer.Error ("unrecognized flag -" ++ String.singleton name) s1)
      else if info.1.2 then
        if rest ≠ [] then
          (true, handleShortFlagValue p name (String.mk rest) observer s1)
        else if p.hasNext then
          (true, handleShortFlagValue p.getNext.2 name p.getNext.1 observer s1)
        else if p.shouldComplete then
          (true, p.FinalCompletion ("-" ++ String.mk arg), s1)
        else
          (true, p.status false,
            observer.Error ("-" ++ String.singleton name ++ " requires an argument") s1)
      else
        parseShortFlagLoop observer arg rest (p.status (observer.notifyShortFlag name s1).1)
          (observer.notifyShortFlag name s1).2

/-- `parseShortFlag` (parse.go, lines 133-166). -/
def parseShortFlag {σ : Type} (p : parser) (arg : List Char)
    (observer : parseObserver σ) (s : σ) : parser × σ :=
  let r := parseShortFlagLoop observer arg arg p s
  if r.1 then r.2
  else if r.2.1.parseOK && r.2.1.shouldComplete then
    completeShortFlag r.2.1 ("-" ++ String.mk arg) observer r.2.2
  else r.2

/-- The loop after a `--` token (parse.go, lines 202-204). -/
def escapeLoop {σ : Type} (observer : parseObserver σ) : Nat → parser → σ → parser × σ
  | 0, p, s => (p, s)
  | fuel + 1, p, s =>
    if p.hasNext && p.parseOK then
      escapeLoop observer fuel
        (p.getNext.2.status (observer.notifyArg p.getNext.1 s).1)
        (observer.notifyArg p.getNext.1 s).2
    else (p, s)

/-- The body of the loop of `parseMain` (parse.go, lines 192-229) for the
token `arg`, which `getNext` has already taken. -/
def parseToken {σ : Type} (p : parser) (arg : List Char)
    (observer : parseObserver σ) (s : σ) : parser × σ :=
  if arg.length ≥ 1 ∧ arg.head? = some '-' then
    if arg.length ≥ 2 then
      if arg.get? 1 = some '-' then
        if arg.length ≥ 3 then
          parseLongFlag p (arg.drop 2) observer s
        else if p.shouldComplete then
          completeLongFlag p "" observer s
        else
          escapeLoop observer (p.args.length - p.current) p s
      else
        parseShortFlag p (arg.drop 1) observer s
    else if p.shouldComplete then
      completeAnyFlag p observer s
    else
      (p.status false, observer.Error "stray dash" s)
  else if p.shouldComplete then
    if arg.length = 0 then
      let a := observer.acceptingArgs s
      if !a.1 then completeAnyFlag p observer a.2
      else
        ((p.deliver (observer.completeArg (String.mk arg) a.2).1),
          (observer.completeArg (String.mk arg) a.2).2)
    else
      ((p.deliver (observer.completeArg (String.mk arg) s).1),
        (observer.completeArg (String.mk arg) s).2)
  else
    (p.status (observer.notifyArg (String.mk arg) s).1, (observer.notifyArg (String.mk arg) s).2)

/-- The loop of `parseMain` (parse.go, lines 190-230). -/
def parseMainLoop {σ : Type} (observer : parseObserver σ) : Nat → parser → σ → parser × σ
  | 0, p, s => (p, s)
  | fuel + 1, p, s =>
    if p.hasNext && p.parseOK then
      parseMainLoop observer fuel
        (parseToken p.getNext.2 p.getNext.1.data observer s).1
        (parseToken p.getNext.2 p.getNext.1.data observer s).2
    else (p, s)

/-- `parseMain` (parse.go, lines 189-231); every iteration reads at least one
token, so the number of unread tokens bounds the number of iterations. -/
def parseMain {σ : Type} (p : parser) (observer : parseObserver σ) (s : σ) : parser × σ :=
  parseMainLoop observer (p.args.length - p.current) p s

/-- The parser that `parse` and `complete` start from (parse.go, lines 234 and
240): the fields not named there have Go's zero values. -/
def parser.start (args : List String) (completing : Bool) : parser :=
  { args := args, current := 0, parseOK := true, completing := completing,
    prependCompletion := "", completions := [], isPartial := false }

/-- `parse` (parse.go, lines 233-237), with the observer's final state. -/
def parse {σ : Type} (args : List String) (observer : parseObserver σ) (s : σ) : Bool × σ :=
  let r := parseMain (parser.start args false) observer s
  (r.1.parseOK && decide (observer.NumErrors r.2 = 0), r.2)

/-- `complete` (parse.go, lines 239-243), with the observer's final state. -/
def complete {σ : Type} (args : List String) (observer : parseObserver σ) (s : σ) :
    (List String × Bool) × σ :=
  let r := parseMain (parser.start args true) observer s
  ((r.1.completions, r.1.isPartial), r.2)

/-! ## Recording the calls made on an observer -/

/-- One call of the parser on its observer: the notifications and errors that
`mockParseObserver` of parse_test.go writes to its buffer, and the lookups and
completion callbacks it does not write. -/
inductive Event where
  | Error (message : String)
  | longFlagInfo (name : String)
  | shortFlagInfo (name : Char)
  | notifyLongFlag (name : String)
  | notifyLongFlagValue (name value : String)
  | notifyShortFlag (name : Char)
  | notifyShortFlagValue (name : Char) (value : String)
  | notifyArg (value : String)
  | completeLongFlag (pfx : String)
  | completeLongFlagValue (name value : String)
  | completeShortFlag
  | completeShortFlagValue (name : Char) (value : String)
  | completeArg (pfx : String)
  | acceptingArgs
  deriving DecidableEq, Repr

/-- The observer `observer` with a log: every method first appends its call to
the log and then behaves as `observer` does. -/
def recording {σ : Type} (observer : parseObserver σ) : parseObserver (σ × List Event) where
  Error m st := (observer.Error m st.1, st.2 ++ [Event.Error m])
  NumErrors st := observer.NumErrors st.1
  longFlagInfo n st :=
    ((observer.longFlagInfo n st.1).1,
      ((observer.longFlagInfo n st.1).2, st.2 ++ [Event.longFlagInfo n]))
  shortFlagInfo n st :=
    ((observer.shortFlagInfo n st.1).1,
      ((observer.shortFlagInfo n st.1).2, st.2 ++ [Event.shortFlagInfo n]))
  notifyLongFlag n st :=
    ((observer.notifyLongFlag n st.1).1,
      ((observer.notifyLongFlag n st.1).2, st.2 ++ [Event.notifyLongFlag n]))
  notifyLongFlagValue n v st :=
    ((observer.notifyLongFlagValue n v st.1).1,
      ((observer.notifyLongFlagValue n v st.1).2, st.2 ++ [Event.notifyLongFlagValue n v]))
  notifyShortFlag n st :=
    ((observer.notifyShortFlag n st.1).1,
      ((observer.notifyShortFlag n st.1).2, st.2 ++ [Event.notifyShortFlag n]))
  notifyShortFlagValue n v st :=
    ((observer.notifyShortFlagValue n v st.1).1,
      ((observer.notifyShortFlagValue n v st.1).2, st.2 ++ [Event.notifyShortFlagValue n v]))
  notifyArg v st :=
    ((observer.notifyArg v st.1).1,
      ((observer.notifyArg v st.1).2, st.2 ++ [Event.notifyArg v]))
  completeLongFlag x st :=
    ((observer.completeLongFlag x st.1).1,
      ((observer.completeLongFlag x st.1).2, st.2 ++ [Event.completeLongFlag x]))
  completeLongFlagValue n v st :=
    ((observer.completeLongFlagValue n v st.1).1,
      ((observer.completeLongFlagValue n v st.1).2, st.2 ++ [Event.completeLongFlagValue n v]))
  completeShortFlag st :=
    ((observer.completeShortFlag st.1).1,
      ((observer.completeShortFlag st.1).2, st.2 ++ [Event.completeShortFlag]))
  completeShortFlagValue n v st :=
    ((observer.completeShortFlagValue n v st.1).1,
      ((observer.completeShortFlagValue n v st.1).2,
        st.2 ++ [Event.completeShortFlagValue n v]))
  completeArg x st :=
    ((observer.completeArg x st.1).1,
      ((observer.completeArg x st.1).2, st.2 ++ [Event.completeArg x]))
  acceptingArgs st :=
    ((observer.acceptingArgs st.1).1,
      ((observer.acceptingArgs st.1).2, st.2 ++ [Event.acceptingArgs]))

/-! ## parse_test.go: the mock observer -/

/-- The struct `mockFlag` (parse_test.go, lines 10-14). -/
structure mockFlag where
  long : String
  short : String
  hasArg : Bool
  deriving DecidableEq, Repr

/-- The struct `mockParseObserver` (parse_test.go, lines 16-24).  The maps
`short` and `long` are association lists, newest entry first. -/
structure mockParseObserver where
  all : List mockFlag
  short : List (String × mockFlag)
  long : List (String × mockFlag)
  b : String
  failAfter : Int
  banArgs : Bool
  numErrors : Nat
  deriving DecidableEq, Repr

namespace mockParseObserver

/-- `flag` (parse_test.go, lines 26-35). -/
def flag (o : mockParseObserver) (long short : String) (hasArg : Bool) : mockParseObserver :=
  let f : mockFlag := { long := long, short := short, hasArg := hasArg }
  let o1 := { o with all := o.all ++ [f] }
  let o2 := if long ≠ "" then { o1 with long := (long, f) :: o1.long } else o1
  if short ≠ "" then { o2 with short := (short, f) :: o2.short } else o2

/-- `longFlagInfo` (parse_test.go, lines 37-44). -/
def longFlagInfo (name : String) (o : mockParseObserver) : (Bool × Bool) × mockParseObserver :=
  match o.long.lookup name with
  | some f => ((true, f.hasArg), o)
  | none => ((false, false), o)

/-- `shortFlagInfo` (parse_test.go, lines 46-53). -/
def shortFlagInfo (name : Char) (o : mockParseObserver) : (Bool × Bool) × mockParseObserver :=
  match o.short.lookup (String.singleton name) with
  | some f => ((true, f.hasArg), o)
  | none => ((false, false), o)

/-- `spaceIfNeeded` (parse_test.go, lines 55-59). -/
def spaceIfNeeded (o : mockParseObserver) : mockParseObserver :=
  if o.b.utf8ByteSize > 0 then { o with b := o.b ++ " " } else o

/-- `injectFault` (parse_test.go, lines 61-68). -/
def injectFault (o : mockParseObserver) : Bool × mockParseObserver :=
  if o.failAfter = 0 then (false, o)
  else if o.failAfter > 0 then (true, { o with failAfter := o.failAfter - 1 })
  else (true, o)

/-- Appends `text` to the buffer after `spaceIfNeeded`. -/
def write (o : mockParseObserver) (text : String) : mockParseObserver :=
  { o.spaceIfNeeded with b := o.spaceIfNeeded.b ++ text }

/-- `notifyLongFlag` (parse_test.go, lines 70-76). -/
def notifyLongFlag (name : String) (o : mockParseObserver) : Bool × mockParseObserver :=
  (o.write ("(long " ++ name ++ ")")).injectFault

/-- `notifyLongFlagValue` (parse_test.go, lines 78-86). -/
def notifyLongFlagValue (name value : String) (o : mockParseObserver) :
    Bool × mockParseObserver :=
  (o.write ("(long " ++ name ++ "=" ++ value ++ ")")).injectFault

/-- `notifyShortFlag` (parse_test.go, lines 88-94). -/
def notifyShortFlag (name : Char) (o : mockParseObserver) : Bool × mockParseObserver :=
  (o.write ("(short " ++ String.singleton name ++ ")")).injectFault

/-- `notifyShortFlagValue` (parse_test.go, lines 96-104). -/
def notifyShortFlagValue (name : Char) (value : String) (o : mockParseObserver) :
    Bool × mockParseObserver :=
  (o.write ("(short " ++ String.singleton name ++ "=" ++ value ++ ")")).injectFault

/-- `Error` (parse_test.go, lines 106-112). -/
def Error (message : String) (o : mockParseObserver) : mockParseObserver :=
  { o.write ("(error " ++ message ++ ")") with
    numErrors := (o.write ("(error " ++ message ++ ")")).numErrors + 1 }

/-- `NumErrors` (parse_test.go, lines 114-116). -/
def NumErrors (o : mockParseObserver) : Nat := o.numErrors

/-- `notifyArg` (parse_test.go, lines 118-124). -/
def notifyArg (value : String) (o : mockParseObserver) : Bool × mockParseObserver :=
  let r := (o.write ("(arg " ++ value ++ ")")).injectFault
  (r.1 && !r.2.banArgs, r.2)

/-- `completeLongFlag` (parse_test.go, lines 126-132). -/
def completeLongFlag (pfx : String) (o : mockParseObserver) :
    List Completion × mockParseObserver :=
  ((o.all.filter (fun f => f.long ≠ "" ∧ pfx.data <+: f.long.data)).map
      (fun f => Completion.Final f.long), o)

/-- `completeShortFlag` (parse_test.go, lines 134-144). -/
def completeShortFlag (o : mockParseObserver) : List Completion × mockParseObserver :=
  ((o.all.filter (fun f => f.short ≠ "")).map
      (fun f => if f.hasArg then Completion.Final f.short else Completion.Partial f.short), o)

/-- `acceptingArgs` (parse_test.go, lines 155-157). -/
def acceptingArgs (o : mockParseObserver) : Bool × mockParseObserver := (!o.banArgs, o)

/-- The mock as a `parseObserver`; its three value and argument completion
callbacks are empty (parse_test.go, lines 146-153). -/
def observer : parseObserver mockParseObserver where
  Error := Error
  NumErrors := NumErrors
  longFlagInfo := longFlagInfo
  shortFlagInfo := shortFlagInfo
  notifyLongFlag := notifyLongFlag
  notifyLongFlagValue := notifyLongFlagValue
  notifyShortFlag := notifyShortFlag
  notifyShortFlagValue := notifyShortFlagValue
  notifyArg := notifyArg
  completeLongFlag := completeLongFlag
  completeLongFlagValue := fun _ _ o => ([], o)
  completeShortFlag := completeShortFlag
  completeShortFlagValue := fun _ _ o => ([], o)
  completeArg := fun _ o => ([], o)
  acceptingArgs := acceptingArgs

end mockParseObserver

/-- `makeObserver` (parse_test.go, lines 159-172). -/
def makeObserver (failAfter : Int) : mockParseObserver :=
  let o : mockParseObserver :=
    { all := [], short := [], long := [], b := "", failAfter := failAfter,
      banArgs := false, numErrors := 0 }
  (((((o.flag "" "a" false).flag "" "b" false).flag "" "c" true).flag "" "d" true).flag
    "foo" "" false).flag "bar" "" true

/-! ## value_handler.go, value_int32.go, value_string.go -/

/-- The interface `Logger` (cmdline.go, lines 10-13) over the logger's state. -/
structure Logger (L : Type) where
  Error : String → L → L
  NumErrors : L → Nat

/-- A variable of the program outside the library that a handler is bound to
by pointer: reading it from, and storing into, the program state `ω`. -/
structure Ref (α ω : Type) where
  get : ω → α
  set : α → ω → ω

/-- The interface `ValueHandler` (value_handler.go, lines 11-15) as seen by
its caller: `Notify` yields the messages it passed to `log.Error`, in order,
its result, and the program state after its callback or store; `Complete`
yields the calls made on the completion observer.  No handler of the
repository calls `log.NumErrors`. -/
structure ValueHandler (ω : Type) where
  Notify : String → ω → List String × Bool × ω
  Complete : String → ω → List Completion
  TypeName : String

/-- The interface `Int32Parser` (value_int32.go, lines 13-17); the error of
`Parse` is given by its message. -/
structure Int32Parser (ω : Type) where
  Parse : String → ω → Except String Int
  Complete : String → ω → List Completion
  TypeName : String

/-- The struct `Int32Handler` (value_int32.go, lines 48-53). -/
structure Int32Handler (ω : Type) where
  Parser : Int32Parser ω
  Callback : Option (Int → ω → ω)
  Ptr : Option (Ref Int ω)
  AffectsParsing : Bool

/-- `Int32Handler.Notify` (value_int32.go, lines 55-70) on a logger in state
`l` and a program in state `w`. -/
def Int32Handler.Notify {ω L : Type} (h : Int32Handler ω) (text : String) (log : Logger L)
    (l : L) (w : ω) : Bool × L × ω :=
  match h.Parser.Parse text w with
  | Except.error err => (!h.AffectsParsing, log.Error err l, w)
  | Except.ok value =>
    match h.Callback with
    | some callback => (true, l, callback value w)
    | none =>
      match h.Ptr with
      | some ptr => (true, l, ptr.set value w)
      | none => (!h.AffectsParsing, log.Error "missing consumer" l, w)

/-- The interface `StringParser` (value_string.go, lines 16-20). -/
structure StringParser (ω : Type) where
  Parse : String → ω → Except String String
  Complete : String → ω → List Completion
  TypeName : String

/-- The struct `StringHandler` (value_string.go, lines 47-52). -/
structure StringHandler (ω : Type) where
  Parser : StringParser ω
  Callback : Option (String → ω → ω)
  Ptr : Option (Ref String ω)
  AffectsParsing : Bool

/-- `StringHandler.Notify` (value_string.go, lines 54-69). -/
def StringHandler.Notify {ω L : Type} (h : StringHandler ω) (text : String) (log : Logger L)
    (l : L) (w : ω) : Bool × L × ω :=
  match h.Parser.Parse text w with
  | Except.error err => (!h.AffectsParsing, log.Error err l, w)
  | Except.ok value =>
    match h.Callback with
    | some callback => (true, l, callback value w)
    | none =>
      match h.Ptr with
      | some ptr => (true, l, ptr.set value w)
      | none => (!h.AffectsParsing, log.Error "missing consumer" l, w)

/-- The logger that keeps the messages it is given, oldest first. -/
def listLogger : Logger (List String) where
  Error m l := l ++ [m]
  NumErrors l := l.length

/-- An `Int32Handler` as a `ValueHandler` (value_int32.go, lines 55-78). -/
def Int32Handler.handler {ω : Type} (h : Int32Handler ω) : ValueHandler ω where
  Notify text w :=
    ((h.Notify text listLogger [] w).2.1, (h.Notify text listLogger [] w).1,
      (h.Notify text listLogger [] w).2.2)
  Complete := h.Parser.Complete
  TypeName := h.Parser.TypeName

/-- A `StringHandler` as a `ValueHandler` (value_string.go, lines 54-77). -/
def StringHandler.handler {ω : Type} (h : StringHandler ω) : ValueHandler ω where
  Notify text w :=
    ((h.Notify text listLogger [] w).2.1, (h.Notify text listLogger [] w).1,
      (h.Notify text listLogger [] w).2.2)
  Complete := h.Parser.Complete
  TypeName := h.Parser.TypeName

/-! ## cmdline.go -/

/-- The struct `Flag` (cmdline.go, lines 27-36); a `nil` handler or callback
is `none`, the rune 0 stands for "no short name". -/
structure Flag (ω : Type) where
  Long : String
  Short : Char
  Value : Option (ValueHandler ω)
  Call : Option (ω → ω)
  Default : String
  Min : Int
  Max : Int
  useCount : Int

/-- `Flag.Name` (cmdline.go, lines 38-50); `none` is the panic of a flag
without a name. -/
def Flag.Name {ω : Type} (f : Flag ω) : Option String :=
  if f.Long ≠ "" then
    if f.Short ≠ Char.ofNat 0 then some ("-" ++ String.singleton f.Short ++ "/--" ++ f.Long)
    else some ("--" ++ f.Long)
  else if f.Short ≠ Char.ofNat 0 then some ("-" ++ String.singleton f.Short)
  else none

/-- `Flag.Required` (cmdline.go, lines 52-57). -/
def Flag.Required {ω : Type} (f : Flag ω) : Flag ω :=
  if f.Min < 1 then { f with Min := 1 } else f

/-- `Flag.CanAcceptMore` (cmdline.go, lines 59-61). -/
def Flag.CanAcceptMore {ω : Type} (f : Flag ω) : Bool :=
  decide (f.useCount < f.Max)

/-- The struct `Argument` (cmdline.go, lines 63-66). -/
structure Argument (ω : Type) where
  Name : String
  Value : Option (ValueHandler ω)

/-- The struct `App` (cmdline.go, lines 73-83).  The `*Flag` pointers held by
the two maps are indices into `allFlags`, so that a use count is shared as it
is in Go.  The last two fields are not fields of the Go struct: `world` is
the state of the program that callbacks and bound pointers act on and
`stdout` the lines written to standard output. -/
structure App (ω : Type) where
  name : String
  allFlags : List (Flag ω)
  longToFlag : List (String × Nat)
  shortToFlag : List (Char × Nat)
  requiredArguments : List (Argument ω)
  excessArguments : Option (Argument ω)
  currentArgument : Nat
  completing : Bool
  numErrors : Nat
  world : ω
  stdout : List String

namespace App

variable {ω : Type}

/-- `MakeApp` (cmdline.go, lines 382-390), in a program in state `w`. -/
def MakeApp (name : String) (w : ω) : App ω :=
  { name := name, allFlags := [], longToFlag := [], shortToFlag := [],
    requiredArguments := [], excessArguments := none, currentArgument := 0,
    completing := false, numErrors := 0, world := w, stdout := [] }

/-- `indexFlag` (cmdline.go, lines 85-101); `none` is a Go panic. -/
def indexFlag (app : App ω) (flag : Flag ω) : Option (App ω) :=
  let i := app.allFlags.length
  let app1 := { app with allFlags := app.allFlags ++ [flag] }
  let r1 : Option (App ω) :=
    if flag.Long ≠ "" then
      if (app1.longToFlag.lookup flag.Long).isSome then none
      else some { app1 with longToFlag := (flag.Long, i) :: app1.longToFlag }
    else some app1
  match r1 with
  | none => none
  | some app2 =>
    if flag.Short ≠ Char.ofNat 0 then
      if (app2.shortToFlag.lookup flag.Short).isSome then none
      else some { app2 with shortToFlag := (flag.Short, i) :: app2.shortToFlag }
    else some app2

/-- `Flags` (cmdline.go, lines 103-116); `none` is a Go panic. -/
def Flags (app : App ω) : List (Flag ω) → Option (App ω)
  | [] => some app
  | flag :: flags =>
    if flag.Long = "" ∧ flag.Short = Char.ofNat 0 then none
    else
      match app.indexFlag flag with
      | none => none
      | some app1 =>
        if flag.Value.isNone ∧ flag.Call.isNone then none
        else if flag.Value.isNone ∧ flag.Default ≠ "" then none
        else Flags app1 flags

/-- `RequiredArgs` (cmdline.go, lines 118-122). -/
def RequiredArgs (app : App ω) (args : List (Argument ω)) : App ω :=
  { app with requiredArguments := app.requiredArguments ++ args }

/-- `ExcessArguments` (cmdline.go, lines 124-126). -/
def ExcessArguments (app : App ω) (arg : Argument ω) : App ω :=
  { app with excessArguments := some arg }

/-- `Error` (cmdline.go, lines 249-254); `fmt.Println("ERROR", message)`
writes the two operands with a blank between them. -/
def Error (message : String) (app : App ω) : App ω :=
  { app with
    stdout := if !app.completing then app.stdout ++ ["ERROR " ++ message] else app.stdout
    numErrors := app.numErrors + 1 }

/-- `NumErrors` (cmdline.go, lines 256-258). -/
def NumErrors (app : App ω) : Nat := app.numErrors

/-- The call `h.Notify(text, app)` of a value handler with the App as its
logger. -/
def notifyHandler (h : ValueHandler ω) (text : String) (app : App ω) : Bool × App ω :=
  ((h.Notify text app.world).2.1,
    (h.Notify text app.world).1.foldl (fun a m => a.Error m)
      { app with world := (h.Notify text app.world).2.2 })

/-- The flag a map entry points to; `none` when the name is not in the map
(Go yields a `nil` pointer). -/
def flagAt (app : App ω) (entry : Option Nat) : Option (Nat × Flag ω) :=
  match entry with
  | none => none
  | some i =>
    match app.allFlags.get? i with
    | none => none
    | some f => some (i, f)

/-- `longFlagInfo` (cmdline.go, lines 193-200). -/
def longFlagInfo (name : String) (app : App ω) : Bool × Bool :=
  match app.flagAt (app.longToFlag.lookup name) with
  | some (_, flag) => (true, flag.Value.isSome)
  | none => (false, false)

/-- `shortFlagInfo` (cmdline.go, lines 202-209). -/
def shortFlagInfo (name : Char) (app : App ω) : Bool × Bool :=
  match app.flagAt (app.shortToFlag.lookup name) with
  | some (_, flag) => (true, flag.Value.isSome)
  | none => (false, false)

/-- The statements `f.useCount++; f.Call(); return true` shared by
`notifyLongFlag` and `notifyShortFlag`; `none` is the panic of a `nil`
dereference. -/
def useAndCall (app : App ω) (entry : Option Nat) : Option (Bool × App ω) :=
  match app.flagAt entry with
  | none => none
  | some (i, f) =>
    match f.Call with
    | none => none
    | some call =>
      some (true,
        { app with
          allFlags := app.allFlags.set i { f with useCount := f.useCount + 1 }
          world := call app.world })

/-- The statements `f.useCount++; return f.Value.Notify(value, app)` shared by
`notifyLongFlagValue` and `notifyShortFlagValue`. -/
def useAndNotify (app : App ω) (entry : Option Nat) (value : String) :
    Option (Bool × App ω) :=
  match app.flagAt entry with
  | none => none
  | some (i, f) =>
    match f.Value with
    | none => none
    | some h =>
      some (notifyHandler h value
        { app with allFlags := app.allFlags.set i { f with useCount := f.useCount + 1 } })

/-- `notifyLongFlag` (cmdline.go, lines 211-216). -/
def notifyLongFlag (name : String) (app : App ω) : Option (Bool × App ω) :=
  app.useAndCall (app.longToFlag.lookup name)

/-- `notifyLongFlagValue` (cmdline.go, lines 218-222). -/
def notifyLongFlagValue (name value : String) (app : App ω) : Option (Bool × App ω) :=
  app.useAndNotify (app.longToFlag.lookup name) value

/-- `notifyShortFlag` (cmdline.go, lines 224-229). -/
def notifyShortFlag (name : Char) (app : App ω) : Option (Bool × App ω) :=
  app.useAndCall (app.shortToFlag.lookup name)

/-- `notifyShortFlagValue` (cmdline.go, lines 231-235). -/
def notifyShortFlagValue (name : Char) (value : String) (app : App ω) :
    Option (Bool × App ω) :=
  app.useAndNotify (app.shortToFlag.lookup name) value

/-- `notifyArg` (cmdline.go, lines 237-247); `none` is the panic of calling
`Notify` on a `nil` handler. -/
def notifyArg (value : String) (app : App ω) : Option (Bool × App ω) :=
  if app.currentArgument < app.requiredArguments.length then
    match app.requiredArguments.get? app.currentArgument with
    | none => none
    | some a =>
      match a.Value with
      | none => none
      | some h =>
        some (notifyHandler h value { app with currentArgument := app.currentArgument + 1 })
  else
    match app.excessArguments with
    | some a =>
      match a.Value with
      | none => none
      | some h => some (notifyHandler h value app)
    | none => some (true, app.Error ("Extra argument: " ++ value))

/-- `completeLongFlag` (cmdline.go, lines 260-269). -/
def completeLongFlag (pfx : String) (app : App ω) : List Completion :=
  (app.allFlags.filter
      (fun f => f.CanAcceptMore && decide (f.Long ≠ "") && decide (pfx.data <+: f.Long.data))).map
    (fun f => Completion.Final f.Long)

/-- `completeShortFlag` (cmdline.go, lines 271-284). -/
def completeShortFlag (app : App ω) : List Completion :=
  (app.allFlags.filter (fun f => f.CanAcceptMore && decide (f.Short ≠ Char.ofNat 0))).map
    (fun f =>
      if f.Value.isSome then Completion.Final (String.singleton f.Short)
      else Completion.Partial (String.singleton f.Short))

/-- The call `.Value.Complete(value, c)` on the flag of a map entry, shared by
`completeLongFlagValue` and `completeShortFlagValue`. -/
def completeValue (app : App ω) (entry : Option Nat) (value : String) :
    Option (List Completion) :=
  match app.flagAt entry with
  | none => none
  | some (_, f) =>
    match f.Value with
    | none => none
    | some h => some (h.Complete value app.world)

/-- `completeLongFlagValue` (cmdline.go, lines 286-288). -/
def completeLongFlagValue (name value : String) (app : App ω) : Option (List Completion) :=
  app.completeValue (app.longToFlag.lookup name) value

/-- `completeShortFlagValue` (cmdline.go, lines 290-292). -/
def completeShortFlagValue (name : Char) (value : String) (app : App ω) :
    Option (List Completion) :=
  app.completeValue (app.shortToFlag.lookup name) value

/-- `completeArg` (cmdline.go, lines 294-302); `none` is the panic of the
dereference of a `nil` argument or handler. -/
def completeArg (pfx : String) (app : App ω) : Option (List Completion) :=
  let a : Option (Argument ω) :=
    if app.currentArgument < app.requiredArguments.length then
      app.requiredArguments.get? app.currentArgument
    else app.excessArguments
  match a with
  | none => none
  | some a =>
    match a.Value with
    | none => none
    | some h => some (h.Complete pfx app.world)

/-- `acceptingArgs` (cmdline.go, lines 304-306). -/
def acceptingArgs (app : App ω) : Bool :=
  decide (app.currentArgument < app.requiredArguments.length) || app.excessArguments.isSome

/-- The first loop of `postParse` (cmdline.go, lines 309-316) for the flag
`f`: the default value is notified when the flag was not used, and a flag used
less than `Min` times is reported; `none` is a panic (a default without a
handler, or `Name` on a flag without a name). -/
def postParseFlag (app : App ω) (f : Flag ω) : Option (App ω) :=
  let r1 : Option (App ω) :=
    if f.Default ≠ "" ∧ f.useCount = 0 then
      match f.Value with
      | none => none
      | some h => some (notifyHandler h f.Default app).2
    else some app
  match r1 with
  | none => none
  | some app1 =>
    if f.Min > f.useCount then
      match f.Name with
      | none => none
      | some n => some (app1.Error (n ++ " is required"))
    else some app1

/-- `postParse` (cmdline.go, lines 308-321); `quote` is what `fmt.Sprintf("%#v", s)` writes for a string `s`, a function of
Go's library that is not part of the repository. -/
def postParse (quote : String → String) (app : App ω) : Option (Bool × App ω) :=
  match app.allFlags.foldlM postParseFlag app with
  | none => none
  | some app1 =>
    let app2 := (app1.requiredArguments.drop app1.currentArgument).foldl
      (fun a arg => a.Error ("argument " ++ quote arg.Name ++ " is required")) app1
    some (decide (app2.NumErrors = 0), app2)

/-- The messages the post-pass check is expected to record, in order: one for
each registered flag used less than `Min` times, then one for each required
slot that was not filled. -/
def postParseMessages (quote : String → String) (app : App ω) : List String :=
  (app.allFlags.filter (fun f => decide (f.Min > f.useCount))).map
      (fun f => f.Name.getD "" ++ " is required")
    ++ (app.requiredArguments.drop app.currentArgument).map
      (fun a => "argument " ++ quote a.Name ++ " is required")

/-- Runs a method of the App that may panic: the state `none` is a program
that has panicked, which stays so; the result given then is never used by a
program that is still running. -/
def step {α : Type} (dflt : α) (m : App ω → Option (α × App ω)) :
    Option (App ω) → α × Option (App ω)
  | none => (dflt, none)
  | some app =>
    match m app with
    | none => (dflt, none)
    | some r => (r.1, some r.2)

/-- The App as the `parseObserver` that `Run` hands to `parse` and `complete`
(cmdline.go, lines 356 and 371). -/
def observer : parseObserver (Option (App ω)) where
  Error m := Option.map (Error m)
  NumErrors st := match st with
    | some app => app.NumErrors
    | none => 0
  longFlagInfo n := step (false, false) (fun app => some (app.longFlagInfo n, app))
  shortFlagInfo n := step (false, false) (fun app => some (app.shortFlagInfo n, app))
  notifyLongFlag n := step false (notifyLongFlag n)
  notifyLongFlagValue n v := step false (notifyLongFlagValue n v)
  notifyShortFlag n := step false (notifyShortFlag n)
  notifyShortFlagValue n v := step false (notifyShortFlagValue n v)
  notifyArg v := step false (notifyArg v)
  completeLongFlag x := step [] (fun app => some (app.completeLongFlag x, app))
  completeLongFlagValue n v :=
    step [] (fun app => (app.completeLongFlagValue n v).map (fun c => (c, app)))
  completeShortFlag := step [] (fun app => some (app.completeShortFlag, app))
  completeShortFlagValue n v :=
    step [] (fun app => (app.completeShortFlagValue n v).map (fun c => (c, app)))
  completeArg x := step [] (fun app => (app.completeArg x).map (fun c => (c, app)))
  acceptingArgs := step false (fun app => some (app.acceptingArgs, app))

end App

/-! ## Vocabulary of the properties -/

namespace parser

/-- The unread tokens `args[current:]`. -/
def rest (p : parser) : List String := p.args.drop p.current

/-- Two parsers that the rest of a scan cannot tell apart: the same unread
tokens, the same sticky flag and the same mode. -/
def sameScan (p q : parser) : Prop :=
  p.rest = q.rest ∧ p.parseOK = q.parseOK ∧ p.completing = q.completing

/-- The parser `q` is `p` further along the same token list. -/
def le (p q : parser) : Prop :=
  q.args = p.args ∧ p.current ≤ q.current ∧ q.completing = p.completing

end parser

/-- Two results that agree on what the rest of a scan can see. -/
def sameResult {σ : Type} (r1 r2 : parser × σ) : Prop :=
  parser.sameScan r1.1 r2.1 ∧ r1.2 = r2.2

/-- A relation between the states of an observer that holds across every one of
its methods. -/
structure parseObserver.Respects {σ : Type} (obs : parseObserver σ) (R : σ → σ → Prop) :
    Prop where
  refl : ∀ s, R s s
  trans : ∀ a b c, R a b → R b c → R a c
  Error : ∀ m s, R s (obs.Error m s)
  longFlagInfo : ∀ n s, R s (obs.longFlagInfo n s).2
  shortFlagInfo : ∀ n s, R s (obs.shortFlagInfo n s).2
  notifyLongFlag : ∀ n s, R s (obs.notifyLongFlag n s).2
  notifyLongFlagValue : ∀ n v s, R s (obs.notifyLongFlagValue n v s).2
  notifyShortFlag : ∀ n s, R s (obs.notifyShortFlag n s).2
  notifyShortFlagValue : ∀ n v s, R s (obs.notifyShortFlagValue n v s).2
  notifyArg : ∀ v s, R s (obs.notifyArg v s).2
  completeLongFlag : ∀ x s, R s (obs.completeLongFlag x s).2
  completeLongFlagValue : ∀ n v s, R s (obs.completeLongFlagValue n v s).2
  completeShortFlag : ∀ s, R s (obs.completeShortFlag s).2
  completeShortFlagValue : ∀ n v s, R s (obs.completeShortFlagValue n v s).2
  completeArg : ∀ x s, R s (obs.completeArg x s).2
  acceptingArgs : ∀ s, R s (obs.acceptingArgs s).2

/-- The state of the observer after the call `e`. -/
def Event.run {σ : Type} (obs : parseObserver σ) : Event → σ → σ
  | Event.Error m, s => obs.Error m s
  | Event.longFlagInfo n, s => (obs.longFlagInfo n s).2
  | Event.shortFlagInfo n, s => (obs.shortFlagInfo n s).2
  | Event.notifyLongFlag n, s => (obs.notifyLongFlag n s).2
  | Event.notifyLongFlagValue n v, s => (obs.notifyLongFlagValue n v s).2
  | Event.notifyShortFlag n, s => (obs.notifyShortFlag n s).2
  | Event.notifyShortFlagValue n v, s => (obs.notifyShortFlagValue n v s).2
  | Event.notifyArg v, s => (obs.notifyArg v s).2
  | Event.completeLongFlag x, s => (obs.completeLongFlag x s).2
  | Event.completeLongFlagValue n v, s => (obs.completeLongFlagValue n v s).2
  | Event.completeShortFlag, s => (obs.completeShortFlag s).2
  | Event.completeShortFlagValue n v, s => (obs.completeShortFlagValue n v s).2
  | Event.completeArg x, s => (obs.completeArg x s).2
  | Event.acceptingArgs, s => (obs.acceptingArgs s).2

/-- The state of the observer after the calls `es`, made in order. -/
def replay {σ : Type} (obs : parseObserver σ) (es : List Event) (s : σ) : σ :=
  es.foldl (fun st e => e.run obs st) s

/-- A token of a command line that holds flags without a value only: `--name`,
or `-` followed by the characters of a cluster. -/
inductive flagToken where
  | long (name : String)
  | cluster (names : List Char)
  deriving DecidableEq, Repr

/-- The text of the token. -/
def flagToken.text : flagToken → String
  | flagToken.long name => "--" ++ name
  | flagToken.cluster names => "-" ++ String.mk names

/-- The calls the token is to cause: for each flag, in the order written, its
lookup and then its notification. -/
def flagToken.calls : flagToken → List Event
  | flagToken.long name => [Event.longFlagInfo name, Event.notifyLongFlag name]
  | flagToken.cluster names =>
    names.flatMap (fun c => [Event.shortFlagInfo c, Event.notifyShortFlag c])

/-- The token has the shape the grammar gives to its kind and names flags of
the sets `long` and `short`: a long name is not empty and holds no `=`, a
cluster is not empty and does not begin with a second `-`. -/
def flagToken.shaped (long : String → Prop) (short : Char → Prop) : flagToken → Prop
  | flagToken.long name => name ≠ "" ∧ '=' ∉ name.data ∧ long name
  | flagToken.cluster names => names ≠ [] ∧ names.head? ≠ some '-' ∧ ∀ c ∈ names, short c

/-- In the states `Inv`, which these calls do not leave, the observer has
counted no error, knows the names of `long` and `short` as flags that take no
value, and answers `true` to their notifications. -/
structure parseObserver.acceptsFlags {σ : Type} (obs : parseObserver σ) (Inv : σ → Prop)
    (long : String → Prop) (short : Char → Prop) : Prop where
  noErrors : ∀ s, Inv s → obs.NumErrors s = 0
  longInfo : ∀ n s, long n → Inv s →
    (obs.longFlagInfo n s).1 = (true, false) ∧ Inv (obs.longFlagInfo n s).2
  longNotify : ∀ n s, long n → Inv s →
    (obs.notifyLongFlag n s).1 = true ∧ Inv (obs.notifyLongFlag n s).2
  shortInfo : ∀ c s, short c → Inv s →
    (obs.shortFlagInfo c s).1 = (true, false) ∧ Inv (obs.shortFlagInfo c s).2
  shortNotify : ∀ c s, short c → Inv s →
    (obs.notifyShortFlag c s).1 = true ∧ Inv (obs.notifyShortFlag c s).2

/-- The states of the mock in which no fault is injected and no error has
been counted, with the flags of `makeObserver`; the mock of the tests made by
`makeObserver(-1)` is in such a state and stays there until an error. -/
def mockParseObserver.ready (o : mockParseObserver) : Prop :=
  o.failAfter < 0 ∧ o.numErrors = 0 ∧ o.banArgs = false ∧
    o.short = (makeObserver (-1)).short ∧ o.long = (makeObserver (-1)).long

/-- In the states `Inv` the observer knows the characters of `P` as short
flags without a value, whose lookups and notifications do not leave `Inv`, and
the character `x` as a short flag that takes a value. -/
structure parseObserver.knowsCluster {σ : Type} (obs : parseObserver σ) (Inv : σ → Prop)
    (P : List Char) (x : Char) : Prop where
  flagInfo : ∀ c ∈ P, ∀ s, Inv s →
    (obs.shortFlagInfo c s).1 = (true, false) ∧ Inv (obs.shortFlagInfo c s).2
  flagNotify : ∀ c ∈ P, ∀ s, Inv s → Inv (obs.notifyShortFlag c s).2
  valueInfo : ∀ s, Inv s → (obs.shortFlagInfo x s).1 = (true, true)

/-- Two results from which a scan goes on in the same way: the same observer,
the same sticky flag and mode and, unless the scan has failed, the same unread
tokens. -/
def sameOutcome {σ : Type} (r1 r2 : parser × σ) : Prop :=
  r1.2 = r2.2 ∧ r1.1.parseOK = r2.1.parseOK ∧ r1.1.completing = r2.1.completing ∧
    (r1.1.parseOK = true → r1.1.rest = r2.1.rest)

/-- In the states `Inv` the observer knows the characters of `P` as short
flags without a value and answers `true` to their notifications, and neither
call leaves `Inv`. -/
structure parseObserver.firesCluster {σ : Type} (obs : parseObserver σ) (Inv : σ → Prop)
    (P : List Char) : Prop where
  info : ∀ c ∈ P, ∀ s, Inv s →
    (obs.shortFlagInfo c s).1 = (true, false) ∧ Inv (obs.shortFlagInfo c s).2
  notify : ∀ c ∈ P, ∀ s, Inv s →
    (obs.notifyShortFlag c s).1 = true ∧ Inv (obs.notifyShortFlag c s).2

/-- The scan of `toks` in parse mode after `k` iterations of the loop of
`parseMain` (fewer when the loop has stopped before), on the recording
observer started in state `s`: the parser and the observer with its log. -/
def scanned {σ : Type} (obs : parseObserver σ) (toks : List String) (s : σ) (k : Nat) :
    parser × σ × List Event :=
  parseMainLoop (recording obs) k (parser.start toks false) (s, [])

/-- The observer `observer` with a log that keeps, next to each call, the
answer of the call when it is a notification, and `true` for every other
call. -/
def watching {σ : Type} (observer : parseObserver σ) :
    parseObserver (σ × List (Event × Bool)) where
  Error m st := (observer.Error m st.1, st.2 ++ [(Event.Error m, true)])
  NumErrors st := observer.NumErrors st.1
  longFlagInfo n st :=
    ((observer.longFlagInfo n st.1).1,
      ((observer.longFlagInfo n st.1).2, st.2 ++ [(Event.longFlagInfo n, true)]))
  shortFlagInfo n st :=
    ((observer.shortFlagInfo n st.1).1,
      ((observer.shortFlagInfo n st.1).2, st.2 ++ [(Event.shortFlagInfo n, true)]))
  notifyLongFlag n st :=
    ((observer.notifyLongFlag n st.1).1,
      ((observer.notifyLongFlag n st.1).2,
        st.2 ++ [(Event.notifyLongFlag n, (observer.notifyLongFlag n st.1).1)]))
  notifyLongFlagValue n v st :=
    ((observer.notifyLongFlagValue n v st.1).1,
      ((observer.notifyLongFlagValue n v st.1).2,
        st.2 ++ [(Event.notifyLongFlagValue n v, (observer.notifyLongFlagValue n v st.1).1)]))
  notifyShortFlag n st :=
    ((observer.notifyShortFlag n st.1).1,
      ((observer.notifyShortFlag n st.1).2,
        st.2 ++ [(Event.notifyShortFlag n, (observer.notifyShortFlag n st.1).1)]))
  notifyShortFlagValue n v st :=
    ((observer.notifyShortFlagValue n v st.1).1,
      ((observer.notifyShortFlagValue n v st.1).2,
        st.2 ++ [(Event.notifyShortFlagValue n v, (observer.notifyShortFlagValue n v st.1).1)]))
  notifyArg v st :=
    ((observer.notifyArg v st.1).1,
      ((observer.notifyArg v st.1).2,
        st.2 ++ [(Event.notifyArg v, (observer.notifyArg v st.1).1)]))
  completeLongFlag x st :=
    ((observer.completeLongFlag x st.1).1,
      ((observer.completeLongFlag x st.1).2, st.2 ++ [(Event.completeLongFlag x, true)]))
  completeLongFlagValue n v st :=
    ((observer.completeLongFlagValue n v st.1).1,
      ((observer.completeLongFlagValue n v st.1).2,
        st.2 ++ [(Event.completeLongFlagValue n v, true)]))
  completeShortFlag st :=
    ((observer.completeShortFlag st.1).1,
      ((observer.completeShortFlag st.1).2, st.2 ++ [(Event.completeShortFlag, true)]))
  completeShortFlagValue n v st :=
    ((observer.completeShortFlagValue n v st.1).1,
      ((observer.completeShortFlagValue n v st.1).2,
        st.2 ++ [(Event.completeShortFlagValue n v, true)]))
  completeArg x st :=
    ((observer.completeArg x st.1).1,
      ((observer.completeArg x st.1).2, st.2 ++ [(Event.completeArg x, true)]))
  acceptingArgs st :=
    ((observer.acceptingArgs st.1).1,
      ((observer.acceptingArgs st.1).2, st.2 ++ [(Event.acceptingArgs, true)]))

/-- The observer that does to its state what `observer` does and answers as
`observer` does, except that each of its notifications answers `true`. -/
def succeeding {σ : Type} (observer : parseObserver σ) : parseObserver σ :=
  { observer with
    notifyLongFlag := fun n s => (true, (observer.notifyLongFlag n s).2)
    notifyLongFlagValue := fun n v s => (true, (observer.notifyLongFlagValue n v s).2)
    notifyShortFlag := fun n s => (true, (observer.notifyShortFlag n s).2)
    notifyShortFlagValue := fun n v s => (true, (observer.notifyShortFlagValue n v s).2)
    notifyArg := fun v s => (true, (observer.notifyArg v s).2) }

/-- Every call of the log was answered `true`. -/
def clean (log : List (Event × Bool)) : Prop := ∀ e ∈ log, e.2 = true

/-- No call of the log but the last was answered `false`, and the last one was
not either unless the sticky flag of the parser is down. -/
def sticky (p : parser) (log : List (Event × Bool)) : Prop :=
  clean log.dropLast ∧ (p.parseOK = true → clean log)

/-- The first run is the second one, or it has failed and its calls are the
first calls of the second one. -/
def cutShort {σ : Type} (r1 r2 : parser × σ × List Event) : Prop :=
  r1 = r2 ∨ (r1.1.parseOK = false ∧ r1.2.2 <+: r2.2.2)

/-- Two observers that answer alike: from states related by `Rel` every method
gives the same result on both and leads to states related by `Rel`. -/
structure parseObserver.Simulates {σ τ : Type} (obs1 : parseObserver σ) (obs2 : parseObserver τ)
    (Rel : σ → τ → Prop) : Prop where
  Error : ∀ m s t, Rel s t → Rel (obs1.Error m s) (obs2.Error m t)
  NumErrors : ∀ s t, Rel s t → obs1.NumErrors s = obs2.NumErrors t
  longFlagInfo : ∀ n s t, Rel s t →
    (obs1.longFlagInfo n s).1 = (obs2.longFlagInfo n t).1 ∧
      Rel (obs1.longFlagInfo n s).2 (obs2.longFlagInfo n t).2
  shortFlagInfo : ∀ n s t, Rel s t →
    (obs1.shortFlagInfo n s).1 = (obs2.shortFlagInfo n t).1 ∧
      Rel (obs1.shortFlagInfo n s).2 (obs2.shortFlagInfo n t).2
  notifyLongFlag : ∀ n s t, Rel s t →
    (obs1.notifyLongFlag n s).1 = (obs2.notifyLongFlag n t).1 ∧
      Rel (obs1.notifyLongFlag n s).2 (obs2.notifyLongFlag n t).2
  notifyLongFlagValue : ∀ n v s t, Rel s t →
    (obs1.notifyLongFlagValue n v s).1 = (obs2.notifyLongFlagValue n v t).1 ∧
      Rel (obs1.notifyLongFlagValue n v s).2 (obs2.notifyLongFlagValue n v t).2
  notifyShortFlag : ∀ n s t, Rel s t →
    (obs1.notifyShortFlag n s).1 = (obs2.notifyShortFlag n t).1 ∧
      Rel (obs1.notifyShortFlag n s).2 (obs2.notifyShortFlag n t).2
  notifyShortFlagValue : ∀ n v s t, Rel s t →
    (obs1.notifyShortFlagValue n v s).1 = (obs2.notifyShortFlagValue n v t).1 ∧
      Rel (obs1.notifyShortFlagValue n v s).2 (obs2.notifyShortFlagValue n v t).2
  notifyArg : ∀ v s t, Rel s t →
    (obs1.notifyArg v s).1 = (obs2.notifyArg v t).1 ∧
      Rel (obs1.notifyArg v s).2 (obs2.notifyArg v t).2
  completeLongFlag : ∀ x s t, Rel s t →
    (obs1.completeLongFlag x s).1 = (obs2.completeLongFlag x t).1 ∧
      Rel (obs1.completeLongFlag x s).2 (obs2.completeLongFlag x t).2
  completeLongFlagValue : ∀ n v s t, Rel s t →
    (obs1.completeLongFlagValue n v s).1 = (obs2.completeLongFlagValue n v t).1 ∧
      Rel (obs1.completeLongFlagValue n v s).2 (obs2.completeLongFlagValue n v t).2
  completeShortFlag : ∀ s t, Rel s t →
    (obs1.completeShortFlag s).1 = (obs2.completeShortFlag t).1 ∧
      Rel (obs1.completeShortFlag s).2 (obs2.completeShortFlag t).2
  completeShortFlagValue : ∀ n v s t, Rel s t →
    (obs1.completeShortFlagValue n v s).1 = (obs2.completeShortFlagValue n v t).1 ∧
      Rel (obs1.completeShortFlagValue n v s).2 (obs2.completeShortFlagValue n v t).2
  completeArg : ∀ x s t, Rel s t →
    (obs1.completeArg x s).1 = (obs2.completeArg x t).1 ∧
      Rel (obs1.completeArg x s).2 (obs2.completeArg x t).2
  acceptingArgs : ∀ s t, Rel s t →
    (obs1.acceptingArgs s).1 = (obs2.acceptingArgs t).1 ∧
      Rel (obs1.acceptingArgs s).2 (obs2.acceptingArgs t).2

/-- The number of positional notifications among the calls `es`. -/
def countArgs (es : List Event) : Nat :=
  (es.filter (fun e => match e with
    | Event.notifyArg _ => true
    | _ => false)).length

/-- A handler that appends the name of its slot and the text it is given to a
list kept by the program; it records no error and returns true. -/
def noteHandler (slot : String) : ValueHandler (List (String × String)) where
  Notify text w := ([], true, w ++ [(slot, text)])
  Complete := fun _ _ => []
  TypeName := "string"

/-- An App with one required slot `first`, an excess slot `more` and no flag,
as `MakeApp`, `RequiredArgs` and `ExcessArguments` build it. -/
def slotsApp : App (List (String × String)) :=
  ((App.MakeApp "app" []).RequiredArgs
      [{ Name := "first", Value := some (noteHandler "first") }]).ExcessArguments
    { Name := "more", Value := some (noteHandler "more") }

/-- An App without any slot or flag, as `MakeApp` builds it. -/
def bareApp : App Unit := App.MakeApp "app" ()

/-- The flags `--foo`/`-f` (no value, `Max` left at zero) and `--bar`/`-b`
(one use at most, as in cmd/cmdline_playground/main.go, with a handler that
notes its value) of the App `flagsApp`. -/
def demoFlags : List (Flag (List (String × String))) :=
  [{ Long := "foo", Short := 'f', Value := none, Call := some (fun w => w ++ [("foo", "")]),
     Default := "", Min := 0, Max := 0, useCount := 0 },
   { Long := "bar", Short := 'b', Value := some (noteHandler "bar"), Call := none,
     Default := "", Min := 1, Max := 1, useCount := 0 }]

/-- An App with the flags `demoFlags` and the slots of `slotsApp`, as `Flags`
registers them; `Flags` does not panic on these, so the default is not used. -/
def flagsApp : App (List (String × String)) :=
  (slotsApp.Flags demoFlags).getD slotsApp

/-- A flag that has to be given twice. -/
def twiceFlag : Flag (List (String × String)) :=
  { Long := "x", Short := Char.ofNat 0, Value := none, Call := some (fun w => w),
    Default := "", Min := 2, Max := 2, useCount := 0 }

/-- The App of `slotsApp` with the flag `--x`, made `Required()`, which keeps
its `Min` of 2. -/
def twiceApp : App (List (String × String)) :=
  (slotsApp.Flags [twiceFlag.Required]).getD slotsApp

/-- The text handed over by a call on a `CompletionObserver`. -/
def Completion.text : Completion → String
  | Completion.Final t => t
  | Completion.Partial t => t

/-- Whether the call is `PartialCompletion`. -/
def Completion.isPartial : Completion → Bool
  | Completion.Final _ => false
  | Completion.Partial _ => true

/-- The parser `q` is `p` further along the same token list, and has taken no
candidate since `p` unless it has read its last token. -/
def parser.ahead (p q : parser) : Prop :=
  parser.le p q ∧
    (q.hasNext = true → q.completions = p.completions ∧ q.isPartial = p.isPartial)

/-- The scan of `toks` in completion mode after `k` iterations of the loop of
`parseMain` (fewer when the loop has stopped before), on the recording
observer started in state `s`: the parser and the observer with its log. -/
def completionScan {σ : Type} (obs : parseObserver σ) (toks : List String) (s : σ) (k : Nat) :
    parser × σ × List Event :=
  parseMainLoop (recording obs) k (parser.start toks true) (s, [])

/-- Whether the call is `Error`. -/
def Event.isError : Event → Bool
  | Event.Error _ => true
  | _ => false

/-- Whether the call is one the parser makes only to complete: one of the five
completion callbacks, or `acceptingArgs`. -/
def Event.isCompletion : Event → Bool
  | Event.completeLongFlag _ => true
  | Event.completeLongFlagValue _ _ => true
  | Event.completeShortFlag => true
  | Event.completeShortFlagValue _ _ => true
  | Event.completeArg _ => true
  | Event.acceptingArgs => true
  | _ => false

/-- The sticky flag of the parser is down only if the log holds an `Error` or
a call answered `false`, and the log holds no call made to complete. -/
def upright (p : parser) (log : List (Event × Bool)) : Prop :=
  (p.parseOK = true ∨ ∃ e ∈ log, e.1.isError = true ∨ e.2 = false) ∧
    ∀ e ∈ log, e.1.isCompletion = false

/-- A handler whose `Notify` always returns true, as the handlers of the
library do when their `AffectsParsing` is false. -/
def ValueHandler.lenient {ω : Type} (h : ValueHandler ω) : Prop :=
  ∀ text w, (h.Notify text w).2.1 = true

/-- Every value handler of the App, of a flag or of a slot, is lenient. -/
def App.lenient {ω : Type} (app : App ω) : Prop :=
  (∀ f ∈ app.allFlags, ∀ h, f.Value = some h → h.lenient) ∧
    (∀ a ∈ app.requiredArguments, ∀ h, a.Value = some h → h.lenient) ∧
    (∀ a, app.excessArguments = some a → ∀ h, a.Value = some h → h.lenient)

/-- While the App has not panicked its handlers are lenient and every call
logged was answered `true`. -/
def App.indulged {ω : Type} (st : Option (App ω) × List (Event × Bool)) : Prop :=
  ∀ app, st.1 = some app → app.lenient ∧ clean st.2

/-- A parser of integers that takes the text `7` only. -/
def sevenParser : Int32Parser Int where
  Parse := fun t _ => if t = "7" then Except.ok 7 else Except.error "bad"
  Complete := fun _ _ => []
  TypeName := "int32"

/-- A handler bound by pointer to the integer variable that is the state of the
program; a bad value does not stop the scan. -/
def numHandler : Int32Handler Int :=
  { Parser := sevenParser, Callback := none,
    Ptr := some { get := fun w => w, set := fun v _ => v }, AffectsParsing := false }

/-- The flag `--num`/`-n` with the handler `numHandler`. -/
def numFlag : Flag Int :=
  { Long := "num", Short := 'n', Value := some numHandler.handler,
    Call := none, Default := "", Min := 0, Max := 2, useCount := 0 }

/-- An App with the flag `numFlag` and no slot; `Flags` does not panic on it. -/
def numApp : App Int := ((App.MakeApp "app" 0).Flags [numFlag]).getD (App.MakeApp "app" 0)

/-- The parser `q` scans, in completion mode and without a candidate so far,
the unread tokens of the parser `p` of a scan in parse mode, followed by one
more token `t`. -/
def parser.trails (t : String) (p q : parser) : Prop :=
  q.rest = p.rest ++ [t] ∧ q.parseOK = p.parseOK ∧ p.completing = false ∧
    q.completing = true ∧ q.completions = [] ∧ q.isPartial = false

/-- Unless the first run has failed, the second one trails it and has brought
the observer to the same state. -/
def trailing {σ : Type} (t : String) (r1 r2 : parser × σ) : Prop :=
  r1.1.parseOK = true → parser.trails t r1.1 r2.1 ∧ r2.2 = r1.2

/-- The first run has read all its tokens and the second one has, in addition,
notified the token `t` as a positional argument, without a candidate. -/
def escaped {σ : Type} (obs : parseObserver σ) (t : String) (r1 r2 : parser × σ) : Prop :=
  r1.1.rest = [] ∧ r2.1.rest = [] ∧ r2.1.completions = [] ∧ r2.1.isPartial = false ∧
    r2.2 = (obs.notifyArg t r1.2).2 ∧ r2.1.parseOK = (obs.notifyArg t r1.2).1

/-! ## value_string.go: `Enum`; cmdline.go: the completion output of `Run` -/

/-- The struct `Enum` (value_string.go, lines 79-81). -/
structure Enum where
  Possible : List String

namespace Enum

/-- `TypeName` (value_string.go, lines 100-102). -/
def TypeName (p : Enum) : String := "\x7b" ++ ",".intercalate p.Possible ++ "\x7d"

/-- The loop of `Enum.Parse` (value_string.go, lines 84-88): the text, when it
equals one of the members in turn. -/
def parseLoop (text : String) : List String → Option String
  | [] => none
  | possible :: rest => if text = possible then some text else parseLoop text rest

/-- `Parse` (value_string.go, lines 83-90); `quote` is what
`fmt.Sprintf("%#v", text)` writes for the string `text`. -/
def Parse (quote : String → String) (p : Enum) (text : String) : Except String String :=
  match parseLoop text p.Possible with
  | some v => Except.ok v
  | none => Except.error (quote text ++ " is not in " ++ p.TypeName)

/-- `Complete` (value_string.go, lines 92-98). -/
def Complete (p : Enum) (text : String) : List Completion :=
  (p.Possible.filter (fun possible => decide (text.data <+: possible.data))).map
    (fun possible => Completion.Final possible)

/-- An `Enum` as a `StringParser`. -/
def parser {ω : Type} (quote : String → String) (p : Enum) : StringParser ω where
  Parse := fun text _ => p.Parse quote text
  Complete := fun text _ => p.Complete text
  TypeName := p.TypeName

/-- `Set` (value_string.go, lines 104-106). -/
def Set {ω : Type} (quote : String → String) (p : Enum) (ptr : Ref String ω) : ValueHandler ω :=
  StringHandler.handler
    { Parser := p.parser quote, Callback := none, Ptr := some ptr, AffectsParsing := false }

end Enum

/-- The bytes of a Go string, which holds its text in UTF-8. -/
def goBytes (s : String) : List Nat :=
  s.data.flatMap (fun c => (String.utf8EncodeChar c).map UInt8.toNat)

/-- The outer loop of `completionClipPoint` (cmdline.go, lines 341-347) with
`i + 1` as its argument; the inner loop looks for `chars[i]` among `breaks`. -/
def clipLoop (chars breaks : List Char) : Nat → Nat
  | 0 => 0
  | i + 1 =>
    if breaks.any (fun r => decide (chars.getD i ' ' = r)) then
      (String.mk (chars.take (i + 1))).utf8ByteSize
    else clipLoop chars breaks i

/-- `completionClipPoint` (cmdline.go, lines 338-349). -/
def completionClipPoint (pfx compWordbreaks : String) : Nat :=
  clipLoop pfx.data compWordbreaks.data pfx.data.length

/-- The Go expression `o[clipPoint:]`, as bytes; `none` is the panic of a slice
bound out of range. -/
def sliceFrom (o : String) (clipPoint : Nat) : Option (List Nat) :=
  if clipPoint ≤ (goBytes o).length then some ((goBytes o).drop clipPoint) else none

/-- The loop `for _, o := range options { fmt.Println(o[clipPoint:]) }`
(cmdline.go, lines 361-363): the lines written, and whether the loop came to
its end without a panic. -/
def printClipped (clipPoint : Nat) : List String → List (List Nat) × Bool
  | [] => ([], true)
  | o :: os =>
    match sliceFrom o clipPoint with
    | none => ([], false)
    | some l => (l :: (printClipped clipPoint os).1, (printClipped clipPoint os).2)

/-- What `Run` writes for the candidates `options` (cmdline.go, lines 358-364):
the lines, without their newline, and whether no slice has panicked. -/
def printOptions (options : List String) (isPartial : Bool) (clipPoint : Nat) :
    List (List Nat) × Bool :=
  if options.length = 1 && !isPartial then
    match sliceFrom (options.headD "") clipPoint with
    | none => ([], false)
    | some l => ([l ++ goBytes " "], true)
  else printClipped clipPoint options

/-- The case `--generate-bash-completion` of `Run` (cmdline.go, lines 354-365),
for `args` whose first element is that word: the lines written to standard
output and whether the program reaches `os.Exit(0)`, which it does not when it
panics (`args[2:]` on a single argument, a `nil` dereference inside the App, a
slice bound out of range). -/
def App.runCompletion {ω : Type} (args : List String) (app : App ω) :
    List (List Nat) × Bool :=
  if args.length < 2 then ([], false)
  else
    let r := complete (args.drop 2) App.observer (some { app with completing := true })
    match r.2 with
    | none => ([], false)
    | some _ =>
      printOptions r.1.1 r.1.2 (completionClipPoint (args.getLastD "") (args.getD 1 ""))

/-- The quoting of `%#v` for a text without a character to escape. -/
def plainQuote (s : String) : String := "\"" ++ s ++ "\""

/-- The colours of `colorApp`. -/
def colors : Enum := { Possible := ["red", "green", "ab:x"] }

/-- The flag `--color`/`-c`, bound by pointer to the text that is the state of
the program, with the values of `colors`. -/
def colorFlag : Flag String :=
  { Long := "color", Short := 'c',
    Value := some (colors.Set plainQuote { get := fun w => w, set := fun v _ => v }),
    Call := none, Default := "", Min := 0, Max := 1, useCount := 0 }

/-- An App with the flag `colorFlag` and no slot; `Flags` does not panic on it. -/
def colorApp : App String :=
  ((App.MakeApp "app" "").Flags [colorFlag]).getD (App.MakeApp "app" "")

/-! ## Go strings that need not be valid UTF-8

A Go `string` is a sequence of bytes.  The definitions above read a token as a
Lean `String`, which is right for every text that is valid UTF-8.  The
definitions of this section read a Go string as the list of its bytes and
follow `[]rune(s)` and `string(r)` as Go defines them, so that they also say
what the parser does with a token that is not valid UTF-8. -/

namespace bytes

/-- A Go string: its bytes. -/
abbrev GoString := List Nat

/-- The rune `utf8.RuneError`, U+FFFD. -/
def RuneError : Char := Char.ofNat 0xFFFD

/-- The first rune of a Go string that is not empty and the number of bytes it
takes, as `[]rune(s)` and `range s` read it (`utf8.DecodeRuneInString`): a
byte that does not begin a well-formed UTF-8 sequence is read as `RuneError`
and takes one byte. -/
def decodeRune : GoString → Char × Nat
  | [] => (RuneError, 0)
  | b0 :: rest =>
    if b0 < 0x80 then (Char.ofNat b0, 1)
    else if 0xC2 ≤ b0 ∧ b0 ≤ 0xDF then
      match rest with
      | b1 :: _ =>
        if 0x80 ≤ b1 ∧ b1 ≤ 0xBF then (Char.ofNat ((b0 - 0xC0) * 64 + (b1 - 0x80)), 2)
        else (RuneError, 1)
      | _ => (RuneError, 1)
    else if 0xE0 ≤ b0 ∧ b0 ≤ 0xEF then
      match rest with
      | b1 :: b2 :: _ =>
        if (if b0 = 0xE0 then 0xA0 else 0x80) ≤ b1 ∧ b1 ≤ (if b0 = 0xED then 0x9F else 0xBF) ∧
            0x80 ≤ b2 ∧ b2 ≤ 0xBF then
          (Char.ofNat ((b0 - 0xE0) * 4096 + (b1 - 0x80) * 64 + (b2 - 0x80)), 3)
        else (RuneError, 1)
      | _ => (RuneError, 1)
    else if 0xF0 ≤ b0 ∧ b0 ≤ 0xF4 then
      match rest with
      | b1 :: b2 :: b3 :: _ =>
        if (if b0 = 0xF0 then 0x90 else 0x80) ≤ b1 ∧ b1 ≤ (if b0 = 0xF4 then 0x8F else 0xBF) ∧
            0x80 ≤ b2 ∧ b2 ≤ 0xBF ∧ 0x80 ≤ b3 ∧ b3 ≤ 0xBF then
          (Char.ofNat ((b0 - 0xF0) * 262144 + (b1 - 0x80) * 4096 + (b2 - 0x80) * 64
            + (b3 - 0x80)), 4)
        else (RuneError, 1)
      | _ => (RuneError, 1)
    else (RuneError, 1)

/-- The loop of the conversion `[]rune(s)`; every iteration takes at least one
byte, so the number of bytes is fuel enough. -/
def runesLoop : Nat → GoString → List Char
  | 0, _ => []
  | fuel + 1, s =>
    if s = [] then []
    else (decodeRune s).1 :: runesLoop fuel (s.drop (decodeRune s).2)

/-- The conversion `[]rune(s)`. -/
def runes (s : GoString) : List Char := runesLoop s.length s

/-- The conversion `string(r)` of a rune slice: the UTF-8 encoding of the
runes. -/
def ofRunes (r : List Char) : GoString := goBytes (String.mk r)

/-- A string literal of the source. -/
def lit (s : String) : GoString := goBytes s

/-- One call on a `CompletionObserver` (parse.go, lines 25-28). -/
inductive Completion where
  | Final (completion : GoString)
  | Partial (completion : GoString)
  deriving DecidableEq, Repr

/-- The interface `parseObserver` (parse.go, lines 3-23) over the observer's
state `σ`, together with the embedded `Logger` (cmdline.go, lines 10-13). -/
structure parseObserver (σ : Type) where
  Error : GoString → σ → σ
  NumErrors : σ → Nat
  longFlagInfo : GoString → σ → (Bool × Bool) × σ
  shortFlagInfo : Char → σ → (Bool × Bool) × σ
  notifyLongFlag : GoString → σ → Bool × σ
  notifyLongFlagValue : GoString → GoString → σ → Bool × σ
  notifyShortFlag : Char → σ → Bool × σ
  notifyShortFlagValue : Char → GoString → σ → Bool × σ
  notifyArg : GoString → σ → Bool × σ
  completeLongFlag : GoString → σ → List Completion × σ
  completeLongFlagValue : GoString → GoString → σ → List Completion × σ
  completeShortFlag : σ → List Completion × σ
  completeShortFlagValue : Char → GoString → σ → List Completion × σ
  completeArg : GoString → σ → List Completion × σ
  acceptingArgs : σ → Bool × σ

/-- The struct `parser` (parse.go, lines 30-39). -/
structure parser where
  args : List GoString
  current : Nat
  parseOK : Bool
  completing : Bool
  prependCompletion : GoString
  completions : List GoString
  isPartial : Bool
  deriving DecidableEq, Repr

/-- `hasNext` (parse.go, lines 41-43). -/
def parser.hasNext (p : parser) : Bool :=
  decide (p.current < p.args.length)

/-- `getNext` (parse.go, lines 45-49): the token under the cursor and the
parser with the cursor advanced.  Every call in the source is guarded by
`hasNext`, so the default of `getD` is never read. -/
def parser.getNext (p : parser) : GoString × parser :=
  (p.args.getD p.current [], { p with current := p.current + 1 })

/-- `shouldComplete` (parse.go, lines 51-53). -/
def parser.shouldComplete (p : parser) : Bool :=
  p.completing && !p.hasNext

/-- `status` (parse.go, lines 55-59). -/
def parser.status (p : parser) (ok : Bool) : parser :=
  if !ok then { p with parseOK := false } else p

/-- `FinalCompletion` (parse.go, lines 61-63). -/
def parser.FinalCompletion (p : parser) (completion : GoString) : parser :=
  { p with completions := p.completions ++ [p.prependCompletion ++ completion] }

/-- `PartialCompletion` (parse.go, lines 65-68). -/
def parser.PartialCompletion (p : parser) (completion : GoString) : parser :=
  { p with
    completions := p.completions ++ [p.prependCompletion ++ completion]
    isPartial := true }

/-- Replays on the parser the calls a completion callback made on it. -/
def parser.deliver (p : parser) (calls : List Completion) : parser :=
  calls.foldl
    (fun q c =>
      match c with
      | Completion.Final t => q.FinalCompletion t
      | Completion.Partial t => q.PartialCompletion t)
    p

/-- `handleLongFlagValue` (parse.go, lines 70-76). -/
def handleLongFlagValue {σ : Type} (p : parser) (name value : GoString)
    (observer : parseObserver σ) (s : σ) : parser × σ :=
  if p.shouldComplete then
    (p.deliver (observer.completeLongFlagValue name value s).1,
      (observer.completeLongFlagValue name value s).2)
  else
    (p.status (observer.notifyLongFlagValue name value s).1,
      (observer.notifyLongFlagValue name value s).2)

/-- `completeLongFlag` (parse.go, lines 168-174).  The `&&` of the source is
short-circuit: `acceptingArgs` is only called for the empty prefix. -/
def completeLongFlag {σ : Type} (p : parser) (pfx : GoString)
    (observer : parseObserver σ) (s : σ) : parser × σ :=
  let p1 : parser := { p with prependCompletion := lit "--" }
  if pfx = [] then
    let a := observer.acceptingArgs s
    let p2 := if a.1 then p1.FinalCompletion [] else p1
    (p2.deliver (observer.completeLongFlag pfx a.2).1, (observer.completeLongFlag pfx a.2).2)
  else
    (p1.deliver (observer.completeLongFlag pfx s).1, (observer.completeLongFlag pfx s).2)

/-- `completeShortFlag` (parse.go, lines 176-182); `len(current)` is the
number of bytes. -/
def completeShortFlag {σ : Type} (p : parser) (current : GoString)
    (observer : parseObserver σ) (s : σ) : parser × σ :=
  let p1 : parser := { p with prependCompletion := current }
  let p2 := if current.length > 1 then p1.FinalCompletion [] else p1
  (p2.deliver (observer.completeShortFlag s).1, (observer.completeShortFlag s).2)

/-- `completeAnyFlag` (parse.go, lines 184-187). -/
def completeAnyFlag {σ : Type} (p : parser) (observer : parseObserver σ) (s : σ) :
    parser × σ :=
  let r := completeShortFlag p (lit "-") observer s
  completeLongFlag r.1 [] observer r.2

/-- `parseLongFlag` (parse.go, lines 78-123); `arg` is a slice of the runes of
the token, and the name and the value are converted back by `string(...)`. -/
def parseLongFlag {σ : Type} (p : parser) (arg : List Char)
    (observer : parseObserver σ) (s : σ) : parser × σ :=
  let c := (scanEquals arg 0).1
  let equals := (scanEquals arg 0).2
  let name := ofRunes (arg.take c)
  let info := observer.longFlagInfo name s
  let «exists» := info.1.1
  let takesValue := info.1.2
  let s1 := info.2
  if equals then
    if !«exists» then
      (p.status false, observer.Error (lit "unrecognized flag --" ++ name) s1)
    else if takesValue then
      let value := ofRunes (arg.drop (c + 1))
      let p1 : parser := { p with prependCompletion := lit "--" ++ ofRunes (arg.take (c + 1)) }
      handleLongFlagValue p1 name value observer s1
    else
      (p.status false,
        observer.Error (lit "--" ++ name ++ lit " does not take an argument") s1)
  else
    if p.shouldComplete then
      completeLongFlag p name observer s1
    else if !«exists» then
      (p.status false, observer.Error (lit "unrecognized flag --" ++ name) s1)
    else if takesValue then
      if p.hasNext then
        let value := p.getNext.1
        let p1 : parser := { p.getNext.2 with prependCompletion := [] }
        handleLongFlagValue p1 name value observer s1
      else
        (p.status false, observer.Error (lit "--" ++ name ++ lit " requires an argument") s1)
    else
      (p.status (observer.notifyLongFlag name s1).1, (observer.notifyLongFlag name s1).2)

/-- `handleShortFlagValue` (parse.go, lines 125-131). -/
def handleShortFlagValue {σ : Type} (p : parser) (name : Char) (value : GoString)
    (observer : parseObserver σ) (s : σ) : parser × σ :=
  if p.shouldComplete then
    (p.deliver (observer.completeShortFlagValue name value s).1,
      (observer.completeShortFlagValue name value s).2)
  else
    (p.status (observer.notifyShortFlagValue name value s).1,
      (observer.notifyShortFlagValue name value s).2)

/-- The `for` loop of `parseShortFlag` (parse.go, lines 134-160) at index `c`,
given as the runes `arg[c:]` still to scan; `arg` is the whole cluster.  The
first component of the result says whether the function returned from inside
the loop (line 156). -/
def parseShortFlagLoop {σ : Type} (observer : parseObserver σ) (arg : List Char) :
    List Char → parser → σ → Bool × parser × σ
  | [], p, s => (false, p, s)
  | name :: rest, p, s =>
    if !p.parseOK then (false, p, s)
    else
      let info := observer.shortFlagInfo name s
      let s1 := info.2
      if !info.1.1 then
        parseShortFlagLoop observer arg rest (p.status false)
          (observer.Error (lit "unrecognized flag -" ++ ofRunes [name]) s1)
      else if info.1.2 then
        if rest ≠ [] then
          (true, handleShortFlagValue p name (ofRunes rest) observer s1)
        else if p.hasNext then
          (true, handleShortFlagValue p.getNext.2 name p.getNext.1 observer s1)
        else if p.shouldComplete then
          (true, p.FinalCompletion (lit "-" ++ ofRunes arg), s1)
        else
          (true, p.status false,
            observer.Error (lit "-" ++ ofRunes [name] ++ lit " requires an argument") s1)
      else
        parseShortFlagLoop observer arg rest (p.status (observer.notifyShortFlag name s1).1)
          (observer.notifyShortFlag name s1).2

/-- `parseShortFlag` (parse.go, lines 133-166). -/
def parseShortFlag {σ : Type} (p : parser) (arg : List Char)
    (observer : parseObserver σ) (s : σ) : parser × σ :=
  let r := parseShortFlagLoop observer arg arg p s
  if r.1 then r.2
  else if r.2.1.parseOK && r.2.1.shouldComplete then
    completeShortFlag r.2.1 (lit "-" ++ ofRunes arg) observer r.2.2
  else r.2

/-- The loop after a `--` token (parse.go, lines 202-204). -/
def escapeLoop {σ : Type} (observer : parseObserver σ) : Nat → parser → σ → parser × σ
  | 0, p, s => (p, s)
  | fuel + 1, p, s =>
    if p.hasNext && p.parseOK then
      escapeLoop observer fuel
        (p.getNext.2.status (observer.notifyArg p.getNext.1 s).1)
        (observer.notifyArg p.getNext.1 s).2
    else (p, s)

/-- The body of the loop of `parseMain` (parse.go, lines 192-229) for the
runes `arg` of the token that `getNext` has already taken. -/
def parseToken {σ : Type} (p : parser) (arg : List Char)
    (observer : parseObserver σ) (s : σ) : parser × σ :=
  if arg.length ≥ 1 ∧ arg.head? = some '-' then
    if arg.length ≥ 2 then
      if arg.get? 1 = some '-' then
        if arg.length ≥ 3 then
          parseLongFlag p (arg.drop 2) observer s
        else if p.shouldComplete then
          completeLongFlag p [] observer s
        else
          escapeLoop observer (p.args.length - p.current) p s
      else
        parseShortFlag p (arg.drop 1) observer s
    else if p.shouldComplete then
      completeAnyFlag p observer s
    else
      (p.status false, observer.Error (lit "stray dash") s)
  else if p.shouldComplete then
    if arg.length = 0 then
      let a := observer.acceptingArgs s
      if !a.1 then completeAnyFlag p observer a.2
      else
        ((p.deliver (observer.completeArg (ofRunes arg) a.2).1),
          (observer.completeArg (ofRunes arg) a.2).2)
    else
      ((p.deliver (observer.completeArg (ofRunes arg) s).1),
        (observer.completeArg (ofRunes arg) s).2)
  else
    (p.status (observer.notifyArg (ofRunes arg) s).1, (observer.notifyArg (ofRunes arg) s).2)

/-- The loop of `parseMain` (parse.go, lines 190-230); line 191 converts the
token by `[]rune(p.getNext())`. -/
def parseMainLoop {σ : Type} (observer : parseObserver σ) : Nat → parser → σ → parser × σ
  | 0, p, s => (p, s)
  | fuel + 1, p, s =>
    if p.hasNext && p.parseOK then
      parseMainLoop observer fuel
        (parseToken p.getNext.2 (runes p.getNext.1) observer s).1
        (parseToken p.getNext.2 (runes p.getNext.1) observer s).2
    else (p, s)

/-- `parseMain` (parse.go, lines 189-231); every iteration reads at least one
token, so the number of unread tokens bounds the number of iterations. -/
def parseMain {σ : Type} (p : parser) (observer : parseObserver σ) (s : σ) : parser × σ :=
  parseMainLoop observer (p.args.length - p.current) p s

/-- The parser that `parse` and `complete` start from (parse.go, lines 234 and
240). -/
def parser.start (args : List GoString) (completing : Bool) : parser :=
  { args := args, current := 0, parseOK := true, completing := completing,
    prependCompletion := [], completions := [], isPartial := false }

/-- `parse` (parse.go, lines 233-237), with the observer's final state. -/
def parse {σ : Type} (args : List GoString) (observer : parseObserver σ) (s : σ) : Bool × σ :=
  let r := parseMain (parser.start args false) observer s
  (r.1.parseOK && decide (observer.NumErrors r.2 = 0), r.2)

/-- `complete` (parse.go, lines 239-243), with the observer's final state. -/
def complete {σ : Type} (args : List GoString) (observer : parseObserver σ) (s : σ) :
    (List GoString × Bool) × σ :=
  let r := parseMain (parser.start args true) observer s
  ((r.1.completions, r.1.isPartial), r.2)

/-- `completionClipPoint` (cmdline.go, lines 338-349): `chars` and `breaks` are
`[]rune(prefix)` and `[]rune(compWordbreaks)`, and the result is
`len(string(chars[:i+1]))` at the last index `i` whose rune is among `breaks`,
or 0. -/
def completionClipPoint (pfx compWordbreaks : GoString) : Nat :=
  clipLoop (runes pfx) (runes compWordbreaks) (runes pfx).length

/-- One notification or error that an observer was given, with the Go strings
it was given. -/
inductive Note where
  | Error (message : GoString)
  | notifyLongFlag (name : GoString)
  | notifyLongFlagValue (name value : GoString)
  | notifyShortFlag (name : Char)
  | notifyShortFlagValue (name : Char) (value : GoString)
  | notifyArg (value : GoString)
  deriving DecidableEq, Repr

/-- An observer that knows the long flags `long` and the short flags `short`,
each with the answer to "does it take a value", keeps what it is notified of,
in order, answers true to every notification, and proposes no completion. -/
def noting (long : List (GoString × Bool)) (short : List (Char × Bool)) :
    parseObserver (List Note) where
  Error m l := l ++ [Note.Error m]
  NumErrors l := (l.filter (fun n => match n with
    | Note.Error _ => true
    | _ => false)).length
  longFlagInfo n l := (match long.lookup n with
    | some v => (true, v)
    | none => (false, false), l)
  shortFlagInfo n l := (match short.lookup n with
    | some v => (true, v)
    | none => (false, false), l)
  notifyLongFlag n l := (true, l ++ [Note.notifyLongFlag n])
  notifyLongFlagValue n v l := (true, l ++ [Note.notifyLongFlagValue n v])
  notifyShortFlag n l := (true, l ++ [Note.notifyShortFlag n])
  notifyShortFlagValue n v l := (true, l ++ [Note.notifyShortFlagValue n v])
  notifyArg v l := (true, l ++ [Note.notifyArg v])
  completeLongFlag _ l := ([], l)
  completeLongFlagValue _ _ l := ([], l)
  completeShortFlag l := ([], l)
  completeShortFlagValue _ _ l := ([], l)
  completeArg _ l := ([], l)
  acceptingArgs l := (true, l)

/-- The observer of the examples: the flags of `makeObserver` of
parse_test.go, `--foo`, `--bar` with a value, `-a`, `-b`, and `-c`, `-d` with a
value. -/
def demo : parseObserver (List Note) :=
  noting [(lit "foo", false), (lit "bar", true)]
    [('a', false), ('b', false), ('c', true), ('d', true)]

end bytes

/-! ## A structurally valid command line, and what an App is to do with it -/

/-- One unit of a command line that is structurally valid: a token of flags
without a value; a long flag with its value, attached by `=` or in the next
token; a cluster `P` of flags without a value that ends with a flag `x` and its
value, attached or in the next token; a positional argument. -/
inductive Item where
  | flags (t : flagToken)
  | longValue (name value : String) (attached : Bool)
  | shortValue (P : List Char) (x : Char) (value : String) (attached : Bool)
  | arg (value : String)
  deriving DecidableEq, Repr

/-- The tokens that the unit is written as. -/
def Item.tokens : Item → List String
  | Item.flags t => [t.text]
  | Item.longValue name value true => ["--" ++ name ++ "=" ++ value]
  | Item.longValue name value false => ["--" ++ name, value]
  | Item.shortValue P x value true => ["-" ++ String.mk (P ++ [x]) ++ value]
  | Item.shortValue P x value false => ["-" ++ String.mk (P ++ [x]), value]
  | Item.arg value => [value]

/-- The calls that the unit is to cause, in order. -/
def Item.calls : Item → List Event
  | Item.flags t => t.calls
  | Item.longValue name value _ =>
    [Event.longFlagInfo name, Event.notifyLongFlagValue name value]
  | Item.shortValue P x value _ =>
    (flagToken.cluster P).calls ++ [Event.shortFlagInfo x, Event.notifyShortFlagValue x value]
  | Item.arg value => [Event.notifyArg value]

/-- The value that the unit holds, if it holds one. -/
def Item.values : Item → List String
  | Item.flags _ => []
  | Item.longValue _ value _ => [value]
  | Item.shortValue _ _ value _ => [value]
  | Item.arg value => [value]

/-- The unit has the shape that the grammar gives to its kind: a long name is
not empty and holds no `=`, a cluster is not empty and does not begin with a
second `-`, a value attached to a short flag is not empty, and a positional
argument does not begin with `-`. -/
def Item.shaped : Item → Prop
  | Item.flags (flagToken.long name) => name ≠ "" ∧ '=' ∉ name.data
  | Item.flags (flagToken.cluster names) => names ≠ [] ∧ names.head? ≠ some '-'
  | Item.longValue name _ _ => name ≠ "" ∧ '=' ∉ name.data
  | Item.shortValue P x value attached =>
    (P ++ [x]).head? ≠ some '-' ∧ (attached = true → value ≠ "")
  | Item.arg value => value.data.head? ≠ some '-'

/-- The tokens of a command line: those of its units and then, if there is an
escape, the token `--` and the positional arguments `R` after it. -/
def commandLine (items : List Item) (esc : Option (List String)) : List String :=
  items.flatMap Item.tokens ++
    (match esc with
      | none => []
      | some R => "--" :: R)

/-- The calls that the command line is to cause, in the order of its tokens. -/
def expectedCalls (items : List Item) (esc : Option (List String)) : List Event :=
  items.flatMap Item.calls ++
    (match esc with
      | none => []
      | some R => R.map Event.notifyArg)

/-- The values of the command line, in the order of its tokens. -/
def givenValues (items : List Item) (esc : Option (List String)) : List String :=
  items.flatMap Item.values ++
    (match esc with
      | none => []
      | some R => R)

/-- What the App is to do for a unit of the command line: call the callback of
a flag without a value, or hand a value to a value handler. -/
inductive Action (ω : Type) where
  | call (f : ω → ω)
  | hand (h : ValueHandler ω) (value : String)

/-- The state of the program after the action and, for a value handed over,
the value with the errors that its handler logged. -/
def Action.run {ω : Type} : Action ω → ω → ω × List (String × List String)
  | Action.call f, w => (f w, [])
  | Action.hand h value, w => ((h.Notify value w).2.2, [(value, (h.Notify value w).1)])

/-- The state of the program after the actions, done in order, and the values
handed over, in order, each with the errors that its handler logged. -/
def runActions {ω : Type} : List (Action ω) → ω → ω × List (String × List String)
  | [], w => (w, [])
  | a :: as, w =>
    ((runActions as (a.run w).1).1, (a.run w).2 ++ (runActions as (a.run w).1).2)

/-- The action for a use of the flag as one without a value: its callback;
none when the flag has a value handler or no callback. -/
def Flag.asCall {ω : Type} (f : Flag ω) : Option (Action ω) :=
  if f.Value.isSome then none else f.Call.map Action.call

/-- The action for a use of the flag with the value: its handler with the
value; none when the flag has no value handler. -/
def Flag.asHand {ω : Type} (f : Flag ω) (value : String) : Option (Action ω) :=
  f.Value.map (fun h => Action.hand h value)

namespace App

variable {ω : Type}

/-- The flag registered under the long name. -/
def longFlag (app : App ω) (name : String) : Option (Flag ω) :=
  (app.flagAt (app.longToFlag.lookup name)).map (fun r => r.2)

/-- The flag registered under the short name. -/
def shortFlag (app : App ω) (name : Char) : Option (Flag ω) :=
  (app.flagAt (app.shortToFlag.lookup name)).map (fun r => r.2)

/-- The slot that a positional argument goes to when the cursor is `k`: the
required slot `k`, or the excess slot once the required ones are filled. -/
def slot (app : App ω) (k : Nat) : Option (Argument ω) :=
  if k < app.requiredArguments.length then app.requiredArguments.get? k
  else app.excessArguments

/-- The cursor after a positional argument. -/
def nextSlot (app : App ω) (k : Nat) : Nat :=
  if k < app.requiredArguments.length then k + 1 else k

/-- The actions for a cluster of short flags without a value; none unless each
of them is registered as such a flag. -/
def planCluster (app : App ω) : List Char → Option (List (Action ω))
  | [] => some []
  | c :: P =>
    match (app.shortFlag c).bind Flag.asCall, planCluster app P with
    | some a, some as => some (a :: as)
    | _, _ => none

/-- The actions for a unit of the command line when the cursor is `k`, and the
cursor after it; none unless the unit is structurally valid for the App: its
flags are registered, those used without a value take none and those used with
a value take one, and a positional argument has a slot with a handler. -/
def planItem (app : App ω) (k : Nat) : Item → Option (List (Action ω) × Nat)
  | Item.flags (flagToken.long name) =>
    ((app.longFlag name).bind Flag.asCall).map (fun a => ([a], k))
  | Item.flags (flagToken.cluster P) => (app.planCluster P).map (fun as => (as, k))
  | Item.longValue name value _ =>
    ((app.longFlag name).bind (fun f => f.asHand value)).map (fun a => ([a], k))
  | Item.shortValue P x value _ =>
    match app.planCluster P, (app.shortFlag x).bind (fun f => f.asHand value) with
    | some as, some a => some (as ++ [a], k)
    | _, _ => none
  | Item.arg value =>
    ((app.slot k).bind (fun a => a.Value)).map
      (fun h => ([Action.hand h value], app.nextSlot k))

/-- The actions for the positional arguments after an escape. -/
def planArgs (app : App ω) : Nat → List String → Option (List (Action ω))
  | _, [] => some []
  | k, value :: R =>
    match (app.slot k).bind (fun a => a.Value), planArgs app (app.nextSlot k) R with
    | some h, some as => some (Action.hand h value :: as)
    | _, _ => none

/-- The actions for a command line when the cursor is `k`, in the order of its
tokens; none unless the command line is structurally valid for the App. -/
def plan (app : App ω) : Nat → List Item → Option (List String) → Option (List (Action ω))
  | _, [], none => some []
  | k, [], some R => app.planArgs k R
  | k, it :: items, esc =>
    match app.planItem k it with
    | none => none
    | some r => (plan app r.2 items esc).map (fun as => r.1 ++ as)

/-- The App `a` has the registrations of `app`: the same names, the same
handlers and callbacks of the flags, and the same slots. -/
def kin (app a : App ω) : Prop :=
  a.longToFlag = app.longToFlag ∧ a.shortToFlag = app.shortToFlag ∧
    a.requiredArguments = app.requiredArguments ∧ a.excessArguments = app.excessArguments ∧
    a.allFlags.map (fun f => (f.Value, f.Call)) = app.allFlags.map (fun f => (f.Value, f.Call))

/-- The App `a'` is the App `a` after the actions `acts`, with its cursor at
`k`: the registrations are kept, the state of the program is the one that the
actions lead to, and the errors that the handlers logged have been counted. -/
def after (a a' : App ω) (acts : List (Action ω)) (k : Nat) : Prop :=
  a.kin a' ∧ a'.currentArgument = k ∧ a'.world = (runActions acts a.world).1 ∧
    a'.numErrors =
      a.numErrors + ((runActions acts a.world).2.flatMap (fun r => r.2)).length

end App

/-- Three values for the flag `--num`/`-n` of `numApp`, of which the first and
the last are not numbers. -/
def numItems : List Item :=
  [Item.longValue "num" "x" true, Item.shortValue [] 'n' "7" false,
    Item.longValue "num" "y" true]

/-- The flag `--loud`/`-l` without a value, whose callback adds 100 to the
integer variable that is the state of the program. -/
def loudFlag : Flag Int :=
  { Long := "loud", Short := 'l', Value := none, Call := some (fun w => w + 100),
    Default := "", Min := 0, Max := 0, useCount := 0 }

/-- An App with the flags `numFlag` and `loudFlag`, a required slot and an
excess slot, each of the slots with the handler `numHandler`. -/
def mixApp : App Int :=
  ((((App.MakeApp "app" 0).Flags [numFlag, loudFlag]).getD (App.MakeApp "app" 0)).RequiredArgs
      [{ Name := "count", Value := some numHandler.handler }]).ExcessArguments
    { Name := "more", Value := some numHandler.handler }

/-- A command line for `mixApp` with every kind of unit. -/
def mixItems : List Item :=
  [Item.flags (flagToken.cluster ['l', 'l']), Item.longValue "num" "x" true,
    Item.arg "7", Item.shortValue ['l'] 'n' "y" false, Item.flags (flagToken.long "loud"),
    Item.longValue "num" "-z" false, Item.shortValue [] 'n' "7" true]

/-- A handler that logs at most one error for a value, as the handlers of the
library do. -/
def ValueHandler.oneError {ω : Type} (h : ValueHandler ω) : Prop :=
  ∀ text w, (h.Notify text w).1.length ≤ 1

/-- The handler is registered in the App, for a flag or for a slot. -/
def App.handles {ω : Type} (app : App ω) (h : ValueHandler ω) : Prop :=
  (∃ f ∈ app.allFlags, f.Value = some h) ∨
    (∃ a ∈ app.requiredArguments, a.Value = some h) ∨
    (∃ a, app.excessArguments = some a ∧ a.Value = some h)

/-- Every value handler of the App logs at most one error for a value. -/
def App.oneError {ω : Type} (app : App ω) : Prop :=
  ∀ h, app.handles h → h.oneError

/-- The actions of `mixApp` for the command line `mixItems` followed by the
escape and the positional arguments `--num` and `7`. -/
def mixActs : List (Action Int) :=
  [Action.call (fun w => w + 100), Action.call (fun w => w + 100),
    Action.hand numHandler.handler "x", Action.hand numHandler.handler "7",
    Action.call (fun w => w + 100), Action.hand numHandler.handler "y",
    Action.call (fun w => w + 100), Action.hand numHandler.handler "-z",
    Action.hand numHandler.handler "7", Action.hand numHandler.handler "--num",
    Action.hand numHandler.handler "7"]

end cmdline

/-! ## The scan: cursor, fuel and what a scan depends on -/

namespace cmdline
namespace parser

theorem length_rest (p : parser) : p.rest.length = p.args.length - p.current := by
  simp [rest]

theorem hasNext_of_cons {p : parser} {t : String} {ts : List String} (h : p.rest = t :: ts) :
    p.hasNext = true := by
  have := congrArg List.length h
  simp [length_rest] at this
  simp [hasNext]; omega

theorem hasNext_of_nil {p : parser} (h : p.rest = []) : p.hasNext = false := by
  have := congrArg List.length h
  simp [length_rest] at this
  simp [hasNext]; omega

theorem hasNext_eq_rest (p : parser) : p.hasNext = !p.rest.isEmpty := by
  cases h : p.rest with
  | nil => simp [hasNext_of_nil h]
  | cons t ts => simp [hasNext_of_cons h]

theorem getNext_fst {p : parser} {t : String} {ts : List String} (h : p.rest = t :: ts) :
    p.getNext.1 = t := by
  have h0 : p.rest[0]? = some t := by rw [h]; simp
  simp [rest] at h0
  simp [getNext, List.getD_eq_getElem?_getD, h0]

theorem getNext_fst_eq (p : parser) : p.getNext.1 = p.rest.head?.getD "" := by
  cases h : p.rest with
  | nil =>
    have := congrArg List.length h
    simp [length_rest] at this
    simp [getNext, List.getD_eq_getElem?_getD]
    rw [List.getElem?_eq_none (by omega)]; rfl
  | cons t ts => simp [getNext_fst h]

theorem getNext_rest (p : parser) : p.getNext.2.rest = p.rest.tail := by
  simp [rest, getNext]

@[simp] theorem status_true (p : parser) : p.status true = p := by simp [status]
@[simp] theorem status_false (p : parser) : p.status false = { p with parseOK := false } := by
  simp [status]

@[simp] theorem status_args (p : parser) (b : Bool) : (p.status b).args = p.args := by
  cases b <;> simp
@[simp] theorem status_current (p : parser) (b : Bool) : (p.status b).current = p.current := by
  cases b <;> simp
@[simp] theorem status_completing (p : parser) (b : Bool) :
    (p.status b).completing = p.completing := by
  cases b <;> simp
@[simp] theorem status_parseOK (p : parser) (b : Bool) :
    (p.status b).parseOK = (p.parseOK && b) := by
  cases b <;> simp
@[simp] theorem status_rest (p : parser) (b : Bool) : (p.status b).rest = p.rest := by
  simp [rest]
@[simp] theorem status_hasNext (p : parser) (b : Bool) : (p.status b).hasNext = p.hasNext := by
  simp [hasNext]
@[simp] theorem status_shouldComplete (p : parser) (b : Bool) :
    (p.status b).shouldComplete = p.shouldComplete := by
  simp [shouldComplete]

@[simp] theorem deliver_nil (p : parser) : p.deliver [] = p := rfl

theorem deliver_cons_Final (p : parser) (t : String) (cs : List Completion) :
    p.deliver (Completion.Final t :: cs) = (p.FinalCompletion t).deliver cs := rfl

theorem deliver_cons_Partial (p : parser) (t : String) (cs : List Completion) :
    p.deliver (Completion.Partial t :: cs) = (p.PartialCompletion t).deliver cs := rfl

theorem deliver_frame (p : parser) (cs : List Completion) :
    (p.deliver cs).args = p.args ∧ (p.deliver cs).current = p.current ∧
      (p.deliver cs).parseOK = p.parseOK ∧ (p.deliver cs).completing = p.completing ∧
      (p.deliver cs).prependCompletion = p.prependCompletion := by
  induction cs generalizing p with
  | nil => simp
  | cons c cs ih =>
    cases c with
    | Final t =>
      rw [deliver_cons_Final]
      have := ih (p.FinalCompletion t)
      simpa [FinalCompletion] using this
    | Partial t =>
      rw [deliver_cons_Partial]
      have := ih (p.PartialCompletion t)
      simpa [PartialCompletion] using this

@[simp] theorem deliver_args (p : parser) (cs : List Completion) :
    (p.deliver cs).args = p.args := (deliver_frame p cs).1
@[simp] theorem deliver_current (p : parser) (cs : List Completion) :
    (p.deliver cs).current = p.current := (deliver_frame p cs).2.1
@[simp] theorem deliver_parseOK (p : parser) (cs : List Completion) :
    (p.deliver cs).parseOK = p.parseOK := (deliver_frame p cs).2.2.1
@[simp] theorem deliver_completing (p : parser) (cs : List Completion) :
    (p.deliver cs).completing = p.completing := (deliver_frame p cs).2.2.2.1
@[simp] theorem deliver_prependCompletion (p : parser) (cs : List Completion) :
    (p.deliver cs).prependCompletion = p.prependCompletion := (deliver_frame p cs).2.2.2.2
@[simp] theorem deliver_rest (p : parser) (cs : List Completion) :
    (p.deliver cs).rest = p.rest := by simp [rest]

theorem sameScan_hasNext {p q : parser} (h : sameScan p q) : p.hasNext = q.hasNext := by
  rw [hasNext_eq_rest, hasNext_eq_rest, h.1]

theorem sameScan_shouldComplete {p q : parser} (h : sameScan p q) :
    p.shouldComplete = q.shouldComplete := by
  simp [shouldComplete, sameScan_hasNext h, h.2.2]

theorem sameScan_getNext_fst {p q : parser} (h : sameScan p q) : p.getNext.1 = q.getNext.1 := by
  rw [getNext_fst_eq, getNext_fst_eq, h.1]

theorem sameScan_getNext {p q : parser} (h : sameScan p q) :
    sameScan p.getNext.2 q.getNext.2 := by
  refine ⟨?_, ?_, ?_⟩
  · rw [getNext_rest, getNext_rest, h.1]
  · simpa [getNext] using h.2.1
  · simpa [getNext] using h.2.2

theorem sameScan_status {p q : parser} (h : sameScan p q) (b : Bool) :
    sameScan (p.status b) (q.status b) := by
  refine ⟨?_, ?_, ?_⟩
  · simpa using h.1
  · simp [h.2.1]
  · simpa using h.2.2

theorem sameScan_deliver {p q : parser} (h : sameScan p q) (cs ds : List Completion) :
    sameScan (p.deliver cs) (q.deliver ds) := by
  refine ⟨?_, ?_, ?_⟩
  · simpa using h.1
  · simpa using h.2.1
  · simpa using h.2.2

theorem sameScan_fuel {p q : parser} (h : sameScan p q) :
    p.args.length - p.current = q.args.length - q.current := by
  rw [← length_rest, ← length_rest, h.1]


theorem sameScan_refl (p : parser) : sameScan p p := ⟨rfl, rfl, rfl⟩

theorem sameScan_prepend {p q : parser} (h : sameScan p q) (a b : String) :
    sameScan { p with prependCompletion := a } { q with prependCompletion := b } := h

theorem sameScan_final {p q : parser} (h : sameScan p q) (a b : String) :
    sameScan (p.FinalCompletion a) (q.FinalCompletion b) := h

end parser

open parser

theorem handleLongFlagValue_sameScan {σ : Type} (obs : parseObserver σ) {p q : parser}
    (h : sameScan p q) (name value : String) (s : σ) :
    sameResult (handleLongFlagValue p name value obs s) (handleLongFlagValue q name value obs s) := by
  unfold handleLongFlagValue
  rw [sameScan_shouldComplete h]
  split
  · exact ⟨sameScan_deliver h _ _, rfl⟩
  · exact ⟨sameScan_status h _, rfl⟩

theorem handleShortFlagValue_sameScan {σ : Type} (obs : parseObserver σ) {p q : parser}
    (h : sameScan p q) (name : Char) (value : String) (s : σ) :
    sameResult (handleShortFlagValue p name value obs s)
      (handleShortFlagValue q name value obs s) := by
  unfold handleShortFlagValue
  rw [sameScan_shouldComplete h]
  split
  · exact ⟨sameScan_deliver h _ _, rfl⟩
  · exact ⟨sameScan_status h _, rfl⟩

theorem completeLongFlag_sameScan {σ : Type} (obs : parseObserver σ) {p q : parser}
    (h : sameScan p q) (pfx : String) (s : σ) :
    sameResult (completeLongFlag p pfx obs s) (completeLongFlag q pfx obs s) := by
  unfold completeLongFlag
  dsimp only
  split
  · refine ⟨?_, rfl⟩
    apply sameScan_deliver
    split
    · exact h
    · exact h
  · exact ⟨sameScan_deliver (sameScan_prepend h _ _) _ _, rfl⟩

theorem completeShortFlag_sameScan {σ : Type} (obs : parseObserver σ) {p q : parser}
    (h : sameScan p q) (cur : String) (s : σ) :
    sameResult (completeShortFlag p cur obs s) (completeShortFlag q cur obs s) := by
  unfold completeShortFlag
  dsimp only
  refine ⟨?_, rfl⟩
  apply sameScan_deliver
  split
  · exact h
  · exact h

theorem completeAnyFlag_sameScan {σ : Type} (obs : parseObserver σ) {p q : parser}
    (h : sameScan p q) (s : σ) :
    sameResult (completeAnyFlag p obs s) (completeAnyFlag q obs s) := by
  unfold completeAnyFlag
  dsimp only
  have h1 := completeShortFlag_sameScan obs h "-" s
  rw [← h1.2]
  exact completeLongFlag_sameScan obs h1.1 "" _

theorem parseLongFlag_sameScan {σ : Type} (obs : parseObserver σ) {p q : parser}
    (h : sameScan p q) (arg : List Char) (s : σ) :
    sameResult (parseLongFlag p arg obs s) (parseLongFlag q arg obs s) := by
  unfold parseLongFlag
  dsimp only
  rw [sameScan_shouldComplete h, sameScan_hasNext h, sameScan_getNext_fst h]
  split_ifs
  · exact ⟨sameScan_status h _, rfl⟩
  · exact handleLongFlagValue_sameScan obs (sameScan_prepend h _ _) _ _ _
  · exact ⟨sameScan_status h _, rfl⟩
  · exact completeLongFlag_sameScan obs h _ _
  · exact ⟨sameScan_status h _, rfl⟩
  · exact handleLongFlagValue_sameScan obs (sameScan_prepend (sameScan_getNext h) _ _) _ _ _
  · exact ⟨sameScan_status h _, rfl⟩
  · exact ⟨sameScan_status h _, rfl⟩

theorem parseShortFlagLoop_sameScan {σ : Type} (obs : parseObserver σ) (arg : List Char)
    (l : List Char) {p q : parser} (h : sameScan p q) (s : σ) :
    (parseShortFlagLoop obs arg l p s).1 = (parseShortFlagLoop obs arg l q s).1 ∧
      sameResult (parseShortFlagLoop obs arg l p s).2 (parseShortFlagLoop obs arg l q s).2 := by
  induction l generalizing p q s with
  | nil => exact ⟨rfl, h, rfl⟩
  | cons name rest ih =>
    unfold parseShortFlagLoop
    dsimp only
    rw [sameScan_shouldComplete h, sameScan_hasNext h, sameScan_getNext_fst h, h.2.1]
    split_ifs
    · exact ⟨rfl, h, rfl⟩
    · exact ih (sameScan_status h _) _
    · exact ⟨rfl, handleShortFlagValue_sameScan obs h _ _ _⟩
    · exact ⟨rfl, handleShortFlagValue_sameScan obs (sameScan_getNext h) _ _ _⟩
    · exact ⟨rfl, sameScan_final h _ _, rfl⟩
    · exact ⟨rfl, sameScan_status h _, rfl⟩
    · exact ih (sameScan_status h _) _

theorem parseShortFlag_sameScan {σ : Type} (obs : parseObserver σ) {p q : parser}
    (h : sameScan p q) (arg : List Char) (s : σ) :
    sameResult (parseShortFlag p arg obs s) (parseShortFlag q arg obs s) := by
  unfold parseShortFlag
  dsimp only
  obtain ⟨h1, h2, h3⟩ := parseShortFlagLoop_sameScan obs arg arg h s
  rw [h1, sameScan_shouldComplete h2, h2.2.1, ← h3]
  split_ifs
  · exact ⟨h2, h3⟩
  · exact completeShortFlag_sameScan obs h2 _ _
  · exact ⟨h2, h3⟩

theorem escapeLoop_sameScan {σ : Type} (obs : parseObserver σ) (fuel : Nat) {p q : parser}
    (h : sameScan p q) (s : σ) :
    sameResult (escapeLoop obs fuel p s) (escapeLoop obs fuel q s) := by
  induction fuel generalizing p q s with
  | zero => exact ⟨h, rfl⟩
  | succ n ih =>
    unfold escapeLoop
    rw [sameScan_hasNext h, sameScan_getNext_fst h, h.2.1]
    split_ifs
    · exact ih (sameScan_status (sameScan_getNext h) _) _
    · exact ⟨h, rfl⟩

theorem parseToken_sameScan {σ : Type} (obs : parseObserver σ) {p q : parser}
    (h : sameScan p q) (arg : List Char) (s : σ) :
    sameResult (parseToken p arg obs s) (parseToken q arg obs s) := by
  unfold parseToken
  dsimp only
  rw [sameScan_shouldComplete h, sameScan_fuel h]
  split_ifs
  · exact parseLongFlag_sameScan obs h _ _
  · exact completeLongFlag_sameScan obs h _ _
  · exact escapeLoop_sameScan obs _ h _
  · exact parseShortFlag_sameScan obs h _ _
  · exact completeAnyFlag_sameScan obs h _
  · exact ⟨sameScan_status h _, rfl⟩
  · exact completeAnyFlag_sameScan obs h _
  · exact ⟨sameScan_deliver h _ _, rfl⟩
  · exact ⟨sameScan_deliver h _ _, rfl⟩
  · exact ⟨sameScan_status h _, rfl⟩

theorem parseMainLoop_sameScan {σ : Type} (obs : parseObserver σ) (fuel : Nat) {p q : parser}
    (h : sameScan p q) (s : σ) :
    sameResult (parseMainLoop obs fuel p s) (parseMainLoop obs fuel q s) := by
  induction fuel generalizing p q s with
  | zero => exact ⟨h, rfl⟩
  | succ n ih =>
    unfold parseMainLoop
    rw [sameScan_hasNext h, sameScan_getNext_fst h, h.2.1]
    split_ifs
    · have h1 := parseToken_sameScan obs (sameScan_getNext h) q.getNext.1.data s
      rw [h1.2]
      exact ih h1.1 _
    · exact ⟨h, rfl⟩

theorem parseMain_sameScan {σ : Type} (obs : parseObserver σ) {p q : parser}
    (h : sameScan p q) (s : σ) :
    sameResult (parseMain p obs s) (parseMain q obs s) := by
  unfold parseMain
  rw [sameScan_fuel h]
  exact parseMainLoop_sameScan obs _ h s


namespace parser

theorem le_refl (p : parser) : le p p := ⟨rfl, Nat.le_refl _, rfl⟩

theorem le_trans {p q r : parser} (h1 : le p q) (h2 : le q r) : le p r :=
  ⟨h2.1.trans h1.1, Nat.le_trans h1.2.1 h2.2.1, h2.2.2.trans h1.2.2⟩

theorem le_status (p : parser) (b : Bool) : le p (p.status b) := by
  simp [le]

theorem le_deliver (p : parser) (cs : List Completion) : le p (p.deliver cs) := by
  simp [le]

theorem le_getNext (p : parser) : le p p.getNext.2 := by
  simp [le, getNext]

theorem le_prepend (p : parser) (a : String) : le p { p with prependCompletion := a } :=
  ⟨rfl, Nat.le_refl _, rfl⟩

theorem le_final (p : parser) (a : String) : le p (p.FinalCompletion a) :=
  ⟨rfl, Nat.le_refl _, rfl⟩

theorem le_rest_length {p q : parser} (h : le p q) : q.rest.length ≤ p.rest.length := by
  rw [length_rest, length_rest, h.1]
  have := h.2.1
  omega

end parser

theorem handleLongFlagValue_le {σ : Type} (obs : parseObserver σ) (p : parser)
    (name value : String) (s : σ) : le p (handleLongFlagValue p name value obs s).1 := by
  unfold handleLongFlagValue
  split
  · exact le_deliver _ _
  · exact le_status _ _

theorem handleShortFlagValue_le {σ : Type} (obs : parseObserver σ) (p : parser)
    (name : Char) (value : String) (s : σ) : le p (handleShortFlagValue p name value obs s).1 := by
  unfold handleShortFlagValue
  split
  · exact le_deliver _ _
  · exact le_status _ _

theorem completeLongFlag_le {σ : Type} (obs : parseObserver σ) (p : parser) (pfx : String)
    (s : σ) : le p (completeLongFlag p pfx obs s).1 := by
  unfold completeLongFlag
  dsimp only
  split
  · refine le_trans ?_ (le_deliver _ _)
    split
    · exact le_refl p
    · exact le_refl p
  · exact le_trans (le_prepend p _) (le_deliver _ _)

theorem completeShortFlag_le {σ : Type} (obs : parseObserver σ) (p : parser) (cur : String)
    (s : σ) : le p (completeShortFlag p cur obs s).1 := by
  unfold completeShortFlag
  dsimp only
  refine le_trans ?_ (le_deliver _ _)
  split
  · exact le_refl p
  · exact le_refl p

theorem completeAnyFlag_le {σ : Type} (obs : parseObserver σ) (p : parser) (s : σ) :
    le p (completeAnyFlag p obs s).1 := by
  unfold completeAnyFlag
  exact le_trans (completeShortFlag_le obs p "-" s) (completeLongFlag_le obs _ _ _)

theorem parseLongFlag_le {σ : Type} (obs : parseObserver σ) (p : parser) (arg : List Char)
    (s : σ) : le p (parseLongFlag p arg obs s).1 := by
  unfold parseLongFlag
  dsimp only
  split_ifs
  · exact le_status _ _
  · exact le_trans (le_prepend p _) (handleLongFlagValue_le obs _ _ _ _)
  · exact le_status _ _
  · exact completeLongFlag_le obs _ _ _
  · exact le_status _ _
  · exact le_trans (le_trans (le_getNext p) (le_prepend _ _)) (handleLongFlagValue_le obs _ _ _ _)
  · exact le_status _ _
  · exact le_status _ _

theorem parseShortFlagLoop_le {σ : Type} (obs : parseObserver σ) (arg l : List Char)
    (p : parser) (s : σ) : le p (parseShortFlagLoop obs arg l p s).2.1 := by
  induction l generalizing p s with
  | nil => exact le_refl p
  | cons name rest ih =>
    unfold parseShortFlagLoop
    dsimp only
    split_ifs
    · exact le_refl p
    · exact le_trans (le_status p _) (ih _ _)
    · exact handleShortFlagValue_le obs _ _ _ _
    · exact le_trans (le_getNext p) (handleShortFlagValue_le obs _ _ _ _)
    · exact le_final _ _
    · exact le_status _ _
    · exact le_trans (le_status p _) (ih _ _)

theorem parseShortFlag_le {σ : Type} (obs : parseObserver σ) (p : parser) (arg : List Char)
    (s : σ) : le p (parseShortFlag p arg obs s).1 := by
  unfold parseShortFlag
  dsimp only
  split_ifs
  · exact parseShortFlagLoop_le obs _ _ _ _
  · exact le_trans (parseShortFlagLoop_le obs _ _ _ _) (completeShortFlag_le obs _ _ _)
  · exact parseShortFlagLoop_le obs _ _ _ _

theorem escapeLoop_le {σ : Type} (obs : parseObserver σ) (fuel : Nat) (p : parser) (s : σ) :
    le p (escapeLoop obs fuel p s).1 := by
  induction fuel generalizing p s with
  | zero => exact le_refl p
  | succ n ih =>
    unfold escapeLoop
    split_ifs
    · exact le_trans (le_trans (le_getNext p) (le_status _ _)) (ih _ _)
    · exact le_refl p

theorem parseToken_le {σ : Type} (obs : parseObserver σ) (p : parser) (arg : List Char)
    (s : σ) : le p (parseToken p arg obs s).1 := by
  unfold parseToken
  dsimp only
  split_ifs
  · exact parseLongFlag_le obs _ _ _
  · exact completeLongFlag_le obs _ _ _
  · exact escapeLoop_le obs _ _ _
  · exact parseShortFlag_le obs _ _ _
  · exact completeAnyFlag_le obs _ _
  · exact le_status _ _
  · exact completeAnyFlag_le obs _ _
  · exact le_deliver _ _
  · exact le_deliver _ _
  · exact le_status _ _

/-- More fuel than unread tokens changes nothing. -/
theorem parseMainLoop_fuel {σ : Type} (obs : parseObserver σ) (n m : Nat) (p : parser) (s : σ)
    (hn : p.rest.length ≤ n) (hm : p.rest.length ≤ m) :
    parseMainLoop obs n p s = parseMainLoop obs m p s := by
  induction n generalizing m p s with
  | zero =>
    have h0 : p.hasNext = false := hasNext_of_nil (List.length_eq_zero.mp (Nat.le_zero.mp hn))
    cases m with
    | zero => rfl
    | succ m => simp [parseMainLoop, h0]
  | succ n ih =>
    by_cases hc : (p.hasNext && p.parseOK) = true
    · have hne : p.rest ≠ [] := by
        intro h
        simp [hasNext_of_nil h] at hc
      have hpos : 0 < p.rest.length := List.length_pos.mpr hne
      have hlen : p.getNext.2.rest.length + 1 = p.rest.length := by
        rw [getNext_rest, List.length_tail]; omega
      have hle := le_rest_length (parseToken_le obs p.getNext.2 p.getNext.1.data s)
      cases m with
      | zero => omega
      | succ m =>
        simp only [parseMainLoop, hc, if_true]
        exact ih m _ _ (by omega) (by omega)
    · cases m with
      | zero => simp [parseMainLoop, hc]
      | succ m => simp [parseMainLoop, hc]

/-- The loop of `parseMain` stops by its own condition, not for lack of fuel. -/
theorem parseMainLoop_exit {σ : Type} (obs : parseObserver σ) (n : Nat) (p : parser) (s : σ)
    (hn : p.rest.length ≤ n) :
    ((parseMainLoop obs n p s).1.hasNext && (parseMainLoop obs n p s).1.parseOK) = false := by
  induction n generalizing p s with
  | zero =>
    have h0 : p.hasNext = false := hasNext_of_nil (List.length_eq_zero.mp (Nat.le_zero.mp hn))
    simp [parseMainLoop, h0]
  | succ n ih =>
    by_cases hc : (p.hasNext && p.parseOK) = true
    · have hne : p.rest ≠ [] := by
        intro h
        simp [hasNext_of_nil h] at hc
      have hpos : 0 < p.rest.length := List.length_pos.mpr hne
      have hlen : p.getNext.2.rest.length + 1 = p.rest.length := by
        rw [getNext_rest, List.length_tail]; omega
      have hle := le_rest_length (parseToken_le obs p.getNext.2 p.getNext.1.data s)
      simp only [parseMainLoop, hc, if_true]
      exact ih _ _ (by omega)
    · simp only [parseMainLoop, hc]
      simpa using hc

theorem parseMain_exit {σ : Type} (obs : parseObserver σ) (p : parser) (s : σ) :
    ((parseMain p obs s).1.hasNext && (parseMain p obs s).1.parseOK) = false :=
  parseMainLoop_exit obs _ p s (by rw [length_rest])

/-- One iteration of the loop of `parseMain`. -/
theorem parseMain_cons {σ : Type} (obs : parseObserver σ) (p : parser) (s : σ)
    (t : String) (ts : List String) (hr : p.rest = t :: ts) (hok : p.parseOK = true) :
    parseMain p obs s =
      parseMain (parseToken p.getNext.2 t.data obs s).1 obs
        (parseToken p.getNext.2 t.data obs s).2 := by
  have hlen : p.args.length - p.current = ts.length + 1 := by
    rw [← length_rest, hr]; rfl
  have hle := le_rest_length (parseToken_le obs p.getNext.2 t.data s)
  have hts : p.getNext.2.rest.length = ts.length := by rw [getNext_rest, hr]; rfl
  unfold parseMain
  rw [hlen]
  simp only [parseMainLoop, hasNext_of_cons hr, hok, getNext_fst hr, Bool.and_self, if_true]
  exact parseMainLoop_fuel obs _ _ _ _ (by omega) (by rw [length_rest])

/-- The loop does not start without a token or after a failure. -/
theorem parseMain_stop {σ : Type} (obs : parseObserver σ) (p : parser) (s : σ)
    (h : p.rest = [] ∨ p.parseOK = false) : parseMain p obs s = (p, s) := by
  have hc : (p.hasNext && p.parseOK) = false := by
    rcases h with h | h
    · simp [hasNext_of_nil h]
    · simp [h]
  unfold parseMain
  cases p.args.length - p.current with
  | zero => rfl
  | succ n => simp [parseMainLoop, hc]

end cmdline

namespace cmdline
open parser

/-! ## What the observer's state goes through -/

section Respects

variable {σ : Type} {obs : parseObserver σ} {R : σ → σ → Prop} (hR : obs.Respects R)
include hR

theorem handleLongFlagValue_respects (p : parser) (name value : String) (s : σ) :
    R s (handleLongFlagValue p name value obs s).2 := by
  unfold handleLongFlagValue
  split
  · exact hR.completeLongFlagValue _ _ _
  · exact hR.notifyLongFlagValue _ _ _

theorem handleShortFlagValue_respects (p : parser) (name : Char) (value : String) (s : σ) :
    R s (handleShortFlagValue p name value obs s).2 := by
  unfold handleShortFlagValue
  split
  · exact hR.completeShortFlagValue _ _ _
  · exact hR.notifyShortFlagValue _ _ _

theorem completeLongFlag_respects (p : parser) (pfx : String) (s : σ) :
    R s (completeLongFlag p pfx obs s).2 := by
  unfold completeLongFlag
  dsimp only
  split
  · exact hR.trans _ _ _ (hR.acceptingArgs s) (hR.completeLongFlag _ _)
  · exact hR.completeLongFlag _ _

theorem completeShortFlag_respects (p : parser) (cur : String) (s : σ) :
    R s (completeShortFlag p cur obs s).2 := by
  unfold completeShortFlag
  exact hR.completeShortFlag _

theorem completeAnyFlag_respects (p : parser) (s : σ) :
    R s (completeAnyFlag p obs s).2 := by
  unfold completeAnyFlag
  exact hR.trans _ _ _ (completeShortFlag_respects hR p "-" s)
    (completeLongFlag_respects hR _ _ _)

theorem parseLongFlag_respects (p : parser) (arg : List Char) (s : σ) :
    R s (parseLongFlag p arg obs s).2 := by
  unfold parseLongFlag
  dsimp only
  refine hR.trans _ _ _ (hR.longFlagInfo (String.mk (arg.take (scanEquals arg 0).1)) s) ?_
  split_ifs
  · exact hR.Error _ _
  · exact handleLongFlagValue_respects hR _ _ _ _
  · exact hR.Error _ _
  · exact completeLongFlag_respects hR _ _ _
  · exact hR.Error _ _
  · exact handleLongFlagValue_respects hR _ _ _ _
  · exact hR.Error _ _
  · exact hR.notifyLongFlag _ _

theorem parseShortFlagLoop_respects (arg l : List Char) (p : parser) (s : σ) :
    R s (parseShortFlagLoop obs arg l p s).2.2 := by
  induction l generalizing p s with
  | nil => exact hR.refl s
  | cons name rest ih =>
    unfold parseShortFlagLoop
    dsimp only
    split_ifs
    · exact hR.refl s
    · exact hR.trans _ _ _ (hR.trans _ _ _ (hR.shortFlagInfo name s) (hR.Error _ _)) (ih _ _)
    · exact hR.trans _ _ _ (hR.shortFlagInfo name s) (handleShortFlagValue_respects hR _ _ _ _)
    · exact hR.trans _ _ _ (hR.shortFlagInfo name s) (handleShortFlagValue_respects hR _ _ _ _)
    · exact hR.shortFlagInfo name s
    · exact hR.trans _ _ _ (hR.shortFlagInfo name s) (hR.Error _ _)
    · exact hR.trans _ _ _ (hR.trans _ _ _ (hR.shortFlagInfo name s) (hR.notifyShortFlag _ _))
        (ih _ _)

theorem parseShortFlag_respects (p : parser) (arg : List Char) (s : σ) :
    R s (parseShortFlag p arg obs s).2 := by
  unfold parseShortFlag
  dsimp only
  split_ifs
  · exact parseShortFlagLoop_respects hR _ _ _ _
  · exact hR.trans _ _ _ (parseShortFlagLoop_respects hR arg arg p s)
      (completeShortFlag_respects hR _ _ _)
  · exact parseShortFlagLoop_respects hR _ _ _ _

theorem escapeLoop_respects (fuel : Nat) (p : parser) (s : σ) :
    R s (escapeLoop obs fuel p s).2 := by
  induction fuel generalizing p s with
  | zero => exact hR.refl s
  | succ n ih =>
    unfold escapeLoop
    split_ifs
    · exact hR.trans _ _ _ (hR.notifyArg _ _) (ih _ _)
    · exact hR.refl s

theorem parseToken_respects (p : parser) (arg : List Char) (s : σ) :
    R s (parseToken p arg obs s).2 := by
  unfold parseToken
  dsimp only
  split_ifs
  · exact parseLongFlag_respects hR _ _ _
  · exact completeLongFlag_respects hR _ _ _
  · exact escapeLoop_respects hR _ _ _
  · exact parseShortFlag_respects hR _ _ _
  · exact completeAnyFlag_respects hR _ _
  · exact hR.Error _ _
  · exact hR.trans _ _ _ (hR.acceptingArgs s) (completeAnyFlag_respects hR _ _)
  · exact hR.trans _ _ _ (hR.acceptingArgs s) (hR.completeArg _ _)
  · exact hR.completeArg _ _
  · exact hR.notifyArg _ _

theorem parseMainLoop_respects (fuel : Nat) (p : parser) (s : σ) :
    R s (parseMainLoop obs fuel p s).2 := by
  induction fuel generalizing p s with
  | zero => exact hR.refl s
  | succ n ih =>
    unfold parseMainLoop
    split_ifs
    · exact hR.trans _ _ _ (parseToken_respects hR _ _ _) (ih _ _)
    · exact hR.refl s

theorem parseMain_respects (p : parser) (s : σ) : R s (parseMain p obs s).2 :=
  parseMainLoop_respects hR _ p s

end Respects

/-- The scan after `k` iterations of its loop, run to its end, is the scan. -/
theorem parseMain_split {σ : Type} (obs : parseObserver σ) (k : Nat) (p : parser) (s : σ) :
    parseMain (parseMainLoop obs k p s).1 obs (parseMainLoop obs k p s).2 = parseMain p obs s := by
  induction k generalizing p s with
  | zero => rfl
  | succ k ih =>
    by_cases hc : (p.hasNext && p.parseOK) = true
    · simp only [parseMainLoop, hc, if_true]
      rw [ih]
      obtain ⟨t, ts, hr⟩ : ∃ t ts, p.rest = t :: ts := by
        cases h : p.rest with
        | nil => simp [hasNext_of_nil h] at hc
        | cons t ts => exact ⟨t, ts, rfl⟩
      have hok : p.parseOK = true := by
        simp at hc; exact hc.2
      rw [parseMain_cons obs p s t ts hr hok, getNext_fst hr]
    · simp only [parseMainLoop, hc]
      rfl

/-! ## The shapes of a token -/

theorem scanEquals_none (l : List Char) (c : Nat) (h : '=' ∉ l) :
    scanEquals l c = (c + l.length, false) := by
  induction l generalizing c with
  | nil => simp [scanEquals]
  | cons ch rest ih =>
    have h1 : ch ≠ '=' := fun e => h (by simp [e])
    have h2 : '=' ∉ rest := fun e => h (by simp [e])
    rw [scanEquals, if_neg h1, ih (c + 1) h2]
    simp only [List.length_cons, Prod.mk.injEq, and_true]
    omega

theorem scanEquals_first (l r : List Char) (c : Nat) (h : '=' ∉ l) :
    scanEquals (l ++ '=' :: r) c = (c + l.length, true) := by
  induction l generalizing c with
  | nil => simp [scanEquals]
  | cons ch rest ih =>
    have h1 : ch ≠ '=' := fun e => h (by simp [e])
    have h2 : '=' ∉ rest := fun e => h (by simp [e])
    rw [List.cons_append, scanEquals, if_neg h1, ih (c + 1) h2]
    simp only [List.length_cons, Prod.mk.injEq, and_true]
    omega

theorem parseToken_long {σ : Type} (obs : parseObserver σ) (p : parser) (t : String) (s : σ)
    (hne : t ≠ "") : parseToken p ("--" ++ t).data obs s = parseLongFlag p t.data obs s := by
  have hd : t.data ≠ [] := by
    intro h; apply hne; cases t; simp_all
  obtain ⟨c, cs, hcs⟩ := List.exists_cons_of_ne_nil hd
  have h : ("--" ++ t).data = '-' :: '-' :: c :: cs := by
    rw [String.data_append, hcs]; rfl
  rw [h, hcs]
  simp [parseToken]

theorem parseToken_cluster {σ : Type} (obs : parseObserver σ) (p : parser) (cs : List Char)
    (s : σ) (hne : cs ≠ []) (hd : cs.head? ≠ some '-') :
    parseToken p ("-" ++ String.mk cs).data obs s = parseShortFlag p cs obs s := by
  obtain ⟨c, cs', rfl⟩ := List.exists_cons_of_ne_nil hne
  have h : ("-" ++ String.mk (c :: cs')).data = '-' :: c :: cs' := by
    rw [String.data_append]; rfl
  have hc : c ≠ '-' := by simpa using hd
  rw [h]
  simp [parseToken, hc]

theorem parseToken_arg {σ : Type} (obs : parseObserver σ) (p : parser) (v : String) (s : σ)
    (hd : v.data.head? ≠ some '-') (hc : p.shouldComplete = false) :
    parseToken p v.data obs s = (p.status (obs.notifyArg v s).1, (obs.notifyArg v s).2) := by
  simp [parseToken, hd, hc]

theorem parseToken_escape {σ : Type} (obs : parseObserver σ) (p : parser) (s : σ)
    (hc : p.shouldComplete = false) :
    parseToken p "--".data obs s = escapeLoop obs (p.args.length - p.current) p s := by
  have h : "--".data = ['-', '-'] := rfl
  rw [h]
  simp [parseToken, hc]

theorem parseToken_dash {σ : Type} (obs : parseObserver σ) (p : parser) (s : σ)
    (hc : p.shouldComplete = false) :
    parseToken p "-".data obs s = (p.status false, obs.Error "stray dash" s) := by
  have h : "-".data = ['-'] := rfl
  rw [h]
  simp [parseToken, hc]

theorem shouldComplete_of_parsing {p : parser} (h : p.completing = false) :
    p.shouldComplete = false := by
  simp [shouldComplete, h]

end cmdline

namespace cmdline
open parser

/-! ## One token in parse mode -/

theorem handleLongFlagValue_parsing {σ : Type} (obs : parseObserver σ) (p : parser)
    (name value : String) (s : σ) (hc : p.completing = false) :
    handleLongFlagValue p name value obs s =
      (p.status (obs.notifyLongFlagValue name value s).1,
        (obs.notifyLongFlagValue name value s).2) := by
  simp [handleLongFlagValue, shouldComplete_of_parsing hc]

theorem handleShortFlagValue_parsing {σ : Type} (obs : parseObserver σ) (p : parser)
    (name : Char) (value : String) (s : σ) (hc : p.completing = false) :
    handleShortFlagValue p name value obs s =
      (p.status (obs.notifyShortFlagValue name value s).1,
        (obs.notifyShortFlagValue name value s).2) := by
  simp [handleShortFlagValue, shouldComplete_of_parsing hc]

/-- `parseLongFlag` on a name without `=`, in parse mode. -/
theorem parseLongFlag_name {σ : Type} (obs : parseObserver σ) (p : parser) (name : String)
    (s : σ) (hno : '=' ∉ name.data) (hc : p.completing = false) :
    parseLongFlag p name.data obs s =
      if (obs.longFlagInfo name s).1.1 = false then
        (p.status false, obs.Error ("unrecognized flag --" ++ name) (obs.longFlagInfo name s).2)
      else if (obs.longFlagInfo name s).1.2 = true then
        if p.hasNext = true then
          ({ p.getNext.2 with prependCompletion := "" }.status
              (obs.notifyLongFlagValue name p.getNext.1 (obs.longFlagInfo name s).2).1,
            (obs.notifyLongFlagValue name p.getNext.1 (obs.longFlagInfo name s).2).2)
        else
          (p.status false,
            obs.Error ("--" ++ name ++ " requires an argument") (obs.longFlagInfo name s).2)
      else
        (p.status (obs.notifyLongFlag name (obs.longFlagInfo name s).2).1,
          (obs.notifyLongFlag name (obs.longFlagInfo name s).2).2) := by
  have hn : String.mk (List.take name.data.length name.data) = name := by
    rw [List.take_length]
  unfold parseLongFlag
  simp only [scanEquals_none _ 0 hno, Nat.zero_add, hn, shouldComplete_of_parsing hc]
  have hc' : ({ p.getNext.2 with prependCompletion := "" } : parser).completing = false := by
    simpa [getNext] using hc
  rw [handleLongFlagValue_parsing obs _ _ _ _ hc']
  cases h1 : (obs.longFlagInfo name s).1.1 <;> cases h2 : (obs.longFlagInfo name s).1.2 <;>
    simp

/-- `parseLongFlag` on `name=value`, in parse mode. -/
theorem parseLongFlag_assign {σ : Type} (obs : parseObserver σ) (p : parser)
    (name value : String) (s : σ) (hno : '=' ∉ name.data) (hc : p.completing = false) :
    parseLongFlag p (name ++ "=" ++ value).data obs s =
      if (obs.longFlagInfo name s).1.1 = false then
        (p.status false, obs.Error ("unrecognized flag --" ++ name) (obs.longFlagInfo name s).2)
      else if (obs.longFlagInfo name s).1.2 = true then
        ({ p with prependCompletion := "--" ++ (name ++ "=") }.status
            (obs.notifyLongFlagValue name value (obs.longFlagInfo name s).2).1,
          (obs.notifyLongFlagValue name value (obs.longFlagInfo name s).2).2)
      else
        (p.status false,
          obs.Error ("--" ++ name ++ " does not take an argument") (obs.longFlagInfo name s).2) := by
  have hd : (name ++ "=" ++ value).data = name.data ++ '=' :: value.data := by
    simp [String.data_append]
  have hn : String.mk (List.take name.data.length (name.data ++ '=' :: value.data)) = name := by
    simp
  have hv : String.mk (List.drop (name.data.length + 1) (name.data ++ '=' :: value.data))
      = value := by
    rw [show name.data ++ '=' :: value.data = (name.data ++ ['=']) ++ value.data by simp]
    rw [List.drop_left' (by simp)]
  have hp : String.mk (List.take (name.data.length + 1) (name.data ++ '=' :: value.data))
      = name ++ "=" := by
    rw [show name.data ++ '=' :: value.data = (name.data ++ ['=']) ++ value.data by simp]
    rw [List.take_left' (by simp)]
    rfl
  unfold parseLongFlag
  simp only [hd, scanEquals_first _ _ 0 hno, Nat.zero_add, hn, hv, hp]
  have hc' : ({ p with prependCompletion := "--" ++ (name ++ "=") } : parser).completing
      = false := hc
  rw [handleLongFlagValue_parsing obs _ _ _ _ hc']
  cases h1 : (obs.longFlagInfo name s).1.1 <;> cases h2 : (obs.longFlagInfo name s).1.2 <;>
    simp

theorem parseShortFlagLoop_failed {σ : Type} (obs : parseObserver σ) (arg l : List Char)
    (p : parser) (s : σ) (h : p.parseOK = false) :
    parseShortFlagLoop obs arg l p s = (false, p, s) := by
  cases l with
  | nil => rfl
  | cons c l => simp [parseShortFlagLoop, h]

/-- One iteration of the loop of `parseShortFlag`, in parse mode. -/
theorem parseShortFlagLoop_cons {σ : Type} (obs : parseObserver σ) (arg : List Char) (c : Char)
    (l : List Char) (p : parser) (s : σ) (hok : p.parseOK = true) (hc : p.completing = false) :
    parseShortFlagLoop obs arg (c :: l) p s =
      if (obs.shortFlagInfo c s).1.1 = false then
        (false, p.status false,
          obs.Error ("unrecognized flag -" ++ String.singleton c) (obs.shortFlagInfo c s).2)
      else if (obs.shortFlagInfo c s).1.2 = true then
        if l ≠ [] then
          (true, p.status (obs.notifyShortFlagValue c (String.mk l) (obs.shortFlagInfo c s).2).1,
            (obs.notifyShortFlagValue c (String.mk l) (obs.shortFlagInfo c s).2).2)
        else if p.hasNext = true then
          (true,
            p.getNext.2.status
              (obs.notifyShortFlagValue c p.getNext.1 (obs.shortFlagInfo c s).2).1,
            (obs.notifyShortFlagValue c p.getNext.1 (obs.shortFlagInfo c s).2).2)
        else
          (true, p.status false,
            obs.Error ("-" ++ String.singleton c ++ " requires an argument")
              (obs.shortFlagInfo c s).2)
      else if (obs.notifyShortFlag c (obs.shortFlagInfo c s).2).1 = true then
        parseShortFlagLoop obs arg l p (obs.notifyShortFlag c (obs.shortFlagInfo c s).2).2
      else
        (false, p.status false, (obs.notifyShortFlag c (obs.shortFlagInfo c s).2).2) := by
  have hc' : p.getNext.2.completing = false := by simpa [getNext] using hc
  rw [parseShortFlagLoop]
  simp only [hok, handleShortFlagValue_parsing obs _ _ _ _ hc,
    handleShortFlagValue_parsing obs _ _ _ _ hc', shouldComplete_of_parsing hc]
  cases h1 : (obs.shortFlagInfo c s).1.1 <;> cases h2 : (obs.shortFlagInfo c s).1.2 <;>
    simp [parseShortFlagLoop_failed]
  all_goals
    cases h3 : (obs.notifyShortFlag c (obs.shortFlagInfo c s).2).1 <;>
      simp [parseShortFlagLoop_failed]

/-- In parse mode `parseShortFlag` is its loop. -/
theorem parseShortFlag_parsing {σ : Type} (obs : parseObserver σ) (p : parser)
    (arg : List Char) (s : σ) (hc : p.completing = false) :
    parseShortFlag p arg obs s = (parseShortFlagLoop obs arg arg p s).2 := by
  have h := (parseShortFlagLoop_le obs arg arg p s).2.2
  unfold parseShortFlag
  simp [shouldComplete, h, hc]

end cmdline

namespace cmdline
open parser

/-! ## The recording observer -/

@[simp] theorem recording_NumErrors {σ : Type} (obs : parseObserver σ) (st : σ × List Event) :
    (recording obs).NumErrors st = obs.NumErrors st.1 := rfl

@[simp] theorem recording_Error {σ : Type} (obs : parseObserver σ) (m : String)
    (st : σ × List Event) :
    (recording obs).Error m st = (obs.Error m st.1, st.2 ++ [Event.Error m]) := rfl

@[simp] theorem recording_longFlagInfo {σ : Type} (obs : parseObserver σ) (n : String)
    (st : σ × List Event) :
    (recording obs).longFlagInfo n st =
      ((obs.longFlagInfo n st.1).1,
        ((obs.longFlagInfo n st.1).2, st.2 ++ [Event.longFlagInfo n])) := rfl

@[simp] theorem recording_shortFlagInfo {σ : Type} (obs : parseObserver σ) (n : Char)
    (st : σ × List Event) :
    (recording obs).shortFlagInfo n st =
      ((obs.shortFlagInfo n st.1).1,
        ((obs.shortFlagInfo n st.1).2, st.2 ++ [Event.shortFlagInfo n])) := rfl

@[simp] theorem recording_notifyLongFlag {σ : Type} (obs : parseObserver σ) (n : String)
    (st : σ × List Event) :
    (recording obs).notifyLongFlag n st =
      ((obs.notifyLongFlag n st.1).1,
        ((obs.notifyLongFlag n st.1).2, st.2 ++ [Event.notifyLongFlag n])) := rfl

@[simp] theorem recording_notifyLongFlagValue {σ : Type} (obs : parseObserver σ)
    (n v : String) (st : σ × List Event) :
    (recording obs).notifyLongFlagValue n v st =
      ((obs.notifyLongFlagValue n v st.1).1,
        ((obs.notifyLongFlagValue n v st.1).2, st.2 ++ [Event.notifyLongFlagValue n v])) := rfl

@[simp] theorem recording_notifyShortFlag {σ : Type} (obs : parseObserver σ) (n : Char)
    (st : σ × List Event) :
    (recording obs).notifyShortFlag n st =
      ((obs.notifyShortFlag n st.1).1,
        ((obs.notifyShortFlag n st.1).2, st.2 ++ [Event.notifyShortFlag n])) := rfl

@[simp] theorem recording_notifyShortFlagValue {σ : Type} (obs : parseObserver σ) (n : Char)
    (v : String) (st : σ × List Event) :
    (recording obs).notifyShortFlagValue n v st =
      ((obs.notifyShortFlagValue n v st.1).1,
        ((obs.notifyShortFlagValue n v st.1).2, st.2 ++ [Event.notifyShortFlagValue n v])) :=
  rfl

@[simp] theorem recording_notifyArg {σ : Type} (obs : parseObserver σ) (v : String)
    (st : σ × List Event) :
    (recording obs).notifyArg v st =
      ((obs.notifyArg v st.1).1, ((obs.notifyArg v st.1).2, st.2 ++ [Event.notifyArg v])) := rfl

theorem replay_append {σ : Type} (obs : parseObserver σ) (es fs : List Event) (s : σ) :
    replay obs (es ++ fs) s = replay obs fs (replay obs es s) := by
  simp [replay]

/-! ## C1 -/

/-- The loop of `parseShortFlag` on characters that are all flags without a
value whose notifications succeed. -/
theorem parseShortFlagLoop_flags {σ : Type} (obs : parseObserver σ) (Inv : σ → Prop)
    (long : String → Prop) (short : Char → Prop) (h : obs.acceptsFlags Inv long short)
    (arg l : List Char) (hl : ∀ c ∈ l, short c) (p : parser) (s : σ) (log : List Event)
    (h0 : Inv s) (hok : p.parseOK = true) (hc : p.completing = false) :
    parseShortFlagLoop (recording obs) arg l p (s, log) =
        (false, p, (replay obs (flagToken.cluster l).calls s,
          log ++ (flagToken.cluster l).calls)) ∧
      Inv (replay obs (flagToken.cluster l).calls s) := by
  induction l generalizing s log with
  | nil => simpa [parseShortFlagLoop, flagToken.calls, replay] using h0
  | cons c l ih =>
    have hcs : short c := hl c (by simp)
    obtain ⟨hi, hi'⟩ := h.shortInfo c s hcs h0
    obtain ⟨hn, hn'⟩ := h.shortNotify c _ hcs hi'
    have ih' := ih (fun d hd => hl d (by simp [hd])) _
      (log ++ [Event.shortFlagInfo c, Event.notifyShortFlag c]) hn'
    rw [parseShortFlagLoop_cons _ _ _ _ _ _ hok hc]
    simp only [recording_shortFlagInfo, recording_notifyShortFlag, hi, hn]
    simp only [flagToken.calls, List.flatMap_cons, replay, List.foldl_cons, List.foldl_append,
      Event.run, List.foldl_nil] at ih' ⊢
    simpa using ih'

/-- The scan of tokens that are all flags without a value. -/
theorem parseMain_flags {σ : Type} (obs : parseObserver σ) (Inv : σ → Prop)
    (long : String → Prop) (short : Char → Prop) (h : obs.acceptsFlags Inv long short)
    (toks : List flagToken) (hs : ∀ t ∈ toks, t.shaped long short) (p : parser) (s : σ)
    (log : List Event) (h0 : Inv s) (hr : p.rest = toks.map flagToken.text)
    (hok : p.parseOK = true) (hc : p.completing = false) :
    (parseMain p (recording obs) (s, log)).1.parseOK = true ∧
      (parseMain p (recording obs) (s, log)).2 =
        (replay obs (toks.flatMap flagToken.calls) s, log ++ toks.flatMap flagToken.calls) ∧
      Inv (replay obs (toks.flatMap flagToken.calls) s) := by
  induction toks generalizing p s log with
  | nil =>
    rw [parseMain_stop _ _ _ (Or.inl hr)]
    simpa [replay] using ⟨hok, h0⟩
  | cons t toks ih =>
    have hr' : p.rest = t.text :: toks.map flagToken.text := hr
    have hg : p.getNext.2.rest = toks.map flagToken.text := by rw [getNext_rest, hr']; rfl
    have hgok : p.getNext.2.parseOK = true := by simpa [getNext] using hok
    have hgc : p.getNext.2.completing = false := by simpa [getNext] using hc
    rw [parseMain_cons _ _ _ _ _ hr' hok]
    have hst := hs t (by simp)
    have hstep : parseToken p.getNext.2 t.text.data (recording obs) (s, log) =
        (p.getNext.2, (replay obs t.calls s, log ++ t.calls)) ∧ Inv (replay obs t.calls s) := by
      cases t with
      | long name =>
        obtain ⟨hne, hno, hl⟩ := hst
        obtain ⟨hi, hi'⟩ := h.longInfo name s hl h0
        obtain ⟨hn, hn'⟩ := h.longNotify name _ hl hi'
        simp only [flagToken.text]
        rw [parseToken_long _ _ _ _ hne, parseLongFlag_name _ _ _ _ hno hgc]
        simp only [recording_longFlagInfo, recording_notifyLongFlag, hi, hn]
        simpa [flagToken.calls, replay, Event.run] using hn'
      | cluster names =>
        obtain ⟨hne, hd, hl⟩ := hst
        simp only [flagToken.text]
        rw [parseToken_cluster _ _ _ _ hne hd, parseShortFlag_parsing _ _ _ _ hgc]
        obtain ⟨e, hi⟩ := parseShortFlagLoop_flags obs Inv long short h names names hl
          p.getNext.2 s log h0 hgok hgc
        rw [e]
        exact ⟨rfl, hi⟩
    rw [hstep.1]
    have ih' := ih (fun u hu => hs u (by simp [hu])) p.getNext.2 _ (log ++ t.calls)
      hstep.2 hg hgok hgc
    simpa [List.flatMap_cons, replay_append] using ih'

end cmdline

namespace cmdline
open parser

/-! ## The mock observer of the tests -/

theorem makeObserver_ready : (makeObserver (-1)).ready := by
  refine ⟨by decide, rfl, rfl, rfl, rfl⟩

theorem mock_write_ready (o : mockParseObserver) (text : String) (h : o.ready) :
    ((o.write text).injectFault).1 = true ∧ ((o.write text).injectFault).2.ready := by
  obtain ⟨h1, h2, h3, h4, h5⟩ := h
  have hf : (o.write text).failAfter = o.failAfter := by
    simp only [mockParseObserver.write, mockParseObserver.spaceIfNeeded]
    split <;> rfl
  have hw : (o.write text).ready := by
    simp only [mockParseObserver.write, mockParseObserver.spaceIfNeeded]
    split <;> exact ⟨h1, h2, h3, h4, h5⟩
  have hne : ¬ (o.write text).failAfter = 0 := by rw [hf]; omega
  have hnp : ¬ (o.write text).failAfter > 0 := by rw [hf]; omega
  simp only [mockParseObserver.injectFault, hne, hnp, if_false]
  exact ⟨trivial, hw⟩

theorem mock_longFlagInfo_ready (o : mockParseObserver) (n : String) (h : o.ready) :
    (mockParseObserver.observer.longFlagInfo n o).1 =
        (if n = "bar" then (true, true) else if n = "foo" then (true, false)
          else (false, false)) ∧
      (mockParseObserver.observer.longFlagInfo n o).2 = o := by
  obtain ⟨h1, h2, h3, h4, h5⟩ := h
  simp only [mockParseObserver.observer, mockParseObserver.longFlagInfo, h5]
  have e : (makeObserver (-1)).long =
      [("bar", { long := "bar", short := "", hasArg := true }),
        ("foo", { long := "foo", short := "", hasArg := false })] := rfl
  rw [e]
  by_cases hb : n = "bar"
  · subst hb; simp [List.lookup]
  · by_cases hf : n = "foo"
    · subst hf; simp [List.lookup]
    · have hb' : (n == "bar") = false := by simpa using hb
      have hf' : (n == "foo") = false := by simpa using hf
      simp [List.lookup, hb, hf, hb', hf']

theorem mock_shortFlagInfo_ready (o : mockParseObserver) (c : Char) (h : o.ready) :
    (mockParseObserver.observer.shortFlagInfo c o).1 =
        (if c = 'd' ∨ c = 'c' then (true, true) else if c = 'b' ∨ c = 'a' then (true, false)
          else (false, false)) ∧
      (mockParseObserver.observer.shortFlagInfo c o).2 = o := by
  obtain ⟨h1, h2, h3, h4, h5⟩ := h
  simp only [mockParseObserver.observer, mockParseObserver.shortFlagInfo, h4]
  have e : (makeObserver (-1)).short =
      [("d", { long := "", short := "d", hasArg := true }),
        ("c", { long := "", short := "c", hasArg := true }),
        ("b", { long := "", short := "b", hasArg := false }),
        ("a", { long := "", short := "a", hasArg := false })] := rfl
  have hs : ∀ x : Char, (String.singleton c == String.singleton x) = decide (c = x) := by
    intro x
    by_cases hx : c = x
    · simp [hx]
    · have : String.singleton c ≠ String.singleton x := by
        intro hh
        apply hx
        have := congrArg String.data hh
        simpa [String.singleton] using this
      simp [hx, this]
  have hd : "d" = String.singleton 'd' := rfl
  have hc : "c" = String.singleton 'c' := rfl
  have hb : "b" = String.singleton 'b' := rfl
  have ha : "a" = String.singleton 'a' := rfl
  rw [e]
  simp only [List.lookup, hd, hc, hb, ha, hs]
  by_cases xd : c = 'd'
  · simp [xd]
  · by_cases xc : c = 'c'
    · simp [xc]
    · by_cases xb : c = 'b'
      · simp [xb]
      · by_cases xa : c = 'a'
        · simp [xa]
        · simp [xd, xc, xb, xa]

/-- The mock made by `makeObserver(-1)` takes `--foo`, `-a` and `-b` as flags
without a value. -/
theorem mock_acceptsFlags :
    mockParseObserver.observer.acceptsFlags mockParseObserver.ready (fun n => n = "foo")
      (fun c => c = 'a' ∨ c = 'b') where
  noErrors := fun s h => h.2.1
  longInfo := by
    intro n s hn h
    obtain ⟨e1, e2⟩ := mock_longFlagInfo_ready s n h
    subst hn
    rw [e1, e2]
    exact ⟨by simp, h⟩
  longNotify := fun n s _ h => mock_write_ready s _ h
  shortInfo := by
    intro c s hc h
    obtain ⟨e1, e2⟩ := mock_shortFlagInfo_ready s c h
    rw [e1, e2]
    refine ⟨?_, h⟩
    rcases hc with rfl | rfl <;> simp
  shortNotify := fun c s _ h => mock_write_ready s _ h

theorem mock_firesCluster :
    mockParseObserver.observer.firesCluster mockParseObserver.ready ['a'] where
  info := by
    intro c hc s h
    obtain ⟨e1, e2⟩ := mock_shortFlagInfo_ready s c h
    rw [e1, e2]
    simp only [List.mem_singleton] at hc
    subst hc
    exact ⟨by simp, h⟩
  notify := fun c _ s h => mock_write_ready s _ h

end cmdline

namespace cmdline
open parser

/-! ## Runs that go on in the same way -/

theorem parseMain_sameOutcome {σ : Type} (obs : parseObserver σ) (r1 r2 : parser × σ)
    (h : sameOutcome r1 r2) :
    (parseMain r1.1 obs r1.2).1.parseOK = (parseMain r2.1 obs r2.2).1.parseOK ∧
      (parseMain r1.1 obs r1.2).2 = (parseMain r2.1 obs r2.2).2 := by
  obtain ⟨hs, hok, hc, hr⟩ := h
  cases hp : r1.1.parseOK with
  | false =>
    rw [parseMain_stop obs r1.1 r1.2 (Or.inr hp),
      parseMain_stop obs r2.1 r2.2 (Or.inr (by rw [← hok, hp]))]
    exact ⟨hok, hs⟩
  | true =>
    have hss : sameScan r1.1 r2.1 := ⟨hr hp, hok, hc⟩
    have := parseMain_sameScan obs hss r1.2
    rw [← hs]
    exact ⟨this.1.2.1, this.2⟩

/-- The log of the recording observer only grows. -/
theorem recording_respects_log {σ : Type} (obs : parseObserver σ) :
    (recording obs).Respects (fun a b => a.2 <+: b.2) where
  refl := fun _ => List.prefix_refl _
  trans := fun _ _ _ h1 h2 => List.IsPrefix.trans h1 h2
  Error := fun _ _ => List.prefix_append _ _
  longFlagInfo := fun _ _ => List.prefix_append _ _
  shortFlagInfo := fun _ _ => List.prefix_append _ _
  notifyLongFlag := fun _ _ => List.prefix_append _ _
  notifyLongFlagValue := fun _ _ _ => List.prefix_append _ _
  notifyShortFlag := fun _ _ => List.prefix_append _ _
  notifyShortFlagValue := fun _ _ _ => List.prefix_append _ _
  notifyArg := fun _ _ => List.prefix_append _ _
  completeLongFlag := fun _ _ => List.prefix_append _ _
  completeLongFlagValue := fun _ _ _ => List.prefix_append _ _
  completeShortFlag := fun _ => List.prefix_append _ _
  completeShortFlagValue := fun _ _ _ => List.prefix_append _ _
  completeArg := fun _ _ => List.prefix_append _ _
  acceptingArgs := fun _ => List.prefix_append _ _

/-- The two ways of giving a short flag its value, inside the loop of
`parseShortFlag`: attached to the cluster, or as the next token. -/
theorem parseShortFlagLoop_valueForms {σ : Type} (obs : parseObserver σ) (Inv : σ → Prop)
    (P : List Char) (x : Char) (value : String) (hk : obs.knowsCluster Inv P x)
    (hv : value ≠ "") (arg1 arg2 : List Char) (p1 p2 : parser)
    (hok1 : p1.parseOK = true) (hok2 : p2.parseOK = true)
    (hc1 : p1.completing = false) (hc2 : p2.completing = false)
    (hr : p2.rest = value :: p1.rest) (s : σ) (log : List Event) (h0 : Inv s) :
    sameOutcome (parseShortFlagLoop (recording obs) arg1 (P ++ x :: value.data) p1 (s, log)).2
      (parseShortFlagLoop (recording obs) arg2 (P ++ [x]) p2 (s, log)).2 := by
  induction P generalizing s log with
  | nil =>
    have hx := hk.valueInfo s h0
    have hd : value.data ≠ [] := by
      intro h; apply hv; cases value; simp_all
    simp only [List.nil_append]
    rw [parseShortFlagLoop_cons _ _ _ _ _ _ hok1 hc1, parseShortFlagLoop_cons _ _ _ _ _ _ hok2 hc2]
    have hm : String.mk value.data = value := rfl
    simp only [recording_shortFlagInfo, recording_notifyShortFlagValue, hx, hm,
      hasNext_of_cons hr, getNext_fst hr, ne_eq, hd, not_false_eq_true, not_true_eq_false,
      if_true, if_false, Bool.true_eq_false]
    refine ⟨rfl, by simp [hok1, hok2, getNext], by simp [hc1, hc2, getNext], ?_⟩
    intro _
    simp [getNext_rest, hr]
  | cons c P ih =>
    have hk' : obs.knowsCluster Inv P x :=
      ⟨fun d hd => hk.flagInfo d (by simp [hd]), fun d hd => hk.flagNotify d (by simp [hd]),
        hk.valueInfo⟩
    obtain ⟨hi, hi'⟩ := hk.flagInfo c (by simp) s h0
    have hn := hk.flagNotify c (by simp) _ hi'
    simp only [List.cons_append]
    rw [parseShortFlagLoop_cons _ _ _ _ _ _ hok1 hc1, parseShortFlagLoop_cons _ _ _ _ _ _ hok2 hc2]
    simp only [recording_shortFlagInfo, recording_notifyShortFlag, hi]
    cases hb : (obs.notifyShortFlag c (obs.shortFlagInfo c s).2).1 with
    | true => simpa using ih hk' _ _ hn
    | false => simp [sameOutcome, hc1, hc2]


theorem start_rest (args : List String) (c : Bool) : (parser.start args c).rest = args := rfl

/-- The first iteration of `parse`. -/
theorem parse_cons {σ : Type} (obs : parseObserver σ) (t : String) (ts : List String) (s : σ) :
    parse (t :: ts) obs s =
      ((parseMain (parseToken (parser.start (t :: ts) false).getNext.2 t.data obs s).1 obs
            (parseToken (parser.start (t :: ts) false).getNext.2 t.data obs s).2).1.parseOK &&
          decide (obs.NumErrors
            (parseMain (parseToken (parser.start (t :: ts) false).getNext.2 t.data obs s).1 obs
              (parseToken (parser.start (t :: ts) false).getNext.2 t.data obs s).2).2 = 0),
        (parseMain (parseToken (parser.start (t :: ts) false).getNext.2 t.data obs s).1 obs
          (parseToken (parser.start (t :: ts) false).getNext.2 t.data obs s).2).2) := by
  unfold parse
  rw [parseMain_cons obs (parser.start (t :: ts) false) s t ts rfl rfl]

theorem start_getNext_rest (t : String) (ts : List String) (c : Bool) :
    (parser.start (t :: ts) c).getNext.2.rest = ts := by
  rw [getNext_rest]; rfl

theorem start_getNext_parseOK (args : List String) (c : Bool) :
    (parser.start args c).getNext.2.parseOK = true := rfl

theorem start_getNext_completing (args : List String) (c : Bool) :
    (parser.start args c).getNext.2.completing = c := rfl

/-- Two command lines whose first iterations leave the scan in the same
condition have the same `parse`. -/
theorem parse_eq_of_sameOutcome {σ : Type} (obs : parseObserver σ) (t1 t2 : String)
    (ts1 ts2 : List String) (s : σ)
    (h : sameOutcome (parseToken (parser.start (t1 :: ts1) false).getNext.2 t1.data obs s)
      (parseToken (parser.start (t2 :: ts2) false).getNext.2 t2.data obs s)) :
    parse (t1 :: ts1) obs s = parse (t2 :: ts2) obs s := by
  rw [parse_cons, parse_cons]
  obtain ⟨h1, h2⟩ := parseMain_sameOutcome obs _ _ h
  rw [h1, h2]

theorem String.ne_empty_data {t : String} (h : t ≠ "") : t.data ≠ [] := by
  intro e; apply h; cases t; simp_all

theorem parse_valueForms_short {σ : Type} (obs : parseObserver σ) (s : σ) (R : List String)
    (value : String) (Inv : σ → Prop) (P : List Char) (x : Char)
    (hk : obs.knowsCluster Inv P x) (h0 : Inv s) (hv : value ≠ "")
    (hd : (P ++ [x]).head? ≠ some '-') :
    parse (("-" ++ String.mk (P ++ [x]) ++ value) :: R) (recording obs) (s, []) =
      parse (("-" ++ String.mk (P ++ [x])) :: value :: R) (recording obs) (s, []) := by
  have ht : "-" ++ String.mk (P ++ [x]) ++ value = "-" ++ String.mk (P ++ x :: value.data) := by
    apply String.ext
    simp [String.data_append]
  have hd' : (P ++ x :: value.data).head? ≠ some '-' := by
    cases P with
    | nil => simpa using hd
    | cons c P => simpa using hd
  apply parse_eq_of_sameOutcome
  rw [ht, parseToken_cluster _ _ _ _ (by simp) hd', parseToken_cluster _ _ _ _ (by simp) hd,
    parseShortFlag_parsing _ _ _ _ rfl, parseShortFlag_parsing _ _ _ _ rfl]
  exact parseShortFlagLoop_valueForms obs Inv P x value hk hv _ _ _ _ rfl rfl rfl rfl
    (by rw [start_getNext_rest, start_getNext_rest]) s [] h0

theorem parse_valueForms_long {σ : Type} (obs : parseObserver σ) (s : σ) (R : List String)
    (value name : String) (hne : name ≠ "") (hno : '=' ∉ name.data)
    (hi : (obs.longFlagInfo name s).1 = (true, true)) :
    parse (("--" ++ name ++ "=" ++ value) :: R) (recording obs) (s, []) =
        parse (("--" ++ name) :: value :: R) (recording obs) (s, []) ∧
      [Event.longFlagInfo name, Event.notifyLongFlagValue name value] <+:
        (parse (("--" ++ name ++ "=" ++ value) :: R) (recording obs) (s, [])).2.2 := by
  have ht : "--" ++ name ++ "=" ++ value = "--" ++ (name ++ "=" ++ value) := by
    simp [String.append_assoc]
  have hne' : name ++ "=" ++ value ≠ "" := by
    intro e
    have := congrArg String.data e
    simp [String.data_append] at this
  have h1 : parseToken (parser.start (("--" ++ name ++ "=" ++ value) :: R) false).getNext.2
      ("--" ++ name ++ "=" ++ value).data (recording obs) (s, []) =
      ({ (parser.start (("--" ++ name ++ "=" ++ value) :: R) false).getNext.2 with
          prependCompletion := "--" ++ (name ++ "=") }.status
          (obs.notifyLongFlagValue name value (obs.longFlagInfo name s).2).1,
        ((obs.notifyLongFlagValue name value (obs.longFlagInfo name s).2).2,
          [Event.longFlagInfo name, Event.notifyLongFlagValue name value])) := by
    rw [ht, parseToken_long _ _ _ _ hne', parseLongFlag_assign _ _ _ _ _ hno rfl]
    simp [hi]
  have h2 : parseToken (parser.start (("--" ++ name) :: value :: R) false).getNext.2
      ("--" ++ name).data (recording obs) (s, []) =
      ({ (parser.start (("--" ++ name) :: value :: R) false).getNext.2.getNext.2 with
          prependCompletion := "" }.status
          (obs.notifyLongFlagValue name value (obs.longFlagInfo name s).2).1,
        ((obs.notifyLongFlagValue name value (obs.longFlagInfo name s).2).2,
          [Event.longFlagInfo name, Event.notifyLongFlagValue name value])) := by
    have hr : (parser.start (("--" ++ name) :: value :: R) false).getNext.2.rest = value :: R :=
      start_getNext_rest _ _ _
    rw [parseToken_long _ _ _ _ hne, parseLongFlag_name _ _ _ _ hno rfl]
    simp [hi, hasNext_of_cons hr, getNext_fst hr]
  constructor
  · apply parse_eq_of_sameOutcome
    rw [h1, h2]
    refine ⟨rfl, ?_, ?_, ?_⟩
    · simp [getNext, parser.start]
    · simp [getNext, parser.start]
    · intro _
      simp [rest, getNext, parser.start]
  · rw [parse_cons, h1]
    exact parseMain_respects (recording_respects_log obs) _
      ((obs.notifyLongFlagValue name value (obs.longFlagInfo name s).2).2,
        [Event.longFlagInfo name, Event.notifyLongFlagValue name value])

end cmdline

namespace cmdline
open parser

theorem mock_knowsCluster :
    mockParseObserver.observer.knowsCluster mockParseObserver.ready ['a'] 'c' where
  flagInfo := by
    intro c hc s h
    obtain ⟨e1, e2⟩ := mock_shortFlagInfo_ready s c h
    rw [e1, e2]
    simp only [List.mem_singleton] at hc
    subst hc
    exact ⟨by simp, h⟩
  flagNotify := fun c _ s h => (mock_write_ready s _ h).2
  valueInfo := by
    intro s h
    rw [(mock_shortFlagInfo_ready s 'c' h).1]
    simp

/-- The loop after `--`, in parse mode, while the positional notifications
succeed. -/
theorem escapeLoop_args {σ : Type} (obs : parseObserver σ) (Inv : σ → Prop) (R : List String)
    (hArg : ∀ v ∈ R, ∀ s, Inv s → (obs.notifyArg v s).1 = true ∧ Inv (obs.notifyArg v s).2)
    (p : parser) (s : σ) (log : List Event) (h0 : Inv s) (hr : p.rest = R)
    (hok : p.parseOK = true) :
    (escapeLoop (recording obs) R.length p (s, log)).2 =
        (replay obs (R.map Event.notifyArg) s, log ++ R.map Event.notifyArg) ∧
      (escapeLoop (recording obs) R.length p (s, log)).1.rest = [] ∧
      (escapeLoop (recording obs) R.length p (s, log)).1.parseOK = true ∧
      Inv (replay obs (R.map Event.notifyArg) s) := by
  induction R generalizing p s log with
  | nil => simpa [escapeLoop, replay] using ⟨hr, hok, h0⟩
  | cons v R ih =>
    obtain ⟨hn, hn'⟩ := hArg v (by simp) s h0
    have hg : p.getNext.2.rest = R := by rw [getNext_rest, hr]; rfl
    have hgok : p.getNext.2.parseOK = true := by simpa [getNext] using hok
    have ih' := ih (fun u hu => hArg u (by simp [hu])) p.getNext.2 _
      (log ++ [Event.notifyArg v]) hn' hg hgok
    simp only [List.length_cons, escapeLoop, hasNext_of_cons hr, hok, getNext_fst hr,
      Bool.and_self, if_true, recording_notifyArg, hn, status_true]
    simpa [replay, Event.run] using ih'

end cmdline

namespace cmdline
open parser

/-! ## A scan that has reached a token -/

theorem parseMainLoop_le {σ : Type} (obs : parseObserver σ) (fuel : Nat) (p : parser) (s : σ) :
    le p (parseMainLoop obs fuel p s).1 := by
  induction fuel generalizing p s with
  | zero => exact le_refl p
  | succ n ih =>
    unfold parseMainLoop
    split_ifs
    · exact le_trans (le_trans (le_getNext p) (parseToken_le obs _ _ _)) (ih _ _)
    · exact le_refl p

theorem scanned_completing {σ : Type} (obs : parseObserver σ) (toks : List String) (s : σ)
    (k : Nat) : (scanned obs toks s k).1.completing = false :=
  (parseMainLoop_le (recording obs) k (parser.start toks false) (s, [])).2.2

/-- The scan goes on from the token it has reached. -/
theorem parse_scanned {σ : Type} (obs : parseObserver σ) (toks : List String) (s : σ) (k : Nat)
    (tok : String) (R : List String) (hok : (scanned obs toks s k).1.parseOK = true)
    (hr : (scanned obs toks s k).1.rest = tok :: R) :
    parse toks (recording obs) (s, []) =
      ((parseMain (parseToken (scanned obs toks s k).1.getNext.2 tok.data (recording obs)
              (scanned obs toks s k).2).1 (recording obs)
            (parseToken (scanned obs toks s k).1.getNext.2 tok.data (recording obs)
              (scanned obs toks s k).2).2).1.parseOK &&
          decide ((recording obs).NumErrors
            (parseMain (parseToken (scanned obs toks s k).1.getNext.2 tok.data (recording obs)
                (scanned obs toks s k).2).1 (recording obs)
              (parseToken (scanned obs toks s k).1.getNext.2 tok.data (recording obs)
                (scanned obs toks s k).2).2).2 = 0),
        (parseMain (parseToken (scanned obs toks s k).1.getNext.2 tok.data (recording obs)
            (scanned obs toks s k).2).1 (recording obs)
          (parseToken (scanned obs toks s k).1.getNext.2 tok.data (recording obs)
            (scanned obs toks s k).2).2).2) := by
  have e : parseMain (parser.start toks false) (recording obs) (s, []) =
      parseMain (parseToken (scanned obs toks s k).1.getNext.2 tok.data (recording obs)
          (scanned obs toks s k).2).1 (recording obs)
        (parseToken (scanned obs toks s k).1.getNext.2 tok.data (recording obs)
          (scanned obs toks s k).2).2 := by
    rw [← parseMain_split (recording obs) k (parser.start toks false) (s, [])]
    exact parseMain_cons (recording obs) _ _ tok R hr hok
  unfold parse
  rw [e]

/-- A token that makes the scan fail ends it. -/
theorem parse_scanned_failed {σ : Type} (obs : parseObserver σ) (toks : List String) (s : σ)
    (k : Nat) (tok : String) (R : List String) (hok : (scanned obs toks s k).1.parseOK = true)
    (hr : (scanned obs toks s k).1.rest = tok :: R) (p' : parser) (st' : σ × List Event)
    (hstep : parseToken (scanned obs toks s k).1.getNext.2 tok.data (recording obs)
      (scanned obs toks s k).2 = (p', st'))
    (hfail : p'.parseOK = false) :
    parse toks (recording obs) (s, []) = (false, st') := by
  rw [parse_scanned obs toks s k tok R hok hr, hstep, parseMain_stop _ _ _ (Or.inr hfail)]
  simp [hfail]

/-- The loop of `parseShortFlag` over flags without a value whose
notifications succeed, followed by further characters. -/
theorem parseShortFlagLoop_fires {σ : Type} (obs : parseObserver σ) (Inv : σ → Prop)
    (P : List Char) (hf : obs.firesCluster Inv P) (arg l : List Char) (p : parser) (s : σ)
    (log : List Event) (h0 : Inv s) (hok : p.parseOK = true) (hc : p.completing = false) :
    parseShortFlagLoop (recording obs) arg (P ++ l) p (s, log) =
        parseShortFlagLoop (recording obs) arg l p
          (replay obs (flagToken.cluster P).calls s, log ++ (flagToken.cluster P).calls) ∧
      Inv (replay obs (flagToken.cluster P).calls s) := by
  induction P generalizing s log with
  | nil => simpa [flagToken.calls, replay] using h0
  | cons c P ih =>
    obtain ⟨hi, hi'⟩ := hf.info c (by simp) s h0
    obtain ⟨hn, hn'⟩ := hf.notify c (by simp) _ hi'
    have hf' : obs.firesCluster Inv P :=
      ⟨fun d hd => hf.info d (by simp [hd]), fun d hd => hf.notify d (by simp [hd])⟩
    have ih' := ih hf' _ (log ++ [Event.shortFlagInfo c, Event.notifyShortFlag c]) hn'
    rw [List.cons_append, parseShortFlagLoop_cons _ _ _ _ _ _ hok hc]
    simp only [recording_shortFlagInfo, recording_notifyShortFlag, hi, hn]
    simp only [flagToken.calls, List.flatMap_cons, replay, List.foldl_cons, List.foldl_append,
      Event.run, List.foldl_nil] at ih' ⊢
    simpa using ih'

end cmdline

namespace cmdline
open parser

/-! ## Tokens that end the scan with an error -/

theorem parseToken_long_unknown {σ : Type} (obs : parseObserver σ) (p : parser)
    (hc : p.completing = false) (name : String) (hne : name ≠ "") (hno : '=' ∉ name.data)
    (s : σ) (log : List Event) (hi : (obs.longFlagInfo name s).1.1 = false) :
    parseToken p ("--" ++ name).data (recording obs) (s, log) =
      (p.status false,
        (obs.Error ("unrecognized flag --" ++ name) (obs.longFlagInfo name s).2,
          log ++ [Event.longFlagInfo name, Event.Error ("unrecognized flag --" ++ name)])) := by
  rw [parseToken_long _ _ _ _ hne, parseLongFlag_name _ _ _ _ hno hc]
  simp [hi]

theorem parseToken_long_missing {σ : Type} (obs : parseObserver σ) (p : parser)
    (hc : p.completing = false) (hr : p.rest = []) (name : String) (hne : name ≠ "")
    (hno : '=' ∉ name.data) (s : σ) (log : List Event)
    (hi : (obs.longFlagInfo name s).1 = (true, true)) :
    parseToken p ("--" ++ name).data (recording obs) (s, log) =
      (p.status false,
        (obs.Error ("--" ++ name ++ " requires an argument") (obs.longFlagInfo name s).2,
          log ++ [Event.longFlagInfo name,
            Event.Error ("--" ++ name ++ " requires an argument")])) := by
  rw [parseToken_long _ _ _ _ hne, parseLongFlag_name _ _ _ _ hno hc]
  simp [hi, hasNext_of_nil hr]

theorem long_assign_text (name v : String) :
    "--" ++ name ++ "=" ++ v = "--" ++ (name ++ "=" ++ v) ∧ name ++ "=" ++ v ≠ "" := by
  refine ⟨by simp [String.append_assoc], ?_⟩
  intro e
  have := congrArg String.data e
  simp [String.data_append] at this

theorem parseToken_assign_unknown {σ : Type} (obs : parseObserver σ) (p : parser)
    (hc : p.completing = false) (name v : String) (hno : '=' ∉ name.data)
    (s : σ) (log : List Event) (hi : (obs.longFlagInfo name s).1.1 = false) :
    parseToken p ("--" ++ name ++ "=" ++ v).data (recording obs) (s, log) =
      (p.status false,
        (obs.Error ("unrecognized flag --" ++ name) (obs.longFlagInfo name s).2,
          log ++ [Event.longFlagInfo name, Event.Error ("unrecognized flag --" ++ name)])) := by
  rw [(long_assign_text name v).1, parseToken_long _ _ _ _ (long_assign_text name v).2,
    parseLongFlag_assign _ _ _ _ _ hno hc]
  simp [hi]

theorem parseToken_assign_noValue {σ : Type} (obs : parseObserver σ) (p : parser)
    (hc : p.completing = false) (name v : String) (hno : '=' ∉ name.data)
    (s : σ) (log : List Event) (hi : (obs.longFlagInfo name s).1 = (true, false)) :
    parseToken p ("--" ++ name ++ "=" ++ v).data (recording obs) (s, log) =
      (p.status false,
        (obs.Error ("--" ++ name ++ " does not take an argument") (obs.longFlagInfo name s).2,
          log ++ [Event.longFlagInfo name,
            Event.Error ("--" ++ name ++ " does not take an argument")])) := by
  rw [(long_assign_text name v).1, parseToken_long _ _ _ _ (long_assign_text name v).2,
    parseLongFlag_assign _ _ _ _ _ hno hc]
  simp [hi]

theorem parseToken_cluster_unknown {σ : Type} (obs : parseObserver σ) (Inv : σ → Prop)
    (P : List Char) (c : Char) (Q : List Char) (hf : obs.firesCluster Inv P)
    (hu : ∀ st, Inv st → (obs.shortFlagInfo c st).1.1 = false)
    (hd : (P ++ [c]).head? ≠ some '-') (p : parser) (hok : p.parseOK = true)
    (hc : p.completing = false) (s : σ) (log : List Event) (h0 : Inv s) :
    parseToken p ("-" ++ String.mk (P ++ c :: Q)).data (recording obs) (s, log) =
      (p.status false,
        (obs.Error ("unrecognized flag -" ++ String.singleton c)
            (obs.shortFlagInfo c (replay obs (flagToken.cluster P).calls s)).2,
          log ++ (flagToken.cluster P).calls ++
            [Event.shortFlagInfo c,
              Event.Error ("unrecognized flag -" ++ String.singleton c)])) := by
  have hd' : (P ++ c :: Q).head? ≠ some '-' := by
    cases P with
    | nil => simpa using hd
    | cons a P => simpa using hd
  obtain ⟨e, hi⟩ := parseShortFlagLoop_fires obs Inv P hf (P ++ c :: Q) (c :: Q) p s log h0 hok hc
  rw [parseToken_cluster _ _ _ _ (by simp) hd', parseShortFlag_parsing _ _ _ _ hc, e,
    parseShortFlagLoop_cons _ _ _ _ _ _ hok hc]
  simp [hu _ hi]

theorem parseToken_cluster_missing {σ : Type} (obs : parseObserver σ) (Inv : σ → Prop)
    (P : List Char) (x : Char) (hf : obs.firesCluster Inv P)
    (hx : ∀ st, Inv st → (obs.shortFlagInfo x st).1 = (true, true))
    (hd : (P ++ [x]).head? ≠ some '-') (p : parser) (hok : p.parseOK = true)
    (hc : p.completing = false) (hr : p.rest = []) (s : σ) (log : List Event) (h0 : Inv s) :
    parseToken p ("-" ++ String.mk (P ++ [x])).data (recording obs) (s, log) =
      (p.status false,
        (obs.Error ("-" ++ String.singleton x ++ " requires an argument")
            (obs.shortFlagInfo x (replay obs (flagToken.cluster P).calls s)).2,
          log ++ (flagToken.cluster P).calls ++
            [Event.shortFlagInfo x,
              Event.Error ("-" ++ String.singleton x ++ " requires an argument")])) := by
  obtain ⟨e, hi⟩ := parseShortFlagLoop_fires obs Inv P hf (P ++ [x]) [x] p s log h0 hok hc
  rw [parseToken_cluster _ _ _ _ (by simp) hd, parseShortFlag_parsing _ _ _ _ hc, e,
    parseShortFlagLoop_cons _ _ _ _ _ _ hok hc]
  simp [hx _ hi, hasNext_of_nil hr]

theorem scanned_next {σ : Type} (obs : parseObserver σ) (toks : List String) (s : σ) (k : Nat)
    (tok : String) (R : List String) (hok : (scanned obs toks s k).1.parseOK = true)
    (hr : (scanned obs toks s k).1.rest = tok :: R) :
    (scanned obs toks s k).1.getNext.2.parseOK = true ∧
      (scanned obs toks s k).1.getNext.2.completing = false ∧
      (scanned obs toks s k).1.getNext.2.rest = R := by
  refine ⟨by simpa [getNext] using hok, ?_, by rw [getNext_rest, hr]; rfl⟩
  have := scanned_completing obs toks s k
  simpa [getNext] using this

end cmdline

namespace cmdline
open parser

/-! ## A run against the run in which every notification succeeds -/

section CutShort

variable {σ : Type} (obs : parseObserver σ)

theorem cutShort_refl (r : parser × σ × List Event) : cutShort r r := Or.inl rfl

theorem cutShort_status (p : parser) (b : Bool) (st : σ × List Event) :
    cutShort (p.status b, st) (p.status true, st) := by
  cases b with
  | true => exact Or.inl rfl
  | false => exact Or.inr ⟨by simp, List.prefix_refl _⟩

/-- A run that has failed stays cut short when the other run goes on. -/
theorem cutShort_extend {r1 r2 r3 : parser × σ × List Event} (h : cutShort r1 r2)
    (hf : r1.1.parseOK = false) (h3 : r2.2.2 <+: r3.2.2) : cutShort r1 r3 := by
  rcases h with h | h
  · subst h
    exact Or.inr ⟨hf, h3⟩
  · exact Or.inr ⟨hf, List.IsPrefix.trans h.2 h3⟩

theorem handleLongFlagValue_cutShort (p : parser) (name value : String) (st : σ × List Event) :
    cutShort (handleLongFlagValue p name value (recording obs) st)
      (handleLongFlagValue p name value (recording (succeeding obs)) st) := by
  unfold handleLongFlagValue
  split
  · exact Or.inl rfl
  · exact cutShort_status _ _ _

theorem handleShortFlagValue_cutShort (p : parser) (name : Char) (value : String)
    (st : σ × List Event) :
    cutShort (handleShortFlagValue p name value (recording obs) st)
      (handleShortFlagValue p name value (recording (succeeding obs)) st) := by
  unfold handleShortFlagValue
  split
  · exact Or.inl rfl
  · exact cutShort_status _ _ _

theorem completeLongFlag_succeeding (p : parser) (pfx : String) (st : σ × List Event) :
    completeLongFlag p pfx (recording (succeeding obs)) st =
      completeLongFlag p pfx (recording obs) st := rfl

theorem completeShortFlag_succeeding (p : parser) (cur : String) (st : σ × List Event) :
    completeShortFlag p cur (recording (succeeding obs)) st =
      completeShortFlag p cur (recording obs) st := rfl

theorem completeAnyFlag_succeeding (p : parser) (st : σ × List Event) :
    completeAnyFlag p (recording (succeeding obs)) st =
      completeAnyFlag p (recording obs) st := rfl

theorem parseLongFlag_cutShort (p : parser) (arg : List Char) (st : σ × List Event) :
    cutShort (parseLongFlag p arg (recording obs) st)
      (parseLongFlag p arg (recording (succeeding obs)) st) := by
  unfold parseLongFlag
  dsimp only
  have e : ∀ n, (recording (succeeding obs)).longFlagInfo n st =
      (recording obs).longFlagInfo n st := fun _ => rfl
  have e2 : ∀ m (x : σ × List Event), (recording (succeeding obs)).Error m x =
      (recording obs).Error m x := fun _ _ => rfl
  rw [e]
  simp only [e2, completeLongFlag_succeeding]
  split_ifs
  · exact Or.inl rfl
  · exact handleLongFlagValue_cutShort obs _ _ _ _
  · exact Or.inl rfl
  · exact Or.inl rfl
  · exact Or.inl rfl
  · exact handleLongFlagValue_cutShort obs _ _ _ _
  · exact Or.inl rfl
  · exact cutShort_status _ _ _


theorem parseShortFlagLoop_cutShort (arg l : List Char) (p : parser) (st : σ × List Event) :
    (parseShortFlagLoop (recording obs) arg l p st =
        parseShortFlagLoop (recording (succeeding obs)) arg l p st) ∨
      ((parseShortFlagLoop (recording obs) arg l p st).2.1.parseOK = false ∧
        (parseShortFlagLoop (recording obs) arg l p st).2.2.2 <+:
          (parseShortFlagLoop (recording (succeeding obs)) arg l p st).2.2.2) := by
  induction l generalizing p st with
  | nil => exact Or.inl rfl
  | cons name rest ih =>
    have e : (recording (succeeding obs)).shortFlagInfo name st =
        (recording obs).shortFlagInfo name st := rfl
    have e2 : ∀ m (x : σ × List Event), (recording (succeeding obs)).Error m x =
        (recording obs).Error m x := fun _ _ => rfl
    rw [parseShortFlagLoop, parseShortFlagLoop]
    dsimp only
    rw [e]
    simp only [e2]
    split_ifs with h1 h2 h3 h4 h5 h6
    · exact Or.inl rfl
    · exact ih _ _
    · rcases handleShortFlagValue_cutShort obs p name (String.mk rest)
        ((recording obs).shortFlagInfo name st).2 with h | h
      · exact Or.inl (by rw [h])
      · exact Or.inr h
    · rcases handleShortFlagValue_cutShort obs p.getNext.2 name p.getNext.1
        ((recording obs).shortFlagInfo name st).2 with h | h
      · exact Or.inl (by rw [h])
      · exact Or.inr h
    · exact Or.inl rfl
    · exact Or.inl rfl
    · cases hb : (obs.notifyShortFlag name (obs.shortFlagInfo name st.1).2).1 with
      | true =>
        have := ih (p.status true) ((recording obs).notifyShortFlag name
          ((recording obs).shortFlagInfo name st).2).2
        simpa [hb, succeeding] using this
      | false =>
        right
        have hm := parseShortFlagLoop_respects (recording_respects_log (succeeding obs)) arg rest
          (p.status ((recording (succeeding obs)).notifyShortFlag name
            ((recording obs).shortFlagInfo name st).2).1)
          ((recording (succeeding obs)).notifyShortFlag name
            ((recording obs).shortFlagInfo name st).2).2
        rw [parseShortFlagLoop_failed _ _ _ _ _ (by simp [hb])]
        exact ⟨by simp [hb], hm⟩

theorem parseShortFlag_cutShort (p : parser) (arg : List Char) (st : σ × List Event) :
    cutShort (parseShortFlag p arg (recording obs) st)
      (parseShortFlag p arg (recording (succeeding obs)) st) := by
  unfold parseShortFlag
  dsimp only
  rcases parseShortFlagLoop_cutShort obs arg arg p st with h | h
  · rw [h]
    split_ifs
    · exact Or.inl rfl
    · exact Or.inl rfl
    · exact Or.inl rfl
  · have e1 : (if (parseShortFlagLoop (recording obs) arg arg p st).1 = true then
          (parseShortFlagLoop (recording obs) arg arg p st).2
        else if ((parseShortFlagLoop (recording obs) arg arg p st).2.1.parseOK &&
            (parseShortFlagLoop (recording obs) arg arg p st).2.1.shouldComplete) = true then
          completeShortFlag (parseShortFlagLoop (recording obs) arg arg p st).2.1
            ("-" ++ String.mk arg) (recording obs)
            (parseShortFlagLoop (recording obs) arg arg p st).2.2
        else (parseShortFlagLoop (recording obs) arg arg p st).2) =
        (parseShortFlagLoop (recording obs) arg arg p st).2 := by
      simp [h.1]
    rw [e1]
    right
    refine ⟨h.1, List.IsPrefix.trans h.2 ?_⟩
    split_ifs
    · exact List.prefix_refl _
    · exact completeShortFlag_respects (recording_respects_log (succeeding obs)) _ _ _
    · exact List.prefix_refl _

theorem escapeLoop_cutShort (fuel : Nat) (p : parser) (st : σ × List Event) :
    cutShort (escapeLoop (recording obs) fuel p st)
      (escapeLoop (recording (succeeding obs)) fuel p st) := by
  induction fuel generalizing p st with
  | zero => exact Or.inl rfl
  | succ n ih =>
    rw [escapeLoop, escapeLoop]
    split_ifs with h1
    · cases hb : (obs.notifyArg p.getNext.1 st.1).1 with
      | true =>
        have := ih (p.getNext.2.status true) ((recording obs).notifyArg p.getNext.1 st).2
        simpa [hb, succeeding] using this
      | false =>
        right
        have hm := escapeLoop_respects (recording_respects_log (succeeding obs)) n
          (p.getNext.2.status ((recording (succeeding obs)).notifyArg p.getNext.1 st).1)
          ((recording (succeeding obs)).notifyArg p.getNext.1 st).2
        have hf : (p.getNext.2.status ((recording obs).notifyArg p.getNext.1 st).1).parseOK
            = false := by simp [hb]
        have hstop : escapeLoop (recording obs) n
            (p.getNext.2.status ((recording obs).notifyArg p.getNext.1 st).1)
            ((recording obs).notifyArg p.getNext.1 st).2 =
            (p.getNext.2.status ((recording obs).notifyArg p.getNext.1 st).1,
              ((recording obs).notifyArg p.getNext.1 st).2) := by
          cases n with
          | zero => rfl
          | succ m => simp [escapeLoop, hb]
        rw [hstop]
        exact ⟨hf, hm⟩
    · exact Or.inl rfl

theorem parseToken_cutShort (p : parser) (arg : List Char) (st : σ × List Event) :
    cutShort (parseToken p arg (recording obs) st)
      (parseToken p arg (recording (succeeding obs)) st) := by
  unfold parseToken
  dsimp only
  have e : (recording (succeeding obs)).acceptingArgs st = (recording obs).acceptingArgs st :=
    rfl
  have e2 : ∀ m (x : σ × List Event), (recording (succeeding obs)).Error m x =
      (recording obs).Error m x := fun _ _ => rfl
  have e3 : ∀ a (x : σ × List Event), (recording (succeeding obs)).completeArg a x =
      (recording obs).completeArg a x := fun _ _ => rfl
  rw [e]
  simp only [e2, e3, completeLongFlag_succeeding, completeAnyFlag_succeeding]
  split_ifs
  · exact parseLongFlag_cutShort obs _ _ _
  · exact Or.inl rfl
  · exact escapeLoop_cutShort obs _ _ _
  · exact parseShortFlag_cutShort obs _ _ _
  · exact Or.inl rfl
  · exact Or.inl rfl
  · exact Or.inl rfl
  · exact Or.inl rfl
  · exact Or.inl rfl
  · exact cutShort_status _ _ _

theorem parseMainLoop_cutShort (fuel : Nat) (p : parser) (st : σ × List Event) :
    cutShort (parseMainLoop (recording obs) fuel p st)
      (parseMainLoop (recording (succeeding obs)) fuel p st) := by
  induction fuel generalizing p st with
  | zero => exact Or.inl rfl
  | succ n ih =>
    rw [parseMainLoop, parseMainLoop]
    split_ifs with h1
    · rcases parseToken_cutShort obs p.getNext.2 p.getNext.1.data st with h | h
      · rw [h]
        exact ih _ _
      · right
        have hm := parseMainLoop_respects (recording_respects_log (succeeding obs)) n
          (parseToken p.getNext.2 p.getNext.1.data (recording (succeeding obs)) st).1
          (parseToken p.getNext.2 p.getNext.1.data (recording (succeeding obs)) st).2
        have hstop : parseMainLoop (recording obs) n
            (parseToken p.getNext.2 p.getNext.1.data (recording obs) st).1
            (parseToken p.getNext.2 p.getNext.1.data (recording obs) st).2 =
            parseToken p.getNext.2 p.getNext.1.data (recording obs) st := by
          cases n with
          | zero => rfl
          | succ m => simp [parseMainLoop, h.1]
        rw [hstop]
        exact ⟨h.1, List.IsPrefix.trans h.2 hm⟩
    · exact Or.inl rfl

/-- The calls of a run are the first calls of the run in which every
notification succeeds. -/
theorem parse_prefix_succeeding (toks : List String) (s : σ) :
    (parse toks (recording obs) (s, [])).2.2 <+:
      (parse toks (recording (succeeding obs)) (s, [])).2.2 := by
  unfold parse parseMain
  rcases parseMainLoop_cutShort obs ((parser.start toks false).args.length -
    (parser.start toks false).current) (parser.start toks false) (s, []) with h | h
  · rw [h]
  · exact h.2

end CutShort

end cmdline

namespace cmdline
open parser

/-! ## A notification that fails is the last call -/

section Sticky

variable {σ : Type} (obs : parseObserver σ)

theorem clean_append (log : List (Event × Bool)) (e : Event) (h : clean log) :
    clean (log ++ [(e, true)]) := by
  intro x hx
  rcases List.mem_append.mp hx with h1 | h1
  · exact h x h1
  · simp only [List.mem_singleton] at h1
    rw [h1]

theorem sticky_of_clean (p : parser) (log : List (Event × Bool)) (h : clean log) :
    sticky p log :=
  ⟨fun e he => h e (List.mem_of_mem_dropLast he), fun _ => h⟩

theorem sticky_deliver (p : parser) (cs : List Completion) (log : List (Event × Bool))
    (h : clean log) : sticky (p.deliver cs) log := sticky_of_clean _ _ h

theorem sticky_failed (p : parser) (log : List (Event × Bool)) (e : Event × Bool)
    (h : clean log) (hp : p.parseOK = false) : sticky p (log ++ [e]) := by
  refine ⟨?_, ?_⟩
  · rw [List.dropLast_concat]; exact h
  · intro hh; rw [hp] at hh; cases hh

/-- After a call answered `b`, recorded with that answer. -/
theorem sticky_status (p : parser) (b : Bool) (log : List (Event × Bool)) (e : Event)
    (h : clean log) : sticky (p.status b) (log ++ [(e, b)]) := by
  cases b with
  | true => exact sticky_of_clean _ _ (clean_append log e h)
  | false => exact sticky_failed _ _ _ h (by simp)

theorem sticky_error (p : parser) (log : List (Event × Bool)) (e : Event) (h : clean log) :
    sticky (p.status false) (log ++ [(e, true)]) :=
  sticky_of_clean _ _ (clean_append log e h)

theorem handleLongFlagValue_sticky (p : parser) (name value : String)
    (st : σ × List (Event × Bool)) (h : clean st.2) :
    sticky (handleLongFlagValue p name value (watching obs) st).1
      (handleLongFlagValue p name value (watching obs) st).2.2 := by
  unfold handleLongFlagValue
  split
  · exact sticky_deliver _ _ _ (clean_append _ _ h)
  · exact sticky_status _ _ _ _ h

theorem handleShortFlagValue_sticky (p : parser) (name : Char) (value : String)
    (st : σ × List (Event × Bool)) (h : clean st.2) :
    sticky (handleShortFlagValue p name value (watching obs) st).1
      (handleShortFlagValue p name value (watching obs) st).2.2 := by
  unfold handleShortFlagValue
  split
  · exact sticky_deliver _ _ _ (clean_append _ _ h)
  · exact sticky_status _ _ _ _ h

theorem completeLongFlag_clean (p : parser) (pfx : String) (st : σ × List (Event × Bool))
    (h : clean st.2) : clean (completeLongFlag p pfx (watching obs) st).2.2 := by
  unfold completeLongFlag
  dsimp only
  split
  · exact clean_append _ _ (clean_append _ _ h)
  · exact clean_append _ _ h

theorem completeShortFlag_clean (p : parser) (cur : String) (st : σ × List (Event × Bool))
    (h : clean st.2) : clean (completeShortFlag p cur (watching obs) st).2.2 := by
  unfold completeShortFlag
  exact clean_append _ _ h

theorem completeAnyFlag_clean (p : parser) (st : σ × List (Event × Bool)) (h : clean st.2) :
    clean (completeAnyFlag p (watching obs) st).2.2 := by
  unfold completeAnyFlag
  exact completeLongFlag_clean obs _ _ _ (completeShortFlag_clean obs _ _ _ h)

theorem parseLongFlag_sticky (p : parser) (arg : List Char) (st : σ × List (Event × Bool))
    (h : clean st.2) :
    sticky (parseLongFlag p arg (watching obs) st).1
      (parseLongFlag p arg (watching obs) st).2.2 := by
  have h1 : clean ((watching obs).longFlagInfo
      (String.mk (arg.take (scanEquals arg 0).1)) st).2.2 := clean_append _ _ h
  unfold parseLongFlag
  dsimp only
  split_ifs
  · exact sticky_error _ _ _ h1
  · exact handleLongFlagValue_sticky obs _ _ _ _ h1
  · exact sticky_error _ _ _ h1
  · exact sticky_of_clean _ _ (completeLongFlag_clean obs _ _ _ h1)
  · exact sticky_error _ _ _ h1
  · exact handleLongFlagValue_sticky obs _ _ _ _ h1
  · exact sticky_error _ _ _ h1
  · exact sticky_status _ _ _ _ h1

theorem parseShortFlagLoop_sticky (arg l : List Char) (p : parser)
    (st : σ × List (Event × Bool)) (h : sticky p st.2) :
    sticky (parseShortFlagLoop (watching obs) arg l p st).2.1
      (parseShortFlagLoop (watching obs) arg l p st).2.2.2 := by
  induction l generalizing p st with
  | nil => exact h
  | cons name rest ih =>
    rw [parseShortFlagLoop]
    dsimp only
    split_ifs with h0
    · exact h
    · have hok : p.parseOK = true := by simpa using h0
      have h1 : clean ((watching obs).shortFlagInfo name st).2.2 := clean_append _ _ (h.2 hok)
      exact ih _ _ (sticky_error _ _ _ h1)
    · have hok : p.parseOK = true := by simpa using h0
      have h1 : clean ((watching obs).shortFlagInfo name st).2.2 := clean_append _ _ (h.2 hok)
      exact handleShortFlagValue_sticky obs _ _ _ _ h1
    · have hok : p.parseOK = true := by simpa using h0
      have h1 : clean ((watching obs).shortFlagInfo name st).2.2 := clean_append _ _ (h.2 hok)
      exact handleShortFlagValue_sticky obs _ _ _ _ h1
    · have hok : p.parseOK = true := by simpa using h0
      have h1 : clean ((watching obs).shortFlagInfo name st).2.2 := clean_append _ _ (h.2 hok)
      exact sticky_of_clean _ _ h1
    · have hok : p.parseOK = true := by simpa using h0
      have h1 : clean ((watching obs).shortFlagInfo name st).2.2 := clean_append _ _ (h.2 hok)
      exact sticky_error _ _ _ h1
    · have hok : p.parseOK = true := by simpa using h0
      have h1 : clean ((watching obs).shortFlagInfo name st).2.2 := clean_append _ _ (h.2 hok)
      exact ih _ _ (sticky_status _ _ _ _ h1)

theorem parseShortFlag_sticky (p : parser) (arg : List Char) (st : σ × List (Event × Bool))
    (h : sticky p st.2) :
    sticky (parseShortFlag p arg (watching obs) st).1
      (parseShortFlag p arg (watching obs) st).2.2 := by
  have hl := parseShortFlagLoop_sticky obs arg arg p st h
  unfold parseShortFlag
  dsimp only
  split_ifs with h1 h2
  · exact hl
  · have hok : (parseShortFlagLoop (watching obs) arg arg p st).2.1.parseOK = true := by
      simp at h2; exact h2.1
    exact sticky_of_clean _ _ (completeShortFlag_clean obs _ _ _ (hl.2 hok))
  · exact hl

theorem escapeLoop_sticky (fuel : Nat) (p : parser) (st : σ × List (Event × Bool))
    (h : sticky p st.2) :
    sticky (escapeLoop (watching obs) fuel p st).1 (escapeLoop (watching obs) fuel p st).2.2 := by
  induction fuel generalizing p st with
  | zero => exact h
  | succ n ih =>
    rw [escapeLoop]
    split_ifs with h1
    · have hok : p.parseOK = true := by simp at h1; exact h1.2
      exact ih _ _ (sticky_status _ _ _ _ (h.2 hok))
    · exact h

theorem parseToken_sticky (p : parser) (arg : List Char) (st : σ × List (Event × Bool))
    (h : clean st.2) :
    sticky (parseToken p arg (watching obs) st).1 (parseToken p arg (watching obs) st).2.2 := by
  unfold parseToken
  dsimp only
  split_ifs
  · exact parseLongFlag_sticky obs _ _ _ h
  · exact sticky_of_clean _ _ (completeLongFlag_clean obs _ _ _ h)
  · exact escapeLoop_sticky obs _ _ _ (sticky_of_clean _ _ h)
  · exact parseShortFlag_sticky obs _ _ _ (sticky_of_clean _ _ h)
  · exact sticky_of_clean _ _ (completeAnyFlag_clean obs _ _ h)
  · exact sticky_error _ _ _ h
  · exact sticky_of_clean _ _ (completeAnyFlag_clean obs _ _ (clean_append _ _ h))
  · exact sticky_deliver _ _ _ (clean_append _ _ (clean_append _ _ h))
  · exact sticky_deliver _ _ _ (clean_append _ _ h)
  · exact sticky_status _ _ _ _ h

theorem parseMainLoop_sticky (fuel : Nat) (p : parser) (st : σ × List (Event × Bool))
    (h : sticky p st.2) :
    sticky (parseMainLoop (watching obs) fuel p st).1
      (parseMainLoop (watching obs) fuel p st).2.2 := by
  induction fuel generalizing p st with
  | zero => exact h
  | succ n ih =>
    rw [parseMainLoop]
    split_ifs with h1
    · have hok : p.parseOK = true := by simp at h1; exact h1.2
      exact ih _ _ (parseToken_sticky obs _ _ _ (h.2 hok))
    · exact h

/-- In the log of a whole `parse` no call but the last was answered `false`,
and after such a call the verdict is `false`. -/
theorem parse_sticky (toks : List String) (s : σ) :
    clean (parse toks (watching obs) (s, [])).2.2.dropLast ∧
      ((∃ e ∈ (parse toks (watching obs) (s, [])).2.2, e.2 = false) →
        (parse toks (watching obs) (s, [])).1 = false) := by
  have h := parseMainLoop_sticky obs ((parser.start toks false).args.length -
    (parser.start toks false).current) (parser.start toks false) (s, [])
    (sticky_of_clean _ _ (fun e he => by simp at he))
  refine ⟨h.1, ?_⟩
  rintro ⟨e, he, hf⟩
  unfold parse
  dsimp only
  cases hp : (parseMain (parser.start toks false) (watching obs) (s, [])).1.parseOK with
  | false => simp
  | true =>
    have := h.2 hp e he
    rw [hf] at this
    cases this

end Sticky

end cmdline

namespace cmdline
open parser

/-! ## Observers that answer alike -/

section Simulates

variable {σ τ : Type} {obs1 : parseObserver σ} {obs2 : parseObserver τ} {Rel : σ → τ → Prop}
  (hS : obs1.Simulates obs2 Rel)
include hS

theorem handleLongFlagValue_simulates (p : parser) (name value : String) (s : σ) (t : τ)
    (h : Rel s t) :
    (handleLongFlagValue p name value obs1 s).1 = (handleLongFlagValue p name value obs2 t).1 ∧
      Rel (handleLongFlagValue p name value obs1 s).2
        (handleLongFlagValue p name value obs2 t).2 := by
  obtain ⟨a1, a2⟩ := hS.completeLongFlagValue name value s t h
  obtain ⟨b1, b2⟩ := hS.notifyLongFlagValue name value s t h
  unfold handleLongFlagValue
  split
  · exact ⟨by rw [a1], a2⟩
  · exact ⟨by rw [b1], b2⟩

theorem handleShortFlagValue_simulates (p : parser) (name : Char) (value : String) (s : σ)
    (t : τ) (h : Rel s t) :
    (handleShortFlagValue p name value obs1 s).1 =
        (handleShortFlagValue p name value obs2 t).1 ∧
      Rel (handleShortFlagValue p name value obs1 s).2
        (handleShortFlagValue p name value obs2 t).2 := by
  obtain ⟨a1, a2⟩ := hS.completeShortFlagValue name value s t h
  obtain ⟨b1, b2⟩ := hS.notifyShortFlagValue name value s t h
  unfold handleShortFlagValue
  split
  · exact ⟨by rw [a1], a2⟩
  · exact ⟨by rw [b1], b2⟩

theorem completeLongFlag_simulates (p : parser) (pfx : String) (s : σ) (t : τ) (h : Rel s t) :
    (completeLongFlag p pfx obs1 s).1 = (completeLongFlag p pfx obs2 t).1 ∧
      Rel (completeLongFlag p pfx obs1 s).2 (completeLongFlag p pfx obs2 t).2 := by
  obtain ⟨a1, a2⟩ := hS.acceptingArgs s t h
  obtain ⟨b1, b2⟩ := hS.completeLongFlag pfx _ _ a2
  obtain ⟨c1, c2⟩ := hS.completeLongFlag pfx s t h
  unfold completeLongFlag
  dsimp only
  split
  · exact ⟨by rw [a1, b1], b2⟩
  · exact ⟨by rw [c1], c2⟩

theorem completeShortFlag_simulates (p : parser) (cur : String) (s : σ) (t : τ) (h : Rel s t) :
    (completeShortFlag p cur obs1 s).1 = (completeShortFlag p cur obs2 t).1 ∧
      Rel (completeShortFlag p cur obs1 s).2 (completeShortFlag p cur obs2 t).2 := by
  obtain ⟨a1, a2⟩ := hS.completeShortFlag s t h
  unfold completeShortFlag
  dsimp only
  exact ⟨by rw [a1], a2⟩

theorem completeAnyFlag_simulates (p : parser) (s : σ) (t : τ) (h : Rel s t) :
    (completeAnyFlag p obs1 s).1 = (completeAnyFlag p obs2 t).1 ∧
      Rel (completeAnyFlag p obs1 s).2 (completeAnyFlag p obs2 t).2 := by
  obtain ⟨a1, a2⟩ := completeShortFlag_simulates hS p "-" s t h
  unfold completeAnyFlag
  dsimp only
  rw [a1]
  exact completeLongFlag_simulates hS _ _ _ _ a2

theorem parseLongFlag_simulates (p : parser) (arg : List Char) (s : σ) (t : τ) (h : Rel s t) :
    (parseLongFlag p arg obs1 s).1 = (parseLongFlag p arg obs2 t).1 ∧
      Rel (parseLongFlag p arg obs1 s).2 (parseLongFlag p arg obs2 t).2 := by
  obtain ⟨a1, a2⟩ := hS.longFlagInfo (String.mk (arg.take (scanEquals arg 0).1)) s t h
  unfold parseLongFlag
  dsimp only
  rw [a1]
  split_ifs
  · exact ⟨rfl, hS.Error _ _ _ a2⟩
  · exact handleLongFlagValue_simulates hS _ _ _ _ _ a2
  · exact ⟨rfl, hS.Error _ _ _ a2⟩
  · exact completeLongFlag_simulates hS _ _ _ _ a2
  · exact ⟨rfl, hS.Error _ _ _ a2⟩
  · exact handleLongFlagValue_simulates hS _ _ _ _ _ a2
  · exact ⟨rfl, hS.Error _ _ _ a2⟩
  · obtain ⟨b1, b2⟩ := hS.notifyLongFlag (String.mk (arg.take (scanEquals arg 0).1)) _ _ a2
    exact ⟨by rw [b1], b2⟩

theorem parseShortFlagLoop_simulates (arg l : List Char) (p : parser) (s : σ) (t : τ)
    (h : Rel s t) :
    (parseShortFlagLoop obs1 arg l p s).1 = (parseShortFlagLoop obs2 arg l p t).1 ∧
      (parseShortFlagLoop obs1 arg l p s).2.1 = (parseShortFlagLoop obs2 arg l p t).2.1 ∧
      Rel (parseShortFlagLoop obs1 arg l p s).2.2 (parseShortFlagLoop obs2 arg l p t).2.2 := by
  induction l generalizing p s t with
  | nil => exact ⟨rfl, rfl, h⟩
  | cons name rest ih =>
    obtain ⟨a1, a2⟩ := hS.shortFlagInfo name s t h
    rw [parseShortFlagLoop, parseShortFlagLoop]
    dsimp only
    rw [a1]
    split_ifs
    · exact ⟨rfl, rfl, h⟩
    · exact ih _ _ _ (hS.Error _ _ _ a2)
    · exact ⟨rfl, handleShortFlagValue_simulates hS _ _ _ _ _ a2⟩
    · exact ⟨rfl, handleShortFlagValue_simulates hS _ _ _ _ _ a2⟩
    · exact ⟨rfl, rfl, a2⟩
    · exact ⟨rfl, rfl, hS.Error _ _ _ a2⟩
    · obtain ⟨b1, b2⟩ := hS.notifyShortFlag name _ _ a2
      rw [b1]
      exact ih _ _ _ b2

theorem parseShortFlag_simulates (p : parser) (arg : List Char) (s : σ) (t : τ) (h : Rel s t) :
    (parseShortFlag p arg obs1 s).1 = (parseShortFlag p arg obs2 t).1 ∧
      Rel (parseShortFlag p arg obs1 s).2 (parseShortFlag p arg obs2 t).2 := by
  obtain ⟨a1, a2, a3⟩ := parseShortFlagLoop_simulates hS arg arg p s t h
  unfold parseShortFlag
  dsimp only
  rw [a1, a2]
  split_ifs
  · exact ⟨a2, a3⟩
  · exact completeShortFlag_simulates hS _ _ _ _ a3
  · exact ⟨a2, a3⟩

theorem escapeLoop_simulates (fuel : Nat) (p : parser) (s : σ) (t : τ) (h : Rel s t) :
    (escapeLoop obs1 fuel p s).1 = (escapeLoop obs2 fuel p t).1 ∧
      Rel (escapeLoop obs1 fuel p s).2 (escapeLoop obs2 fuel p t).2 := by
  induction fuel generalizing p s t with
  | zero => exact ⟨rfl, h⟩
  | succ n ih =>
    obtain ⟨a1, a2⟩ := hS.notifyArg p.getNext.1 s t h
    rw [escapeLoop, escapeLoop]
    split_ifs
    · rw [a1]
      exact ih _ _ _ a2
    · exact ⟨rfl, h⟩

theorem parseToken_simulates (p : parser) (arg : List Char) (s : σ) (t : τ) (h : Rel s t) :
    (parseToken p arg obs1 s).1 = (parseToken p arg obs2 t).1 ∧
      Rel (parseToken p arg obs1 s).2 (parseToken p arg obs2 t).2 := by
  obtain ⟨a1, a2⟩ := hS.acceptingArgs s t h
  unfold parseToken
  dsimp only
  rw [a1]
  split_ifs
  · exact parseLongFlag_simulates hS _ _ _ _ h
  · exact completeLongFlag_simulates hS _ _ _ _ h
  · exact escapeLoop_simulates hS _ _ _ _ h
  · exact parseShortFlag_simulates hS _ _ _ _ h
  · exact completeAnyFlag_simulates hS _ _ _ h
  · exact ⟨rfl, hS.Error _ _ _ h⟩
  · exact completeAnyFlag_simulates hS _ _ _ a2
  · obtain ⟨b1, b2⟩ := hS.completeArg (String.mk arg) _ _ a2
    exact ⟨by rw [b1], b2⟩
  · obtain ⟨b1, b2⟩ := hS.completeArg (String.mk arg) _ _ h
    exact ⟨by rw [b1], b2⟩
  · obtain ⟨b1, b2⟩ := hS.notifyArg (String.mk arg) _ _ h
    exact ⟨by rw [b1], b2⟩

theorem parseMainLoop_simulates (fuel : Nat) (p : parser) (s : σ) (t : τ) (h : Rel s t) :
    (parseMainLoop obs1 fuel p s).1 = (parseMainLoop obs2 fuel p t).1 ∧
      Rel (parseMainLoop obs1 fuel p s).2 (parseMainLoop obs2 fuel p t).2 := by
  induction fuel generalizing p s t with
  | zero => exact ⟨rfl, h⟩
  | succ n ih =>
    obtain ⟨a1, a2⟩ := parseToken_simulates hS p.getNext.2 p.getNext.1.data s t h
    rw [parseMainLoop, parseMainLoop]
    split_ifs
    · rw [a1]
      exact ih _ _ _ a2
    · exact ⟨rfl, h⟩

theorem parseMain_simulates (p : parser) (s : σ) (t : τ) (h : Rel s t) :
    (parseMain p obs1 s).1 = (parseMain p obs2 t).1 ∧
      Rel (parseMain p obs1 s).2 (parseMain p obs2 t).2 :=
  parseMainLoop_simulates hS _ p s t h

/-- Observers that answer alike give the same verdict. -/
theorem parse_simulates (toks : List String) (s : σ) (t : τ) (h : Rel s t) :
    (parse toks obs1 s).1 = (parse toks obs2 t).1 ∧
      Rel (parse toks obs1 s).2 (parse toks obs2 t).2 := by
  obtain ⟨a1, a2⟩ := parseMain_simulates hS (parser.start toks false) s t h
  unfold parse
  dsimp only
  rw [a1, hS.NumErrors _ _ a2]
  exact ⟨rfl, a2⟩

/-- Observers that answer alike are offered the same completions. -/
theorem complete_simulates (toks : List String) (s : σ) (t : τ) (h : Rel s t) :
    (complete toks obs1 s).1 = (complete toks obs2 t).1 ∧
      Rel (complete toks obs1 s).2 (complete toks obs2 t).2 := by
  obtain ⟨a1, a2⟩ := parseMain_simulates hS (parser.start toks true) s t h
  unfold complete
  dsimp only
  rw [a1]
  exact ⟨rfl, a2⟩

end Simulates

/-- The log with answers is the log of calls, answers dropped; the observer
under it goes through the same states. -/
theorem watching_simulates_recording {σ : Type} (obs : parseObserver σ) :
    (watching obs).Simulates (recording obs)
      (fun a b => a.1 = b.1 ∧ a.2.map Prod.fst = b.2) := by
  constructor <;> intros <;> rename_i h <;> obtain ⟨h1, h2⟩ := h <;>
    simp [watching, recording, h1, h2]

/-- The recording observer answers as the observer it records. -/
theorem recording_simulates {σ : Type} (obs : parseObserver σ) :
    (recording obs).Simulates obs (fun a b => a.1 = b) := by
  constructor <;> intros <;> rename_i h <;> simp [recording, h]

end cmdline

namespace cmdline
open parser

/-! ## The App as an observer -/

namespace App

variable {ω : Type}

/-- The positional slots of an App and its cursor. -/
theorem Error_slots (m : String) (app : App ω) :
    (app.Error m).requiredArguments = app.requiredArguments ∧
      (app.Error m).excessArguments = app.excessArguments ∧
      (app.Error m).currentArgument = app.currentArgument := ⟨rfl, rfl, rfl⟩

theorem foldl_Error_slots (ms : List String) (app : App ω) :
    (ms.foldl (fun a m => a.Error m) app).requiredArguments = app.requiredArguments ∧
      (ms.foldl (fun a m => a.Error m) app).excessArguments = app.excessArguments ∧
      (ms.foldl (fun a m => a.Error m) app).currentArgument = app.currentArgument := by
  induction ms generalizing app with
  | nil => exact ⟨rfl, rfl, rfl⟩
  | cons m ms ih =>
    obtain ⟨h1, h2, h3⟩ := ih (app.Error m)
    exact ⟨h1, h2, h3⟩

theorem notifyHandler_slots (h : ValueHandler ω) (text : String) (app : App ω) :
    (notifyHandler h text app).2.requiredArguments = app.requiredArguments ∧
      (notifyHandler h text app).2.excessArguments = app.excessArguments ∧
      (notifyHandler h text app).2.currentArgument = app.currentArgument := by
  unfold notifyHandler
  exact foldl_Error_slots _ _

theorem useAndCall_slots (app : App ω) (entry : Option Nat) (r : Bool × App ω)
    (h : app.useAndCall entry = some r) :
    r.2.requiredArguments = app.requiredArguments ∧
      r.2.excessArguments = app.excessArguments ∧
      r.2.currentArgument = app.currentArgument := by
  unfold useAndCall at h
  split at h
  · cases h
  · split at h
    · cases h
    · cases h
      exact ⟨rfl, rfl, rfl⟩

theorem useAndNotify_slots (app : App ω) (entry : Option Nat) (value : String)
    (r : Bool × App ω) (h : app.useAndNotify entry value = some r) :
    r.2.requiredArguments = app.requiredArguments ∧
      r.2.excessArguments = app.excessArguments ∧
      r.2.currentArgument = app.currentArgument := by
  unfold useAndNotify at h
  split at h
  · cases h
  · split at h
    · cases h
    · cases h
      exact notifyHandler_slots _ _ _

/-- What `notifyArg` does to the slots and the cursor. -/
theorem notifyArg_slots (value : String) (app : App ω) (r : Bool × App ω)
    (h : app.notifyArg value = some r) :
    r.2.requiredArguments = app.requiredArguments ∧
      r.2.excessArguments = app.excessArguments ∧
      r.2.currentArgument =
        (if app.currentArgument < app.requiredArguments.length then app.currentArgument + 1
          else app.currentArgument) := by
  unfold notifyArg at h
  split at h
  next hlt =>
    rw [if_pos hlt]
    split at h
    · cases h
    · split at h
      · cases h
      · cases h
        exact notifyHandler_slots _ _ _
  next hge =>
    rw [if_neg hge]
    split at h
    · split at h
      · cases h
      · cases h
        exact notifyHandler_slots _ _ _
    · cases h
      exact ⟨rfl, rfl, rfl⟩

theorem step_some {α : Type} (dflt : α) (m : App ω → Option (α × App ω)) (app app' : App ω)
    (h : (step dflt m (some app)).2 = some app') : ∃ r, m app = some r ∧ r.2 = app' := by
  cases hm : m app with
  | none => simp [step, hm] at h
  | some r =>
    simp only [step, hm, Option.some.injEq] at h
    exact ⟨r, rfl, h⟩

/-- One call on the App as an observer: the slots are kept, and the cursor
moves, by one, only for a positional notification while a required slot is
free. -/
theorem run_slots (e : Event) (app app' : App ω)
    (h : e.run App.observer (some app) = some app') :
    app'.requiredArguments = app.requiredArguments ∧
      app'.excessArguments = app.excessArguments ∧
      app'.currentArgument =
        app.currentArgument +
          (if countArgs [e] = 1 ∧ app.currentArgument < app.requiredArguments.length then 1
            else 0) := by
  cases e with
  | Error m =>
    simp only [Event.run, observer, Option.map_some', Option.some.injEq] at h
    subst h
    simp [countArgs, Error]
  | notifyArg v =>
    obtain ⟨r, hm, hr⟩ := step_some false (notifyArg v) app app' h
    obtain ⟨h1, h2, h3⟩ := notifyArg_slots v app r hm
    subst hr
    refine ⟨h1, h2, ?_⟩
    rw [h3]
    have hcnt : countArgs [Event.notifyArg v] = 1 := rfl
    rw [hcnt]
    by_cases hlt : app.currentArgument < app.requiredArguments.length
    · simp [hlt]
    · simp [hlt]
  | notifyLongFlag n =>
    obtain ⟨r, hm, hr⟩ := step_some false (notifyLongFlag n) app app' h
    obtain ⟨h1, h2, h3⟩ := useAndCall_slots app _ r hm
    subst hr
    exact ⟨h1, h2, by simpa [countArgs] using h3⟩
  | notifyShortFlag n =>
    obtain ⟨r, hm, hr⟩ := step_some false (notifyShortFlag n) app app' h
    obtain ⟨h1, h2, h3⟩ := useAndCall_slots app _ r hm
    subst hr
    exact ⟨h1, h2, by simpa [countArgs] using h3⟩
  | notifyLongFlagValue n v =>
    obtain ⟨r, hm, hr⟩ := step_some false (notifyLongFlagValue n v) app app' h
    obtain ⟨h1, h2, h3⟩ := useAndNotify_slots app _ _ r hm
    subst hr
    exact ⟨h1, h2, by simpa [countArgs] using h3⟩
  | notifyShortFlagValue n v =>
    obtain ⟨r, hm, hr⟩ := step_some false (notifyShortFlagValue n v) app app' h
    obtain ⟨h1, h2, h3⟩ := useAndNotify_slots app _ _ r hm
    subst hr
    exact ⟨h1, h2, by simpa [countArgs] using h3⟩
  | longFlagInfo n =>
    obtain ⟨r, hm, hr⟩ := step_some (false, false)
      (fun app => some (app.longFlagInfo n, app)) app app' h
    cases hm; subst hr
    simp [countArgs]
  | shortFlagInfo n =>
    obtain ⟨r, hm, hr⟩ := step_some (false, false)
      (fun app => some (app.shortFlagInfo n, app)) app app' h
    cases hm; subst hr
    simp [countArgs]
  | completeLongFlag x =>
    obtain ⟨r, hm, hr⟩ := step_some []
      (fun app => some (app.completeLongFlag x, app)) app app' h
    cases hm; subst hr
    simp [countArgs]
  | completeShortFlag =>
    obtain ⟨r, hm, hr⟩ := step_some []
      (fun app => some (app.completeShortFlag, app)) app app' h
    cases hm; subst hr
    simp [countArgs]
  | acceptingArgs =>
    obtain ⟨r, hm, hr⟩ := step_some false
      (fun app => some (app.acceptingArgs, app)) app app' h
    cases hm; subst hr
    simp [countArgs]
  | completeLongFlagValue n v =>
    obtain ⟨r, hm, hr⟩ := step_some []
      (fun app => (app.completeLongFlagValue n v).map (fun c => (c, app))) app app' h
    cases hc : app.completeLongFlagValue n v with
    | none => simp [hc] at hm
    | some c =>
      simp only [hc, Option.map_some', Option.some.injEq] at hm
      subst hm; subst hr
      simp [countArgs]
  | completeShortFlagValue n v =>
    obtain ⟨r, hm, hr⟩ := step_some []
      (fun app => (app.completeShortFlagValue n v).map (fun c => (c, app))) app app' h
    cases hc : app.completeShortFlagValue n v with
    | none => simp [hc] at hm
    | some c =>
      simp only [hc, Option.map_some', Option.some.injEq] at hm
      subst hm; subst hr
      simp [countArgs]
  | completeArg x =>
    obtain ⟨r, hm, hr⟩ := step_some []
      (fun app => (app.completeArg x).map (fun c => (c, app))) app app' h
    cases hc : app.completeArg x with
    | none => simp [hc] at hm
    | some c =>
      simp only [hc, Option.map_some', Option.some.injEq] at hm
      subst hm; subst hr
      simp [countArgs]

/-- A program that has panicked stays so. -/
theorem run_none (e : Event) : e.run (App.observer (ω := ω)) none = none := by
  cases e <;> rfl

theorem replay_none (es : List Event) : replay (App.observer (ω := ω)) es none = none := by
  induction es with
  | nil => rfl
  | cons e es ih =>
    simp only [replay, List.foldl_cons, run_none] at ih ⊢
    exact ih

theorem countArgs_cons (e : Event) (es : List Event) :
    countArgs (e :: es) = countArgs [e] + countArgs es := by
  simp only [countArgs, List.filter_cons, List.filter_nil]
  split
  · simp only [List.length_cons, List.length_nil]
    omega
  · simp

theorem countArgs_le_one (e : Event) : countArgs [e] = 0 ∨ countArgs [e] = 1 := by
  simp only [countArgs, List.filter_cons, List.filter_nil]
  split <;> simp

/-- After any calls on the App as an observer the slots are the same and the
cursor has moved by the number of positional notifications, up to the number
of required slots. -/
theorem replay_slots (es : List Event) (app app' : App ω)
    (hc : app.currentArgument ≤ app.requiredArguments.length)
    (h : replay App.observer es (some app) = some app') :
    app'.requiredArguments = app.requiredArguments ∧
      app'.excessArguments = app.excessArguments ∧
      app'.currentArgument =
        min (app.currentArgument + countArgs es) app.requiredArguments.length := by
  induction es generalizing app with
  | nil =>
    simp only [replay, List.foldl_nil, Option.some.injEq] at h
    subst h
    simp [countArgs, hc]
  | cons e es ih =>
    have h' : replay App.observer es (e.run App.observer (some app)) = some app' := h
    cases hm : e.run App.observer (some app) with
    | none => rw [hm, replay_none] at h'; cases h'
    | some mid =>
      rw [hm] at h'
      obtain ⟨a1, a2, a3⟩ := run_slots e app mid hm
      have hc' : mid.currentArgument ≤ mid.requiredArguments.length := by
        rw [a1, a3]; split <;> omega
      obtain ⟨b1, b2, b3⟩ := ih mid hc' h'
      refine ⟨b1.trans a1, b2.trans a2, ?_⟩
      rw [b3, a1, countArgs_cons]
      have hd : mid.currentArgument = app.currentArgument ∧ countArgs [e] = 0 ∨
          mid.currentArgument = app.currentArgument + 1 ∧ countArgs [e] = 1 ∧
            app.currentArgument < app.requiredArguments.length ∨
          mid.currentArgument = app.currentArgument ∧ countArgs [e] = 1 ∧
            app.requiredArguments.length ≤ app.currentArgument := by
        rcases countArgs_le_one e with h0 | h1
        · left
          rw [a3, h0]
          simp
        · by_cases hlt : app.currentArgument < app.requiredArguments.length
          · right; left
            rw [a3]
            simp [h1, hlt]
          · right; right
            rw [a3]
            simp only [h1, hlt, and_false, if_false, Nat.add_zero, true_and]
            omega
      simp only [Nat.min_def]
      split_ifs <;> omega

end App


/-- The state under the recording observer is the state its log leads to. -/
theorem recording_respects_replay {σ : Type} (obs : parseObserver σ) (s0 : σ) :
    (recording obs).Respects
      (fun a b => a.1 = replay obs a.2 s0 → b.1 = replay obs b.2 s0) := by
  constructor
  · exact fun _ h => h
  · exact fun _ _ _ h1 h2 h => h2 (h1 h)
  all_goals
    intros
    rename_i h
    simp only [recording, replay_append, ← h]
    rfl

theorem parse_recording_replay {σ : Type} (obs : parseObserver σ) (toks : List String)
    (s0 : σ) :
    (parse toks (recording obs) (s0, [])).2.1 =
      replay obs (parse toks (recording obs) (s0, [])).2.2 s0 :=
  parseMain_respects (recording_respects_replay obs s0) (parser.start toks false) (s0, []) rfl

end cmdline

namespace cmdline
open parser

/-! ## A positional token that no slot takes -/

theorem parseMainLoop_step {σ : Type} (obs : parseObserver σ) (n : Nat) (p : parser) (s : σ)
    (hc : (p.hasNext && p.parseOK) = true) :
    parseMainLoop obs (n + 1) p s =
      parseMainLoop obs n (parseToken p.getNext.2 p.getNext.1.data obs s).1
        (parseToken p.getNext.2 p.getNext.1.data obs s).2 := by
  rw [parseMainLoop, if_pos hc]

theorem parseMainLoop_halt {σ : Type} (obs : parseObserver σ) (n : Nat) (p : parser) (s : σ)
    (hc : ¬ (p.hasNext && p.parseOK) = true) : parseMainLoop obs n p s = (p, s) := by
  cases n with
  | zero => rfl
  | succ n => rw [parseMainLoop, if_neg hc]

/-- One more iteration of the loop of `parseMain`. -/
theorem parseMainLoop_succ {σ : Type} (obs : parseObserver σ) (k : Nat) (p : parser) (s : σ) :
    parseMainLoop obs (k + 1) p s =
      parseMainLoop obs 1 (parseMainLoop obs k p s).1 (parseMainLoop obs k p s).2 := by
  induction k generalizing p s with
  | zero => rfl
  | succ k ih =>
    by_cases hc : (p.hasNext && p.parseOK) = true
    · rw [parseMainLoop_step obs (k + 1) p s hc, ih, parseMainLoop_step obs k p s hc]
    · rw [parseMainLoop_halt obs _ p s hc, parseMainLoop_halt obs _ p s hc,
        parseMainLoop_halt obs _ p s hc]

namespace App

variable {ω : Type}

/-- `notifyArg` when every required slot is filled and there is no excess
slot. -/
theorem notifyArg_extra (app : App ω) (v : String)
    (hfull : app.requiredArguments.length ≤ app.currentArgument)
    (hex : app.excessArguments = none) :
    app.notifyArg v = some (true, app.Error ("Extra argument: " ++ v)) := by
  unfold notifyArg
  rw [if_neg (by omega), hex]

theorem parseToken_extra (app : App ω) (p : parser) (v : String) (log : List Event)
    (hc : p.completing = false) (hv : v.data.head? ≠ some '-')
    (hfull : app.requiredArguments.length ≤ app.currentArgument)
    (hex : app.excessArguments = none) :
    parseToken p v.data (recording App.observer) (some app, log) =
      (p, (some (app.Error ("Extra argument: " ++ v)), log ++ [Event.notifyArg v])) := by
  rw [parseToken_arg _ _ _ _ hv (shouldComplete_of_parsing hc)]
  simp [recording, observer, step, notifyArg_extra app v hfull hex]

/-- The scan of positional tokens that no slot takes: each records its error
and the scan goes on. -/
theorem parseMain_extra (R : List String) (app : App ω) (p : parser) (log : List Event)
    (hok : p.parseOK = true) (hc : p.completing = false) (hr : p.rest = R)
    (hR : ∀ u ∈ R, u.data.head? ≠ some '-')
    (hfull : app.requiredArguments.length ≤ app.currentArgument)
    (hex : app.excessArguments = none) :
    (parseMain p (recording App.observer) (some app, log)).1.parseOK = true ∧
      (parseMain p (recording App.observer) (some app, log)).2 =
        (some (R.foldl (fun a u => a.Error ("Extra argument: " ++ u)) app),
          log ++ R.map Event.notifyArg) := by
  induction R generalizing app p log with
  | nil =>
    rw [parseMain_stop _ _ _ (Or.inl hr)]
    simpa using hok
  | cons u R ih =>
    have hg : p.getNext.2.rest = R := by rw [getNext_rest, hr]; rfl
    have hgok : p.getNext.2.parseOK = true := by simpa [getNext] using hok
    have hgc : p.getNext.2.completing = false := by simpa [getNext] using hc
    rw [parseMain_cons _ _ _ _ _ hr hok,
      parseToken_extra app _ u log hgc (hR u (by simp)) hfull hex]
    have := ih (app.Error ("Extra argument: " ++ u)) p.getNext.2 (log ++ [Event.notifyArg u])
      hgok hgc hg (fun w hw => hR w (by simp [hw])) hfull hex
    simpa using this

theorem foldl_Error_numErrors (ms : List String) (f : String → String) (app : App ω) :
    (ms.foldl (fun a u => a.Error (f u)) app).numErrors = app.numErrors + ms.length := by
  induction ms generalizing app with
  | nil => rfl
  | cons m ms ih =>
    rw [List.foldl_cons, ih, List.length_cons]
    simp only [Error]
    omega

end App

end cmdline

namespace cmdline
open parser

theorem App.foldl_Error_allFlags {ω : Type} (msgs : List String) (app : App ω) :
    (msgs.foldl (fun a m => a.Error m) app).allFlags = app.allFlags ∧
    (msgs.foldl (fun a m => a.Error m) app).requiredArguments = app.requiredArguments ∧
    (msgs.foldl (fun a m => a.Error m) app).currentArgument = app.currentArgument ∧
    (msgs.foldl (fun a m => a.Error m) app).world = app.world ∧
    (msgs.foldl (fun a m => a.Error m) app).completing = app.completing := by
  induction msgs generalizing app with
  | nil => simp
  | cons m ms ih =>
    simp only [List.foldl_cons]
    obtain ⟨a, b, c, d, e⟩ := ih (app.Error m)
    exact ⟨a, b, c, d, e⟩

theorem App.foldl_Error_stdout {ω : Type} (msgs : List String) (app : App ω)
    (h : app.completing = false) :
    (msgs.foldl (fun a m => a.Error m) app).stdout
      = app.stdout ++ msgs.map (fun m => "ERROR " ++ m) := by
  induction msgs generalizing app with
  | nil => simp
  | cons m ms ih =>
    simp only [List.foldl_cons, List.map_cons]
    rw [ih (app.Error m) (by simpa [App.Error] using h)]
    simp [App.Error, h]

theorem App.postParse_flags {ω : Type} (fs : List (Flag ω)) (app : App ω)
    (hD : ∀ f ∈ fs, f.Default = "")
    (hN : ∀ f ∈ fs, f.Long ≠ "" ∨ f.Short ≠ Char.ofNat 0) :
    fs.foldlM App.postParseFlag app
      = some (((fs.filter (fun f => decide (f.Min > f.useCount))).map
          (fun f => f.Name.getD "" ++ " is required")).foldl (fun a m => a.Error m) app) := by
  induction fs generalizing app with
  | nil => rfl
  | cons f fs ih =>
    have hd : f.Default = "" := hD f (List.mem_cons_self _ _)
    have hn := hN f (List.mem_cons_self _ _)
    have hname : ∃ n, f.Name = some n := by
      unfold Flag.Name
      by_cases h1 : f.Long = "" <;> by_cases h2 : f.Short = Char.ofNat 0 <;> simp_all
    obtain ⟨n, hn'⟩ := hname
    have ih' := fun a => ih a (fun g hg => hD g (List.mem_cons_of_mem _ hg))
      (fun g hg => hN g (List.mem_cons_of_mem _ hg))
    by_cases hm : f.Min > f.useCount
    · have e : App.postParseFlag app f = some (app.Error (n ++ " is required")) := by
        simp [App.postParseFlag, hd, hm, hn']
      simp only [List.foldlM_cons, e, Option.bind_eq_bind, Option.some_bind, ih']
      simp [List.filter_cons, hm, hn']
    · have e : App.postParseFlag app f = some app := by
        simp [App.postParseFlag, hd, hm]
      simp only [List.foldlM_cons, e, Option.bind_eq_bind, Option.some_bind, ih']
      simp [List.filter_cons, hm]

end cmdline

namespace cmdline
open parser

theorem App.indexFlag_allFlags {ω : Type} (app app1 : App ω) (flag : Flag ω)
    (h : app.indexFlag flag = some app1) : app1.allFlags = app.allFlags ++ [flag] := by
  unfold App.indexFlag at h
  simp only at h
  generalize hr : (if flag.Long ≠ "" then
      if (List.lookup flag.Long app.longToFlag).isSome = true then none
      else some { app with allFlags := app.allFlags ++ [flag],
                           longToFlag := (flag.Long, app.allFlags.length) :: app.longToFlag }
    else some { app with allFlags := app.allFlags ++ [flag] } : Option (App ω)) = r1 at h
  have h1 : ∀ a, r1 = some a → a.allFlags = app.allFlags ++ [flag] := by
    intro a ha
    rw [← hr] at ha
    split at ha
    · split at ha
      · cases ha
      · cases ha; rfl
    · cases ha; rfl
  cases r1 with
  | none => cases h
  | some app2 =>
    have h2 := h1 app2 rfl
    simp only at h
    split at h
    · split at h
      · cases h
      · cases h; exact h2
    · cases h; exact h2

theorem App.Flags_named {ω : Type} (fs : List (Flag ω)) (app app1 : App ω)
    (h : app.Flags fs = some app1)
    (hN : ∀ f ∈ app.allFlags, f.Long ≠ "" ∨ f.Short ≠ Char.ofNat 0) :
    ∀ f ∈ app1.allFlags, f.Long ≠ "" ∨ f.Short ≠ Char.ofNat 0 := by
  induction fs generalizing app with
  | nil =>
    simp only [App.Flags, Option.some.injEq] at h
    subst h
    exact hN
  | cons flag fs ih =>
    unfold App.Flags at h
    split at h
    · cases h
    · rename_i hname
      split at h
      · cases h
      · rename_i app2 h2
        split at h
        · cases h
        · split at h
          · cases h
          · apply ih app2 h
            intro f hf
            rw [App.indexFlag_allFlags app app2 flag h2] at hf
            rcases List.mem_append.1 hf with hf | hf
            · exact hN f hf
            · rw [List.mem_singleton.1 hf]
              by_contra hc
              exact hname ⟨by tauto, by tauto⟩

end cmdline

namespace cmdline
open parser

/-! ## No candidate before the last token -/

namespace parser

theorem deliver_completions (p : parser) (cs : List Completion) :
    (p.deliver cs).completions
        = p.completions ++ cs.map (fun c => p.prependCompletion ++ c.text) ∧
      (p.deliver cs).isPartial = (p.isPartial || cs.any Completion.isPartial) := by
  induction cs generalizing p with
  | nil => simp
  | cons c cs ih =>
    cases c with
    | Final t =>
      rw [deliver_cons_Final]
      have := ih (p.FinalCompletion t)
      simpa [FinalCompletion, Completion.text, Completion.isPartial] using this
    | Partial t =>
      rw [deliver_cons_Partial]
      have := ih (p.PartialCompletion t)
      simpa [PartialCompletion, Completion.text, Completion.isPartial] using this

theorem le_hasNext {p q : parser} (h : le p q) (hq : q.hasNext = true) : p.hasNext = true := by
  obtain ⟨a, b, -⟩ := h
  simp only [hasNext, decide_eq_true_eq] at hq ⊢
  rw [a] at hq
  omega

theorem ahead_refl (p : parser) : ahead p p := ⟨le_refl p, fun _ => ⟨rfl, rfl⟩⟩

theorem ahead_trans {p q r : parser} (h1 : ahead p q) (h2 : ahead q r) : ahead p r := by
  refine ⟨le_trans h1.1 h2.1, fun hr => ?_⟩
  obtain ⟨a, b⟩ := h2.2 hr
  obtain ⟨c, d⟩ := h1.2 (le_hasNext h2.1 hr)
  exact ⟨a.trans c, b.trans d⟩

theorem ahead_of_done {p q : parser} (h : le p q) (hp : p.hasNext = false) : ahead p q := by
  refine ⟨h, fun hq => ?_⟩
  rw [le_hasNext h hq] at hp
  cases hp

theorem ahead_of_shouldComplete {p q : parser} (h : le p q) (hp : p.shouldComplete = true) :
    ahead p q := by
  apply ahead_of_done h
  simp only [shouldComplete, Bool.and_eq_true, Bool.not_eq_true'] at hp
  exact hp.2

theorem ahead_status (p : parser) (b : Bool) : ahead p (p.status b) := by
  refine ⟨le_status p b, fun _ => ?_⟩
  cases b <;> simp

theorem ahead_getNext (p : parser) : ahead p p.getNext.2 :=
  ⟨le_getNext p, fun _ => ⟨rfl, rfl⟩⟩

theorem ahead_prepend (p : parser) (a : String) : ahead p { p with prependCompletion := a } :=
  ⟨le_prepend p a, fun _ => ⟨rfl, rfl⟩⟩

end parser

theorem handleLongFlagValue_ahead {σ : Type} (obs : parseObserver σ) (p : parser)
    (name value : String) (s : σ) : ahead p (handleLongFlagValue p name value obs s).1 := by
  by_cases h : p.shouldComplete = true
  · exact ahead_of_shouldComplete (handleLongFlagValue_le obs p name value s) h
  · have h2 : p.shouldComplete = false := by simpa using h
    simp only [handleLongFlagValue, h2, Bool.false_eq_true, if_false]
    exact ahead_status _ _

theorem handleShortFlagValue_ahead {σ : Type} (obs : parseObserver σ) (p : parser)
    (name : Char) (value : String) (s : σ) :
    ahead p (handleShortFlagValue p name value obs s).1 := by
  by_cases h : p.shouldComplete = true
  · exact ahead_of_shouldComplete (handleShortFlagValue_le obs p name value s) h
  · have h2 : p.shouldComplete = false := by simpa using h
    simp only [handleShortFlagValue, h2, Bool.false_eq_true, if_false]
    exact ahead_status _ _

theorem parseLongFlag_ahead {σ : Type} (obs : parseObserver σ) (p : parser) (arg : List Char)
    (s : σ) : ahead p (parseLongFlag p arg obs s).1 := by
  by_cases h : p.shouldComplete = true
  · exact ahead_of_shouldComplete (parseLongFlag_le obs p arg s) h
  · have h2 : p.shouldComplete = false := by simpa using h
    simp only [parseLongFlag, h2, Bool.false_eq_true, if_false]
    split_ifs
    · exact ahead_status _ _
    · exact ahead_trans (ahead_prepend _ _) (handleLongFlagValue_ahead obs _ _ _ _)
    · exact ahead_status _ _
    · exact ahead_status _ _
    · exact ahead_trans (ahead_trans (ahead_getNext p) (ahead_prepend _ _))
        (handleLongFlagValue_ahead obs _ _ _ _)
    · exact ahead_status _ _
    · exact ahead_status _ _

theorem parseShortFlagLoop_ahead {σ : Type} (obs : parseObserver σ) (arg l : List Char)
    (p : parser) (s : σ) : ahead p (parseShortFlagLoop obs arg l p s).2.1 := by
  induction l generalizing p s with
  | nil => exact ahead_refl p
  | cons c l ih =>
    by_cases h : p.shouldComplete = true
    · exact ahead_of_shouldComplete (parseShortFlagLoop_le obs arg (c :: l) p s) h
    · have h2 : p.shouldComplete = false := by simpa using h
      simp only [parseShortFlagLoop, h2, Bool.false_eq_true, if_false]
      split_ifs
      · exact ahead_refl p
      · exact ahead_trans (ahead_status _ _) (ih _ _)
      · exact handleShortFlagValue_ahead obs _ _ _ _
      · exact ahead_trans (ahead_getNext p) (handleShortFlagValue_ahead obs _ _ _ _)
      · exact ahead_status _ _
      · exact ahead_trans (ahead_status _ _) (ih _ _)

theorem parseShortFlag_ahead {σ : Type} (obs : parseObserver σ) (p : parser) (arg : List Char)
    (s : σ) : ahead p (parseShortFlag p arg obs s).1 := by
  have h1 := parseShortFlagLoop_ahead obs arg arg p s
  unfold parseShortFlag
  simp only []
  split_ifs with a b
  · exact h1
  · simp only [Bool.and_eq_true] at b
    exact ahead_trans h1 (ahead_of_shouldComplete (completeShortFlag_le obs _ _ _) b.2)
  · exact h1

theorem escapeLoop_ahead {σ : Type} (obs : parseObserver σ) (fuel : Nat) (p : parser) (s : σ) :
    ahead p (escapeLoop obs fuel p s).1 := by
  induction fuel generalizing p s with
  | zero => exact ahead_refl p
  | succ n ih =>
    unfold escapeLoop
    split_ifs
    · exact ahead_trans (ahead_trans (ahead_getNext p) (ahead_status _ _)) (ih _ _)
    · exact ahead_refl p

theorem parseToken_ahead {σ : Type} (obs : parseObserver σ) (p : parser) (arg : List Char)
    (s : σ) : ahead p (parseToken p arg obs s).1 := by
  by_cases h : p.shouldComplete = true
  · exact ahead_of_shouldComplete (parseToken_le obs p arg s) h
  · have h2 : p.shouldComplete = false := by simpa using h
    simp only [parseToken, h2, Bool.false_eq_true, if_false]
    split_ifs
    · exact parseLongFlag_ahead obs _ _ _
    · exact escapeLoop_ahead obs _ _ _
    · exact parseShortFlag_ahead obs _ _ _
    · exact ahead_status _ _
    · exact ahead_status _ _

theorem parseMainLoop_ahead {σ : Type} (obs : parseObserver σ) (fuel : Nat) (p : parser)
    (s : σ) : ahead p (parseMainLoop obs fuel p s).1 := by
  induction fuel generalizing p s with
  | zero => exact ahead_refl p
  | succ n ih =>
    unfold parseMainLoop
    split_ifs
    · exact ahead_trans (ahead_trans (ahead_getNext p) (parseToken_ahead obs _ _ _)) (ih _ _)
    · exact ahead_refl p

end cmdline

namespace cmdline
open parser

/-! ## The last token of a scan in completion mode -/

theorem start_ahead_quiet {σ : Type} (obs : parseObserver σ) (toks : List String) (s : σ)
    (k : Nat) (c : Bool) (h : (parseMainLoop obs k (parser.start toks c) s).1.rest ≠ []) :
    (parseMainLoop obs k (parser.start toks c) s).1.completions = [] ∧
      (parseMainLoop obs k (parser.start toks c) s).1.isPartial = false := by
  have h1 := (parseMainLoop_ahead obs k (parser.start toks c) s).2
  have h2 : (parseMainLoop obs k (parser.start toks c) s).1.hasNext = true := by
    rw [hasNext_eq_rest]
    cases hr : (parseMainLoop obs k (parser.start toks c) s).1.rest with
    | nil => exact absurd hr h
    | cons a b => rfl
  exact h1 h2

/-- The scan in completion mode that has reached its last token `t` without a
failure returns what the body of the loop does with `t`. -/
theorem complete_reached {σ : Type} (obs : parseObserver σ) (toks : List String) (s : σ)
    (k : Nat) (t : String) (p : parser) (sk : σ)
    (hk : parseMainLoop obs k (parser.start toks true) s = (p, sk))
    (hr : p.rest = [t]) (hok : p.parseOK = true) :
    (p.getNext.2.shouldComplete = true ∧ p.getNext.2.parseOK = true ∧
        p.getNext.2.completions = [] ∧ p.getNext.2.isPartial = false ∧
        p.getNext.2.hasNext = false) ∧
      complete toks obs s =
        (((parseToken p.getNext.2 t.data obs sk).1.completions,
            (parseToken p.getNext.2 t.data obs sk).1.isPartial),
          (parseToken p.getNext.2 t.data obs sk).2) := by
  have hq := start_ahead_quiet obs toks s k true (by rw [hk, hr]; simp)
  rw [hk] at hq
  have hcomp : p.completing = true := by
    have := (parseMainLoop_le obs k (parser.start toks true) s).2.2
    rw [hk] at this
    exact this
  have hrest : p.getNext.2.rest = [] := by rw [getNext_rest, hr]; rfl
  have hnext : p.getNext.2.hasNext = false := hasNext_of_nil hrest
  refine ⟨⟨?_, hok, hq.1, hq.2, hnext⟩, ?_⟩
  · simp only [shouldComplete, hnext, Bool.not_false, Bool.and_true]
    exact hcomp
  · have e : parseMain (parser.start toks true) obs s =
        parseMain (parseToken p.getNext.2 t.data obs sk).1 obs
          (parseToken p.getNext.2 t.data obs sk).2 := by
      have h1 := parseMain_split obs k (parser.start toks true) s
      rw [hk] at h1
      rw [← h1]
      exact parseMain_cons obs p sk t [] hr hok
    have hle := le_rest_length (parseToken_le obs p.getNext.2 t.data sk)
    rw [hrest] at hle
    have hnil : (parseToken p.getNext.2 t.data obs sk).1.rest = [] :=
      List.length_eq_zero.mp (Nat.le_zero.mp hle)
    unfold complete
    simp only [e, parseMain_stop obs _ _ (Or.inl hnil)]

/-- The completion of a long flag name by the parser. -/
theorem completeLongFlag_candidates {σ : Type} (obs : parseObserver σ) (p : parser)
    (pfx : String) (s : σ) :
    (completeLongFlag p pfx obs s).1.completions =
        p.completions ++ (if pfx = "" ∧ (obs.acceptingArgs s).1 = true then ["--"] else []) ++
          (obs.completeLongFlag pfx (if pfx = "" then (obs.acceptingArgs s).2 else s)).1.map
            (fun c => "--" ++ c.text) ∧
      (completeLongFlag p pfx obs s).1.isPartial =
        (p.isPartial || (obs.completeLongFlag pfx
          (if pfx = "" then (obs.acceptingArgs s).2 else s)).1.any Completion.isPartial) ∧
      (completeLongFlag p pfx obs s).2 =
        (obs.completeLongFlag pfx (if pfx = "" then (obs.acceptingArgs s).2 else s)).2 := by
  unfold completeLongFlag
  by_cases h : pfx = ""
  · subst h
    cases ha : (obs.acceptingArgs s).1 <;>
      simp [deliver_completions, FinalCompletion, ha]
  · simp [deliver_completions, h]

/-- The completion of a short flag by the parser. -/
theorem completeShortFlag_candidates {σ : Type} (obs : parseObserver σ) (p : parser)
    (cur : String) (s : σ) :
    (completeShortFlag p cur obs s).1.completions =
        p.completions ++ (if cur.utf8ByteSize > 1 then [cur] else []) ++
          (obs.completeShortFlag s).1.map (fun c => cur ++ c.text) ∧
      (completeShortFlag p cur obs s).1.isPartial =
        (p.isPartial || (obs.completeShortFlag s).1.any Completion.isPartial) ∧
      (completeShortFlag p cur obs s).2 = (obs.completeShortFlag s).2 := by
  unfold completeShortFlag
  by_cases h : cur.utf8ByteSize > 1 <;>
    simp [deliver_completions, FinalCompletion, h]

end cmdline

namespace cmdline
open parser

theorem parseToken_completeEscape {σ : Type} (obs : parseObserver σ) (p : parser) (s : σ)
    (hc : p.shouldComplete = true) :
    parseToken p "--".data obs s = completeLongFlag p "" obs s := by
  have h : "--".data = ['-', '-'] := rfl
  rw [h]
  simp [parseToken, hc]

theorem parseLongFlag_completeName {σ : Type} (obs : parseObserver σ) (p : parser)
    (name : String) (s : σ) (hc : p.shouldComplete = true) (heq : '=' ∉ name.data) :
    parseLongFlag p name.data obs s = completeLongFlag p name obs (obs.longFlagInfo name s).2 := by
  unfold parseLongFlag
  simp only [scanEquals_none name.data 0 heq, Nat.zero_add, List.take_length, hc,
    Bool.false_eq_true, if_false, if_true]

@[simp] theorem recording_completeLongFlag {σ : Type} (obs : parseObserver σ) (x : String)
    (st : σ × List Event) :
    (recording obs).completeLongFlag x st =
      ((obs.completeLongFlag x st.1).1,
        ((obs.completeLongFlag x st.1).2, st.2 ++ [Event.completeLongFlag x])) := rfl

@[simp] theorem recording_completeShortFlag {σ : Type} (obs : parseObserver σ)
    (st : σ × List Event) :
    (recording obs).completeShortFlag st =
      ((obs.completeShortFlag st.1).1,
        ((obs.completeShortFlag st.1).2, st.2 ++ [Event.completeShortFlag])) := rfl

@[simp] theorem recording_acceptingArgs {σ : Type} (obs : parseObserver σ)
    (st : σ × List Event) :
    (recording obs).acceptingArgs st =
      ((obs.acceptingArgs st.1).1,
        ((obs.acceptingArgs st.1).2, st.2 ++ [Event.acceptingArgs])) := rfl

@[simp] theorem recording_completeArg {σ : Type} (obs : parseObserver σ) (x : String)
    (st : σ × List Event) :
    (recording obs).completeArg x st =
      ((obs.completeArg x st.1).1,
        ((obs.completeArg x st.1).2, st.2 ++ [Event.completeArg x])) := rfl

end cmdline

namespace cmdline
open parser

/-- The loop of `parseShortFlag`, in either mode, over flags without a value
whose notifications succeed, followed by further characters. -/
theorem parseShortFlagLoop_fired {σ : Type} (obs : parseObserver σ) (Inv : σ → Prop)
    (P : List Char) (hf : obs.firesCluster Inv P) (arg l : List Char) (p : parser) (s : σ)
    (log : List Event) (h0 : Inv s) (hok : p.parseOK = true) :
    parseShortFlagLoop (recording obs) arg (P ++ l) p (s, log) =
        parseShortFlagLoop (recording obs) arg l p
          (replay obs (flagToken.cluster P).calls s, log ++ (flagToken.cluster P).calls) ∧
      Inv (replay obs (flagToken.cluster P).calls s) := by
  induction P generalizing s log with
  | nil => simpa [flagToken.calls, replay] using h0
  | cons c P ih =>
    obtain ⟨hi, hi'⟩ := hf.info c (by simp) s h0
    obtain ⟨hn, hn'⟩ := hf.notify c (by simp) _ hi'
    have hf' : obs.firesCluster Inv P :=
      ⟨fun d hd => hf.info d (by simp [hd]), fun d hd => hf.notify d (by simp [hd])⟩
    have ih' := ih hf' _ (log ++ [Event.shortFlagInfo c, Event.notifyShortFlag c]) hn'
    rw [List.cons_append, parseShortFlagLoop]
    simp only [hok, recording_shortFlagInfo, recording_notifyShortFlag, hi, hn, status_true,
      Bool.not_true, Bool.false_eq_true, if_false]
    simp only [flagToken.calls, List.flatMap_cons, replay, List.foldl_cons, List.foldl_append,
      Event.run, List.foldl_nil] at ih' ⊢
    simpa using ih'

theorem utf8ByteSize_dash (K : List Char) (hK : K ≠ []) :
    ("-" ++ String.mk K).utf8ByteSize > 1 := by
  obtain ⟨c, cs, rfl⟩ := List.exists_cons_of_ne_nil hK
  have h : ("-" ++ String.mk (c :: cs)) = String.mk ('-' :: c :: cs) := rfl
  rw [h]
  simp only [String.utf8ByteSize, String.utf8ByteSize.go]
  have h1 := Char.utf8Size_pos c
  have h2 := Char.utf8Size_pos '-'
  omega

end cmdline

namespace cmdline
open parser

theorem parseToken_completeDash {σ : Type} (obs : parseObserver σ) (p : parser) (s : σ)
    (hc : p.shouldComplete = true) :
    parseToken p "-".data obs s = completeAnyFlag p obs s := by
  have h : "-".data = ['-'] := rfl
  rw [h]
  simp [parseToken, hc]

/-- Both enumerations of `completeAnyFlag`, from a parser without candidates. -/
theorem completeAnyFlag_candidates {σ : Type} (obs : parseObserver σ) (p : parser) (s : σ)
    (hc : p.completions = []) (hp : p.isPartial = false) :
    (completeAnyFlag p obs s).1.completions =
        (obs.completeShortFlag s).1.map (fun c => "-" ++ c.text) ++
          (if (obs.acceptingArgs (obs.completeShortFlag s).2).1 = true then ["--"] else []) ++
          (obs.completeLongFlag ""
            (obs.acceptingArgs (obs.completeShortFlag s).2).2).1.map (fun c => "--" ++ c.text) ∧
      (completeAnyFlag p obs s).1.isPartial =
        ((obs.completeShortFlag s).1.any Completion.isPartial ||
          (obs.completeLongFlag ""
            (obs.acceptingArgs (obs.completeShortFlag s).2).2).1.any Completion.isPartial) ∧
      (completeAnyFlag p obs s).2 =
        (obs.completeLongFlag "" (obs.acceptingArgs (obs.completeShortFlag s).2).2).2 := by
  unfold completeAnyFlag
  obtain ⟨a, b, c⟩ := completeShortFlag_candidates obs p "-" s
  obtain ⟨a2, b2, c2⟩ := completeLongFlag_candidates obs (completeShortFlag p "-" obs s).1 ""
    (completeShortFlag p "-" obs s).2
  have h1 : ¬ ("-" : String).utf8ByteSize > 1 := by decide
  rw [a2, b2, c2, a, b, c]
  simp [h1, hc, hp]

end cmdline

namespace cmdline
open parser

theorem escapeLoop_completions {σ : Type} (obs : parseObserver σ) (fuel : Nat) (p : parser)
    (s : σ) :
    (escapeLoop obs fuel p s).1.completions = p.completions ∧
      (escapeLoop obs fuel p s).1.isPartial = p.isPartial := by
  induction fuel generalizing p s with
  | zero => exact ⟨rfl, rfl⟩
  | succ n ih =>
    unfold escapeLoop
    split_ifs
    · obtain ⟨a, b⟩ := ih (p.getNext.2.status (obs.notifyArg p.getNext.1 s).1)
        (obs.notifyArg p.getNext.1 s).2
      rw [a, b]
      cases (obs.notifyArg p.getNext.1 s).1 <;> simp [getNext]
    · exact ⟨rfl, rfl⟩

/-- The last token of a scan in completion mode, reached as a fresh token that
does not begin with `-`, goes to `completeArg` and is not notified, unless it
is empty and the observer accepts no positional argument. -/
theorem complete_freshArg {σ : Type} (obs : parseObserver σ) (toks : List String) (s : σ)
    (k : Nat) (t : String)
    (hr : (completionScan obs toks s k).1.rest = [t])
    (hok : (completionScan obs toks s k).1.parseOK = true)
    (hd : t.data.head? ≠ some '-')
    (ha : t ≠ "" ∨ (obs.acceptingArgs (completionScan obs toks s k).2.1).1 = true) :
    complete toks (recording obs) (s, []) =
      (((obs.completeArg t (if t = "" then (obs.acceptingArgs (completionScan obs toks s k).2.1).2
            else (completionScan obs toks s k).2.1)).1.map
          (fun c => (completionScan obs toks s k).1.prependCompletion ++ c.text),
        (obs.completeArg t (if t = "" then (obs.acceptingArgs (completionScan obs toks s k).2.1).2
            else (completionScan obs toks s k).2.1)).1.any Completion.isPartial),
       ((obs.completeArg t (if t = "" then (obs.acceptingArgs (completionScan obs toks s k).2.1).2
            else (completionScan obs toks s k).2.1)).2,
        (completionScan obs toks s k).2.2 ++
          (if t = "" then [Event.acceptingArgs] else []) ++ [Event.completeArg t])) := by
  obtain ⟨⟨h1, h2, h3, h4, h5⟩, e⟩ := complete_reached (recording obs) toks (s, []) k
    t (completionScan obs toks s k).1 (completionScan obs toks s k).2 rfl hr hok
  rw [e]
  have hpre : (completionScan obs toks s k).1.getNext.2.prependCompletion =
      (completionScan obs toks s k).1.prependCompletion := rfl
  have hmk : String.mk t.data = t := rfl
  by_cases ht : t = ""
  · subst ht
    have hacc : (obs.acceptingArgs (completionScan obs toks s k).2.1).1 = true := by
      rcases ha with ha | ha
      · exact absurd rfl ha
      · exact ha
    have hdata : ("" : String).data = [] := rfl
    simp [parseToken, hdata, h1, hacc, deliver_completions, h3, h4, hpre]
  · have hlen : t.data.length ≠ 0 := by
      intro h
      apply ht
      have : t.data = [] := List.length_eq_zero.mp h
      cases t
      simp_all
    have hcond : ¬ (t.data.length ≥ 1 ∧ t.data.head? = some '-') := fun h => hd h.2
    unfold parseToken
    rw [if_neg hcond, if_pos h1, if_neg hlen, hmk]
    simp [deliver_completions, h3, h4, hpre, ht]

end cmdline

namespace cmdline
open parser

/-! ## In parse mode the scan fails only by an error or a refusal -/

section Upright

variable {σ : Type} (obs : parseObserver σ)

theorem upright_ok (p q : parser) (log : List (Event × Bool)) (hq : q.parseOK = p.parseOK)
    (h : upright p log) : upright q log := by
  unfold upright at h ⊢
  rw [hq]
  exact h

theorem upright_info (p : parser) (log : List (Event × Bool)) (e : Event)
    (he : e.isCompletion = false) (h : upright p log) : upright p (log ++ [(e, true)]) := by
  obtain ⟨h1, h2⟩ := h
  refine ⟨?_, ?_⟩
  · rcases h1 with h1 | ⟨x, hx, hb⟩
    · exact Or.inl h1
    · exact Or.inr ⟨x, List.mem_append_left _ hx, hb⟩
  · intro x hx
    rcases List.mem_append.mp hx with hx | hx
    · exact h2 x hx
    · rw [List.mem_singleton.mp hx]
      exact he

theorem upright_status (p : parser) (b : Bool) (log : List (Event × Bool)) (e : Event)
    (he : e.isCompletion = false) (h : upright p log) :
    upright (p.status b) (log ++ [(e, b)]) := by
  cases b with
  | true => simpa using upright_info p log e he h
  | false =>
    refine ⟨Or.inr ⟨(e, false), by simp, Or.inr rfl⟩, ?_⟩
    intro x hx
    rcases List.mem_append.mp hx with hx | hx
    · exact h.2 x hx
    · rw [List.mem_singleton.mp hx]
      exact he

theorem upright_error (p : parser) (log : List (Event × Bool)) (m : String)
    (h : upright p log) : upright (p.status false) (log ++ [(Event.Error m, true)]) := by
  refine ⟨Or.inr ⟨(Event.Error m, true), by simp, Or.inl rfl⟩, ?_⟩
  intro x hx
  rcases List.mem_append.mp hx with hx | hx
  · exact h.2 x hx
  · rw [List.mem_singleton.mp hx]
    rfl

theorem not_shouldComplete {p : parser} (hc : p.completing = false) :
    ¬ p.shouldComplete = true := by
  simp [shouldComplete, hc]

theorem handleLongFlagValue_upright (p : parser) (name value : String)
    (st : σ × List (Event × Bool)) (hc : p.completing = false) (h : upright p st.2) :
    upright (handleLongFlagValue p name value (watching obs) st).1
      (handleLongFlagValue p name value (watching obs) st).2.2 := by
  rw [handleLongFlagValue_parsing _ _ _ _ _ hc]
  exact upright_status _ _ _ _ rfl h

theorem handleShortFlagValue_upright (p : parser) (name : Char) (value : String)
    (st : σ × List (Event × Bool)) (hc : p.completing = false) (h : upright p st.2) :
    upright (handleShortFlagValue p name value (watching obs) st).1
      (handleShortFlagValue p name value (watching obs) st).2.2 := by
  rw [handleShortFlagValue_parsing _ _ _ _ _ hc]
  exact upright_status _ _ _ _ rfl h

theorem parseLongFlag_upright (p : parser) (arg : List Char) (st : σ × List (Event × Bool))
    (hc : p.completing = false) (h : upright p st.2) :
    upright (parseLongFlag p arg (watching obs) st).1
      (parseLongFlag p arg (watching obs) st).2.2 := by
  have h1 : upright p ((watching obs).longFlagInfo
      (String.mk (arg.take (scanEquals arg 0).1)) st).2.2 := upright_info _ _ _ rfl h
  have hg : p.getNext.2.completing = false := by simpa [getNext] using hc
  unfold parseLongFlag
  dsimp only
  split_ifs with a b c d
  · exact upright_error _ _ _ h1
  · exact handleLongFlagValue_upright obs _ _ _ _ hc (upright_ok p _ _ rfl h1)
  · exact upright_error _ _ _ h1
  · exact absurd d (not_shouldComplete hc)
  · exact upright_error _ _ _ h1
  · exact handleLongFlagValue_upright obs _ _ _ _ hg (upright_ok p _ _ rfl h1)
  · exact upright_error _ _ _ h1
  · exact upright_status _ _ _ _ rfl h1

theorem parseShortFlagLoop_upright (arg l : List Char) (p : parser)
    (st : σ × List (Event × Bool)) (hc : p.completing = false) (h : upright p st.2) :
    upright (parseShortFlagLoop (watching obs) arg l p st).2.1
      (parseShortFlagLoop (watching obs) arg l p st).2.2.2 := by
  induction l generalizing p st with
  | nil => exact h
  | cons name rest ih =>
    have h1 : upright p ((watching obs).shortFlagInfo name st).2.2 := upright_info _ _ _ rfl h
    have hg : p.getNext.2.completing = false := by simpa [getNext] using hc
    rw [parseShortFlagLoop]
    dsimp only
    split_ifs with h0 a b c d e
    · exact h
    · exact ih _ _ (by simpa using hc) (upright_error _ _ _ h1)
    · exact handleShortFlagValue_upright obs _ _ _ _ hc h1
    · exact handleShortFlagValue_upright obs _ _ _ _ hg (upright_ok p _ _ rfl h1)
    · exact absurd e (not_shouldComplete hc)
    · exact upright_error _ _ _ h1
    · exact ih _ _ (by simpa using hc) (upright_status _ _ _ _ rfl h1)

theorem parseShortFlag_upright (p : parser) (arg : List Char) (st : σ × List (Event × Bool))
    (hc : p.completing = false) (h : upright p st.2) :
    upright (parseShortFlag p arg (watching obs) st).1
      (parseShortFlag p arg (watching obs) st).2.2 := by
  rw [parseShortFlag_parsing _ _ _ _ hc]
  exact parseShortFlagLoop_upright obs arg arg p st hc h

theorem escapeLoop_upright (fuel : Nat) (p : parser) (st : σ × List (Event × Bool))
    (h : upright p st.2) :
    upright (escapeLoop (watching obs) fuel p st).1 (escapeLoop (watching obs) fuel p st).2.2 := by
  induction fuel generalizing p st with
  | zero => exact h
  | succ n ih =>
    rw [escapeLoop]
    split_ifs with h1
    · exact ih _ _ (upright_status _ _ _ _ rfl (upright_ok p _ _ rfl h))
    · exact h

theorem parseToken_upright (p : parser) (arg : List Char) (st : σ × List (Event × Bool))
    (hc : p.completing = false) (h : upright p st.2) :
    upright (parseToken p arg (watching obs) st).1 (parseToken p arg (watching obs) st).2.2 := by
  unfold parseToken
  dsimp only
  split_ifs with a b c d e f g
  · exact parseLongFlag_upright obs _ _ _ hc h
  · exact absurd e (not_shouldComplete hc)
  · exact escapeLoop_upright obs _ _ _ h
  · exact parseShortFlag_upright obs _ _ _ hc h
  · exact absurd f (not_shouldComplete hc)
  · exact upright_error _ _ _ h
  · exact absurd g (not_shouldComplete hc)
  · exact absurd g (not_shouldComplete hc)
  · exact absurd g (not_shouldComplete hc)
  · exact upright_status _ _ _ _ rfl h

theorem parseMainLoop_upright (fuel : Nat) (p : parser) (st : σ × List (Event × Bool))
    (hc : p.completing = false) (h : upright p st.2) :
    upright (parseMainLoop (watching obs) fuel p st).1
      (parseMainLoop (watching obs) fuel p st).2.2 := by
  induction fuel generalizing p st with
  | zero => exact h
  | succ n ih =>
    rw [parseMainLoop]
    split_ifs with h1
    · have hg : p.getNext.2.completing = false := by simpa [getNext] using hc
      have hle := (parseToken_le (watching obs) p.getNext.2 p.getNext.1.data st).2.2
      exact ih _ _ (by rw [hle]; exact hg)
        (parseToken_upright obs _ _ _ hg (upright_ok p _ _ rfl h))
    · exact h

/-- In parse mode the sticky flag is down at the end only if the log holds an
`Error` or a call answered `false`, and no call is made to complete. -/
theorem parseMain_upright (toks : List String) (st : σ) :
    upright (parseMain (parser.start toks false) (watching obs) (st, [])).1
      (parseMain (parser.start toks false) (watching obs) (st, [])).2.2 :=
  parseMainLoop_upright obs _ _ _ rfl ⟨Or.inl rfl, fun e he => absurd he (List.not_mem_nil e)⟩

end Upright

end cmdline

namespace cmdline
open parser

/-! ## An App with lenient handlers refuses nothing -/

namespace App

variable {ω : Type}

theorem mem_of_get {α : Type} (l : List α) (i : Nat) (a : α) (h : l.get? i = some a) :
    a ∈ l := by
  induction l generalizing i with
  | nil => cases h
  | cons b l ih =>
    cases i with
    | zero =>
      simp only [List.get?_cons_zero, Option.some.injEq] at h
      subst h
      exact List.mem_cons_self _ _
    | succ n => exact List.mem_cons_of_mem _ (ih n h)

theorem lenient_of_same (app app' : App ω)
    (hf : ∀ g ∈ app'.allFlags, ∃ f ∈ app.allFlags, g.Value = f.Value)
    (hr : app'.requiredArguments = app.requiredArguments)
    (he : app'.excessArguments = app.excessArguments) (h : app.lenient) : app'.lenient := by
  obtain ⟨h1, h2, h3⟩ := h
  refine ⟨?_, ?_, ?_⟩
  · intro g hg hh hv
    obtain ⟨f, hf1, hf2⟩ := hf g hg
    exact h1 f hf1 hh (hf2 ▸ hv)
  · rw [hr]; exact h2
  · rw [he]; exact h3

theorem flagAt_mem (app : App ω) (entry : Option Nat) (i : Nat) (f : Flag ω)
    (h : app.flagAt entry = some (i, f)) : app.allFlags.get? i = some f := by
  unfold flagAt at h
  split at h
  · cases h
  · split at h
    · cases h
    · rename_i j _ g hg
      simp only [Option.some.injEq, Prod.mk.injEq] at h
      obtain ⟨rfl, rfl⟩ := h
      exact hg

theorem mem_set_used (l : List (Flag ω)) (i : Nat) (f : Flag ω) (h : l.get? i = some f)
    (g : Flag ω) (hg : g ∈ l.set i { f with useCount := f.useCount + 1 }) :
    ∃ f' ∈ l, g.Value = f'.Value := by
  rcases List.mem_or_eq_of_mem_set hg with h1 | h1
  · exact ⟨g, h1, rfl⟩
  · refine ⟨f, mem_of_get _ _ _ h, ?_⟩
    rw [h1]

theorem notifyHandler_lenient (h : ValueHandler ω) (text : String) (app : App ω)
    (hl : app.lenient) : (notifyHandler h text app).2.lenient := by
  obtain ⟨a, _, _, _, _⟩ := foldl_Error_allFlags (h.Notify text app.world).1
    { app with world := (h.Notify text app.world).2.2 }
  obtain ⟨b, c, _⟩ := notifyHandler_slots h text app
  refine lenient_of_same app _ ?_ b c hl
  intro g hg
  unfold notifyHandler at hg
  rw [a] at hg
  exact ⟨g, hg, rfl⟩

theorem useAndCall_lenient (app : App ω) (entry : Option Nat) (r : Bool × App ω)
    (hl : app.lenient) (h : app.useAndCall entry = some r) : r.1 = true ∧ r.2.lenient := by
  unfold useAndCall at h
  split at h
  · cases h
  · rename_i i f hf
    split at h
    · cases h
    · cases h
      refine ⟨rfl, lenient_of_same app _ ?_ rfl rfl hl⟩
      exact mem_set_used _ _ _ (flagAt_mem app entry i f hf)

theorem useAndNotify_lenient (app : App ω) (entry : Option Nat) (value : String)
    (r : Bool × App ω) (hl : app.lenient) (h : app.useAndNotify entry value = some r) :
    r.1 = true ∧ r.2.lenient := by
  unfold useAndNotify at h
  split at h
  · cases h
  · rename_i i f hf
    split at h
    · cases h
    · rename_i hd hv
      cases h
      have hmem := flagAt_mem app entry i f hf
      refine ⟨hl.1 f (mem_of_get _ _ _ hmem) hd hv value _, ?_⟩
      apply notifyHandler_lenient
      exact lenient_of_same app _ (mem_set_used _ _ _ hmem) rfl rfl hl

theorem notifyArg_lenient (value : String) (app : App ω) (r : Bool × App ω)
    (hl : app.lenient) (h : app.notifyArg value = some r) : r.1 = true ∧ r.2.lenient := by
  unfold notifyArg at h
  split at h
  · split at h
    · cases h
    · rename_i a ha
      split at h
      · cases h
      · rename_i hd hv
        cases h
        refine ⟨hl.2.1 a (mem_of_get _ _ _ ha) hd hv value _, ?_⟩
        apply notifyHandler_lenient
        exact lenient_of_same app _ (fun g hg => ⟨g, hg, rfl⟩) rfl rfl hl
  · split at h
    · rename_i a ha
      split at h
      · cases h
      · rename_i hd hv
        cases h
        exact ⟨hl.2.2 a ha hd hv value _, notifyHandler_lenient _ _ _ hl⟩
    · cases h
      exact ⟨rfl, lenient_of_same app _ (fun g hg => ⟨g, hg, rfl⟩) rfl rfl hl⟩

/-- A notification of the App, made through `step`. -/
theorem step_notify (m : App ω → Option (Bool × App ω))
    (hm : ∀ app r, app.lenient → m app = some r → r.1 = true ∧ r.2.lenient)
    (e : Event) (st : Option (App ω) × List (Event × Bool)) (h : indulged st) :
    indulged ((step false m st.1).2, st.2 ++ [(e, (step false m st.1).1)]) := by
  intro app' h'
  cases hs : st.1 with
  | none => simp [hs, step] at h'
  | some app =>
    obtain ⟨hl, hc⟩ := h app hs
    cases hr : m app with
    | none => simp [hs, step, hr] at h'
    | some r =>
      obtain ⟨a, b⟩ := hm app r hl hr
      simp only [hs, step, hr, Option.some.injEq] at h' ⊢
      subst h'
      refine ⟨b, ?_⟩
      rw [a]
      exact clean_append _ _ hc

/-- A call that leaves the App as it is, made through `step`. -/
theorem step_same {α : Type} (dflt : α) (m : App ω → Option (α × App ω))
    (hm : ∀ app r, m app = some r → r.2 = app)
    (e : Event) (st : Option (App ω) × List (Event × Bool)) (h : indulged st) :
    indulged ((step dflt m st.1).2, st.2 ++ [(e, true)]) := by
  intro app' h'
  cases hs : st.1 with
  | none => simp [hs, step] at h'
  | some app =>
    obtain ⟨hl, hc⟩ := h app hs
    cases hr : m app with
    | none => simp [hs, step, hr] at h'
    | some r =>
      have a := hm app r hr
      simp only [hs, step, hr, Option.some.injEq] at h'
      subst h'
      rw [a]
      exact ⟨hl, clean_append _ _ hc⟩

theorem watching_respects_indulged :
    (watching (App.observer : parseObserver (Option (App ω)))).Respects
      (fun a b => indulged a → indulged b) where
  refl := fun _ h => h
  trans := fun _ _ _ h1 h2 h => h2 (h1 h)
  Error := by
    intro m st h app' h'
    cases hs : st.1 with
    | none => simp [watching, observer, hs] at h'
    | some app =>
      obtain ⟨hl, hc⟩ := h app hs
      simp only [watching, observer, hs, Option.map_some', Option.some.injEq] at h' ⊢
      subst h'
      exact ⟨lenient_of_same app _ (fun g hg => ⟨g, hg, rfl⟩) rfl rfl hl, clean_append _ _ hc⟩
  longFlagInfo := fun n st h =>
    step_same _ _ (by intro app r hr; cases hr; rfl) (Event.longFlagInfo n) st h
  shortFlagInfo := fun n st h =>
    step_same _ _ (by intro app r hr; cases hr; rfl) (Event.shortFlagInfo n) st h
  notifyLongFlag := fun n st h =>
    step_notify _ (fun app r hl hr => useAndCall_lenient app _ r hl hr) (Event.notifyLongFlag n) st h
  notifyLongFlagValue := fun n v st h =>
    step_notify _ (fun app r hl hr => useAndNotify_lenient app _ v r hl hr)
      (Event.notifyLongFlagValue n v) st h
  notifyShortFlag := fun n st h =>
    step_notify _ (fun app r hl hr => useAndCall_lenient app _ r hl hr)
      (Event.notifyShortFlag n) st h
  notifyShortFlagValue := fun n v st h =>
    step_notify _ (fun app r hl hr => useAndNotify_lenient app _ v r hl hr)
      (Event.notifyShortFlagValue n v) st h
  notifyArg := fun v st h =>
    step_notify _ (fun app r hl hr => notifyArg_lenient v app r hl hr) (Event.notifyArg v) st h
  completeLongFlag := fun x st h =>
    step_same _ _ (by intro app r hr; cases hr; rfl) (Event.completeLongFlag x) st h
  completeLongFlagValue := fun n v st h =>
    step_same _ _ (by
      intro app r hr
      simp only [Option.map_eq_some'] at hr
      obtain ⟨c, _, rfl⟩ := hr
      rfl) (Event.completeLongFlagValue n v) st h
  completeShortFlag := fun st h =>
    step_same _ _ (by intro app r hr; cases hr; rfl) Event.completeShortFlag st h
  completeShortFlagValue := fun n v st h =>
    step_same _ _ (by
      intro app r hr
      simp only [Option.map_eq_some'] at hr
      obtain ⟨c, _, rfl⟩ := hr
      rfl) (Event.completeShortFlagValue n v) st h
  completeArg := fun x st h =>
    step_same _ _ (by
      intro app r hr
      simp only [Option.map_eq_some'] at hr
      obtain ⟨c, _, rfl⟩ := hr
      rfl) (Event.completeArg x) st h
  acceptingArgs := fun st h =>
    step_same _ _ (by intro app r hr; cases hr; rfl) Event.acceptingArgs st h

end App

/-- The observer with its log of answers answers as the observer under it. -/
theorem watching_simulates {σ : Type} (obs : parseObserver σ) :
    (watching obs).Simulates obs (fun a b => a.1 = b) := by
  constructor <;> intros <;> rename_i h <;> simp [watching, h]

theorem Int32Handler.int32_lenient {ω : Type} (h : Int32Handler ω)
    (ha : h.AffectsParsing = false) : h.handler.lenient := by
  intro text w
  show (h.Notify text listLogger [] w).1 = true
  unfold Int32Handler.Notify
  split
  · simp [ha]
  · split
    · rfl
    · split
      · rfl
      · simp [ha]

theorem StringHandler.string_lenient {ω : Type} (h : StringHandler ω)
    (ha : h.AffectsParsing = false) : h.handler.lenient := by
  intro text w
  show (h.Notify text listLogger [] w).1 = true
  unfold StringHandler.Notify
  split
  · simp [ha]
  · split
    · rfl
    · split
      · rfl
      · simp [ha]

end cmdline

namespace cmdline
open parser

/-! ## The scan in completion mode follows the scan in parse mode -/

section Trails

variable {σ : Type} (obs : parseObserver σ) {t : String}

theorem trails_hasNext {p q : parser} (h : trails t p q) : q.hasNext = true := by
  rw [hasNext_eq_rest, h.1]
  cases p.rest <;> rfl

theorem trails_shouldComplete {p q : parser} (h : trails t p q) :
    p.shouldComplete = false ∧ q.shouldComplete = false := by
  refine ⟨shouldComplete_of_parsing h.2.2.1, ?_⟩
  simp [shouldComplete, trails_hasNext h]

theorem trails_status {p q : parser} (h : trails t p q) (b : Bool) :
    trails t (p.status b) (q.status b) := by
  obtain ⟨h1, h2, h3, h4, h5, h6⟩ := h
  cases b
  · exact ⟨by simpa [rest] using h1, by simp, by simpa using h3, by simpa using h4,
      by simpa using h5, by simpa using h6⟩
  · simpa using ⟨h1, h2, h3, h4, h5, h6⟩

theorem trails_getNext {p q : parser} (h : trails t p q) (v : String) (R : List String)
    (hr : p.rest = v :: R) :
    trails t p.getNext.2 q.getNext.2 ∧ p.getNext.1 = v ∧ q.getNext.1 = v := by
  obtain ⟨h1, h2, h3, h4, h5, h6⟩ := h
  have hq : q.rest = v :: (R ++ [t]) := by rw [h1, hr]; rfl
  refine ⟨⟨?_, h2, h3, h4, h5, h6⟩, getNext_fst hr, getNext_fst hq⟩
  rw [getNext_rest, getNext_rest, hq, hr]
  rfl

theorem trails_prepend {p q : parser} (h : trails t p q) (a b : String) :
    trails t { p with prependCompletion := a } { q with prependCompletion := b } := h

theorem trailing_failed {r1 r2 : parser × σ} (h : r1.1.parseOK = false) : trailing t r1 r2 := by
  intro hok
  rw [h] at hok
  cases hok

theorem handleLongFlagValue_trailing {p q : parser} (h : trails t p q) (name value : String)
    (s : σ) :
    trailing t (handleLongFlagValue p name value obs s) (handleLongFlagValue q name value obs s) := by
  obtain ⟨c1, c2⟩ := trails_shouldComplete h
  intro _
  simp only [handleLongFlagValue, c1, c2, Bool.false_eq_true, if_false]
  exact ⟨trails_status h _, trivial⟩

theorem handleShortFlagValue_trailing {p q : parser} (h : trails t p q) (name : Char)
    (value : String) (s : σ) :
    trailing t (handleShortFlagValue p name value obs s)
      (handleShortFlagValue q name value obs s) := by
  obtain ⟨c1, c2⟩ := trails_shouldComplete h
  intro _
  simp only [handleShortFlagValue, c1, c2, Bool.false_eq_true, if_false]
  exact ⟨trails_status h _, trivial⟩

theorem parseLongFlag_trailing {p q : parser} (h : trails t p q) (arg : List Char) (s : σ) :
    trailing t (parseLongFlag p arg obs s) (parseLongFlag q arg obs s) := by
  obtain ⟨c1, c2⟩ := trails_shouldComplete h
  have hq := trails_hasNext h
  unfold parseLongFlag
  simp only [c1, c2, hq, Bool.false_eq_true, if_false, if_true]
  split_ifs with a b c d e f
  · exact trailing_failed (by simp)
  · exact handleLongFlagValue_trailing obs (trails_prepend h _ _) _ _ _
  · exact trailing_failed (by simp)
  · exact trailing_failed (by simp)
  · obtain ⟨v, R, hr⟩ : ∃ v R, p.rest = v :: R := by
      cases hr : p.rest with
      | nil => rw [hasNext_of_nil hr] at f; cases f
      | cons v R => exact ⟨v, R, rfl⟩
    obtain ⟨g1, g2, g3⟩ := trails_getNext h v R hr
    rw [g2, g3]
    exact handleLongFlagValue_trailing obs (trails_prepend g1 _ _) _ _ _
  · exact trailing_failed (by simp)
  · intro _
    exact ⟨trails_status h _, rfl⟩

theorem parseShortFlagLoop_trailing (arg l : List Char) {p q : parser} (h : trails t p q)
    (s : σ) :
    (parseShortFlagLoop obs arg l p s).2.1.parseOK = true →
      (parseShortFlagLoop obs arg l p s).1 = (parseShortFlagLoop obs arg l q s).1 ∧
      trails t (parseShortFlagLoop obs arg l p s).2.1 (parseShortFlagLoop obs arg l q s).2.1 ∧
      (parseShortFlagLoop obs arg l q s).2.2 = (parseShortFlagLoop obs arg l p s).2.2 := by
  induction l generalizing p q s with
  | nil =>
    intro _
    exact ⟨rfl, h, rfl⟩
  | cons name rest ih =>
    obtain ⟨c1, c2⟩ := trails_shouldComplete h
    have hq := trails_hasNext h
    have hok : q.parseOK = p.parseOK := h.2.1
    rw [parseShortFlagLoop, parseShortFlagLoop]
    simp only [c1, c2, hq, hok, Bool.false_eq_true, if_false, if_true]
    split_ifs with a b c d e
    · intro _
      exact ⟨rfl, h, rfl⟩
    · exact ih (trails_status h false) _
    · intro hh
      exact ⟨rfl, handleShortFlagValue_trailing obs h _ _ _ hh⟩
    · obtain ⟨v, R, hr⟩ : ∃ v R, p.rest = v :: R := by
        cases hr : p.rest with
        | nil => rw [hasNext_of_nil hr] at e; cases e
        | cons v R => exact ⟨v, R, rfl⟩
      obtain ⟨g1, g2, g3⟩ := trails_getNext h v R hr
      rw [g2, g3]
      intro hh
      exact ⟨rfl, handleShortFlagValue_trailing obs g1 _ _ _ hh⟩
    · intro hh
      simp at hh
    · exact ih (trails_status h _) _

theorem parseShortFlag_trailing {p q : parser} (h : trails t p q) (arg : List Char) (s : σ) :
    trailing t (parseShortFlag p arg obs s) (parseShortFlag q arg obs s) := by
  have hp : parseShortFlag p arg obs s = (parseShortFlagLoop obs arg arg p s).2 :=
    parseShortFlag_parsing obs p arg s h.2.2.1
  intro hok
  rw [hp] at hok ⊢
  obtain ⟨a, b, c⟩ := parseShortFlagLoop_trailing obs arg arg h s hok
  obtain ⟨-, c2⟩ := trails_shouldComplete b
  unfold parseShortFlag
  simp only [c2, Bool.and_false, Bool.false_eq_true, if_false, ite_self]
  exact ⟨b, c⟩

theorem escapeLoop_escaped (R : List String) {p q : parser} (h : trails t p q) (s : σ)
    (hr : p.rest = R) :
    (escapeLoop obs R.length p s).1.parseOK = true →
      escaped obs t (escapeLoop obs R.length p s) (escapeLoop obs (R.length + 1) q s) := by
  induction R generalizing p q s with
  | nil =>
    intro hok
    have hok' : p.parseOK = true := hok
    have hq : q.rest = [t] := by rw [h.1, hr]; rfl
    have hqn : q.getNext.2.rest = [] := by rw [getNext_rest, hq]; rfl
    simp only [List.length_nil, escapeLoop, Nat.zero_add, trails_hasNext h, h.2.1, hok',
      Bool.and_self, if_true, getNext_fst hq]
    refine ⟨hr, by simpa using hqn, ?_, ?_, rfl, ?_⟩
    · have := h.2.2.2.2.1
      cases (obs.notifyArg t s).1 <;> simpa [getNext] using this
    · have := h.2.2.2.2.2
      cases (obs.notifyArg t s).1 <;> simpa [getNext] using this
    · have := h.2.1
      cases (obs.notifyArg t s).1 <;> simp [getNext, this, hok']
  | cons v R ih =>
    obtain ⟨g1, g2, g3⟩ := trails_getNext h v R hr
    have hp : p.hasNext = true := hasNext_of_cons hr
    have hgr : p.getNext.2.rest = R := by rw [getNext_rest, hr]; rfl
    by_cases hok : p.parseOK = true
    · rw [List.length_cons, escapeLoop, escapeLoop]
      simp only [hp, trails_hasNext h, h.2.1, hok, Bool.and_self, if_true, g2, g3]
      exact ih (trails_status g1 _) _ (by simpa using hgr)
    · intro hh
      rw [List.length_cons, escapeLoop] at hh
      have hok' : p.parseOK = false := by simpa using hok
      simp only [hp, hok', Bool.and_false, Bool.false_eq_true, if_false] at hh

theorem parseToken_trailing {p q : parser} (h : trails t p q) (arg : List Char) (s : σ) :
    (parseToken p arg obs s).1.parseOK = true →
      (trails t (parseToken p arg obs s).1 (parseToken q arg obs s).1 ∧
          (parseToken q arg obs s).2 = (parseToken p arg obs s).2) ∨
        escaped obs t (parseToken p arg obs s) (parseToken q arg obs s) := by
  obtain ⟨c1, c2⟩ := trails_shouldComplete h
  have hl1 : p.args.length - p.current = p.rest.length := (length_rest p).symm
  have hl2 : q.args.length - q.current = p.rest.length + 1 := by
    rw [← length_rest, h.1, List.length_append]
    rfl
  unfold parseToken
  simp only [c1, c2, Bool.false_eq_true, if_false]
  split_ifs with a b c d
  · exact fun hh => Or.inl (parseLongFlag_trailing obs h _ _ hh)
  · rw [hl1, hl2]
    exact fun hh => Or.inr (escapeLoop_escaped obs p.rest h s rfl hh)
  · exact fun hh => Or.inl (parseShortFlag_trailing obs h _ _ hh)
  · intro hh
    simp at hh
  · exact fun _ => Or.inl ⟨trails_status h _, rfl⟩

/-- The loop of `parseMain`: when the scan in parse mode ends without a
failure, the scan in completion mode over the same tokens and one more token
`t` has, after some iterations, either made the same calls and stands before
`t`, or has moreover notified `t` as a positional argument. -/
theorem parseMainLoop_trailing (n : Nat) {p q : parser} (h : trails t p q) (s : σ)
    (hn : p.rest.length ≤ n) :
    (parseMainLoop obs n p s).1.parseOK = true →
      ∃ m, (trails t (parseMainLoop obs n p s).1 (parseMainLoop obs m q s).1 ∧
            (parseMainLoop obs m q s).2 = (parseMainLoop obs n p s).2 ∧
            (parseMainLoop obs m q s).1.rest = [t]) ∨
          escaped obs t (parseMainLoop obs n p s) (parseMainLoop obs m q s) := by
  induction n generalizing p q s with
  | zero =>
    intro _
    have hr : p.rest = [] := List.length_eq_zero.mp (Nat.le_zero.mp hn)
    refine ⟨0, Or.inl ⟨h, rfl, ?_⟩⟩
    show q.rest = [t]
    rw [h.1, hr]
    rfl
  | succ n ih =>
    cases hr : p.rest with
    | nil =>
      intro _
      refine ⟨0, Or.inl ?_⟩
      have e : parseMainLoop obs (n + 1) p s = (p, s) := by
        simp [parseMainLoop, hasNext_of_nil hr]
      rw [e]
      refine ⟨h, rfl, ?_⟩
      show q.rest = [t]
      rw [h.1, hr]
      rfl
    | cons v R =>
      by_cases hok : p.parseOK = true
      · obtain ⟨g1, g2, g3⟩ := trails_getNext h v R hr
        have e1 : parseMainLoop obs (n + 1) p s =
            parseMainLoop obs n (parseToken p.getNext.2 v.data obs s).1
              (parseToken p.getNext.2 v.data obs s).2 := by
          simp [parseMainLoop, hasNext_of_cons hr, hok, g2]
        have e2 : ∀ m, parseMainLoop obs (m + 1) q s =
            parseMainLoop obs m (parseToken q.getNext.2 v.data obs s).1
              (parseToken q.getNext.2 v.data obs s).2 := by
          intro m
          simp [parseMainLoop, trails_hasNext h, h.2.1, hok, g3]
        rw [e1]
        intro hh
        have hle := le_rest_length (parseToken_le obs p.getNext.2 v.data s)
        have hgr : p.getNext.2.rest.length = R.length := by rw [getNext_rest, hr]; rfl
        have hlen : (v :: R).length ≤ n + 1 := by rw [← hr]; exact hn
        rw [List.length_cons] at hlen
        by_cases hok2 : (parseToken p.getNext.2 v.data obs s).1.parseOK = true
        · rcases parseToken_trailing obs g1 v.data s hok2 with ⟨k1, k2⟩ | k
          · have hfuel : (parseToken p.getNext.2 v.data obs s).1.rest.length ≤ n := by omega
            obtain ⟨m, hm⟩ := ih k1 (parseToken p.getNext.2 v.data obs s).2 hfuel hh
            refine ⟨m + 1, ?_⟩
            rw [e2 m, k2]
            exact hm
          · refine ⟨1, Or.inr ?_⟩
            rw [e2 0]
            have s1 : parseMainLoop obs n (parseToken p.getNext.2 v.data obs s).1
                (parseToken p.getNext.2 v.data obs s).2 = parseToken p.getNext.2 v.data obs s := by
              cases n with
              | zero => rfl
              | succ n => simp [parseMainLoop, hasNext_of_nil k.1]
            rw [s1]
            exact k
        · have hok3 : (parseToken p.getNext.2 v.data obs s).1.parseOK = false := by
            simpa using hok2
          have s1 : parseMainLoop obs n (parseToken p.getNext.2 v.data obs s).1
              (parseToken p.getNext.2 v.data obs s).2 = parseToken p.getNext.2 v.data obs s := by
            cases n with
            | zero => rfl
            | succ n => simp [parseMainLoop, hok3]
          rw [s1, hok3] at hh
          cases hh
      · intro hh
        have hok' : p.parseOK = false := by simpa using hok
        have e : parseMainLoop obs (n + 1) p s = (p, s) := by
          simp [parseMainLoop, hok']
        rw [e] at hh
        exact absurd hh hok

end Trails

/-- In parse mode no call is made to complete. -/
theorem parse_no_completion {σ : Type} (obs : parseObserver σ) (toks : List String) (s : σ) :
    ∀ e ∈ (parse toks (recording obs) (s, [])).2.2, e.isCompletion = false := by
  intro e he
  have hU := (parseMain_upright obs toks s).2
  obtain ⟨-, -, h2⟩ := parseMain_simulates (watching_simulates_recording obs)
    (parser.start toks false) (s, []) (s, []) ⟨rfl, rfl⟩
  have he' : e ∈ (parseMain (parser.start toks false) (recording obs) (s, [])).2.2 := he
  rw [← h2] at he'
  obtain ⟨x, hx, rfl⟩ := List.mem_map.1 he'
  exact hU x hx

end cmdline

namespace cmdline
open parser

/-! ## The clip point -/

theorem size_nil : (String.mk []).utf8ByteSize = 0 := rfl

theorem size_cons (c : Char) (l : List Char) :
    (String.mk (c :: l)).utf8ByteSize = (String.mk l).utf8ByteSize + c.utf8Size := by
  simp only [String.utf8ByteSize, String.utf8ByteSize.go]

theorem size_append (A B : List Char) :
    (String.mk (A ++ B)).utf8ByteSize
      = (String.mk A).utf8ByteSize + (String.mk B).utf8ByteSize := by
  induction A with
  | nil => rw [List.nil_append, size_nil, Nat.zero_add]
  | cons c A ih =>
    rw [List.cons_append, size_cons, size_cons, ih]
    omega

theorem goBytes_length (s : String) : (goBytes s).length = s.utf8ByteSize := by
  cases s with
  | mk l =>
    unfold goBytes
    induction l with
    | nil => rfl
    | cons c l ih =>
      simp only [List.flatMap_cons, List.length_append, List.length_map] at ih ⊢
      rw [size_cons, ih, String.length_utf8EncodeChar]
      omega

theorem goBytes_append (a b : String) : goBytes (a ++ b) = goBytes a ++ goBytes b := by
  unfold goBytes
  rw [String.data_append, List.flatMap_append]

/-- No character of `breaks` among the first `n` characters: the loop finds
nothing. -/
theorem clipLoop_none (chars breaks : List Char) (n : Nat) (hn : n ≤ chars.length)
    (h : ∀ c ∈ chars, c ∉ breaks) : clipLoop chars breaks n = 0 := by
  induction n with
  | zero => rfl
  | succ i ih =>
    have hi : i < chars.length := hn
    have hmem : chars.getD i ' ' ∈ chars := by
      rw [List.getD_eq_getElem _ _ hi]
      exact List.getElem_mem _
    have hany : breaks.any (fun r => decide (chars.getD i ' ' = r)) = false := by
      rw [List.any_eq_false]
      intro r hr
      simp only [decide_eq_true_eq]
      intro e
      exact h _ hmem (e ▸ hr)
    rw [clipLoop, hany]
    simp only [Bool.false_eq_true, if_false]
    exact ih (Nat.le_of_succ_le hn)

/-- The loop started after characters `B.take k` that are not in `breaks`, which
follow a character `b` of `breaks`, stops at `b`. -/
theorem clipLoop_last (A B breaks : List Char) (b : Char) (hb : b ∈ breaks)
    (hB : ∀ c ∈ B, c ∉ breaks) (k : Nat) (hk : k ≤ B.length) :
    clipLoop (A ++ b :: B) breaks (A.length + 1 + k) = (String.mk (A ++ [b])).utf8ByteSize := by
  induction k with
  | zero =>
    have hget : (A ++ b :: B).getD A.length ' ' = b := by
      rw [List.getD_eq_getElem?_getD, List.getElem?_append_right (Nat.le_refl _), Nat.sub_self]
      simp
    have hany : breaks.any (fun r => decide ((A ++ b :: B).getD A.length ' ' = r)) = true := by
      rw [List.any_eq_true]
      exact ⟨b, hb, decide_eq_true hget⟩
    have htake : (A ++ b :: B).take (A.length + 1) = A ++ [b] := by
      rw [List.take_append_eq_append_take]
      simp
    show clipLoop (A ++ b :: B) breaks (A.length + 1) = _
    rw [clipLoop, hany, if_pos rfl, htake]
  | succ k ih =>
    have hk' : k < B.length := hk
    have hget : (A ++ b :: B).getD (A.length + 1 + k) ' ' = B[k] := by
      rw [List.getD_eq_getElem?_getD, List.getElem?_append_right (by omega)]
      have e : A.length + 1 + k - A.length = k + 1 := by omega
      rw [e, List.getElem?_cons_succ, List.getElem?_eq_getElem hk']
      rfl
    have hany : breaks.any (fun r => decide ((A ++ b :: B).getD (A.length + 1 + k) ' ' = r))
        = false := by
      rw [List.any_eq_false]
      intro r hr
      simp only [decide_eq_true_eq]
      intro e
      rw [hget] at e
      exact hB _ (List.getElem_mem _) (e ▸ hr)
    show clipLoop (A ++ b :: B) breaks (A.length + 1 + k + 1) = _
    rw [clipLoop, hany]
    simp only [Bool.false_eq_true, if_false]
    exact ih (Nat.le_of_succ_le hk)

/-- A list holds no character of `breaks`, or it has a last one. -/
theorem last_break (chars breaks : List Char) :
    (∀ c ∈ chars, c ∉ breaks) ∨
      ∃ A b B, chars = A ++ b :: B ∧ b ∈ breaks ∧ ∀ c ∈ B, c ∉ breaks := by
  induction chars with
  | nil => exact Or.inl (fun c hc => absurd hc (List.not_mem_nil c))
  | cons x xs ih =>
    rcases ih with h | ⟨A, b, B, e, hb, hB⟩
    · by_cases hx : x ∈ breaks
      · exact Or.inr ⟨[], x, xs, rfl, hx, h⟩
      · left
        intro c hc
        rcases List.mem_cons.1 hc with rfl | hc
        · exact hx
        · exact h c hc
    · exact Or.inr ⟨x :: A, b, B, by rw [e]; rfl, hb, hB⟩

end cmdline

namespace cmdline
open parser

/-! ## `Enum` -/

theorem Enum.parseLoop_mem (text : String) (l : List String) (h : text ∈ l) :
    Enum.parseLoop text l = some text := by
  induction l with
  | nil => cases h
  | cons x xs ih =>
    unfold Enum.parseLoop
    by_cases e : text = x
    · rw [if_pos e]
    · rw [if_neg e]
      rcases List.mem_cons.1 h with h | h
      · exact absurd h e
      · exact ih h

theorem Enum.parseLoop_not_mem (text : String) (l : List String) (h : text ∉ l) :
    Enum.parseLoop text l = none := by
  induction l with
  | nil => rfl
  | cons x xs ih =>
    unfold Enum.parseLoop
    have e : text ≠ x := fun e => h (e ▸ List.mem_cons_self _ _)
    rw [if_neg e]
    exact ih (fun hm => h (List.mem_cons_of_mem _ hm))

theorem Enum.Parse_mem (quote : String → String) (p : Enum) (m : String)
    (hm : m ∈ p.Possible) : p.Parse quote m = Except.ok m := by
  unfold Enum.Parse
  rw [Enum.parseLoop_mem m _ hm]

end cmdline

namespace cmdline
open parser

/-! ## The lines written for the candidates -/

theorem sliceFrom_inside (o : String) (n : Nat) (h : n ≤ o.utf8ByteSize) :
    sliceFrom o n = some ((goBytes o).drop n) := by
  unfold sliceFrom
  rw [goBytes_length, if_pos h]

theorem sliceFrom_outside (o : String) (n : Nat) (h : o.utf8ByteSize < n) :
    sliceFrom o n = none := by
  unfold sliceFrom
  rw [goBytes_length, if_neg (by omega)]

theorem printClipped_inside (n : Nat) (options : List String)
    (h : ∀ o ∈ options, n ≤ o.utf8ByteSize) :
    printClipped n options = (options.map (fun o => (goBytes o).drop n), true) := by
  induction options with
  | nil => rfl
  | cons o os ih =>
    have ih' := ih (fun x hx => h x (List.mem_cons_of_mem _ hx))
    rw [printClipped, sliceFrom_inside o n (h o (List.mem_cons_self _ _))]
    simp only [ih', List.map_cons]

/-- The lines that `Run` writes for candidates in which the clip point lies. -/
theorem printOptions_inside (options : List String) (isPartial : Bool) (n : Nat)
    (h : ∀ o ∈ options, n ≤ o.utf8ByteSize) :
    printOptions options isPartial n =
      (if options.length = 1 ∧ isPartial = false then
          options.map (fun o => (goBytes o).drop n ++ goBytes " ")
        else options.map (fun o => (goBytes o).drop n), true) := by
  unfold printOptions
  by_cases hc : options.length = 1 ∧ isPartial = false
  · obtain ⟨h1, h2⟩ := hc
    obtain ⟨o, rfl⟩ := List.length_eq_one.1 h1
    simp only [h2, List.length_singleton, decide_True, Bool.not_false, Bool.and_self, if_true,
      List.headD_cons, sliceFrom_inside o n (h o (List.mem_singleton_self _)), List.map_cons,
      List.map_nil, and_self]
  · have hb : (decide (options.length = 1) && !isPartial) = false := by
      cases isPartial <;> simp_all
    rw [hb, if_neg hc]
    simp only [Bool.false_eq_true, if_false]
    exact printClipped_inside n options h

end cmdline

namespace cmdline
open parser

/-! ## The value of a long flag in completion mode -/

@[simp] theorem recording_completeLongFlagValue {σ : Type} (obs : parseObserver σ)
    (n v : String) (st : σ × List Event) :
    (recording obs).completeLongFlagValue n v st =
      ((obs.completeLongFlagValue n v st.1).1,
        ((obs.completeLongFlagValue n v st.1).2,
          st.2 ++ [Event.completeLongFlagValue n v])) := rfl

@[simp] theorem recording_completeShortFlagValue {σ : Type} (obs : parseObserver σ)
    (n : Char) (v : String) (st : σ × List Event) :
    (recording obs).completeShortFlagValue n v st =
      ((obs.completeShortFlagValue n v st.1).1,
        ((obs.completeShortFlagValue n v st.1).2,
          st.2 ++ [Event.completeShortFlagValue n v])) := rfl

/-- `parseLongFlag` on `name=value` for a flag that takes a value, when the
token is the last one of a scan in completion mode. -/
theorem parseLongFlag_completeAssign {σ : Type} (obs : parseObserver σ) (p : parser)
    (name value : String) (s : σ) (hno : '=' ∉ name.data) (hc : p.shouldComplete = true)
    (hi : (obs.longFlagInfo name s).1 = (true, true)) :
    parseLongFlag p (name ++ "=" ++ value).data obs s =
      (({ p with prependCompletion := "--" ++ (name ++ "=") } : parser).deliver
          (obs.completeLongFlagValue name value (obs.longFlagInfo name s).2).1,
        (obs.completeLongFlagValue name value (obs.longFlagInfo name s).2).2) := by
  have hd : (name ++ "=" ++ value).data = name.data ++ '=' :: value.data := by
    simp [String.data_append]
  have hn : String.mk (List.take name.data.length (name.data ++ '=' :: value.data)) = name := by
    simp
  have hv : String.mk (List.drop (name.data.length + 1) (name.data ++ '=' :: value.data))
      = value := by
    rw [show name.data ++ '=' :: value.data = (name.data ++ ['=']) ++ value.data by simp]
    rw [List.drop_left' (by simp)]
  have hp : String.mk (List.take (name.data.length + 1) (name.data ++ '=' :: value.data))
      = name ++ "=" := by
    rw [show name.data ++ '=' :: value.data = (name.data ++ ['=']) ++ value.data by simp]
    rw [List.take_left' (by simp)]
    rfl
  have hc' : ({ p with prependCompletion := "--" ++ (name ++ "=") } : parser).shouldComplete
      = true := hc
  have h1 : (obs.longFlagInfo name s).1.1 = true := by rw [hi]
  have h2 : (obs.longFlagInfo name s).1.2 = true := by rw [hi]
  unfold parseLongFlag
  simp only [hd, scanEquals_first _ _ 0 hno, Nat.zero_add, hn, hv, hp, h1, h2, Bool.not_true,
    Bool.false_eq_true, if_false, if_true]
  unfold handleLongFlagValue
  rw [if_pos hc']

/-- `parseLongFlag` on the name of a flag that takes a value, when one token
follows and the scan is in completion mode: the token is read as the value and
completed. -/
theorem parseLongFlag_completeNext {σ : Type} (obs : parseObserver σ) (p : parser)
    (name frag : String) (s : σ) (hno : '=' ∉ name.data) (hcomp : p.completing = true)
    (hr : p.rest = [frag]) (hi : (obs.longFlagInfo name s).1 = (true, true)) :
    parseLongFlag p name.data obs s =
      (({ p.getNext.2 with prependCompletion := "" } : parser).deliver
          (obs.completeLongFlagValue name frag (obs.longFlagInfo name s).2).1,
        (obs.completeLongFlagValue name frag (obs.longFlagInfo name s).2).2) := by
  have hn : String.mk (List.take name.data.length name.data) = name := by
    rw [List.take_length]
  have hnext : p.hasNext = true := hasNext_of_cons hr
  have hsc : p.shouldComplete = false := by simp [shouldComplete, hnext]
  have hrest : p.getNext.2.rest = [] := by rw [getNext_rest, hr]; rfl
  have hnext2 : ({ p.getNext.2 with prependCompletion := "" } : parser).hasNext = false :=
    hasNext_of_nil (p := { p.getNext.2 with prependCompletion := "" }) hrest
  have hsc2 : ({ p.getNext.2 with prependCompletion := "" } : parser).shouldComplete = true := by
    simp only [shouldComplete, hnext2, Bool.not_false, Bool.and_true]
    exact hcomp
  have h1 : (obs.longFlagInfo name s).1.1 = true := by rw [hi]
  have h2 : (obs.longFlagInfo name s).1.2 = true := by rw [hi]
  unfold parseLongFlag
  simp only [scanEquals_none _ 0 hno, Nat.zero_add, hn, hsc, hnext, h1, h2, Bool.not_true,
    Bool.false_eq_true, if_false, if_true, getNext_fst hr]
  unfold handleLongFlagValue
  rw [if_pos hsc2]

end cmdline

namespace cmdline
open parser

/-! ## A positional last token when no slot is active -/

/-- Without an active slot `App.completeArg` dereferences a `nil` argument. -/
theorem App.completeArg_noSlot {ω : Type} (app : App ω) (pfx : String)
    (h : app.acceptingArgs = false) : app.completeArg pfx = none := by
  unfold App.acceptingArgs at h
  rw [Bool.or_eq_false_iff, decide_eq_false_iff_not] at h
  obtain ⟨h1, h2⟩ := h
  have h3 : app.excessArguments = none := by
    cases he : app.excessArguments with
    | none => rfl
    | some a => rw [he] at h2; cases h2
  unfold App.completeArg
  simp only [if_neg h1, h3]

/-- With an active slot that has a handler, `App.completeArg` is the handler's
`Complete`. -/
theorem App.completeArg_slot {ω : Type} (app : App ω) (pfx : String) :
    (∀ a h, app.currentArgument < app.requiredArguments.length →
        app.requiredArguments.get? app.currentArgument = some a → a.Value = some h →
        app.completeArg pfx = some (h.Complete pfx app.world)) ∧
      (∀ a h, ¬ app.currentArgument < app.requiredArguments.length →
        app.excessArguments = some a → a.Value = some h →
        app.completeArg pfx = some (h.Complete pfx app.world)) := by
  constructor
  · intro a h h1 h2 h3
    unfold App.completeArg
    simp only [if_pos h1, h2, h3]
  · intro a h h1 h2 h3
    unfold App.completeArg
    simp only [if_neg h1, h2, h3]

/-- The empty last token of a scan in completion mode, reached as a fresh token
while the observer accepts no positional argument, is completed by both
enumerations of flags. -/
theorem complete_emptyFallback {σ : Type} (obs : parseObserver σ) (toks : List String) (s : σ)
    (k : Nat)
    (hr : (completionScan obs toks s k).1.rest = [""])
    (hok : (completionScan obs toks s k).1.parseOK = true)
    (ha : (obs.acceptingArgs (completionScan obs toks s k).2.1).1 = false) :
    complete toks (recording obs) (s, []) =
      (((obs.completeShortFlag (obs.acceptingArgs (completionScan obs toks s k).2.1).2).1.map
            (fun c => "-" ++ c.text) ++
          (if (obs.acceptingArgs (obs.completeShortFlag
              (obs.acceptingArgs (completionScan obs toks s k).2.1).2).2).1 = true
            then ["--"] else []) ++
          (obs.completeLongFlag "" (obs.acceptingArgs (obs.completeShortFlag
              (obs.acceptingArgs (completionScan obs toks s k).2.1).2).2).2).1.map
            (fun c => "--" ++ c.text),
        ((obs.completeShortFlag (obs.acceptingArgs (completionScan obs toks s k).2.1).2).1.any
            Completion.isPartial ||
          (obs.completeLongFlag "" (obs.acceptingArgs (obs.completeShortFlag
              (obs.acceptingArgs (completionScan obs toks s k).2.1).2).2).2).1.any
            Completion.isPartial)),
       ((obs.completeLongFlag "" (obs.acceptingArgs (obs.completeShortFlag
            (obs.acceptingArgs (completionScan obs toks s k).2.1).2).2).2).2,
        (completionScan obs toks s k).2.2 ++
          [Event.acceptingArgs, Event.completeShortFlag, Event.acceptingArgs,
            Event.completeLongFlag ""])) := by
  obtain ⟨⟨h1, h2, h3, h4, h5⟩, e⟩ := complete_reached (recording obs) toks (s, []) k
    "" (completionScan obs toks s k).1 (completionScan obs toks s k).2 rfl hr hok
  have hdata : ("" : String).data = [] := rfl
  have hstep : parseToken (completionScan obs toks s k).1.getNext.2 ("" : String).data
      (recording obs) (completionScan obs toks s k).2 =
      completeAnyFlag (completionScan obs toks s k).1.getNext.2 (recording obs)
        ((recording obs).acceptingArgs (completionScan obs toks s k).2).2 := by
    rw [hdata]
    simp [parseToken, h1, ha]
  rw [e, hstep]
  obtain ⟨a, b, c⟩ := completeAnyFlag_candidates (recording obs)
    (completionScan obs toks s k).1.getNext.2
    ((recording obs).acceptingArgs (completionScan obs toks s k).2).2 h3 h4
  rw [a, b, c]
  simp

end cmdline

namespace cmdline
open parser

/-! ## The value attached to a short flag in completion mode -/

/-- No character is a cluster that every observer fires. -/
theorem firesCluster_nil {σ : Type} (obs : parseObserver σ) (Inv : σ → Prop) :
    obs.firesCluster Inv [] :=
  ⟨fun c hc => absurd hc (List.not_mem_nil c), fun c hc => absurd hc (List.not_mem_nil c)⟩

/-- The loop of `parseShortFlag` at a flag that takes a value and has text
after it, on the last token of a scan in completion mode: the text is completed
as the value, and the parser's `prependCompletion` is left as it was. -/
theorem parseShortFlagLoop_completeAttached {σ : Type} (obs : parseObserver σ)
    (arg : List Char) (x : Char) (v : List Char) (p : parser) (s : σ)
    (hv : v ≠ []) (hok : p.parseOK = true) (hc : p.shouldComplete = true)
    (hx : (obs.shortFlagInfo x s).1 = (true, true)) :
    parseShortFlagLoop obs arg (x :: v) p s =
      (true, p.deliver (obs.completeShortFlagValue x (String.mk v) (obs.shortFlagInfo x s).2).1,
        (obs.completeShortFlagValue x (String.mk v) (obs.shortFlagInfo x s).2).2) := by
  have h1 : (obs.shortFlagInfo x s).1.1 = true := by rw [hx]
  have h2 : (obs.shortFlagInfo x s).1.2 = true := by rw [hx]
  rw [parseShortFlagLoop]
  simp only [hok, h1, h2, hv, Bool.not_true, Bool.false_eq_true, if_false, if_true, ne_eq,
    not_false_eq_true]
  unfold handleShortFlagValue
  rw [if_pos hc]

end cmdline

namespace cmdline
open parser

/-! ## A candidate shorter than the clip point -/

/-- The loop that prints the candidates stops, by a panic, at the first
candidate that is shorter than the clip point. -/
theorem printClipped_outside (n : Nat) (options : List String)
    (h : ∃ o ∈ options, o.utf8ByteSize < n) :
    (printClipped n options).2 = false ∧
      (printClipped n options).1.length < options.length := by
  induction options with
  | nil =>
    obtain ⟨o, ho, _⟩ := h
    cases ho
  | cons o os ih =>
    by_cases ho : o.utf8ByteSize < n
    · rw [printClipped, sliceFrom_outside o n ho]
      exact ⟨rfl, by simp⟩
    · have hos : ∃ x ∈ os, x.utf8ByteSize < n := by
        obtain ⟨x, hx, hlt⟩ := h
        rcases List.mem_cons.1 hx with rfl | hx
        · exact absurd hlt ho
        · exact ⟨x, hx, hlt⟩
      obtain ⟨a, b⟩ := ih hos
      rw [printClipped, sliceFrom_inside o n (by omega)]
      exact ⟨a, by simpa using b⟩

theorem printOptions_outside (options : List String) (isPartial : Bool) (n : Nat)
    (h : ∃ o ∈ options, o.utf8ByteSize < n) :
    (printOptions options isPartial n).2 = false ∧
      (printOptions options isPartial n).1.length < options.length := by
  unfold printOptions
  by_cases hc : options.length = 1 ∧ isPartial = false
  · obtain ⟨h1, h2⟩ := hc
    obtain ⟨o, rfl⟩ := List.length_eq_one.1 h1
    obtain ⟨x, hx, hlt⟩ := h
    rw [List.mem_singleton.1 hx] at hlt
    simp only [h2, List.length_singleton, decide_True, Bool.not_false, Bool.and_self, if_true,
      List.headD_cons, sliceFrom_outside o n hlt, List.length_nil, Nat.lt_one_iff, and_self]
  · have hb : (decide (options.length = 1) && !isPartial) = false := by
      cases isPartial <;> simp_all
    rw [hb]
    simp only [Bool.false_eq_true, if_false]
    exact printClipped_outside n options h

end cmdline

namespace cmdline
open parser

/-! ## Go strings: `[]rune(s)` undoes `string(r)` -/

namespace bytes

theorem or192 : ∀ x < 32, x ||| 192 = x + 192 := by decide
theorem or128 : ∀ x < 64, x ||| 128 = x + 128 := by decide
theorem or224 : ∀ x < 16, x ||| 224 = x + 224 := by decide
theorem or240 : ∀ x < 8, x ||| 240 = x + 240 := by decide

theorem u8_or (a b : UInt8) : (a ||| b).toNat = a.toNat ||| b.toNat := BitVec.toNat_or ..

theorem u32_shr6 (v : UInt32) : (v >>> 6).toNat = v.toNat / 64 := by
  show (v.toBitVec >>> (UInt32.mod 6 32).toBitVec.toNat).toNat = _
  rw [BitVec.toNat_ushiftRight]
  have : (UInt32.mod 6 32).toBitVec.toNat = 6 := by decide
  rw [this, Nat.shiftRight_eq_div_pow]
  rfl

theorem u32_shr12 (v : UInt32) : (v >>> 12).toNat = v.toNat / 4096 := by
  show (v.toBitVec >>> (UInt32.mod 12 32).toBitVec.toNat).toNat = _
  rw [BitVec.toNat_ushiftRight]
  have : (UInt32.mod 12 32).toBitVec.toNat = 12 := by decide
  rw [this, Nat.shiftRight_eq_div_pow]
  rfl

theorem u32_shr18 (v : UInt32) : (v >>> 18).toNat = v.toNat / 262144 := by
  show (v.toBitVec >>> (UInt32.mod 18 32).toBitVec.toNat).toNat = _
  rw [BitVec.toNat_ushiftRight]
  have : (UInt32.mod 18 32).toBitVec.toNat = 18 := by decide
  rw [this, Nat.shiftRight_eq_div_pow]
  rfl

theorem u32_to8 (v : UInt32) : v.toUInt8.toNat = v.toNat % 256 := by
  show (UInt8.ofNat v.toNat).toNat = _
  simp [UInt8.ofNat, UInt8.toNat]

theorem and7 (x : Nat) : x &&& 7 = x % 8 := Nat.and_pow_two_sub_one_eq_mod x 3
theorem and15 (x : Nat) : x &&& 15 = x % 16 := Nat.and_pow_two_sub_one_eq_mod x 4
theorem and31 (x : Nat) : x &&& 31 = x % 32 := Nat.and_pow_two_sub_one_eq_mod x 5
theorem and63 (x : Nat) : x &&& 63 = x % 64 := Nat.and_pow_two_sub_one_eq_mod x 6

theorem le_iff_toNat (c : Char) (n : UInt32) : c.val ≤ n ↔ c.toNat ≤ n.toNat := by
  rw [UInt32.le_def]
  rfl

/-- The range of a rune. -/
theorem toNat_valid (c : Char) :
    c.toNat < 0xD800 ∨ (0xDFFF < c.toNat ∧ c.toNat < 0x110000) := c.valid

/-- The bytes that `string(r)` writes for one rune. -/
theorem encodeRune_eq (c : Char) :
    (String.utf8EncodeChar c).map UInt8.toNat =
      if c.toNat ≤ 0x7f then [c.toNat]
      else if c.toNat ≤ 0x7ff then [c.toNat / 64 + 192, c.toNat % 64 + 128]
      else if c.toNat ≤ 0xffff then
        [c.toNat / 4096 + 224, c.toNat / 64 % 64 + 128, c.toNat % 64 + 128]
      else [c.toNat / 262144 + 240, c.toNat / 4096 % 64 + 128, c.toNat / 64 % 64 + 128,
        c.toNat % 64 + 128] := by
  have hv : c.val.toNat = c.toNat := rfl
  have hr := toNat_valid c
  have n1 : (0x7f : UInt32).toNat = 0x7f := by decide
  have n2 : (0x7ff : UInt32).toNat = 0x7ff := by decide
  have n3 : (0xffff : UInt32).toNat = 0xffff := by decide
  unfold String.utf8EncodeChar
  simp only [le_iff_toNat, n1, n2, n3]
  split_ifs with h1 h2 h3
  · simp only [List.map_cons, List.map_nil, u32_to8, hv]
    congr 1
    omega
  · simp only [List.map_cons, List.map_nil, u8_or, UInt8.and_toNat, u32_to8, u32_shr6, hv]
    have a : (31 : UInt8).toNat = 31 := by decide
    have b : (192 : UInt8).toNat = 192 := by decide
    have c' : (63 : UInt8).toNat = 63 := by decide
    have d : (128 : UInt8).toNat = 128 := by decide
    rw [a, b, c', d, and31, and63, or192 _ (Nat.mod_lt _ (by decide)),
      or128 _ (Nat.mod_lt _ (by decide))]
    congr 1
    · omega
    · congr 1
      omega
  · simp only [List.map_cons, List.map_nil, u8_or, UInt8.and_toNat, u32_to8, u32_shr6,
      u32_shr12, hv]
    have a : (15 : UInt8).toNat = 15 := by decide
    have b : (224 : UInt8).toNat = 224 := by decide
    have c' : (63 : UInt8).toNat = 63 := by decide
    have d : (128 : UInt8).toNat = 128 := by decide
    rw [a, b, c', d, and15, and63, and63, or224 _ (Nat.mod_lt _ (by decide)),
      or128 _ (Nat.mod_lt _ (by decide)), or128 _ (Nat.mod_lt _ (by decide))]
    congr 1
    · omega
    · congr 1
      · omega
      · congr 1
        omega
  · simp only [List.map_cons, List.map_nil, u8_or, UInt8.and_toNat, u32_to8, u32_shr6,
      u32_shr12, u32_shr18, hv]
    have a : (7 : UInt8).toNat = 7 := by decide
    have b : (240 : UInt8).toNat = 240 := by decide
    have c' : (63 : UInt8).toNat = 63 := by decide
    have d : (128 : UInt8).toNat = 128 := by decide
    rw [a, b, c', d, and7, and63, and63, and63, or240 _ (Nat.mod_lt _ (by decide)),
      or128 _ (Nat.mod_lt _ (by decide)), or128 _ (Nat.mod_lt _ (by decide)),
      or128 _ (Nat.mod_lt _ (by decide))]
    congr 1
    · omega
    · congr 1
      · omega
      · congr 1
        · omega
        · congr 1
          omega

theorem ofNat_of_toNat (c : Char) (n : Nat) (h : n = c.toNat) : Char.ofNat n = c := by
  rw [h]
  exact Char.ofNat_toNat c

/-- Decoding reads back the rune that was encoded, and takes its bytes. -/
theorem decodeRune_encode (c : Char) (rest : GoString) :
    decodeRune ((String.utf8EncodeChar c).map UInt8.toNat ++ rest) =
      (c, ((String.utf8EncodeChar c).map UInt8.toNat).length) := by
  have hr := toNat_valid c
  rw [encodeRune_eq]
  split_ifs with h1 h2 h3
  · simp only [List.singleton_append, decodeRune, List.length_singleton]
    rw [if_pos (by omega), ofNat_of_toNat c _ rfl]
  · simp only [List.cons_append, List.nil_append, decodeRune, List.length_cons,
      List.length_nil]
    rw [if_neg (by omega), if_pos (by omega), if_pos (by omega),
      ofNat_of_toNat c _ (by omega)]
  · simp only [List.cons_append, List.nil_append, decodeRune, List.length_cons,
      List.length_nil]
    rw [if_neg (by omega), if_neg (by omega), if_pos (by omega)]
    have hc : (if c.toNat / 4096 + 224 = 224 then 160 else 128) ≤ c.toNat / 64 % 64 + 128 ∧
        c.toNat / 64 % 64 + 128 ≤ (if c.toNat / 4096 + 224 = 237 then 159 else 191) ∧
        128 ≤ c.toNat % 64 + 128 ∧ c.toNat % 64 + 128 ≤ 191 := by
      split_ifs <;> omega
    rw [if_pos hc, ofNat_of_toNat c _ (by omega)]
  · simp only [List.cons_append, List.nil_append, decodeRune, List.length_cons,
      List.length_nil]
    rw [if_neg (by omega), if_neg (by omega), if_neg (by omega), if_pos (by omega)]
    have hc : (if c.toNat / 262144 + 240 = 240 then 144 else 128) ≤ c.toNat / 4096 % 64 + 128 ∧
        c.toNat / 4096 % 64 + 128 ≤ (if c.toNat / 262144 + 240 = 244 then 143 else 191) ∧
        128 ≤ c.toNat / 64 % 64 + 128 ∧ c.toNat / 64 % 64 + 128 ≤ 191 ∧
        128 ≤ c.toNat % 64 + 128 ∧ c.toNat % 64 + 128 ≤ 191 := by
      split_ifs <;> omega
    rw [if_pos hc, ofNat_of_toNat c _ (by omega)]

theorem encode_ne_nil (c : Char) : (String.utf8EncodeChar c).map UInt8.toNat ≠ [] := by
  rw [encodeRune_eq]
  split_ifs <;> simp

/-- Every rune read takes at least one byte. -/
theorem decodeRune_width (b : Nat) (t : GoString) : 1 ≤ (decodeRune (b :: t)).2 := by
  simp only [decodeRune]
  repeat' split
  all_goals simp

/-- More fuel than bytes does not change the result of the loop. -/
theorem runesLoop_fuel (fuel : Nat) (s : GoString) (h : s.length ≤ fuel) :
    runesLoop fuel s = runesLoop s.length s := by
  induction fuel using Nat.strong_induction_on generalizing s with
  | _ fuel ih =>
    cases s with
    | nil => cases fuel <;> rfl
    | cons b t =>
      obtain ⟨f, rfl⟩ : ∃ f, fuel = f + 1 := ⟨fuel - 1, by simp at h; omega⟩
      have hl : ((b :: t).drop (decodeRune (b :: t)).2).length ≤ t.length := by
        rw [List.length_drop]
        have := decodeRune_width b t
        simp only [List.length_cons]
        omega
      have hf : t.length ≤ f := by simpa using h
      have e1 := ih f (by omega) _ (Nat.le_trans hl hf)
      have e2 := ih t.length (by omega) _ hl
      show runesLoop (f + 1) (b :: t) = runesLoop (t.length + 1) (b :: t)
      simp only [runesLoop, reduceCtorEq, if_false]
      rw [e1, e2]

/-- The runes of a Go string that begins with the encoding of a rune. -/
theorem runes_encode_append (c : Char) (rest : GoString) :
    runes ((String.utf8EncodeChar c).map UInt8.toNat ++ rest) = c :: runes rest := by
  have hne := encode_ne_nil c
  obtain ⟨b, t, hbt⟩ := List.exists_cons_of_ne_nil hne
  have hd := decodeRune_encode c rest
  unfold runes
  rw [hbt] at hd ⊢
  simp only [List.cons_append, List.length_cons, runesLoop, reduceCtorEq, if_false]
  rw [← List.cons_append, hd]
  simp only [List.length_cons, List.drop_succ_cons]
  congr 1
  rw [show t.length + 1 = (b :: t).length from rfl, List.drop_left' rfl]
  exact runesLoop_fuel _ _ (by simp)

/-- The conversion `[]rune(s)` of a Go string that begins with valid UTF-8
text. -/
theorem runes_lit_append (s : String) (rest : GoString) :
    runes (lit s ++ rest) = s.data ++ runes rest := by
  cases s with
  | mk l =>
    unfold lit goBytes
    induction l with
    | nil => rfl
    | cons c l ih =>
      simp only [List.flatMap_cons, List.append_assoc] at ih ⊢
      rw [runes_encode_append, ih]
      rfl

/-- On valid UTF-8 text the two conversions are inverse to each other. -/
theorem runes_lit (s : String) : runes (lit s) = s.data := by
  have h := runes_lit_append s []
  rw [List.append_nil] at h
  rw [h]
  exact List.append_nil _

theorem ofRunes_runes_lit (s : String) : ofRunes (runes (lit s)) = lit s := by
  rw [runes_lit]
  rfl

end bytes

end cmdline

namespace cmdline
open parser

/-! ## Go strings: the value of a flag, attached or in the next token -/

namespace bytes

theorem runes_ne_nil (s : GoString) (h : s ≠ []) : runes s ≠ [] := by
  obtain ⟨b, t, rfl⟩ := List.exists_cons_of_ne_nil h
  unfold runes
  simp [runesLoop]

theorem ofRunes_data (s : String) : ofRunes s.data = lit s := rfl

/-- The scan of the one token `tok` in parse mode. -/
theorem parse_one {σ : Type} (obs : parseObserver σ) (s : σ) (tok : GoString) :
    parse [tok] obs s =
      ((parseToken (parser.start [tok] false).getNext.2 (runes tok) obs s).1.parseOK &&
          decide (obs.NumErrors
            (parseToken (parser.start [tok] false).getNext.2 (runes tok) obs s).2 = 0),
        (parseToken (parser.start [tok] false).getNext.2 (runes tok) obs s).2) := by
  have h1 : (parser.start [tok] false).hasNext = true := by rfl
  have h2 : (parser.start [tok] false).parseOK = true := rfl
  have h3 : (parser.start [tok] false).getNext.1 = tok := rfl
  unfold parse parseMain
  show (((parseMainLoop obs 1 (parser.start [tok] false) s).1.parseOK &&
    decide (obs.NumErrors (parseMainLoop obs 1 (parser.start [tok] false) s).2 = 0)),
    (parseMainLoop obs 1 (parser.start [tok] false) s).2) = _
  simp only [parseMainLoop, h1, h2, h3, Bool.and_self, if_true]

/-- `parseLongFlag` on the runes of `name=value`, in parse mode, for a flag
that takes a value: the value handed over is `string(arg[c+1:])`. -/
theorem parseLongFlag_assign_bytes {σ : Type} (obs : parseObserver σ) (p : parser)
    (name : String) (V : List Char) (s : σ) (hno : '=' ∉ name.data)
    (hc : p.completing = false) (hi : (obs.longFlagInfo (lit name) s).1 = (true, true)) :
    parseLongFlag p (name.data ++ '=' :: V) obs s =
      (({ p with prependCompletion := lit "--" ++ ofRunes (name.data ++ ['=']) } : parser).status
          (obs.notifyLongFlagValue (lit name) (ofRunes V) (obs.longFlagInfo (lit name) s).2).1,
        (obs.notifyLongFlagValue (lit name) (ofRunes V) (obs.longFlagInfo (lit name) s).2).2) := by
  have hn : ofRunes (List.take name.data.length (name.data ++ '=' :: V)) = lit name := by
    simp [ofRunes_data]
  have hv : List.drop (name.data.length + 1) (name.data ++ '=' :: V) = V := by
    rw [show name.data ++ '=' :: V = (name.data ++ ['=']) ++ V by simp]
    rw [List.drop_left' (by simp)]
  have hp : List.take (name.data.length + 1) (name.data ++ '=' :: V) = name.data ++ ['='] := by
    rw [show name.data ++ '=' :: V = (name.data ++ ['=']) ++ V by simp]
    rw [List.take_left' (by simp)]
  have h1 : (obs.longFlagInfo (lit name) s).1.1 = true := by rw [hi]
  have h2 : (obs.longFlagInfo (lit name) s).1.2 = true := by rw [hi]
  have hsc : ({ p with prependCompletion := lit "--" ++ ofRunes (name.data ++ ['=']) }
      : parser).shouldComplete = false := by
    simp [parser.shouldComplete, hc]
  unfold parseLongFlag
  simp only [scanEquals_first _ _ 0 hno, Nat.zero_add, hn, hv, hp, h1, h2, Bool.not_true,
    Bool.false_eq_true, if_false, if_true]
  unfold handleLongFlagValue
  rw [hsc]
  simp only [Bool.false_eq_true, if_false]

/-- `parseLongFlag` on the runes of `name`, in parse mode, for a flag that
takes a value, when a token follows: the token is handed over as it stands. -/
theorem parseLongFlag_next_bytes {σ : Type} (obs : parseObserver σ) (p : parser)
    (name : String) (s : σ) (hno : '=' ∉ name.data)
    (hc : p.completing = false) (hn : p.hasNext = true)
    (hi : (obs.longFlagInfo (lit name) s).1 = (true, true)) :
    parseLongFlag p name.data obs s =
      (({ p.getNext.2 with prependCompletion := [] } : parser).status
          (obs.notifyLongFlagValue (lit name) p.getNext.1 (obs.longFlagInfo (lit name) s).2).1,
        (obs.notifyLongFlagValue (lit name) p.getNext.1 (obs.longFlagInfo (lit name) s).2).2) := by
  have hnm : ofRunes (List.take name.data.length name.data) = lit name := by
    rw [List.take_length]
    rfl
  have h1 : (obs.longFlagInfo (lit name) s).1.1 = true := by rw [hi]
  have h2 : (obs.longFlagInfo (lit name) s).1.2 = true := by rw [hi]
  have hsc : p.shouldComplete = false := by simp [parser.shouldComplete, hc]
  have hsc2 : ({ p.getNext.2 with prependCompletion := [] } : parser).shouldComplete = false := by
    simp [parser.shouldComplete, parser.getNext, hc]
  unfold parseLongFlag
  simp only [scanEquals_none _ 0 hno, Nat.zero_add, hnm, h1, h2, hsc, hn, Bool.not_true,
    Bool.false_eq_true, if_false, if_true]
  unfold handleLongFlagValue
  rw [hsc2]
  simp only [Bool.false_eq_true, if_false]

/-- The body of the loop on a token whose runes are `--` and three runes or
more. -/
theorem parseToken_long_bytes {σ : Type} (obs : parseObserver σ) (p : parser) (l : List Char)
    (s : σ) (hne : l ≠ []) :
    parseToken p ('-' :: '-' :: l) obs s = parseLongFlag p l obs s := by
  obtain ⟨c, cs, rfl⟩ := List.exists_cons_of_ne_nil hne
  simp [parseToken]

/-- The body of the loop on a token whose runes are `-`, a rune `x` that is
not `-`, and the runes `V`. -/
theorem parseToken_short_bytes {σ : Type} (obs : parseObserver σ) (p : parser) (x : Char)
    (V : List Char) (s : σ) (hx : x ≠ '-') :
    parseToken p ('-' :: x :: V) obs s = parseShortFlag p (x :: V) obs s := by
  simp [parseToken, hx]

/-- `parseShortFlag` on a flag that takes a value, in parse mode: the runes
after it, if there is one, are handed over as `string(arg[c:])`, and otherwise
the next token is, as it stands. -/
theorem parseShortFlag_value_bytes {σ : Type} (obs : parseObserver σ) (p : parser) (x : Char)
    (V : List Char) (s : σ) (hok : p.parseOK = true) (hc : p.completing = false)
    (hi : (obs.shortFlagInfo x s).1 = (true, true)) :
    (V ≠ [] →
      parseShortFlag p (x :: V) obs s =
        (p.status (obs.notifyShortFlagValue x (ofRunes V) (obs.shortFlagInfo x s).2).1,
          (obs.notifyShortFlagValue x (ofRunes V) (obs.shortFlagInfo x s).2).2)) ∧
      (p.hasNext = true →
        parseShortFlag p [x] obs s =
          (p.getNext.2.status
              (obs.notifyShortFlagValue x p.getNext.1 (obs.shortFlagInfo x s).2).1,
            (obs.notifyShortFlagValue x p.getNext.1 (obs.shortFlagInfo x s).2).2)) := by
  have h1 : (obs.shortFlagInfo x s).1.1 = true := by rw [hi]
  have h2 : (obs.shortFlagInfo x s).1.2 = true := by rw [hi]
  have hsc : p.shouldComplete = false := by simp [parser.shouldComplete, hc]
  have hsc2 : p.getNext.2.shouldComplete = false := by
    simp [parser.shouldComplete, parser.getNext, hc]
  constructor
  · intro hV
    unfold parseShortFlag
    simp only [parseShortFlagLoop, hok, h1, h2, hV, Bool.not_true, Bool.false_eq_true, if_false,
      if_true, ne_eq, not_false_eq_true]
    unfold handleShortFlagValue
    rw [hsc]
    simp only [Bool.false_eq_true, if_false]
  · intro hn
    unfold parseShortFlag
    simp only [parseShortFlagLoop, hok, h1, h2, hn, Bool.not_true, Bool.false_eq_true, if_false,
      if_true, ne_eq, not_true_eq_false]
    unfold handleShortFlagValue
    rw [hsc2]
    simp only [Bool.false_eq_true, if_false]

/-- The scan of the two tokens `tok` and `value` in parse mode, when the body
of the loop for `tok` reads `value` and does not fail. -/
theorem parse_two {σ : Type} (obs : parseObserver σ) (s : σ) (tok value : GoString)
    (q : parser) (st : σ)
    (h : parseToken (parser.start [tok, value] false).getNext.2 (runes tok) obs s = (q, st))
    (hq : q.hasNext = false) :
    parse [tok, value] obs s = (q.parseOK && decide (obs.NumErrors st = 0), st) := by
  have h1 : (parser.start [tok, value] false).hasNext = true := by rfl
  have h2 : (parser.start [tok, value] false).parseOK = true := rfl
  have h3 : (parser.start [tok, value] false).getNext.1 = tok := rfl
  unfold parse parseMain
  show (((parseMainLoop obs 2 (parser.start [tok, value] false) s).1.parseOK &&
    decide (obs.NumErrors (parseMainLoop obs 2 (parser.start [tok, value] false) s).2 = 0)),
    (parseMainLoop obs 2 (parser.start [tok, value] false) s).2) = _
  simp only [parseMainLoop, h1, h2, h3, h, hq, Bool.and_self, if_true, Bool.false_and,
    Bool.false_eq_true, if_false]

end bytes

end cmdline

namespace cmdline
open parser

/-! ## Go strings: the clip point -/

namespace bytes

theorem length_ofRunes (r : List Char) : (ofRunes r).length = (String.mk r).utf8ByteSize :=
  goBytes_length _

/-- On valid UTF-8 text the clip point is that of the text. -/
theorem completionClipPoint_lit (pfx : String) (breaks : GoString) :
    completionClipPoint (lit pfx) breaks =
      cmdline.completionClipPoint pfx (String.mk (runes breaks)) := by
  unfold completionClipPoint cmdline.completionClipPoint
  rw [runes_lit]

end bytes

end cmdline

namespace cmdline
open parser

/-! ## What one call does to an App -/

theorem runActions_append {ω : Type} (as bs : List (Action ω)) (w : ω) :
    runActions (as ++ bs) w =
      ((runActions bs (runActions as w).1).1,
        (runActions as w).2 ++ (runActions bs (runActions as w).1).2) := by
  induction as generalizing w with
  | nil => simp [runActions]
  | cons a as ih =>
    show runActions (a :: (as ++ bs)) w = _
    simp only [runActions, ih, List.append_assoc]

theorem Flag.asCall_some {ω : Type} (f : Flag ω) (a : Action ω) (h : f.asCall = some a) :
    f.Value = none ∧ ∃ call, f.Call = some call ∧ a = Action.call call := by
  unfold Flag.asCall at h
  cases hv : f.Value with
  | some v => simp [hv] at h
  | none =>
    simp only [hv, Option.isSome_none, Bool.false_eq_true, if_false, Option.map_eq_some'] at h
    obtain ⟨c, hc, rfl⟩ := h
    exact ⟨rfl, c, hc, rfl⟩

theorem Flag.asHand_some {ω : Type} (f : Flag ω) (v : String) (a : Action ω)
    (h : f.asHand v = some a) : ∃ hd, f.Value = some hd ∧ a = Action.hand hd v := by
  unfold Flag.asHand at h
  simp only [Option.map_eq_some'] at h
  obtain ⟨hd, h1, rfl⟩ := h
  exact ⟨hd, h1, rfl⟩

theorem Flag.asCall_congr {ω : Type} (f g : Flag ω)
    (h : (f.Value, f.Call) = (g.Value, g.Call)) : f.asCall = g.asCall := by
  simp only [Prod.mk.injEq] at h
  unfold Flag.asCall
  rw [h.1, h.2]

theorem Flag.asHand_congr {ω : Type} (f g : Flag ω) (v : String)
    (h : (f.Value, f.Call) = (g.Value, g.Call)) : f.asHand v = g.asHand v := by
  simp only [Prod.mk.injEq] at h
  unfold Flag.asHand
  rw [h.1]

namespace App

variable {ω : Type}

theorem kin_refl (a : App ω) : a.kin a := ⟨rfl, rfl, rfl, rfl, rfl⟩

theorem kin_trans {a b c : App ω} (h1 : a.kin b) (h2 : b.kin c) : a.kin c := by
  obtain ⟨a1, a2, a3, a4, a5⟩ := h1
  obtain ⟨b1, b2, b3, b4, b5⟩ := h2
  exact ⟨b1.trans a1, b2.trans a2, b3.trans a3, b4.trans a4, b5.trans a5⟩

/-- The flags at an index of two Apps with the same registrations have the same
handler and callback. -/
theorem kin_get {a b : App ω} (h : a.kin b) (i : Nat) :
    (b.allFlags.get? i).map (fun f => (f.Value, f.Call)) =
      (a.allFlags.get? i).map (fun f => (f.Value, f.Call)) := by
  have e := congrArg (fun l => l.get? i) h.2.2.2.2
  simpa [List.get?_eq_getElem?, List.getElem?_map] using e

theorem kin_flagAt {a b : App ω} (h : a.kin b) (entry : Option Nat) (g : Flag ω → Option β)
    (hg : ∀ f f' : Flag ω, (f.Value, f.Call) = (f'.Value, f'.Call) → g f = g f') :
    ((b.flagAt entry).map (fun r => r.2)).bind g = ((a.flagAt entry).map (fun r => r.2)).bind g := by
  have e := kin_get h
  unfold flagAt
  cases entry with
  | none => rfl
  | some i =>
    dsimp only
    cases hb : b.allFlags.get? i with
    | none =>
      cases ha : a.allFlags.get? i with
      | none => rfl
      | some f =>
        have ei := e i
        rw [hb, ha] at ei
        cases ei
    | some f' =>
      cases ha : a.allFlags.get? i with
      | none =>
        have ei := e i
        rw [hb, ha] at ei
        cases ei
      | some f =>
        have ei := e i
        rw [hb, ha] at ei
        simp only [Option.map_some', Option.some.injEq] at ei
        simp only [Option.map_some', Option.some_bind]
        exact hg f' f ei

theorem kin_longCall {a b : App ω} (h : a.kin b) (name : String) :
    (b.longFlag name).bind Flag.asCall = (a.longFlag name).bind Flag.asCall := by
  unfold longFlag
  rw [h.1]
  exact kin_flagAt h _ _ Flag.asCall_congr

theorem kin_shortCall {a b : App ω} (h : a.kin b) (name : Char) :
    (b.shortFlag name).bind Flag.asCall = (a.shortFlag name).bind Flag.asCall := by
  unfold shortFlag
  rw [h.2.1]
  exact kin_flagAt h _ _ Flag.asCall_congr

theorem kin_longHand {a b : App ω} (h : a.kin b) (name v : String) :
    (b.longFlag name).bind (fun f => f.asHand v) =
      (a.longFlag name).bind (fun f => f.asHand v) := by
  unfold longFlag
  rw [h.1]
  exact kin_flagAt h _ _ (fun f f' e => Flag.asHand_congr f f' v e)

theorem kin_shortHand {a b : App ω} (h : a.kin b) (name : Char) (v : String) :
    (b.shortFlag name).bind (fun f => f.asHand v) =
      (a.shortFlag name).bind (fun f => f.asHand v) := by
  unfold shortFlag
  rw [h.2.1]
  exact kin_flagAt h _ _ (fun f f' e => Flag.asHand_congr f f' v e)

theorem kin_slot {a b : App ω} (h : a.kin b) (k : Nat) :
    b.slot k = a.slot k ∧ b.nextSlot k = a.nextSlot k := by
  unfold slot nextSlot
  rw [h.2.2.1, h.2.2.2.1]
  exact ⟨rfl, rfl⟩

theorem kin_planCluster {a b : App ω} (h : a.kin b) (P : List Char) :
    b.planCluster P = a.planCluster P := by
  induction P with
  | nil => rfl
  | cons c P ih => simp only [planCluster, kin_shortCall h, ih]

theorem kin_planItem {a b : App ω} (h : a.kin b) (k : Nat) (it : Item) :
    b.planItem k it = a.planItem k it := by
  cases it with
  | flags t =>
    cases t with
    | long name => simp only [planItem, kin_longCall h]
    | cluster P => simp only [planItem, kin_planCluster h]
  | longValue name v att => simp only [planItem, kin_longHand h]
  | shortValue P x v att => simp only [planItem, kin_planCluster h, kin_shortHand h]
  | arg v => simp only [planItem, (kin_slot h k).1, (kin_slot h k).2]

theorem kin_planArgs {a b : App ω} (h : a.kin b) (k : Nat) (R : List String) :
    b.planArgs k R = a.planArgs k R := by
  induction R generalizing k with
  | nil => rfl
  | cons v R ih => simp only [planArgs, (kin_slot h k).1, (kin_slot h k).2, ih]

theorem kin_plan {a b : App ω} (h : a.kin b) (k : Nat) (items : List Item)
    (esc : Option (List String)) : b.plan k items esc = a.plan k items esc := by
  induction items generalizing k with
  | nil =>
    cases esc with
    | none => rfl
    | some R => simp only [plan, kin_planArgs h]
  | cons it items ih =>
    simp only [plan, kin_planItem h]
    cases a.planItem k it with
    | none => rfl
    | some r => simp only [ih]

theorem kin_lenient {a b : App ω} (h : a.kin b) (hl : a.lenient) : b.lenient := by
  refine lenient_of_same a b ?_ h.2.2.1 h.2.2.2.1 hl
  intro g hg
  obtain ⟨i, hi⟩ := List.mem_iff_get?.1 hg
  have e := kin_get h i
  rw [hi] at e
  cases ha : a.allFlags.get? i with
  | none =>
    rw [ha] at e
    cases e
  | some f =>
    rw [ha] at e
    simp only [Option.map_some', Option.some.injEq, Prod.mk.injEq] at e
    exact ⟨f, mem_of_get _ _ _ ha, e.1⟩

theorem after_refl (a : App ω) : a.after a [] a.currentArgument :=
  ⟨kin_refl a, rfl, rfl, by simp [runActions]⟩

theorem after_trans {a b c : App ω} {as bs : List (Action ω)} {k k' : Nat}
    (h1 : a.after b as k) (h2 : b.after c bs k') : a.after c (as ++ bs) k' := by
  obtain ⟨a1, a2, a3, a4⟩ := h1
  obtain ⟨b1, b2, b3, b4⟩ := h2
  refine ⟨kin_trans a1 b1, b2, ?_, ?_⟩
  · rw [runActions_append, b3, a3]
  · rw [runActions_append, b4, a4, a3]
    simp only [List.flatMap_append, List.length_append]
    omega

/-- Marking a use of a flag keeps the registrations. -/
theorem kin_used (a : App ω) (i : Nat) (f : Flag ω) (w : ω) (h : a.allFlags.get? i = some f) :
    a.kin { a with allFlags := a.allFlags.set i { f with useCount := f.useCount + 1 },
                   world := w } := by
  refine ⟨rfl, rfl, rfl, rfl, ?_⟩
  show (a.allFlags.set i { f with useCount := f.useCount + 1 }).map
    (fun f => (f.Value, f.Call)) = a.allFlags.map (fun f => (f.Value, f.Call))
  rw [List.map_set]
  apply List.ext_get?
  intro n
  by_cases hn : n = i
  · subst hn
    have hlt : n < a.allFlags.length := by
      rw [List.get?_eq_getElem?] at h
      exact (List.getElem?_eq_some_iff.1 h).1
    simp only [List.get?_eq_getElem?, List.getElem?_set, List.length_map, hlt, if_true,
      List.getElem?_map]
    rw [List.get?_eq_getElem?] at h
    rw [h]
    rfl
  · simp only [List.get?_eq_getElem?, List.getElem?_set, List.getElem?_map]
    rw [if_neg (fun e => hn e.symm)]

theorem foldl_Error_maps (ms : List String) (app : App ω) :
    (ms.foldl (fun a m => a.Error m) app).longToFlag = app.longToFlag ∧
      (ms.foldl (fun a m => a.Error m) app).shortToFlag = app.shortToFlag := by
  induction ms generalizing app with
  | nil => exact ⟨rfl, rfl⟩
  | cons m ms ih =>
    obtain ⟨h1, h2⟩ := ih (app.Error m)
    exact ⟨h1, h2⟩

/-- Handing a value to a handler: the registrations and the cursor are kept,
the state of the program is the one the handler leaves, and its errors are
counted. -/
theorem notifyHandler_after (h : ValueHandler ω) (v : String) (a : App ω) :
    a.after (notifyHandler h v a).2 [Action.hand h v] a.currentArgument := by
  obtain ⟨b1, b2, b3⟩ := notifyHandler_slots h v a
  have c := foldl_Error_allFlags (h.Notify v a.world).1
    { a with world := (h.Notify v a.world).2.2 }
  have d := foldl_Error_maps (h.Notify v a.world).1
    { a with world := (h.Notify v a.world).2.2 }
  have e := foldl_Error_numErrors (h.Notify v a.world).1 (fun u => u)
    { a with world := (h.Notify v a.world).2.2 }
  refine ⟨⟨d.1, d.2, b1, b2, ?_⟩, b3, ?_, ?_⟩
  · unfold notifyHandler
    rw [c.1]
  · unfold notifyHandler
    rw [c.2.2.2.1]
    rfl
  · unfold notifyHandler
    rw [e]
    simp [runActions, Action.run]

theorem after_of_kin_eq {a b c : App ω} {as : List (Action ω)} {k : Nat}
    (hk : a.kin b) (hw : b.world = a.world) (hn : b.numErrors = a.numErrors)
    (h : b.after c as k) : a.after c as k := by
  obtain ⟨b1, b2, b3, b4⟩ := h
  exact ⟨kin_trans hk b1, b2, by rw [b3, hw], by rw [b4, hw, hn]⟩

/-- The notification of a flag without a value, when the flag is registered
with a callback. -/
theorem useAndCall_after (a : App ω) (entry : Option Nat) (act : Action ω)
    (h : ((a.flagAt entry).map (fun r => r.2)).bind Flag.asCall = some act) :
    ∃ a', a.useAndCall entry = some (true, a') ∧ a.after a' [act] a.currentArgument := by
  cases hf : a.flagAt entry with
  | none => simp [hf] at h
  | some r =>
    obtain ⟨i, f⟩ := r
    simp only [hf, Option.map_some', Option.some_bind] at h
    obtain ⟨-, call, hc, rfl⟩ := Flag.asCall_some f act h
    refine ⟨{ a with allFlags := a.allFlags.set i { f with useCount := f.useCount + 1 },
                     world := call a.world }, ?_, ?_⟩
    · simp only [useAndCall, hf, hc]
    · exact ⟨kin_used a i f _ (flagAt_mem a entry i f hf), rfl, rfl,
        by simp [runActions, Action.run]⟩

/-- The notification of a flag with a value, when the flag is registered with a
lenient handler. -/
theorem useAndNotify_after (a : App ω) (entry : Option Nat) (v : String) (act : Action ω)
    (hl : a.lenient)
    (h : ((a.flagAt entry).map (fun r => r.2)).bind (fun f => f.asHand v) = some act) :
    ∃ a', a.useAndNotify entry v = some (true, a') ∧ a.after a' [act] a.currentArgument := by
  cases hf : a.flagAt entry with
  | none => simp [hf] at h
  | some r =>
    obtain ⟨i, f⟩ := r
    simp only [hf, Option.map_some', Option.some_bind] at h
    obtain ⟨hd, hv, rfl⟩ := Flag.asHand_some f v act h
    have hmem := flagAt_mem a entry i f hf
    have hlen : hd.lenient := hl.1 f (mem_of_get _ _ _ hmem) hd hv
    refine ⟨(notifyHandler hd v
      { a with allFlags := a.allFlags.set i { f with useCount := f.useCount + 1 } }).2, ?_, ?_⟩
    · simp only [useAndNotify, hf, hv]
      congr 1
      apply Prod.ext
      · exact hlen v _
      · rfl
    · have hk := kin_used a i f a.world hmem
      exact after_of_kin_eq hk rfl rfl (notifyHandler_after hd v _)

/-- The notification of a positional argument, when it has a slot with a
lenient handler. -/
theorem notifyArg_after (a : App ω) (v : String) (hd : ValueHandler ω) (hl : a.lenient)
    (h : (a.slot a.currentArgument).bind (fun s => s.Value) = some hd) :
    ∃ a', a.notifyArg v = some (true, a') ∧
      a.after a' [Action.hand hd v] (a.nextSlot a.currentArgument) := by
  unfold slot at h
  unfold nextSlot
  by_cases hlt : a.currentArgument < a.requiredArguments.length
  · rw [if_pos hlt] at h
    rw [if_pos hlt]
    cases hs : a.requiredArguments.get? a.currentArgument with
    | none =>
      simp only [List.get?_eq_getElem?] at hs h
      rw [hs] at h
      cases h
    | some s =>
      simp only [hs, Option.some_bind] at h
      have hlen : hd.lenient := hl.2.1 s (mem_of_get _ _ _ hs) hd h
      refine ⟨(notifyHandler hd v { a with currentArgument := a.currentArgument + 1 }).2, ?_, ?_⟩
      · simp only [notifyArg, if_pos hlt, hs, h]
        congr 1
        apply Prod.ext
        · exact hlen v _
        · rfl
      · obtain ⟨b1, b2, b3, b4⟩ := notifyHandler_after hd v
          { a with currentArgument := a.currentArgument + 1 }
        exact ⟨kin_trans ⟨rfl, rfl, rfl, rfl, rfl⟩ b1, b2, b3, b4⟩
  · rw [if_neg hlt] at h
    rw [if_neg hlt]
    cases hs : a.excessArguments with
    | none => simp [hs] at h
    | some s =>
      simp only [hs, Option.some_bind] at h
      have hlen : hd.lenient := hl.2.2 s hs hd h
      refine ⟨(notifyHandler hd v a).2, ?_, notifyHandler_after hd v a⟩
      simp only [notifyArg, if_neg hlt, hs, h]
      congr 1
      apply Prod.ext
      · exact hlen v _
      · rfl

end App

end cmdline

namespace cmdline
open parser

/-! ## The scan of a structurally valid command line by an App -/

namespace App

variable {ω : Type}

theorem info_call (a : App ω) (entry : Option Nat) (act : Action ω)
    (h : ((a.flagAt entry).map (fun r => r.2)).bind Flag.asCall = some act) :
    (match a.flagAt entry with
      | some (_, flag) => (true, flag.Value.isSome)
      | none => (false, false)) = (true, false) := by
  cases hf : a.flagAt entry with
  | none => simp [hf] at h
  | some r =>
    obtain ⟨i, f⟩ := r
    simp only [hf, Option.map_some', Option.some_bind] at h
    obtain ⟨hv, -⟩ := Flag.asCall_some f act h
    simp [hv]

theorem info_hand (a : App ω) (entry : Option Nat) (v : String) (act : Action ω)
    (h : ((a.flagAt entry).map (fun r => r.2)).bind (fun f => f.asHand v) = some act) :
    (match a.flagAt entry with
      | some (_, flag) => (true, flag.Value.isSome)
      | none => (false, false)) = (true, true) := by
  cases hf : a.flagAt entry with
  | none => simp [hf] at h
  | some r =>
    obtain ⟨i, f⟩ := r
    simp only [hf, Option.map_some', Option.some_bind] at h
    obtain ⟨hd, hv, -⟩ := Flag.asHand_some f v act h
    simp [hv]

theorem observer_longFlagInfo (n : String) (a : App ω) :
    App.observer.longFlagInfo n (some a) = (a.longFlagInfo n, some a) := rfl

theorem observer_shortFlagInfo (n : Char) (a : App ω) :
    App.observer.shortFlagInfo n (some a) = (a.shortFlagInfo n, some a) := rfl

theorem observer_notify (m : App ω → Option (Bool × App ω)) (a a' : App ω) (b : Bool)
    (h : m a = some (b, a')) : step false m (some a) = (b, some a') := by
  simp [step, h]

/-- The loop of `parseShortFlag` over a cluster of flags without a value that
the App knows, in parse mode. -/
theorem loop_cluster (P l arg : List Char) (a : App ω) (q : parser) (log : List Event)
    (as : List (Action ω)) (hp : a.planCluster P = some as) (hok : q.parseOK = true)
    (hc : q.completing = false) :
    ∃ a', parseShortFlagLoop (recording App.observer) arg (P ++ l) q (some a, log) =
        parseShortFlagLoop (recording App.observer) arg l q
          (some a', log ++ (flagToken.cluster P).calls) ∧
      a.after a' as a.currentArgument := by
  induction P generalizing a log as with
  | nil =>
    simp only [planCluster, Option.some.injEq] at hp
    subst hp
    exact ⟨a, by simp [flagToken.calls], after_refl a⟩
  | cons c P ih =>
    unfold planCluster at hp
    cases h1 : (a.shortFlag c).bind Flag.asCall with
    | none => simp [h1] at hp
    | some act =>
      cases h2 : a.planCluster P with
      | none => simp [h1, h2] at hp
      | some as' =>
        simp only [h1, h2, Option.some.injEq] at hp
        subst hp
        obtain ⟨a1, hn, haf⟩ := useAndCall_after a (a.shortToFlag.lookup c) act h1
        have hinfo : a.shortFlagInfo c = (true, false) := info_call a _ act h1
        have hk : a1.planCluster P = some as' := by
          rw [kin_planCluster haf.1, h2]
        obtain ⟨a', e, haf'⟩ := ih a1 (log ++ [Event.shortFlagInfo c] ++ [Event.notifyShortFlag c])
          as' hk
        refine ⟨a', ?_, ?_⟩
        · rw [List.cons_append, parseShortFlagLoop_cons _ _ _ _ _ _ hok hc]
          have hcall : App.observer.notifyShortFlag c (some a) = (true, some a1) :=
            observer_notify _ a a1 true hn
          simp only [recording_shortFlagInfo, recording_notifyShortFlag, observer_shortFlagInfo,
            hinfo, hcall, Bool.true_eq_false, if_false, if_true]
          rw [e]
          simp [flagToken.calls]
        · have := after_trans haf (haf.2.1 ▸ haf')
          simpa using this

/-- The loop after `--` over positional arguments that have their slots. -/
theorem escape_args (R : List String) (a : App ω) (p : parser) (log : List Event)
    (as : List (Action ω)) (hl : a.lenient) (hp : a.planArgs a.currentArgument R = some as)
    (hr : p.rest = R) (hok : p.parseOK = true) :
    ∃ a' k, (escapeLoop (recording App.observer) R.length p (some a, log)).2 =
        (some a', log ++ R.map Event.notifyArg) ∧
      (escapeLoop (recording App.observer) R.length p (some a, log)).1.rest = [] ∧
      (escapeLoop (recording App.observer) R.length p (some a, log)).1.parseOK = true ∧
      a.after a' as k := by
  induction R generalizing a p log as with
  | nil =>
    simp only [planArgs, Option.some.injEq] at hp
    subst hp
    exact ⟨a, a.currentArgument, by simp [escapeLoop], by simpa [escapeLoop] using hr,
      by simpa [escapeLoop] using hok, after_refl a⟩
  | cons v R ih =>
    unfold planArgs at hp
    cases h1 : (a.slot a.currentArgument).bind (fun s => s.Value) with
    | none => simp [h1] at hp
    | some hd =>
      cases h2 : a.planArgs (a.nextSlot a.currentArgument) R with
      | none => simp [h1, h2] at hp
      | some as' =>
        simp only [h1, h2, Option.some.injEq] at hp
        subst hp
        obtain ⟨a1, hn, haf⟩ := notifyArg_after a v hd hl h1
        have hl1 : a1.lenient := kin_lenient haf.1 hl
        have hk : a1.planArgs a1.currentArgument R = some as' := by
          rw [kin_planArgs haf.1, haf.2.1, h2]
        have hg : p.getNext.2.rest = R := by rw [getNext_rest, hr]; rfl
        have hgok : p.getNext.2.parseOK = true := by simpa [getNext] using hok
        obtain ⟨a', k, e1, e2, e3, haf'⟩ := ih a1 p.getNext.2 (log ++ [Event.notifyArg v]) as'
          hl1 hk hg hgok
        have hcall : App.observer.notifyArg v (some a) = (true, some a1) :=
          observer_notify _ a a1 true hn
        have hstep : escapeLoop (recording App.observer) (v :: R).length p (some a, log) =
            escapeLoop (recording App.observer) R.length p.getNext.2
              (some a1, log ++ [Event.notifyArg v]) := by
          simp only [List.length_cons, escapeLoop, hasNext_of_cons hr, hok, getNext_fst hr,
            Bool.and_self, if_true, recording_notifyArg, hcall, status_true]
        rw [hstep]
        refine ⟨a', k, ?_, e2, e3, ?_⟩
        · rw [e1]
          simp
        · have := after_trans haf haf'
          simpa using this

/-- One unit of a structurally valid command line: the scan goes on after it
with the App that the actions of the unit lead to. -/
theorem item_step (it : Item) (a : App ω) (p : parser) (log : List Event) (rest : List String)
    (as : List (Action ω)) (k : Nat) (hl : a.lenient) (hs : it.shaped)
    (hp : a.planItem a.currentArgument it = some (as, k))
    (hr : p.rest = it.tokens ++ rest) (hok : p.parseOK = true) (hc : p.completing = false) :
    ∃ a' p', parseMain p (recording App.observer) (some a, log) =
        parseMain p' (recording App.observer) (some a', log ++ it.calls) ∧
      p'.rest = rest ∧ p'.parseOK = true ∧ p'.completing = false ∧ a.after a' as k := by
  have hgok : p.getNext.2.parseOK = true := by simpa [getNext] using hok
  have hgc : p.getNext.2.completing = false := by simpa [getNext] using hc
  cases it with
  | flags t =>
    cases t with
    | long name =>
      obtain ⟨hne, hno⟩ := hs
      simp only [planItem, Option.map_eq_some', Prod.mk.injEq] at hp
      obtain ⟨act, hact, rfl, rfl⟩ := hp
      have hr' : p.rest = ("--" ++ name) :: rest := hr
      obtain ⟨a1, hn, haf⟩ := useAndCall_after a (a.longToFlag.lookup name) act hact
      have hinfo : a.longFlagInfo name = (true, false) := info_call a _ act hact
      have hcall : App.observer.notifyLongFlag name (some a) = (true, some a1) :=
        observer_notify _ a a1 true hn
      refine ⟨a1, p.getNext.2, ?_, by rw [getNext_rest, hr']; rfl, hgok, hgc, haf⟩
      rw [parseMain_cons _ _ _ _ _ hr' hok, parseToken_long _ _ _ _ hne,
        parseLongFlag_name _ _ _ _ hno hgc]
      simp [recording_longFlagInfo, recording_notifyLongFlag, observer_longFlagInfo, hinfo,
        hcall, Item.calls, flagToken.calls]
    | cluster P =>
      obtain ⟨hne, hd⟩ := hs
      simp only [planItem, Option.map_eq_some', Prod.mk.injEq] at hp
      obtain ⟨as', hact, rfl, rfl⟩ := hp
      have hr' : p.rest = ("-" ++ String.mk P) :: rest := hr
      obtain ⟨a1, e, haf⟩ := loop_cluster P [] P a p.getNext.2 log as' hact hgok hgc
      refine ⟨a1, p.getNext.2, ?_, by rw [getNext_rest, hr']; rfl, hgok, hgc, haf⟩
      rw [parseMain_cons _ _ _ _ _ hr' hok, parseToken_cluster _ _ _ _ hne hd,
        parseShortFlag_parsing _ _ _ _ hgc]
      rw [List.append_nil] at e
      rw [e]
      simp [parseShortFlagLoop, Item.calls]
  | longValue name value att =>
    obtain ⟨hne, hno⟩ := hs
    simp only [planItem, Option.map_eq_some', Prod.mk.injEq] at hp
    obtain ⟨act, hact, rfl, rfl⟩ := hp
    obtain ⟨a1, hn, haf⟩ := useAndNotify_after a (a.longToFlag.lookup name) value act hl hact
    have hinfo : a.longFlagInfo name = (true, true) := info_hand a _ value act hact
    have hcall : App.observer.notifyLongFlagValue name value (some a) = (true, some a1) :=
      observer_notify _ a a1 true hn
    cases att with
    | true =>
      have ht : "--" ++ name ++ "=" ++ value = "--" ++ (name ++ "=" ++ value) := by
        simp [String.append_assoc]
      have hne' : name ++ "=" ++ value ≠ "" := by
        intro e
        have := congrArg String.data e
        simp [String.data_append] at this
      have hr' : p.rest = ("--" ++ (name ++ "=" ++ value)) :: rest := by
        rw [hr]
        simp only [Item.tokens, ht, List.singleton_append]
      refine ⟨a1, { p.getNext.2 with prependCompletion := "--" ++ (name ++ "=") }, ?_,
        by show p.getNext.2.rest = rest; rw [getNext_rest, hr']; rfl, hgok, hgc, haf⟩
      rw [parseMain_cons _ _ _ _ _ hr' hok, parseToken_long _ _ _ _ hne',
        parseLongFlag_assign _ _ _ _ _ hno hgc]
      simp [recording_longFlagInfo, recording_notifyLongFlagValue, observer_longFlagInfo,
        hinfo, hcall, Item.calls]
    | false =>
      have hr' : p.rest = ("--" ++ name) :: value :: rest := hr
      have hg : p.getNext.2.rest = value :: rest := by rw [getNext_rest, hr']; rfl
      refine ⟨a1, { p.getNext.2.getNext.2 with prependCompletion := "" }, ?_,
        by show p.getNext.2.getNext.2.rest = rest; rw [getNext_rest, hg]; rfl,
        by simpa [getNext] using hok, by simpa [getNext] using hc, haf⟩
      rw [parseMain_cons _ _ _ _ _ hr' hok, parseToken_long _ _ _ _ hne,
        parseLongFlag_name _ _ _ _ hno hgc]
      simp [recording_longFlagInfo, recording_notifyLongFlagValue, observer_longFlagInfo,
        hinfo, hcall, Item.calls, hasNext_of_cons hg, getNext_fst hg]
  | shortValue P x value att =>
    obtain ⟨hd, hv⟩ := hs
    unfold planItem at hp
    cases h1 : a.planCluster P with
    | none => simp [h1] at hp
    | some as' =>
      cases h2 : (a.shortFlag x).bind (fun f => f.asHand value) with
      | none => simp [h1, h2] at hp
      | some act =>
        simp only [h1, h2, Option.some.injEq, Prod.mk.injEq] at hp
        obtain ⟨rfl, rfl⟩ := hp
        cases att with
        | true =>
          have hvd : value.data ≠ [] := String.ne_empty_data (hv rfl)
          have ht : "-" ++ String.mk (P ++ [x]) ++ value =
              "-" ++ String.mk (P ++ x :: value.data) := by
            apply String.ext
            simp [String.data_append]
          have hd' : (P ++ x :: value.data).head? ≠ some '-' := by
            cases P with
            | nil => simpa using hd
            | cons c P => simpa using hd
          have hr' : p.rest = ("-" ++ String.mk (P ++ x :: value.data)) :: rest := by
            rw [hr]
            simp only [Item.tokens, ht, List.singleton_append]
          obtain ⟨a1, e, haf⟩ := loop_cluster P (x :: value.data) (P ++ x :: value.data) a
            p.getNext.2 log as' h1 hgok hgc
          have h2' : (a1.shortFlag x).bind (fun f => f.asHand value) = some act := by
            rw [kin_shortHand haf.1, h2]
          have hl1 : a1.lenient := kin_lenient haf.1 hl
          obtain ⟨a2, hn, haf2⟩ := useAndNotify_after a1 (a1.shortToFlag.lookup x) value act
            hl1 h2'
          have hinfo : a1.shortFlagInfo x = (true, true) := info_hand a1 _ value act h2'
          have hcall : App.observer.notifyShortFlagValue x value (some a1) = (true, some a2) :=
            observer_notify _ a1 a2 true hn
          have hm : String.mk value.data = value := rfl
          refine ⟨a2, p.getNext.2, ?_, by rw [getNext_rest, hr']; rfl, hgok, hgc, ?_⟩
          · rw [parseMain_cons _ _ _ _ _ hr' hok, parseToken_cluster _ _ _ _ (by simp) hd',
              parseShortFlag_parsing _ _ _ _ hgc, e,
              parseShortFlagLoop_cons _ _ _ _ _ _ hgok hgc]
            simp [recording_shortFlagInfo, recording_notifyShortFlagValue,
              observer_shortFlagInfo, hinfo, hcall, Item.calls, hvd, hm]
          · have := after_trans haf (haf.2.1 ▸ haf2)
            simpa using this
        | false =>
          have hr' : p.rest = ("-" ++ String.mk (P ++ [x])) :: value :: rest := hr
          have hg : p.getNext.2.rest = value :: rest := by rw [getNext_rest, hr']; rfl
          obtain ⟨a1, e, haf⟩ := loop_cluster P [x] (P ++ [x]) a p.getNext.2 log as' h1 hgok hgc
          have h2' : (a1.shortFlag x).bind (fun f => f.asHand value) = some act := by
            rw [kin_shortHand haf.1, h2]
          have hl1 : a1.lenient := kin_lenient haf.1 hl
          obtain ⟨a2, hn, haf2⟩ := useAndNotify_after a1 (a1.shortToFlag.lookup x) value act
            hl1 h2'
          have hinfo : a1.shortFlagInfo x = (true, true) := info_hand a1 _ value act h2'
          have hcall : App.observer.notifyShortFlagValue x value (some a1) = (true, some a2) :=
            observer_notify _ a1 a2 true hn
          refine ⟨a2, p.getNext.2.getNext.2, ?_, by rw [getNext_rest, hg]; rfl,
            by simpa [getNext] using hok, by simpa [getNext] using hc, ?_⟩
          · rw [parseMain_cons _ _ _ _ _ hr' hok, parseToken_cluster _ _ _ _ (by simp) hd,
              parseShortFlag_parsing _ _ _ _ hgc, e,
              parseShortFlagLoop_cons _ _ _ _ _ _ hgok hgc]
            simp [recording_shortFlagInfo, recording_notifyShortFlagValue,
              observer_shortFlagInfo, hinfo, hcall, Item.calls, hasNext_of_cons hg,
              getNext_fst hg]
          · have := after_trans haf (haf.2.1 ▸ haf2)
            simpa using this
  | arg value =>
    simp only [planItem, Option.map_eq_some', Prod.mk.injEq] at hp
    obtain ⟨hd, hact, rfl, rfl⟩ := hp
    have hr' : p.rest = value :: rest := hr
    obtain ⟨a1, hn, haf⟩ := notifyArg_after a value hd hl hact
    have hcall : App.observer.notifyArg value (some a) = (true, some a1) :=
      observer_notify _ a a1 true hn
    refine ⟨a1, p.getNext.2, ?_, by rw [getNext_rest, hr']; rfl, hgok, hgc, haf⟩
    rw [parseMain_cons _ _ _ _ _ hr' hok,
      parseToken_arg _ _ _ _ hs (shouldComplete_of_parsing hgc)]
    simp [recording_notifyArg, hcall, Item.calls]

/-- The scan of a structurally valid command line: it does not fail, it makes
the calls of the units in the order of the tokens, and it leaves the App that
the actions lead to. -/
theorem parseMain_plan (items : List Item) (esc : Option (List String)) (a : App ω)
    (p : parser) (log : List Event) (acts : List (Action ω)) (hl : a.lenient)
    (hs : ∀ it ∈ items, it.shaped)
    (hp : a.plan a.currentArgument items esc = some acts)
    (hr : p.rest = commandLine items esc) (hok : p.parseOK = true)
    (hc : p.completing = false) :
    ∃ a' k, (parseMain p (recording App.observer) (some a, log)).1.parseOK = true ∧
      (parseMain p (recording App.observer) (some a, log)).1.rest = [] ∧
      (parseMain p (recording App.observer) (some a, log)).2 =
        (some a', log ++ expectedCalls items esc) ∧
      a.after a' acts k := by
  induction items generalizing a p log acts with
  | nil =>
    cases esc with
    | none =>
      simp only [plan, Option.some.injEq] at hp
      subst hp
      have hr' : p.rest = [] := hr
      rw [parseMain_stop _ _ _ (Or.inl hr')]
      exact ⟨a, a.currentArgument, hok, hr', by simp [expectedCalls], after_refl a⟩
    | some R =>
      have hp' : a.planArgs a.currentArgument R = some acts := hp
      have hr' : p.rest = "--" :: R := hr
      have hg : p.getNext.2.rest = R := by rw [getNext_rest, hr']; rfl
      have hgok : p.getNext.2.parseOK = true := by simpa [getNext] using hok
      have hgc : p.getNext.2.completing = false := by simpa [getNext] using hc
      have hlen : p.getNext.2.args.length - p.getNext.2.current = R.length := by
        rw [← length_rest, hg]
      obtain ⟨a', k, e1, e2, e3, haf⟩ := escape_args R a p.getNext.2 log acts hl hp' hg hgok
      rw [parseMain_cons _ _ _ _ _ hr' hok,
        parseToken_escape _ _ _ (shouldComplete_of_parsing hgc), hlen,
        parseMain_stop _ _ _ (Or.inl e2)]
      exact ⟨a', k, e3, e2, by rw [e1]; simp [expectedCalls], haf⟩
  | cons it items ih =>
    unfold plan at hp
    cases h1 : a.planItem a.currentArgument it with
    | none => simp [h1] at hp
    | some r =>
      obtain ⟨as, k1⟩ := r
      simp only [h1, Option.map_eq_some'] at hp
      obtain ⟨as', h2, rfl⟩ := hp
      have hr' : p.rest = it.tokens ++ commandLine items esc := by
        rw [hr]
        simp [commandLine]
      obtain ⟨a1, p1, e, hr1, hok1, hc1, haf⟩ := item_step it a p log _ as k1 hl
        (hs it (by simp)) h1 hr' hok hc
      have hl1 : a1.lenient := kin_lenient haf.1 hl
      have hp1 : a1.plan a1.currentArgument items esc = some as' := by
        rw [kin_plan haf.1, haf.2.1, h2]
      obtain ⟨a', k, r1, r2, r3, haf'⟩ := ih a1 p1 (log ++ it.calls) as' hl1
        (fun u hu => hs u (by simp [hu])) hp1 hr1 hok1 hc1
      rw [e]
      exact ⟨a', k, r1, r2, by rw [r3]; simp [expectedCalls], after_trans haf haf'⟩

end App

end cmdline

namespace cmdline
open parser

/-! ## The values handed over by the actions of a command line -/

theorem runActions_calls {ω : Type} (as : List (Action ω))
    (h : ∀ act ∈ as, ∃ f, act = Action.call f) (w : ω) : (runActions as w).2 = [] := by
  induction as generalizing w with
  | nil => rfl
  | cons a as ih =>
    obtain ⟨f, rfl⟩ := h a (by simp)
    have := ih (fun act hact => h act (by simp [hact])) (f w)
    simp [runActions, Action.run, this]

theorem runActions_hand {ω : Type} (h : ValueHandler ω) (v : String) (w : ω) :
    (runActions [Action.hand h v] w).2 = [(v, (h.Notify v w).1)] := by
  simp [runActions, Action.run]

theorem runActions_call {ω : Type} (f : ω → ω) (w : ω) :
    (runActions [Action.call f] w).2 = [] := by
  simp [runActions, Action.run]

/-- Each value handed over is that of an action, with the errors that the
handler of the action logged for it. -/
theorem runActions_mem {ω : Type} (as : List (Action ω)) (w : ω) (r : String × List String)
    (hr : r ∈ (runActions as w).2) :
    ∃ h v w', Action.hand h v ∈ as ∧ r = (v, (h.Notify v w').1) := by
  induction as generalizing w with
  | nil => simp [runActions] at hr
  | cons a as ih =>
    simp only [runActions, List.mem_append] at hr
    rcases hr with hr | hr
    · cases a with
      | call f => simp [Action.run] at hr
      | hand h v =>
        simp only [Action.run, List.mem_singleton] at hr
        exact ⟨h, v, w, by simp, hr⟩
    · obtain ⟨h, v, w', hm, e⟩ := ih _ hr
      exact ⟨h, v, w', by simp [hm], e⟩

theorem length_flatMap_errors (l : List (String × List String))
    (h : ∀ r ∈ l, r.2.length ≤ 1) :
    (l.flatMap (fun r => r.2)).length = (l.filter (fun r => !r.2.isEmpty)).length := by
  induction l with
  | nil => rfl
  | cons r l ih =>
    have h1 := h r (by simp)
    have h2 := ih (fun u hu => h u (by simp [hu]))
    rw [List.flatMap_cons, List.length_append, h2]
    cases hr : r.2 with
    | nil => simp [List.filter_cons, hr]
    | cons e es =>
      rw [hr] at h1
      have : es = [] := by
        cases es with
        | nil => rfl
        | cons x xs => simp at h1
      subst this
      simp [List.filter_cons, hr]
      omega

theorem length_flatMap_zero (l : List (String × List String)) :
    (l.flatMap (fun r => r.2)).length = 0 ↔ ∀ r ∈ l, r.2 = [] := by
  induction l with
  | nil => simp
  | cons r l ih =>
    rw [List.flatMap_cons, List.length_append]
    constructor
    · intro h u hu
      have h1 : r.2.length = 0 := by omega
      have h2 : (l.flatMap (fun r => r.2)).length = 0 := by omega
      rcases List.mem_cons.1 hu with rfl | hu
      · exact List.length_eq_zero.1 h1
      · exact ih.1 h2 u hu
    · intro h
      have h1 := h r (by simp)
      have h2 := ih.2 (fun u hu => h u (by simp [hu]))
      rw [h1, h2]
      rfl

theorem Int32Handler.int32_oneError {ω : Type} (h : Int32Handler ω) : h.handler.oneError := by
  intro text w
  show (h.Notify text listLogger [] w).2.1.length ≤ 1
  unfold Int32Handler.Notify
  cases h.Parser.Parse text w with
  | error err => simp [listLogger]
  | ok v =>
    cases h.Callback with
    | some c => simp
    | none =>
      cases h.Ptr with
      | some p => simp
      | none => simp [listLogger]

theorem StringHandler.string_oneError {ω : Type} (h : StringHandler ω) :
    h.handler.oneError := by
  intro text w
  show (h.Notify text listLogger [] w).2.1.length ≤ 1
  unfold StringHandler.Notify
  cases h.Parser.Parse text w with
  | error err => simp [listLogger]
  | ok v =>
    cases h.Callback with
    | some c => simp
    | none =>
      cases h.Ptr with
      | some p => simp
      | none => simp [listLogger]

namespace App

variable {ω : Type}

theorem call_of_flag (a : App ω) (entry : Option Nat) (act : Action ω)
    (h : ((a.flagAt entry).map (fun r => r.2)).bind Flag.asCall = some act) :
    ∃ f, act = Action.call f := by
  cases hf : a.flagAt entry with
  | none => simp [hf] at h
  | some r =>
    simp only [hf, Option.map_some', Option.some_bind] at h
    obtain ⟨-, call, -, e⟩ := Flag.asCall_some r.2 act h
    exact ⟨call, e⟩

theorem hand_of_flag (a : App ω) (entry : Option Nat) (v : String) (act : Action ω)
    (h : ((a.flagAt entry).map (fun r => r.2)).bind (fun f => f.asHand v) = some act) :
    ∃ hd, a.handles hd ∧ act = Action.hand hd v := by
  cases hf : a.flagAt entry with
  | none => simp [hf] at h
  | some r =>
    obtain ⟨i, f⟩ := r
    simp only [hf, Option.map_some', Option.some_bind] at h
    obtain ⟨hd, hv, e⟩ := Flag.asHand_some f v act h
    exact ⟨hd, Or.inl ⟨f, List.mem_iff_get?.2 ⟨i, flagAt_mem a entry i f hf⟩, hv⟩, e⟩

theorem handles_slot (a : App ω) (k : Nat) (hd : ValueHandler ω)
    (h : (a.slot k).bind (fun s => s.Value) = some hd) : a.handles hd := by
  unfold slot at h
  by_cases hk : k < a.requiredArguments.length
  · rw [if_pos hk] at h
    cases hs : a.requiredArguments.get? k with
    | none => rw [hs] at h; cases h
    | some s =>
      rw [hs] at h
      exact Or.inr (Or.inl ⟨s, List.mem_iff_get?.2 ⟨k, hs⟩, h⟩)
  · rw [if_neg hk] at h
    cases hs : a.excessArguments with
    | none => rw [hs] at h; cases h
    | some s =>
      rw [hs] at h
      exact Or.inr (Or.inr ⟨s, hs, h⟩)

theorem planCluster_calls (a : App ω) (P : List Char) (as : List (Action ω))
    (h : a.planCluster P = some as) : ∀ act ∈ as, ∃ f, act = Action.call f := by
  induction P generalizing as with
  | nil =>
    simp only [planCluster, Option.some.injEq] at h
    subst h
    intro act hact
    cases hact
  | cons c P ih =>
    unfold planCluster at h
    cases h1 : (a.shortFlag c).bind Flag.asCall with
    | none => simp [h1] at h
    | some act1 =>
      cases h2 : a.planCluster P with
      | none => simp [h1, h2] at h
      | some as' =>
        simp only [h1, h2, Option.some.injEq] at h
        subst h
        intro act hact
        rcases List.mem_cons.1 hact with rfl | hact
        · exact call_of_flag a _ _ h1
        · exact ih as' h2 act hact

/-- What the actions of a unit hand over: nothing but the value of the unit,
and to a handler of the App. -/
theorem planItem_hands (a : App ω) (k k' : Nat) (it : Item) (as : List (Action ω))
    (h : a.planItem k it = some (as, k')) :
    (∀ hd v, Action.hand hd v ∈ as → a.handles hd) ∧
      ∀ w, (runActions as w).2.map Prod.fst = it.values := by
  cases it with
  | flags t =>
    cases t with
    | long name =>
      simp only [planItem, Option.map_eq_some', Prod.mk.injEq] at h
      obtain ⟨act, hact, rfl, -⟩ := h
      obtain ⟨f, rfl⟩ := call_of_flag a _ _ hact
      exact ⟨fun hd v hm => by simp at hm, fun w => by simp [runActions_call, Item.values]⟩
    | cluster P =>
      simp only [planItem, Option.map_eq_some', Prod.mk.injEq] at h
      obtain ⟨as', hact, rfl, -⟩ := h
      have hc := planCluster_calls a P as' hact
      refine ⟨fun hd v hm => ?_, fun w => by simp [runActions_calls _ hc, Item.values]⟩
      obtain ⟨f, e⟩ := hc _ hm
      cases e
  | longValue name value att =>
    simp only [planItem, Option.map_eq_some', Prod.mk.injEq] at h
    obtain ⟨act, hact, rfl, -⟩ := h
    obtain ⟨hd, hh, rfl⟩ := hand_of_flag a _ _ _ hact
    refine ⟨fun hd' v hm => ?_, fun w => by simp [runActions_hand, Item.values]⟩
    simp only [List.mem_singleton, Action.hand.injEq] at hm
    rw [hm.1]
    exact hh
  | shortValue P x value att =>
    unfold planItem at h
    cases h1 : a.planCluster P with
    | none => simp [h1] at h
    | some as' =>
      cases h2 : (a.shortFlag x).bind (fun f => f.asHand value) with
      | none => simp [h1, h2] at h
      | some act =>
        simp only [h1, h2, Option.some.injEq, Prod.mk.injEq] at h
        obtain ⟨rfl, -⟩ := h
        have hc := planCluster_calls a P as' h1
        obtain ⟨hd, hh, rfl⟩ := hand_of_flag a _ _ _ h2
        refine ⟨fun hd' v hm => ?_, fun w => ?_⟩
        · rcases List.mem_append.1 hm with hm | hm
          · obtain ⟨f, e⟩ := hc _ hm
            cases e
          · simp only [List.mem_singleton, Action.hand.injEq] at hm
            rw [hm.1]
            exact hh
        · rw [runActions_append]
          simp [runActions_calls _ hc, runActions_hand, Item.values]
  | arg value =>
    simp only [planItem, Option.map_eq_some', Prod.mk.injEq] at h
    obtain ⟨hd, hact, rfl, -⟩ := h
    refine ⟨fun hd' v hm => ?_, fun w => by simp [runActions_hand, Item.values]⟩
    simp only [List.mem_singleton, Action.hand.injEq] at hm
    rw [hm.1]
    exact handles_slot a k hd hact

theorem planArgs_hands (a : App ω) (k : Nat) (R : List String) (as : List (Action ω))
    (h : a.planArgs k R = some as) :
    (∀ hd v, Action.hand hd v ∈ as → a.handles hd) ∧
      ∀ w, (runActions as w).2.map Prod.fst = R := by
  induction R generalizing k as with
  | nil =>
    simp only [planArgs, Option.some.injEq] at h
    subst h
    exact ⟨fun hd v hm => (by cases hm), fun w => rfl⟩
  | cons x R ih =>
    unfold planArgs at h
    cases h1 : (a.slot k).bind (fun s => s.Value) with
    | none => simp [h1] at h
    | some hd =>
      cases h2 : a.planArgs (a.nextSlot k) R with
      | none => simp [h1, h2] at h
      | some as' =>
        simp only [h1, h2, Option.some.injEq] at h
        subst h
        obtain ⟨i1, i2⟩ := ih _ as' h2
        refine ⟨fun hd' v hm => ?_, fun w => ?_⟩
        · rcases List.mem_cons.1 hm with e | hm
          · simp only [Action.hand.injEq] at e
            rw [e.1]
            exact handles_slot a k hd h1
          · exact i1 hd' v hm
        · simp [runActions, Action.run, i2]

/-- What the actions of a command line hand over: the values of the command
line, in the order of its tokens, each to a handler of the App. -/
theorem plan_hands (a : App ω) (k : Nat) (items : List Item) (esc : Option (List String))
    (as : List (Action ω)) (h : a.plan k items esc = some as) :
    (∀ hd v, Action.hand hd v ∈ as → a.handles hd) ∧
      ∀ w, (runActions as w).2.map Prod.fst = givenValues items esc := by
  induction items generalizing k as with
  | nil =>
    cases esc with
    | none =>
      simp only [plan, Option.some.injEq] at h
      subst h
      exact ⟨fun hd v hm => (by cases hm), fun w => rfl⟩
    | some R =>
      have h' : a.planArgs k R = some as := h
      obtain ⟨i1, i2⟩ := planArgs_hands a k R as h'
      exact ⟨i1, fun w => by rw [i2]; simp [givenValues]⟩
  | cons it items ih =>
    unfold plan at h
    cases h1 : a.planItem k it with
    | none => simp [h1] at h
    | some r =>
      obtain ⟨as1, k1⟩ := r
      simp only [h1, Option.map_eq_some'] at h
      obtain ⟨as', h2, rfl⟩ := h
      obtain ⟨i1, i2⟩ := planItem_hands a k k1 it as1 h1
      obtain ⟨j1, j2⟩ := ih k1 as' h2
      refine ⟨fun hd v hm => ?_, fun w => ?_⟩
      · rcases List.mem_append.1 hm with hm | hm
        · exact i1 hd v hm
        · exact j1 hd v hm
      · rw [runActions_append]
        simp only [List.map_append, i2, j2]
        simp [givenValues]

end App

end cmdline

namespace cmdline
open parser

/-! ## The claims -/

/-- C1. A command line of flags that take no value: every token is `--name`
for a long flag the observer knows as taking no value, or `-` followed by one
or more such short flags, and the notifications of these flags return true.
Then `parse` returns true, the parser reports no error, and the calls made on
the observer are, token by token and inside a cluster character by character,
the lookup of the flag followed by its notification; the observer ends in the
state these calls lead to.  In particular `-ab` and `-a -b` give the same
calls, result and final state. -/
theorem parse_noValueFlags {σ : Type} (obs : parseObserver σ) (Inv : σ → Prop)
    (long : String → Prop) (short : Char → Prop) (toks : List flagToken) (s : σ)
    (h : obs.acceptsFlags Inv long short) (hs : ∀ t ∈ toks, t.shaped long short)
    (h0 : Inv s) :
    parse (toks.map flagToken.text) (recording obs) (s, []) =
        (true, (replay obs (toks.flatMap flagToken.calls) s,
          toks.flatMap flagToken.calls)) ∧
      ∀ a b : Char, short a → short b → a ≠ '-' → b ≠ '-' →
        parse ["-" ++ String.mk [a, b]] (recording obs) (s, []) =
          parse ["-" ++ String.mk [a], "-" ++ String.mk [b]] (recording obs) (s, []) := by
  have key : ∀ ts : List flagToken, (∀ t ∈ ts, t.shaped long short) →
      parse (ts.map flagToken.text) (recording obs) (s, []) =
        (true, (replay obs (ts.flatMap flagToken.calls) s, ts.flatMap flagToken.calls)) := by
    intro ts hts
    obtain ⟨h1, h2, h3⟩ := parseMain_flags obs Inv long short h ts hts
      (parser.start (ts.map flagToken.text) false) s [] h0 rfl rfl rfl
    simp only [parse, h1, h2, recording_NumErrors, h.noErrors _ h3]
    simp
  refine ⟨key toks hs, ?_⟩
  intro a b ha hb hna hnb
  have e1 := key [flagToken.cluster [a, b]] (by
    intro t ht
    simp only [List.mem_singleton] at ht
    subst ht
    refine ⟨by simp, by simpa using hna, ?_⟩
    intro c hc
    simp only [List.mem_cons, List.mem_singleton, List.not_mem_nil, or_false] at hc
    rcases hc with rfl | rfl
    · exact ha
    · exact hb)
  have e2 := key [flagToken.cluster [a], flagToken.cluster [b]] (by
    intro t ht
    simp only [List.mem_cons, List.mem_singleton, List.not_mem_nil, or_false] at ht
    rcases ht with rfl | rfl
    · exact ⟨by simp, by simpa using hna, by simpa using ha⟩
    · exact ⟨by simp, by simpa using hnb, by simpa using hb⟩)
  simp only [List.map_cons, List.map_nil, flagToken.text] at e1 e2
  rw [e1, e2]
  rfl

/-- C1 at the mock of the tests: `-ab --foo`. -/
theorem parse_noValueFlags_witness :
    (makeObserver (-1)).ready ∧
      parse ["-ab", "--foo"] (recording mockParseObserver.observer) (makeObserver (-1), []) =
        (true,
          (replay mockParseObserver.observer
            [Event.shortFlagInfo 'a', Event.notifyShortFlag 'a', Event.shortFlagInfo 'b',
              Event.notifyShortFlag 'b', Event.longFlagInfo "foo", Event.notifyLongFlag "foo"]
            (makeObserver (-1)),
          [Event.shortFlagInfo 'a', Event.notifyShortFlag 'a', Event.shortFlagInfo 'b',
            Event.notifyShortFlag 'b', Event.longFlagInfo "foo", Event.notifyLongFlag "foo"])) :=
  ⟨makeObserver_ready,
    (parse_noValueFlags mockParseObserver.observer mockParseObserver.ready (fun n => n = "foo")
      (fun c => c = 'a' ∨ c = 'b') [flagToken.cluster ['a', 'b'], flagToken.long "foo"]
      (makeObserver (-1)) mock_acceptsFlags
      (by
        intro t ht
        simp only [List.mem_cons, List.mem_singleton, List.not_mem_nil, or_false] at ht
        rcases ht with rfl | rfl
        · exact ⟨by simp, by simp, by simp⟩
        · exact ⟨by decide, by decide, rfl⟩)
      makeObserver_ready).1⟩

/-- The two forms of a value on texts that are valid UTF-8.  Short flag: when
the cluster `P` holds flags without a value and `x` takes a value (in the
states `Inv`; the cluster does not begin with a second `-`), `-PxVALUE`
followed by `R` and `-Px VALUE` followed by `R` make the same calls on the
observer, leave it in the same state and give the same verdict, for every
non-empty `VALUE`.  Long flag: when the observer knows `name` (not empty,
without `=`) as taking a value, `--name=VALUE` and `--name VALUE` do so too,
for every `VALUE`, and the calls begin with the lookup of `name` and the
notification of `name` with `VALUE`: the token is split at its first `=`. -/
theorem parse_valueForms {σ : Type} (obs : parseObserver σ) (s : σ) (R : List String)
    (value : String) :
    (∀ (Inv : σ → Prop) (P : List Char) (x : Char), obs.knowsCluster Inv P x → Inv s →
        value ≠ "" → (P ++ [x]).head? ≠ some '-' →
        parse (("-" ++ String.mk (P ++ [x]) ++ value) :: R) (recording obs) (s, []) =
          parse (("-" ++ String.mk (P ++ [x])) :: value :: R) (recording obs) (s, [])) ∧
      (∀ name : String, name ≠ "" → '=' ∉ name.data →
        (obs.longFlagInfo name s).1 = (true, true) →
        parse (("--" ++ name ++ "=" ++ value) :: R) (recording obs) (s, []) =
            parse (("--" ++ name) :: value :: R) (recording obs) (s, []) ∧
          [Event.longFlagInfo name, Event.notifyLongFlagValue name value] <+:
            (parse (("--" ++ name ++ "=" ++ value) :: R) (recording obs) (s, [])).2.2) :=
  ⟨fun Inv P x hk h0 hv hd => parse_valueForms_short obs s R value Inv P x hk h0 hv hd,
    fun name hne hno hi => parse_valueForms_long obs s R value name hne hno hi⟩

/-- The two forms at the mock of the tests: `-ac12 -b` against `-ac 12 -b`, and
`--bar=a=b -b` against `--bar a=b -b`. -/
theorem parse_valueForms_witness :
    (parse ["-ac12", "-b"] (recording mockParseObserver.observer) (makeObserver (-1), []) =
        parse ["-ac", "12", "-b"] (recording mockParseObserver.observer)
          (makeObserver (-1), [])) ∧
      (parse ["--bar=a=b", "-b"] (recording mockParseObserver.observer) (makeObserver (-1), []) =
          parse ["--bar", "a=b", "-b"] (recording mockParseObserver.observer)
            (makeObserver (-1), []) ∧
        [Event.longFlagInfo "bar", Event.notifyLongFlagValue "bar" "a=b"] <+:
          (parse ["--bar=a=b", "-b"] (recording mockParseObserver.observer)
            (makeObserver (-1), [])).2.2) :=
  ⟨(parse_valueForms mockParseObserver.observer (makeObserver (-1)) ["-b"] "12").1
      mockParseObserver.ready ['a'] 'c' mock_knowsCluster makeObserver_ready (by decide)
      (by decide),
    (parse_valueForms mockParseObserver.observer (makeObserver (-1)) ["-b"] "a=b").2 "bar"
      (by decide) (by decide) (by decide)⟩

/-- C3. After a token `--` every token is a positional argument: when the
positional notifications of the tokens of `R` return true (in the states
`Inv`), the calls that `parse` makes for `--` followed by `R` are exactly one
positional notification for each token of `R`, in order and with the text of
the token as it stands, whether or not it begins with `-` or is `--` itself.
No lookup of a flag, no notification of a flag and no error is among the
calls, and the observer ends in the state these notifications lead to. -/
theorem parse_escape {σ : Type} (obs : parseObserver σ) (Inv : σ → Prop) (R : List String)
    (s : σ) (h0 : Inv s)
    (hArg : ∀ v ∈ R, ∀ st, Inv st → (obs.notifyArg v st).1 = true ∧ Inv (obs.notifyArg v st).2) :
    (parse ("--" :: R) (recording obs) (s, [])).2 =
      (replay obs (R.map Event.notifyArg) s, R.map Event.notifyArg) := by
  have hr : (parser.start ("--" :: R) false).getNext.2.rest = R := start_getNext_rest _ _ _
  have hlen : (parser.start ("--" :: R) false).getNext.2.args.length -
      (parser.start ("--" :: R) false).getNext.2.current = R.length := by
    rw [← length_rest, hr]
  obtain ⟨e1, e2, _, _⟩ := escapeLoop_args obs Inv R hArg _ s [] h0 hr rfl
  rw [parse_cons, parseToken_escape _ _ _ (shouldComplete_of_parsing rfl), hlen, parseMain_stop _ _ _ (Or.inl e2), e1]
  simp

/-- C3 at the mock of the tests: `-- -a --foo --`. -/
theorem parse_escape_witness :
    (makeObserver (-1)).ready ∧
      (parse ["--", "-a", "--foo", "--"] (recording mockParseObserver.observer)
        (makeObserver (-1), [])).2 =
        (replay mockParseObserver.observer
            [Event.notifyArg "-a", Event.notifyArg "--foo", Event.notifyArg "--"]
            (makeObserver (-1)),
          [Event.notifyArg "-a", Event.notifyArg "--foo", Event.notifyArg "--"]) :=
  ⟨makeObserver_ready,
    parse_escape mockParseObserver.observer mockParseObserver.ready ["-a", "--foo", "--"]
      (makeObserver (-1)) makeObserver_ready (by
        intro v _ st h
        obtain ⟨h1, h2⟩ := mock_write_ready st ("(arg " ++ v ++ ")") h
        refine ⟨?_, h2⟩
        show (((st.write ("(arg " ++ v ++ ")")).injectFault).1 &&
          !((st.write ("(arg " ++ v ++ ")")).injectFault).2.banArgs) = true
        rw [h1, h2.2.2.1]
        rfl)⟩

/-- C5. In parse mode, a scan that has reached, after `k` tokens handled
without failure, a token naming a flag the observer does not know: `--name`,
`--name=v`, or a cluster `-PcQ` whose flags `P` take no value and have
notifications that return true, and whose character `c` is not known.  Then the
calls of the whole `parse` are those made up to that token, then the calls of
the flags of `P`, then the lookup of the unknown name and the one error
`unrecognized flag --name` (or `-c`); nothing is called for `Q` or for a later
token, and `parse` returns false. -/
theorem parse_unrecognized {σ : Type} (obs : parseObserver σ) (toks : List String) (s : σ)
    (k : Nat) (tok : String) (R : List String)
    (hok : (scanned obs toks s k).1.parseOK = true)
    (hr : (scanned obs toks s k).1.rest = tok :: R) :
    (∀ name : String, name ≠ "" → '=' ∉ name.data → tok = "--" ++ name →
        (obs.longFlagInfo name (scanned obs toks s k).2.1).1.1 = false →
        parse toks (recording obs) (s, []) =
          (false,
            (obs.Error ("unrecognized flag --" ++ name)
                (obs.longFlagInfo name (scanned obs toks s k).2.1).2,
              (scanned obs toks s k).2.2 ++
                [Event.longFlagInfo name, Event.Error ("unrecognized flag --" ++ name)]))) ∧
      (∀ name v : String, '=' ∉ name.data → tok = "--" ++ name ++ "=" ++ v →
        (obs.longFlagInfo name (scanned obs toks s k).2.1).1.1 = false →
        parse toks (recording obs) (s, []) =
          (false,
            (obs.Error ("unrecognized flag --" ++ name)
                (obs.longFlagInfo name (scanned obs toks s k).2.1).2,
              (scanned obs toks s k).2.2 ++
                [Event.longFlagInfo name, Event.Error ("unrecognized flag --" ++ name)]))) ∧
      (∀ (Inv : σ → Prop) (P : List Char) (c : Char) (Q : List Char),
        obs.firesCluster Inv P → Inv (scanned obs toks s k).2.1 →
        (∀ st, Inv st → (obs.shortFlagInfo c st).1.1 = false) →
        (P ++ [c]).head? ≠ some '-' → tok = "-" ++ String.mk (P ++ c :: Q) →
        parse toks (recording obs) (s, []) =
          (false,
            (obs.Error ("unrecognized flag -" ++ String.singleton c)
                (obs.shortFlagInfo c
                  (replay obs (flagToken.cluster P).calls (scanned obs toks s k).2.1)).2,
              (scanned obs toks s k).2.2 ++ (flagToken.cluster P).calls ++
                [Event.shortFlagInfo c,
                  Event.Error ("unrecognized flag -" ++ String.singleton c)]))) := by
  obtain ⟨h1, h2, _⟩ := scanned_next obs toks s k tok R hok hr
  refine ⟨?_, ?_, ?_⟩
  · intro name hne hno ht hi
    subst ht
    exact parse_scanned_failed obs toks s k _ R hok hr _ _
      (parseToken_long_unknown obs _ h2 name hne hno _ _ hi) (by simp)
  · intro name v hno ht hi
    subst ht
    exact parse_scanned_failed obs toks s k _ R hok hr _ _
      (parseToken_assign_unknown obs _ h2 name v hno _ _ hi) (by simp)
  · intro Inv P c Q hf h0 hu hd ht
    subst ht
    exact parse_scanned_failed obs toks s k _ R hok hr _ _
      (parseToken_cluster_unknown obs Inv P c Q hf hu hd _ h1 h2 _ _ h0) (by simp)

/-- C5 at the mock of the tests, after a first token `-a`: `--baz`, `--baz=1`
and `-aeb`, each followed by `-b`. -/
theorem parse_unrecognized_witness :
    ((parse ["-a", "--baz", "-b"] (recording mockParseObserver.observer)
          (makeObserver (-1), [])).1 = false ∧
        (parse ["-a", "--baz", "-b"] (recording mockParseObserver.observer)
          (makeObserver (-1), [])).2.2 =
          [Event.shortFlagInfo 'a', Event.notifyShortFlag 'a', Event.longFlagInfo "baz",
            Event.Error "unrecognized flag --baz"]) ∧
      ((parse ["-a", "--baz=1", "-b"] (recording mockParseObserver.observer)
          (makeObserver (-1), [])).1 = false ∧
        (parse ["-a", "--baz=1", "-b"] (recording mockParseObserver.observer)
          (makeObserver (-1), [])).2.2 =
          [Event.shortFlagInfo 'a', Event.notifyShortFlag 'a', Event.longFlagInfo "baz",
            Event.Error "unrecognized flag --baz"]) ∧
      ((parse ["-a", "-aeb", "-b"] (recording mockParseObserver.observer)
          (makeObserver (-1), [])).1 = false ∧
        (parse ["-a", "-aeb", "-b"] (recording mockParseObserver.observer)
          (makeObserver (-1), [])).2.2 =
          [Event.shortFlagInfo 'a', Event.notifyShortFlag 'a', Event.shortFlagInfo 'a',
            Event.notifyShortFlag 'a', Event.shortFlagInfo 'e',
            Event.Error "unrecognized flag -e"]) := by
  have h1 := (parse_unrecognized mockParseObserver.observer ["-a", "--baz", "-b"]
    (makeObserver (-1)) 1 "--baz" ["-b"] (by rfl) (by rfl)).1 "baz" (by decide) (by decide)
    (by rfl) (by rfl)
  have h2 := (parse_unrecognized mockParseObserver.observer ["-a", "--baz=1", "-b"]
    (makeObserver (-1)) 1 "--baz=1" ["-b"] (by rfl) (by rfl)).2.1 "baz" "1" (by decide) (by rfl) (by rfl)
  have h3 := (parse_unrecognized mockParseObserver.observer ["-a", "-aeb", "-b"]
    (makeObserver (-1)) 1 "-aeb" ["-b"] (by rfl) (by rfl)).2.2 mockParseObserver.ready ['a'] 'e'
    ['b'] mock_firesCluster ⟨by decide, by rfl, by rfl, by rfl, by rfl⟩
    (by
      intro st h
      rw [(mock_shortFlagInfo_ready st 'e' h).1]
      simp)
    (by decide) (by rfl)
  rw [h1, h2, h3]
  exact ⟨⟨rfl, rfl⟩, ⟨rfl, rfl⟩, ⟨rfl, rfl⟩⟩

/-- C6. In parse mode, a scan that has reached, after `k` tokens handled
without failure, its last token, and that token is a flag that takes a value
and has none attached: `--name` without `=`, or a cluster `-Px` whose flags
`P` take no value and have notifications that return true, and whose last
character `x` takes a value.  Then the calls of the whole `parse` are those
made up to that token, then the calls of the flags of `P`, then the lookup of
the flag and the one error `--name requires an argument` (or `-x requires an
argument`); the flag is not notified, and `parse` returns false. -/
theorem parse_missingValue {σ : Type} (obs : parseObserver σ) (toks : List String) (s : σ)
    (k : Nat) (tok : String)
    (hok : (scanned obs toks s k).1.parseOK = true)
    (hr : (scanned obs toks s k).1.rest = [tok]) :
    (∀ name : String, name ≠ "" → '=' ∉ name.data → tok = "--" ++ name →
        (obs.longFlagInfo name (scanned obs toks s k).2.1).1 = (true, true) →
        parse toks (recording obs) (s, []) =
          (false,
            (obs.Error ("--" ++ name ++ " requires an argument")
                (obs.longFlagInfo name (scanned obs toks s k).2.1).2,
              (scanned obs toks s k).2.2 ++
                [Event.longFlagInfo name,
                  Event.Error ("--" ++ name ++ " requires an argument")]))) ∧
      (∀ (Inv : σ → Prop) (P : List Char) (x : Char),
        obs.firesCluster Inv P → Inv (scanned obs toks s k).2.1 →
        (∀ st, Inv st → (obs.shortFlagInfo x st).1 = (true, true)) →
        (P ++ [x]).head? ≠ some '-' → tok = "-" ++ String.mk (P ++ [x]) →
        parse toks (recording obs) (s, []) =
          (false,
            (obs.Error ("-" ++ String.singleton x ++ " requires an argument")
                (obs.shortFlagInfo x
                  (replay obs (flagToken.cluster P).calls (scanned obs toks s k).2.1)).2,
              (scanned obs toks s k).2.2 ++ (flagToken.cluster P).calls ++
                [Event.shortFlagInfo x,
                  Event.Error ("-" ++ String.singleton x ++ " requires an argument")]))) := by
  obtain ⟨h1, h2, h3⟩ := scanned_next obs toks s k tok [] hok hr
  refine ⟨?_, ?_⟩
  · intro name hne hno ht hi
    subst ht
    exact parse_scanned_failed obs toks s k _ [] hok hr _ _
      (parseToken_long_missing obs _ h2 h3 name hne hno _ _ hi) (by simp)
  · intro Inv P x hf h0 hx hd ht
    subst ht
    exact parse_scanned_failed obs toks s k _ [] hok hr _ _
      (parseToken_cluster_missing obs Inv P x hf hx hd _ h1 h2 h3 _ _ h0) (by simp)

/-- C6 at the mock of the tests, after a first token `-a`: `--bar` and `-ac`
as last tokens. -/
theorem parse_missingValue_witness :
    ((parse ["-a", "--bar"] (recording mockParseObserver.observer)
          (makeObserver (-1), [])).1 = false ∧
        (parse ["-a", "--bar"] (recording mockParseObserver.observer)
          (makeObserver (-1), [])).2.2 =
          [Event.shortFlagInfo 'a', Event.notifyShortFlag 'a', Event.longFlagInfo "bar",
            Event.Error "--bar requires an argument"]) ∧
      ((parse ["-a", "-ac"] (recording mockParseObserver.observer)
          (makeObserver (-1), [])).1 = false ∧
        (parse ["-a", "-ac"] (recording mockParseObserver.observer)
          (makeObserver (-1), [])).2.2 =
          [Event.shortFlagInfo 'a', Event.notifyShortFlag 'a', Event.shortFlagInfo 'a',
            Event.notifyShortFlag 'a', Event.shortFlagInfo 'c',
            Event.Error "-c requires an argument"]) := by
  have h1 := (parse_missingValue mockParseObserver.observer ["-a", "--bar"]
    (makeObserver (-1)) 1 "--bar" (by rfl) (by rfl)).1 "bar" (by decide) (by decide) (by rfl) (by rfl)
  have h2 := (parse_missingValue mockParseObserver.observer ["-a", "-ac"]
    (makeObserver (-1)) 1 "-ac" (by rfl) (by rfl)).2 mockParseObserver.ready ['a'] 'c'
    mock_firesCluster ⟨by decide, by rfl, by rfl, by rfl, by rfl⟩
    (by
      intro st h
      rw [(mock_shortFlagInfo_ready st 'c' h).1]
      simp)
    (by decide) (by rfl)
  rw [h1, h2]
  exact ⟨⟨rfl, rfl⟩, ⟨rfl, rfl⟩⟩

/-- C7. In parse mode, a scan that has reached, after `k` tokens handled
without failure, a token `--name=v` (any text `v`, the empty one too).  When
the observer knows `name` as a flag that takes no value, the calls of the whole
`parse` are those made up to that token, then the lookup of `name` and the one
error `--name does not take an argument`: the flag is not notified, no later
token is handled and `parse` returns false.  When the observer does not know
`name`, the one error is `unrecognized flag --name` instead. -/
theorem parse_takesNoValue {σ : Type} (obs : parseObserver σ) (toks : List String) (s : σ)
    (k : Nat) (name v : String) (R : List String) (hno : '=' ∉ name.data)
    (hok : (scanned obs toks s k).1.parseOK = true)
    (hr : (scanned obs toks s k).1.rest = ("--" ++ name ++ "=" ++ v) :: R) :
    ((obs.longFlagInfo name (scanned obs toks s k).2.1).1 = (true, false) →
        parse toks (recording obs) (s, []) =
          (false,
            (obs.Error ("--" ++ name ++ " does not take an argument")
                (obs.longFlagInfo name (scanned obs toks s k).2.1).2,
              (scanned obs toks s k).2.2 ++
                [Event.longFlagInfo name,
                  Event.Error ("--" ++ name ++ " does not take an argument")]))) ∧
      ((obs.longFlagInfo name (scanned obs toks s k).2.1).1.1 = false →
        parse toks (recording obs) (s, []) =
          (false,
            (obs.Error ("unrecognized flag --" ++ name)
                (obs.longFlagInfo name (scanned obs toks s k).2.1).2,
              (scanned obs toks s k).2.2 ++
                [Event.longFlagInfo name, Event.Error ("unrecognized flag --" ++ name)]))) := by
  obtain ⟨_, h2, _⟩ := scanned_next obs toks s k _ R hok hr
  refine ⟨?_, ?_⟩
  · intro hi
    exact parse_scanned_failed obs toks s k _ R hok hr _ _
      (parseToken_assign_noValue obs _ h2 name v hno _ _ hi) (by simp)
  · intro hi
    exact parse_scanned_failed obs toks s k _ R hok hr _ _
      (parseToken_assign_unknown obs _ h2 name v hno _ _ hi) (by simp)

/-- C7 at the mock of the tests, after a first token `-a`: `--foo=` and
`--baz=1`, each followed by `-b`. -/
theorem parse_takesNoValue_witness :
    ((parse ["-a", "--foo=", "-b"] (recording mockParseObserver.observer)
          (makeObserver (-1), [])).1 = false ∧
        (parse ["-a", "--foo=", "-b"] (recording mockParseObserver.observer)
          (makeObserver (-1), [])).2.2 =
          [Event.shortFlagInfo 'a', Event.notifyShortFlag 'a', Event.longFlagInfo "foo",
            Event.Error "--foo does not take an argument"]) ∧
      ((parse ["-a", "--baz=1", "-b"] (recording mockParseObserver.observer)
          (makeObserver (-1), [])).1 = false ∧
        (parse ["-a", "--baz=1", "-b"] (recording mockParseObserver.observer)
          (makeObserver (-1), [])).2.2 =
          [Event.shortFlagInfo 'a', Event.notifyShortFlag 'a', Event.longFlagInfo "baz",
            Event.Error "unrecognized flag --baz"]) := by
  have h1 := (parse_takesNoValue mockParseObserver.observer ["-a", "--foo=", "-b"]
    (makeObserver (-1)) 1 "foo" "" ["-b"] (by decide) (by rfl) (by rfl)).1 (by rfl)
  have h2 := (parse_takesNoValue mockParseObserver.observer ["-a", "--baz=1", "-b"]
    (makeObserver (-1)) 1 "baz" "1" ["-b"] (by decide) (by rfl) (by rfl)).2 (by rfl)
  rw [h1, h2]
  exact ⟨⟨rfl, rfl⟩, ⟨rfl, rfl⟩⟩

/-- C4. Sticky failure, for every token list and every observer.  In the log
of `parse` that keeps the answer of each notification, no call but the last
was answered `false`: after a notification of any kind that returns false,
nothing more is called on the observer, neither a notification nor an error
nor a lookup, in the same cluster or for a later token; and `parse` then
returns false.  That log is the log of calls of the same run, with the same
verdict and the same final state of the observer, and these calls are the
first calls of the run in which every notification succeeds. -/
theorem parse_stickyFailure {σ : Type} (obs : parseObserver σ) (toks : List String) (s : σ) :
    clean (parse toks (watching obs) (s, [])).2.2.dropLast ∧
      ((∃ e ∈ (parse toks (watching obs) (s, [])).2.2, e.2 = false) →
        (parse toks (watching obs) (s, [])).1 = false) ∧
      ((parse toks (watching obs) (s, [])).1 = (parse toks (recording obs) (s, [])).1 ∧
        (parse toks (watching obs) (s, [])).2.1 = (parse toks (recording obs) (s, [])).2.1 ∧
        (parse toks (watching obs) (s, [])).2.2.map Prod.fst =
          (parse toks (recording obs) (s, [])).2.2) ∧
      (parse toks (recording obs) (s, [])).2.2 <+:
        (parse toks (recording (succeeding obs)) (s, [])).2.2 := by
  obtain ⟨h1, h2⟩ := parse_sticky obs toks s
  obtain ⟨h3, h4, h5⟩ := parse_simulates (watching_simulates_recording obs) toks (s, []) (s, [])
    ⟨rfl, rfl⟩
  exact ⟨h1, h2, ⟨h3, h4, h5⟩, parse_prefix_succeeding obs toks s⟩

/-- C10. `Int32Handler.Notify` and `StringHandler.Notify`, on every logger and
every state of the program.  When the handler's parser rejects the text with
the error `err`, the logger is given exactly that one error, the program state
is unchanged (no callback has run and no bound variable has been written) and
the result is the negation of `AffectsParsing`.  When the parser accepts the
text with the value `v`, the logger is untouched and the result is true, and
`v` is passed to the callback when one is bound, and else stored through the
pointer when one is bound. -/
theorem handler_Notify {ω L : Type} (log : Logger L) (l : L) (w : ω) (text : String) :
    (∀ h : Int32Handler ω,
        (∀ err, h.Parser.Parse text w = Except.error err →
          h.Notify text log l w = (!h.AffectsParsing, log.Error err l, w)) ∧
        (∀ v, h.Parser.Parse text w = Except.ok v →
          (∀ callback, h.Callback = some callback →
            h.Notify text log l w = (true, l, callback v w)) ∧
          (∀ ptr, h.Callback = none → h.Ptr = some ptr →
            h.Notify text log l w = (true, l, ptr.set v w)))) ∧
      (∀ h : StringHandler ω,
        (∀ err, h.Parser.Parse text w = Except.error err →
          h.Notify text log l w = (!h.AffectsParsing, log.Error err l, w)) ∧
        (∀ v, h.Parser.Parse text w = Except.ok v →
          (∀ callback, h.Callback = some callback →
            h.Notify text log l w = (true, l, callback v w)) ∧
          (∀ ptr, h.Callback = none → h.Ptr = some ptr →
            h.Notify text log l w = (true, l, ptr.set v w)))) := by
  refine ⟨fun h => ⟨?_, ?_⟩, fun h => ⟨?_, ?_⟩⟩
  · intro err he
    simp [Int32Handler.Notify, he]
  · intro v hv
    refine ⟨?_, ?_⟩
    · intro callback hc
      simp [Int32Handler.Notify, hv, hc]
    · intro ptr hc hp
      simp [Int32Handler.Notify, hv, hc, hp]
  · intro err he
    simp [StringHandler.Notify, he]
  · intro v hv
    refine ⟨?_, ?_⟩
    · intro callback hc
      simp [StringHandler.Notify, hv, hc]
    · intro ptr hc hp
      simp [StringHandler.Notify, hv, hc, hp]

/-- C10 at a handler bound by pointer to an integer variable that holds 5,
with a parser that takes `7` only and fails the scan on a bad value: `x` is
rejected, `7` is stored. -/
theorem handler_Notify_witness :
    Int32Handler.Notify
        { Parser :=
            { Parse := fun t _ => if t = "7" then Except.ok 7 else Except.error "bad"
              Complete := fun _ _ => []
              TypeName := "int32" }
          Callback := none
          Ptr := some { get := fun w : Int => w, set := fun v _ => v }
          AffectsParsing := true }
        "x" listLogger [] 5 = (false, ["bad"], 5) ∧
      Int32Handler.Notify
        { Parser :=
            { Parse := fun t _ => if t = "7" then Except.ok 7 else Except.error "bad"
              Complete := fun _ _ => []
              TypeName := "int32" }
          Callback := none
          Ptr := some { get := fun w : Int => w, set := fun v _ => v }
          AffectsParsing := true }
        "7" listLogger [] 5 = (true, [], 7) :=
  ⟨((handler_Notify listLogger [] (5 : Int) "x").1 _).1 "bad" (by rfl),
    (((handler_Notify listLogger [] (5 : Int) "7").1 _).2 7 (by rfl)).2
      { get := fun w : Int => w, set := fun v _ => v } rfl rfl⟩

/-- C9. Positional routing.  Take an App whose cursor is at 0 and any calls
`es` made on it as an observer, after which it is in state `app` (it has not
panicked), and let `i` be the number of positional notifications among `es`.
The slots are unchanged and the cursor is the smaller of `i` and the number
`n` of required slots: it only moves forward, by one for each required slot
filled, and never passes `n`.  The next positional token goes to the handler
of the required slot of index `i` when `i < n`, the cursor moving to `i + 1`,
and to the handler of the excess slot, the cursor unmoved, when `i ≥ n` and
there is one: the excess slot gets a token only once every required slot is
filled.  The calls of a `parse` are such calls: the state of the App during a
`parse` is the state its recorded calls lead to. -/
theorem notifyArg_routing {ω : Type} (app0 app : App ω) (es : List Event) (v : String)
    (h0 : app0.currentArgument = 0)
    (hrun : replay App.observer es (some app0) = some app) :
    app.requiredArguments = app0.requiredArguments ∧
      app.excessArguments = app0.excessArguments ∧
      app.currentArgument = min (countArgs es) app0.requiredArguments.length ∧
      (∀ a h, app0.requiredArguments.get? (countArgs es) = some a → a.Value = some h →
        app.notifyArg v =
          some (App.notifyHandler h v { app with currentArgument := countArgs es + 1 })) ∧
      (∀ a h, app0.requiredArguments.length ≤ countArgs es → app0.excessArguments = some a →
        a.Value = some h → app.notifyArg v = some (App.notifyHandler h v app)) ∧
      (∀ toks : List String,
        (parse toks (recording App.observer) (some app0, [])).2.1 =
          replay App.observer (parse toks (recording App.observer) (some app0, [])).2.2
            (some app0)) := by
  obtain ⟨h1, h2, h3⟩ := App.replay_slots es app0 app (by omega) hrun
  rw [h0, Nat.zero_add] at h3
  refine ⟨h1, h2, h3, ?_, ?_, fun toks => parse_recording_replay App.observer toks (some app0)⟩
  · intro a h ha hh
    have hlt : countArgs es < app0.requiredArguments.length := by
      by_contra hge
      rw [List.get?_eq_none.mpr (by omega)] at ha
      cases ha
    have hc : app.currentArgument = countArgs es := by
      rw [h3]; exact Nat.min_eq_left (Nat.le_of_lt hlt)
    unfold App.notifyArg
    rw [h1, hc, if_pos hlt, ha]
    simp only [hh]
  · intro a h hge ha hh
    have hc : app.currentArgument = app0.requiredArguments.length := by
      rw [h3]; exact Nat.min_eq_right hge
    unfold App.notifyArg
    rw [h1, hc, if_neg (Nat.lt_irrefl _), h2, ha]
    simp only [hh]

/-- C9 at the App with the slots `first` and `more`: after a first positional
token `a` (and a lookup) the cursor is at 1 and `b` goes to `more`. -/
theorem notifyArg_routing_witness :
    replay App.observer [Event.notifyArg "a", Event.longFlagInfo "x"] (some slotsApp) =
        some { slotsApp with currentArgument := 1, world := [("first", "a")] } ∧
      ({ slotsApp with currentArgument := 1, world := [("first", "a")] } :
          App (List (String × String))).currentArgument = 1 ∧
      (App.notifyArg "b" { slotsApp with currentArgument := 1, world := [("first", "a")] }).map
          (fun r => (r.1, r.2.currentArgument, r.2.world)) =
        some (true, 1, [("first", "a"), ("more", "b")]) := by
  have h := notifyArg_routing slotsApp
    { slotsApp with currentArgument := 1, world := [("first", "a")] }
    [Event.notifyArg "a", Event.longFlagInfo "x"] "b" rfl (by rfl)
  refine ⟨by rfl, h.2.2.1, ?_⟩
  rw [h.2.2.2.2.1 { Name := "more", Value := some (noteHandler "more") } (noteHandler "more")
    (by decide) (by rfl) (by rfl)]
  rfl

/-- C8, as stated, fails: on an App without any slot the command line `x y`
records the extra-argument error for `x` and the scan is not halted: the
sticky flag stays up, `y` is notified too and records a second error. -/
theorem parse_extraArgument_not_failFast :
    (parseMain (parser.start ["x", "y"] false) (recording App.observer)
        (some bareApp, [])).1.parseOK = true ∧
      parse ["x", "y"] (recording App.observer) (some bareApp, []) =
        (false,
          (some { bareApp with
              numErrors := 2
              stdout := ["ERROR Extra argument: x", "ERROR Extra argument: y"] },
            [Event.notifyArg "x", Event.notifyArg "y"])) :=
  ⟨by rfl, by rfl⟩

/-- C8, amended.  A scan in parse mode has reached, after `k` iterations
without failure, a positional token `v` (one that does not begin with `-`)
while every required slot of the App is filled and there is no excess slot.
Then `notifyArg` records the one error `Extra argument: v` and returns true:
the sticky flag is not set and the scan is not halted, it goes on with the
tokens `R` that follow.  When these are positional tokens too, each of them
records its own extra-argument error in turn, and `parse` returns false, the
count of errors not being zero. -/
theorem parse_extraArgument {ω : Type} (app0 app : App ω) (toks : List String) (k : Nat)
    (v : String) (R : List String)
    (hok : (scanned App.observer toks (some app0) k).1.parseOK = true)
    (hr : (scanned App.observer toks (some app0) k).1.rest = v :: R)
    (hst : (scanned App.observer toks (some app0) k).2.1 = some app)
    (hv : v.data.head? ≠ some '-')
    (hfull : app.requiredArguments.length ≤ app.currentArgument)
    (hex : app.excessArguments = none) :
    app.notifyArg v = some (true, app.Error ("Extra argument: " ++ v)) ∧
      scanned App.observer toks (some app0) (k + 1) =
        ((scanned App.observer toks (some app0) k).1.getNext.2,
          (some (app.Error ("Extra argument: " ++ v)),
            (scanned App.observer toks (some app0) k).2.2 ++ [Event.notifyArg v])) ∧
      (scanned App.observer toks (some app0) (k + 1)).1.parseOK = true ∧
      (scanned App.observer toks (some app0) (k + 1)).1.rest = R ∧
      ((∀ u ∈ R, u.data.head? ≠ some '-') →
        parse toks (recording App.observer) (some app0, []) =
          (false,
            (some ((v :: R).foldl (fun a u => a.Error ("Extra argument: " ++ u)) app),
              (scanned App.observer toks (some app0) k).2.2 ++
                (v :: R).map Event.notifyArg))) := by
  obtain ⟨h1, h2, h3⟩ := scanned_next App.observer toks (some app0) k v R hok hr
  have hst' : (scanned App.observer toks (some app0) k).2 =
      (some app, (scanned App.observer toks (some app0) k).2.2) := by
    rw [← hst]
  have hstep : scanned App.observer toks (some app0) (k + 1) =
      ((scanned App.observer toks (some app0) k).1.getNext.2,
        (some (app.Error ("Extra argument: " ++ v)),
          (scanned App.observer toks (some app0) k).2.2 ++ [Event.notifyArg v])) := by
    have hc : ((scanned App.observer toks (some app0) k).1.hasNext &&
        (scanned App.observer toks (some app0) k).1.parseOK) = true := by
      rw [hasNext_of_cons hr, hok]; rfl
    unfold scanned at *
    rw [parseMainLoop_succ, parseMainLoop_step _ 0 _ _ hc, getNext_fst hr, hst',
      App.parseToken_extra app _ v _ h2 hv hfull hex]
    rfl
  refine ⟨App.notifyArg_extra app v hfull hex, hstep, ?_, ?_, ?_⟩
  · rw [hstep]; exact h1
  · rw [hstep]; exact h3
  · intro hR
    obtain ⟨e1, e2⟩ := App.parseMain_extra (v :: R) app
      (scanned App.observer toks (some app0) k).1 (scanned App.observer toks (some app0) k).2.2
      hok (scanned_completing _ _ _ _) hr
      (by
        intro u hu
        rcases List.mem_cons.mp hu with rfl | hu
        · exact hv
        · exact hR u hu)
      hfull hex
    rw [← hst'] at e1 e2
    have hsplit := parseMain_split (recording App.observer) k (parser.start toks false)
      (some app0, [])
    unfold scanned at e1 e2 ⊢
    rw [hsplit] at e1 e2
    have hn : (recording App.observer).NumErrors
        (parseMain (parser.start toks false) (recording App.observer) (some app0, [])).2 ≠ 0 := by
      rw [e2]
      show (List.foldl (fun a u => App.Error ("Extra argument: " ++ u) a) app (v :: R)).numErrors
        ≠ 0
      rw [App.foldl_Error_numErrors (v :: R) (fun u => "Extra argument: " ++ u)]
      simp
    unfold parse
    dsimp only
    rw [e1, e2] at *
    simpa using hn

/-- C8 amended, at the App without any slot: `x` is reached at once, is
answered true and the scan goes on to `y`. -/
theorem parse_extraArgument_witness :
    bareApp.notifyArg "x" = some (true, bareApp.Error ("Extra argument: " ++ "x")) ∧
      (scanned App.observer ["x", "y"] (some bareApp) 1).1.parseOK = true ∧
      (scanned App.observer ["x", "y"] (some bareApp) 1).1.rest = ["y"] := by
  have h := parse_extraArgument bareApp bareApp ["x", "y"] 0 "x" ["y"] (by rfl) (by rfl)
    (by rfl) (by decide) (by decide) (by rfl)
  exact ⟨h.1, h.2.2.1, h.2.2.2.1⟩

end cmdline

namespace cmdline
open parser

/-- C15, as the code behaves.  `App.completeLongFlag` proposes, as final
candidates and in the order of registration, exactly the long names of the
registered flags that have a long name with the typed prefix and whose use
count is below their `Max` (`Flag.CanAcceptMore` is `useCount < Max`).  A flag
that has never been used is proposed when its `Max` is positive; a flag whose
`Max` was left at zero, the value of a field that is not set, is never
proposed, whatever its use count, and when no flag has a positive `Max`
nothing is proposed at all. -/
theorem completeLongFlag_eligible {ω : Type} (app : App ω) (pfx : String) :
    app.completeLongFlag pfx =
        (app.allFlags.filter
          (fun f => decide (f.useCount < f.Max ∧ f.Long ≠ "" ∧ pfx.data <+: f.Long.data))).map
          (fun f => Completion.Final f.Long) ∧
      (∀ c, c ∈ app.completeLongFlag pfx ↔
        ∃ f ∈ app.allFlags, (f.useCount < f.Max ∧ f.Long ≠ "" ∧ pfx.data <+: f.Long.data) ∧
          c = Completion.Final f.Long) ∧
      List.Sublist (app.completeLongFlag pfx)
        (app.allFlags.map (fun f => Completion.Final f.Long)) ∧
      (∀ f ∈ app.allFlags, f.useCount = 0 → 0 < f.Max → f.Long ≠ "" →
        pfx.data <+: f.Long.data → Completion.Final f.Long ∈ app.completeLongFlag pfx) ∧
      (∀ name, (∀ f ∈ app.allFlags, f.Long = name → f.Max = 0 ∧ 0 ≤ f.useCount) →
        Completion.Final name ∉ app.completeLongFlag pfx) ∧
      ((∀ f ∈ app.allFlags, f.Max = 0 ∧ 0 ≤ f.useCount) → app.completeLongFlag pfx = []) := by
  have e : app.completeLongFlag pfx =
      (app.allFlags.filter
        (fun f => decide (f.useCount < f.Max ∧ f.Long ≠ "" ∧ pfx.data <+: f.Long.data))).map
        (fun f => Completion.Final f.Long) := by
    unfold App.completeLongFlag Flag.CanAcceptMore
    congr 1
    apply List.filter_congr
    intro f _
    simp [Bool.and_assoc]
  have hmem : ∀ c, c ∈ app.completeLongFlag pfx ↔
      ∃ f ∈ app.allFlags, (f.useCount < f.Max ∧ f.Long ≠ "" ∧ pfx.data <+: f.Long.data) ∧
        c = Completion.Final f.Long := by
    intro c
    rw [e]
    simp only [List.mem_map, List.mem_filter, decide_eq_true_eq]
    constructor
    · rintro ⟨f, ⟨hf, hp⟩, rfl⟩
      exact ⟨f, hf, hp, rfl⟩
    · rintro ⟨f, hf, hp, rfl⟩
      exact ⟨f, ⟨hf, hp⟩, rfl⟩
  refine ⟨e, hmem, ?_, ?_, ?_, ?_⟩
  · rw [e]
    exact List.Sublist.map _ (List.filter_sublist _)
  · intro f hf h0 hm hl hp
    exact (hmem _).2 ⟨f, hf, ⟨by rw [h0]; exact hm, hl, hp⟩, rfl⟩
  · intro name hz hc
    obtain ⟨f, hf, ⟨hlt, -, -⟩, hcf⟩ := (hmem _).1 hc
    have hn : f.Long = name := by
      cases hcf
      rfl
    obtain ⟨h1, h2⟩ := hz f hf hn
    omega
  · intro hz
    apply List.eq_nil_iff_forall_not_mem.2
    intro c hc
    obtain ⟨f, hf, ⟨hlt, -, -⟩, -⟩ := (hmem _).1 hc
    obtain ⟨h1, h2⟩ := hz f hf
    omega

/-- C15 on `flagsApp`, whose flag `--foo`/`-f` is registered as the flag `foo`
of cmd/cmdline_playground/main.go is, without a `Max`: it has never been used
and it is not proposed, while `parse` accepts it three times running; `--bar`,
with a `Max` of one, is proposed until it has been used once. -/
theorem completeLongFlag_unused_not_proposed :
    (slotsApp.Flags demoFlags).isSome = true ∧
      flagsApp.allFlags.map (fun f => (f.Long, f.useCount, f.Max))
        = [("foo", 0, 0), ("bar", 0, 1)] ∧
      flagsApp.completeLongFlag "" = [Completion.Final "bar"] ∧
      Completion.Final "foo" ∉ flagsApp.completeLongFlag "" ∧
      (parse ["--foo", "--foo", "--foo"] App.observer (some flagsApp)).1 = true ∧
      ((parse ["--foo", "--foo", "--foo"] App.observer (some flagsApp)).2.map
          (fun a => a.allFlags.map (fun f => (f.Long, f.useCount, f.Max))))
        = some [("foo", 3, 0), ("bar", 0, 1)] ∧
      ((flagsApp.notifyLongFlagValue "bar" "1").map
          (fun r => (r.2.allFlags.map (fun f => (f.Long, f.useCount, f.Max)),
            r.2.completeLongFlag ""))) =
        some ([("foo", 0, 0), ("bar", 1, 1)], []) :=
  ⟨by rfl, by rfl, by rfl,
    (completeLongFlag_eligible flagsApp "").2.2.2.2.1 "foo" (by
      intro f hf hn
      have e : flagsApp.allFlags = demoFlags := by rfl
      rw [e] at hf
      simp only [demoFlags, List.mem_cons, List.mem_singleton, List.not_mem_nil,
        or_false] at hf
      rcases hf with rfl | rfl
      · exact ⟨rfl, by decide⟩
      · exact absurd hn (by decide)),
    by rfl, by rfl, by rfl⟩

/-- C16. Prefix monotonicity of `App.completeLongFlag`: when `p` is a prefix of
`q`, the candidates proposed for `q` are candidates proposed for `p`, in the
same relative order (they form a sub-list).  In particular the candidates for
any prefix form a sub-list of those for the empty prefix, and the empty prefix
yields one candidate for every flag that can accept more uses and has a long
name, in the order of registration. -/
theorem completeLongFlag_monotone {ω : Type} (app : App ω) (p q : String)
    (hpq : p.data <+: q.data) :
    List.Sublist (app.completeLongFlag q) (app.completeLongFlag p) ∧
      List.Sublist (app.completeLongFlag q) (app.completeLongFlag "") ∧
      app.completeLongFlag "" =
        (app.allFlags.filter (fun f => f.CanAcceptMore && decide (f.Long ≠ ""))).map
          (fun f => Completion.Final f.Long) := by
  have key : ∀ a b : String, a.data <+: b.data →
      List.Sublist (app.completeLongFlag b) (app.completeLongFlag a) := by
    intro a b hab
    unfold App.completeLongFlag
    apply List.Sublist.map
    apply List.monotone_filter_right
    intro f hf
    simp only [Bool.and_eq_true, decide_eq_true_eq] at hf ⊢
    exact ⟨hf.1, List.IsPrefix.trans hab hf.2⟩
  refine ⟨key p q hpq, key "" q (by simp), ?_⟩
  unfold App.completeLongFlag
  congr 1
  apply List.filter_congr
  intro f _
  simp

/-- C16 at `flagsApp`: the candidates for `ba` among those for `b`. -/
theorem completeLongFlag_monotone_witness :
    List.Sublist (flagsApp.completeLongFlag "ba") (flagsApp.completeLongFlag "b") ∧
      flagsApp.completeLongFlag "ba" = [Completion.Final "bar"] :=
  ⟨(completeLongFlag_monotone flagsApp "b" "ba" (by decide)).1, by rfl⟩

/-- C12, the remark on `Required()` read literally. A flag made `Required()`
whose `Min` was already 2 keeps it; used once, it is still reported by
`postParse`, although it was used. -/
theorem postParse_required_used_once :
    (twiceApp.allFlags.map (fun f => (f.Long, f.Min, f.useCount))) = [("x", 2, 0)] ∧
    ((twiceApp.notifyLongFlag "x").bind (fun r =>
        (r.2.postParse (fun s => s)).map (fun q =>
          (r.1, r.2.allFlags.map (fun f => (f.Long, f.Min, f.useCount)), q.1, q.2.stdout))))
      = some (true, [("x", 2, 1)], false,
          ["ERROR --x is required", "ERROR argument first is required"]) := by
  exact ⟨by rfl, by rfl⟩

/-- C12. Post-pass check: in an App state where no flag has a `Default` (and
every flag has a name, as `Flags` ensures), `postParse` does not panic, records
exactly the messages of `postParseMessages` in order, one `<name> is required`
for each registered flag with `useCount < Min` and then one `argument ... is
required` for each required slot from `currentArgument` on, nothing else, and
returns true exactly when the total error count is then zero.  A flag made
`Required()` has `Min >= 1`: it is reported whenever it was never used, and,
when its `Min` was at most 1, only then. -/
theorem postParse_messages {ω : Type} (quote : String → String) (app : App ω)
    (hD : ∀ f ∈ app.allFlags, f.Default = "")
    (hN : ∀ f ∈ app.allFlags, f.Long ≠ "" ∨ f.Short ≠ Char.ofNat 0) :
    app.postParse quote
        = some (decide (app.numErrors + (app.postParseMessages quote).length = 0),
            (app.postParseMessages quote).foldl (fun a m => a.Error m) app) ∧
      ((app.postParseMessages quote).foldl (fun a m => a.Error m) app).numErrors
        = app.numErrors + (app.postParseMessages quote).length ∧
      (app.completing = false →
        ((app.postParseMessages quote).foldl (fun a m => a.Error m) app).stdout
          = app.stdout ++ (app.postParseMessages quote).map (fun m => "ERROR " ++ m)) ∧
      (app.postParseMessages quote).length
        = (app.allFlags.filter (fun f => decide (f.useCount < f.Min))).length
          + (app.requiredArguments.length - app.currentArgument) ∧
      (∀ f : Flag ω, 1 ≤ f.Required.Min ∧ f.Required.useCount = f.useCount ∧
        (f.useCount ≤ 0 → f.Required.useCount < f.Required.Min) ∧
        (f.Min ≤ 1 → 0 ≤ f.useCount →
          (f.Required.useCount < f.Required.Min ↔ f.useCount = 0))) := by
  have hnum : ((app.postParseMessages quote).foldl (fun a m => a.Error m) app).numErrors
      = app.numErrors + (app.postParseMessages quote).length :=
    App.foldl_Error_numErrors (app.postParseMessages quote) (fun u => u) app
  refine ⟨?_, hnum, App.foldl_Error_stdout _ app, ?_, ?_⟩
  · unfold App.postParse
    rw [App.postParse_flags app.allFlags app hD hN]
    obtain ⟨a, b, c, -, -⟩ := App.foldl_Error_allFlags
      ((app.allFlags.filter (fun f => decide (f.Min > f.useCount))).map
          (fun f => f.Name.getD "" ++ " is required")) app
    simp only [b, c]
    have e : List.foldl (fun a arg => App.Error ("argument " ++ quote arg.Name ++ " is required") a)
        (List.foldl (fun a m => App.Error m a) app
          ((app.allFlags.filter (fun f => decide (f.Min > f.useCount))).map
            (fun f => f.Name.getD "" ++ " is required")))
        (List.drop app.currentArgument app.requiredArguments)
        = (app.postParseMessages quote).foldl (fun a m => a.Error m) app := by
      unfold App.postParseMessages
      simp only [List.foldl_append, List.foldl_map]
    rw [e]
    simp only [App.NumErrors, hnum]
  · unfold App.postParseMessages
    simp only [List.length_append, List.length_map, List.length_drop, gt_iff_lt]
  · intro f
    unfold Flag.Required
    by_cases h : f.Min < 1
    · rw [if_pos h]
      refine ⟨le_refl _, by rfl, fun h0 => by show f.useCount < 1; omega, fun _ h0 => ?_⟩
      show f.useCount < 1 ↔ f.useCount = 0
      constructor <;> intro h1 <;> omega
    · rw [if_neg h]
      refine ⟨by omega, by rfl, fun h0 => by omega, fun h1 h0 => ?_⟩
      constructor <;> intro h2 <;> omega


/-- C12 at the App `twiceApp`. -/
theorem postParse_messages_witness :
    (∀ f ∈ twiceApp.allFlags, f.Default = "") ∧
    (∀ f ∈ twiceApp.allFlags, f.Long ≠ "" ∨ f.Short ≠ Char.ofNat 0) ∧
    twiceApp.postParse (fun s => s)
        = some (decide (twiceApp.numErrors + (twiceApp.postParseMessages (fun s => s)).length = 0),
            (twiceApp.postParseMessages (fun s => s)).foldl (fun a m => a.Error m) twiceApp) :=
  have hD : ∀ f ∈ twiceApp.allFlags, f.Default = "" := by
    intro f hf
    have e : twiceApp.allFlags = [twiceFlag.Required] := by rfl
    rw [e, List.mem_singleton] at hf
    rw [hf]; rfl
  have hN : ∀ f ∈ twiceApp.allFlags, f.Long ≠ "" ∨ f.Short ≠ Char.ofNat 0 := by
    intro f hf
    have e : twiceApp.allFlags = [twiceFlag.Required] := by rfl
    rw [e, List.mem_singleton] at hf
    rw [hf]; exact Or.inl (by decide)
  ⟨hD, hN, (postParse_messages (fun s => s) twiceApp hD hN).1⟩

/-- C14. Long-flag-name completion: when the scan in completion mode reaches
its last token as a fresh token, without a failure, and that token is `--`
followed by a prefix without `=`, `complete` returns first the candidate `--`
exactly when the prefix is empty and the observer answers that it accepts
positional arguments, then `--` followed by each text that the observer's
`completeLongFlag` proposes for the prefix, in the observer's order.  The
calls made for the token are the lookup of the prefix (or, for the empty
prefix, `acceptingArgs`) and `completeLongFlag`: whatever the lookup answers,
no `Error` is called. -/
theorem complete_longName {σ : Type} (obs : parseObserver σ) (toks : List String) (s : σ)
    (k : Nat) (pfx : String)
    (hr : (completionScan obs toks s k).1.rest = ["--" ++ pfx])
    (hok : (completionScan obs toks s k).1.parseOK = true)
    (heq : '=' ∉ pfx.data) :
    complete toks (recording obs) (s, []) =
      (((if pfx = "" ∧ (obs.acceptingArgs (completionScan obs toks s k).2.1).1 = true
            then ["--"] else []) ++
          (obs.completeLongFlag pfx
            (if pfx = "" then (obs.acceptingArgs (completionScan obs toks s k).2.1).2
              else (obs.longFlagInfo pfx (completionScan obs toks s k).2.1).2)).1.map
            (fun c => "--" ++ c.text),
        (obs.completeLongFlag pfx
            (if pfx = "" then (obs.acceptingArgs (completionScan obs toks s k).2.1).2
              else (obs.longFlagInfo pfx (completionScan obs toks s k).2.1).2)).1.any
          Completion.isPartial),
       ((obs.completeLongFlag pfx
            (if pfx = "" then (obs.acceptingArgs (completionScan obs toks s k).2.1).2
              else (obs.longFlagInfo pfx (completionScan obs toks s k).2.1).2)).2,
        (completionScan obs toks s k).2.2 ++
          [if pfx = "" then Event.acceptingArgs else Event.longFlagInfo pfx,
            Event.completeLongFlag pfx])) := by
  obtain ⟨⟨h1, h2, h3, h4, h5⟩, e⟩ := complete_reached (recording obs) toks (s, []) k
    ("--" ++ pfx) (completionScan obs toks s k).1 (completionScan obs toks s k).2 rfl hr hok
  rw [e]
  by_cases hp : pfx = ""
  · subst hp
    have ht : ("--" ++ "" : String) = "--" := rfl
    rw [ht, parseToken_completeEscape _ _ _ h1]
    obtain ⟨a, b, c⟩ := completeLongFlag_candidates (recording obs)
      (completionScan obs toks s k).1.getNext.2 "" (completionScan obs toks s k).2
    rw [a, b, c]
    simp [h3, h4]
  · rw [parseToken_long _ _ _ _ hp, parseLongFlag_completeName _ _ _ _ h1 heq]
    obtain ⟨a, b, c⟩ := completeLongFlag_candidates (recording obs)
      (completionScan obs toks s k).1.getNext.2 pfx
      ((recording obs).longFlagInfo pfx (completionScan obs toks s k).2).2
    rw [a, b, c]
    simp [hp, h3, h4]

/-- C14 on the App `flagsApp`, after one positional token. -/
theorem complete_longName_witness :
    (completionScan App.observer ["x", "--b"] (some flagsApp) 1).1.rest = ["--" ++ "b"] ∧
      (complete ["x", "--b"] (recording App.observer) (some flagsApp, [])).1
        = (["--bar"], false) := by
  have h := complete_longName App.observer ["x", "--b"] (some flagsApp) 1 "b"
    (by rfl) (by rfl) (by decide)
  exact ⟨by rfl, by rw [h]; rfl⟩

/-- C17. Short-cluster completion: when the scan in completion mode reaches its
last token as a fresh token, without a failure, and that token is `-K` for one
or more characters `K` that the observer knows as short flags without a value
and whose notifications it answers with true, every flag of `K` is looked up
and notified in order, and `complete` returns the typed cluster `-K` first and
then `-K` followed by each text the observer's `completeShortFlag` offers, in
the observer's order, flagged partial exactly when one of these was offered by
`PartialCompletion`.  The App offers the short name of every flag that can
accept more uses, by `PartialCompletion` when the flag has no value handler and
by `FinalCompletion` when it has one. -/
theorem complete_cluster {σ ω : Type} (obs : parseObserver σ) (Inv : σ → Prop)
    (toks : List String) (s : σ) (k : Nat) (K : List Char)
    (hr : (completionScan obs toks s k).1.rest = ["-" ++ String.mk K])
    (hok : (completionScan obs toks s k).1.parseOK = true)
    (hK : K ≠ []) (hd : K.head? ≠ some '-')
    (hf : obs.firesCluster Inv K) (h0 : Inv (completionScan obs toks s k).2.1) :
    complete toks (recording obs) (s, []) =
        ((("-" ++ String.mk K) ::
            (obs.completeShortFlag
              (replay obs (flagToken.cluster K).calls (completionScan obs toks s k).2.1)).1.map
              (fun c => "-" ++ String.mk K ++ c.text),
          (obs.completeShortFlag
              (replay obs (flagToken.cluster K).calls (completionScan obs toks s k).2.1)).1.any
            Completion.isPartial),
         ((obs.completeShortFlag
              (replay obs (flagToken.cluster K).calls (completionScan obs toks s k).2.1)).2,
          (completionScan obs toks s k).2.2 ++ (flagToken.cluster K).calls ++
            [Event.completeShortFlag])) ∧
      ∀ app : App ω,
        app.completeShortFlag =
          (app.allFlags.filter (fun f => f.CanAcceptMore && decide (f.Short ≠ Char.ofNat 0))).map
            (fun f => if f.Value.isSome then Completion.Final (String.singleton f.Short)
              else Completion.Partial (String.singleton f.Short)) ∧
        (app.completeShortFlag.any Completion.isPartial = true ↔
          ∃ f ∈ app.allFlags, f.CanAcceptMore = true ∧ f.Short ≠ Char.ofNat 0 ∧
            f.Value.isSome = false) := by
  constructor
  · obtain ⟨⟨h1, h2, h3, h4, h5⟩, e⟩ := complete_reached (recording obs) toks (s, []) k
      ("-" ++ String.mk K) (completionScan obs toks s k).1 (completionScan obs toks s k).2
      rfl hr hok
    rw [e, parseToken_cluster _ _ _ _ hK hd]
    have hl := (parseShortFlagLoop_fired obs Inv K hf K [] (completionScan obs toks s k).1.getNext.2
      (completionScan obs toks s k).2.1 (completionScan obs toks s k).2.2 h0 h2).1
    rw [List.append_nil] at hl
    unfold parseShortFlag
    simp only [hl, parseShortFlagLoop, Bool.false_eq_true, if_false, h1, h2, Bool.and_self,
      if_true]
    obtain ⟨a, b, c⟩ := completeShortFlag_candidates (recording obs)
      (completionScan obs toks s k).1.getNext.2 ("-" ++ String.mk K)
      (replay obs (flagToken.cluster K).calls (completionScan obs toks s k).2.1,
        (completionScan obs toks s k).2.2 ++ (flagToken.cluster K).calls)
    rw [a, b, c]
    simp [h3, h4, utf8ByteSize_dash K hK]
  · intro app
    refine ⟨rfl, ?_⟩
    unfold App.completeShortFlag
    rw [List.any_eq_true]
    constructor
    · rintro ⟨c, hc, hp⟩
      obtain ⟨f, hf1, rfl⟩ := List.mem_map.1 hc
      rw [List.mem_filter] at hf1
      simp only [Bool.and_eq_true, decide_eq_true_eq] at hf1
      refine ⟨f, hf1.1, hf1.2.1, hf1.2.2, ?_⟩
      cases hv : f.Value.isSome
      · rfl
      · simp [hv, Completion.isPartial] at hp
    · rintro ⟨f, hf1, hf2, hf3, hf4⟩
      refine ⟨Completion.Partial (String.singleton f.Short), ?_, rfl⟩
      apply List.mem_map.2
      refine ⟨f, ?_, by simp [hf4]⟩
      rw [List.mem_filter]
      simp [hf1, hf2, hf3]

/-- C17 on the mock of the tests, as in `TestCompleteShortNoValue`. -/
theorem complete_cluster_witness :
    (completionScan mockParseObserver.observer ["-a"] (makeObserver (-1)) 0).1.rest
        = ["-" ++ String.mk ['a']] ∧
      (complete ["-a"] (recording mockParseObserver.observer) (makeObserver (-1), [])).1
        = (["-a", "-aa", "-ab", "-ac", "-ad"], true) := by
  have h := (complete_cluster (ω := Unit) mockParseObserver.observer mockParseObserver.ready
    ["-a"] (makeObserver (-1)) 0 ['a'] (by rfl) (by rfl) (by decide) (by decide)
    mock_firesCluster makeObserver_ready).1
  exact ⟨by rfl, by rw [h]; rfl⟩

/-- C19, read for every last token `-`. A `-` that follows a flag waiting for
its value is that value: on the App `flagsApp`, `complete` of `--bar -` calls
the value completion of `--bar` and returns no candidate, neither `-b` nor
`--` nor `--bar`; and after the token `--` a last token `-` is notified as a
positional argument. -/
theorem complete_dash_as_value :
    (complete ["-"] (recording App.observer) (some flagsApp, [])).1
        = (["-b", "--", "--bar"], false) ∧
      ((complete ["--bar", "-"] (recording App.observer) (some flagsApp, [])).1,
        (complete ["--bar", "-"] (recording App.observer) (some flagsApp, [])).2.2)
        = (([], false), [Event.longFlagInfo "bar", Event.completeLongFlagValue "bar" "-"]) ∧
      ((complete ["--", "-"] (recording App.observer) (some flagsApp, [])).1,
        (complete ["--", "-"] (recording App.observer) (some flagsApp, [])).2.2)
        = (([], false), [Event.notifyArg "-"]) := by
  exact ⟨by rfl, by rfl, by rfl⟩

/-- C19. Bare-dash completion: when the scan in completion mode reaches its
last token as a fresh token, without a failure, and that token is exactly `-`,
`complete` returns, in this order, `-` followed by each text the observer's
`completeShortFlag` offers, then `--` exactly when the observer answers that
it accepts positional arguments, then `--` followed by each text the
observer's `completeLongFlag` offers for the empty prefix.  The calls made for
the token are these three: no `Error` is called. -/
theorem complete_dash {σ : Type} (obs : parseObserver σ) (toks : List String) (s : σ)
    (k : Nat)
    (hr : (completionScan obs toks s k).1.rest = ["-"])
    (hok : (completionScan obs toks s k).1.parseOK = true) :
    complete toks (recording obs) (s, []) =
      (((obs.completeShortFlag (completionScan obs toks s k).2.1).1.map (fun c => "-" ++ c.text) ++
          (if (obs.acceptingArgs (obs.completeShortFlag (completionScan obs toks s k).2.1).2).1
              = true then ["--"] else []) ++
          (obs.completeLongFlag "" (obs.acceptingArgs
            (obs.completeShortFlag (completionScan obs toks s k).2.1).2).2).1.map
            (fun c => "--" ++ c.text),
        ((obs.completeShortFlag (completionScan obs toks s k).2.1).1.any Completion.isPartial ||
          (obs.completeLongFlag "" (obs.acceptingArgs
            (obs.completeShortFlag (completionScan obs toks s k).2.1).2).2).1.any
            Completion.isPartial)),
       ((obs.completeLongFlag "" (obs.acceptingArgs
            (obs.completeShortFlag (completionScan obs toks s k).2.1).2).2).2,
        (completionScan obs toks s k).2.2 ++
          [Event.completeShortFlag, Event.acceptingArgs, Event.completeLongFlag ""])) := by
  obtain ⟨⟨h1, h2, h3, h4, h5⟩, e⟩ := complete_reached (recording obs) toks (s, []) k
    "-" (completionScan obs toks s k).1 (completionScan obs toks s k).2 rfl hr hok
  rw [e, parseToken_completeDash _ _ _ h1]
  obtain ⟨a, b, c⟩ := completeAnyFlag_candidates (recording obs)
    (completionScan obs toks s k).1.getNext.2 (completionScan obs toks s k).2 h3 h4
  rw [a, b, c]
  simp

/-- C19 on the mock of the tests, as in `TestCompleteShort`. -/
theorem complete_dash_witness :
    (completionScan mockParseObserver.observer ["-"] (makeObserver (-1)) 0).1.rest = ["-"] ∧
      (complete ["-"] (recording mockParseObserver.observer) (makeObserver (-1), [])).1
        = (["-a", "-b", "-c", "-d", "--", "--foo", "--bar"], true) := by
  have h := complete_dash mockParseObserver.observer ["-"] (makeObserver (-1)) 0
    (by rfl) (by rfl)
  exact ⟨by rfl, by rw [h]; rfl⟩

/-- C18, as the code behaves. When the scan in completion mode reaches its
last token as a fresh token, without a failure, and that token is a cluster
`-Px` whose characters `P` are short flags without a value with notifications
that return true and whose last character `x` is a flag that takes a value,
`complete` returns one candidate, not partial, and calls no `Error`; the
candidate is the typed token with the parser's `prependCompletion` in front of
it, which is whatever an earlier token left there: the empty string at the
start of a scan, but `--name=` after a token `--name=value`. -/
theorem complete_valueCluster {σ : Type} (obs : parseObserver σ) (Inv : σ → Prop)
    (toks : List String) (s : σ) (k : Nat) (P : List Char) (x : Char)
    (hr : (completionScan obs toks s k).1.rest = ["-" ++ String.mk (P ++ [x])])
    (hok : (completionScan obs toks s k).1.parseOK = true)
    (hd : (P ++ [x]).head? ≠ some '-')
    (hf : obs.firesCluster Inv P)
    (hx : ∀ st, Inv st → (obs.shortFlagInfo x st).1 = (true, true))
    (h0 : Inv (completionScan obs toks s k).2.1) :
    complete toks (recording obs) (s, []) =
      (([(completionScan obs toks s k).1.prependCompletion ++ ("-" ++ String.mk (P ++ [x]))],
          false),
        ((obs.shortFlagInfo x
            (replay obs (flagToken.cluster P).calls (completionScan obs toks s k).2.1)).2,
          (completionScan obs toks s k).2.2 ++ (flagToken.cluster P).calls ++
            [Event.shortFlagInfo x])) := by
  obtain ⟨⟨h1, h2, h3, h4, h5⟩, e⟩ := complete_reached (recording obs) toks (s, []) k
    ("-" ++ String.mk (P ++ [x])) (completionScan obs toks s k).1
    (completionScan obs toks s k).2 rfl hr hok
  rw [e, parseToken_cluster _ _ _ _ (by simp) hd]
  obtain ⟨hl, hi⟩ := parseShortFlagLoop_fired obs Inv P hf (P ++ [x]) [x]
    (completionScan obs toks s k).1.getNext.2
    (completionScan obs toks s k).2.1 (completionScan obs toks s k).2.2 h0 h2
  have hx' := hx _ hi
  unfold parseShortFlag
  rw [hl]
  simp only [parseShortFlagLoop, h2, recording_shortFlagInfo, hx', h5, h1, Bool.not_true,
    Bool.false_eq_true, if_false, if_true, ne_eq, not_true_eq_false]
  have h3' : (completionScan obs toks s k).1.completions = [] := by simpa [getNext] using h3
  have h4' : (completionScan obs toks s k).1.isPartial = false := by simpa [getNext] using h4
  simp [FinalCompletion, h3', h4', getNext]

/-- C18 on the mock of the tests: after `--bar=1` the candidate for `-ac` is
`--bar=-ac`. -/
theorem complete_valueCluster_witness :
    (completionScan mockParseObserver.observer ["--bar=1", "-ac"] (makeObserver (-1)) 1).1.rest
        = ["-" ++ String.mk (['a'] ++ ['c'])] ∧
      (complete ["-ac"] (recording mockParseObserver.observer) (makeObserver (-1), [])).1
        = (["-ac"], false) ∧
      (complete ["--bar=1", "-ac"] (recording mockParseObserver.observer)
          (makeObserver (-1), [])).1 = (["--bar=-ac"], false) := by
  have h := complete_valueCluster mockParseObserver.observer mockParseObserver.ready
    ["--bar=1", "-ac"] (makeObserver (-1)) 1 ['a'] 'c' (by rfl) (by rfl) (by decide)
    mock_firesCluster mock_knowsCluster.valueInfo ⟨by decide, by rfl, by rfl, by rfl, by rfl⟩
  exact ⟨by rfl, by rfl, by rw [h]; rfl⟩

/-- C20, for a last token after `--`. When the scan in completion mode reaches
a token `--` as a fresh token, without a failure, and tokens `R` follow it,
none of them is completed: while the positional notifications return true, the
parser notifies every token of `R` through `notifyArg`, the last one too, never
calls `completeArg`, and `complete` returns no candidate. -/
theorem complete_afterEscape {σ : Type} (obs : parseObserver σ) (Inv : σ → Prop)
    (toks : List String) (s : σ) (k : Nat) (R : List String) (hR : R ≠ [])
    (hr : (completionScan obs toks s k).1.rest = "--" :: R)
    (hok : (completionScan obs toks s k).1.parseOK = true)
    (h0 : Inv (completionScan obs toks s k).2.1)
    (hArg : ∀ v ∈ R, ∀ st, Inv st → (obs.notifyArg v st).1 = true ∧ Inv (obs.notifyArg v st).2) :
    complete toks (recording obs) (s, []) =
      (([], false),
        (replay obs (R.map Event.notifyArg) (completionScan obs toks s k).2.1,
          (completionScan obs toks s k).2.2 ++ R.map Event.notifyArg)) := by
  have hq := start_ahead_quiet (recording obs) toks (s, []) k true
    (by show (completionScan obs toks s k).1.rest ≠ []; rw [hr]; simp)
  have hrest : (completionScan obs toks s k).1.getNext.2.rest = R := by
    rw [getNext_rest, hr]; rfl
  have hnext : (completionScan obs toks s k).1.getNext.2.hasNext = true := by
    obtain ⟨v, vs, rfl⟩ := List.exists_cons_of_ne_nil hR
    exact hasNext_of_cons hrest
  have hsc : (completionScan obs toks s k).1.getNext.2.shouldComplete = false := by
    simp [shouldComplete, hnext]
  have hlen : (completionScan obs toks s k).1.getNext.2.args.length -
      (completionScan obs toks s k).1.getNext.2.current = R.length := by
    rw [← length_rest, hrest]
  have hgok : (completionScan obs toks s k).1.getNext.2.parseOK = true := by
    simpa [getNext] using hok
  obtain ⟨e1, e2, _, _⟩ := escapeLoop_args obs Inv R hArg
    (completionScan obs toks s k).1.getNext.2 (completionScan obs toks s k).2.1
    (completionScan obs toks s k).2.2 h0 hrest hgok
  obtain ⟨c1, c2⟩ := escapeLoop_completions (recording obs) R.length
    (completionScan obs toks s k).1.getNext.2 (completionScan obs toks s k).2
  have e : parseMain (parser.start toks true) (recording obs) (s, []) =
      escapeLoop (recording obs) R.length (completionScan obs toks s k).1.getNext.2
        (completionScan obs toks s k).2 := by
    have h1 := parseMain_split (recording obs) k (parser.start toks true) (s, [])
    rw [← h1]
    have h2 := parseMain_cons (recording obs) (completionScan obs toks s k).1
      (completionScan obs toks s k).2 "--" R hr hok
    rw [parseToken_escape _ _ _ hsc, hlen] at h2
    rw [show parseMainLoop (recording obs) k (parser.start toks true) (s, [])
      = completionScan obs toks s k from rfl, h2]
    exact parseMain_stop _ _ _ (Or.inl e2)
  unfold complete
  simp only [e, c1, c2, e1]
  have hq1 : (completionScan obs toks s k).1.getNext.2.completions = [] := hq.1
  have hq2 : (completionScan obs toks s k).1.getNext.2.isPartial = false := hq.2
  rw [hq1, hq2]

/-- C20 on the mock of the tests and on the App `slotsApp`: `x` after `--` is
notified, and the App hands it to the handler of the slot `first` as a parsed
argument, while `x` alone is completed. -/
theorem complete_afterEscape_witness :
    (completionScan mockParseObserver.observer ["--", "x"] (makeObserver (-1)) 0).1.rest
        = "--" :: ["x"] ∧
      (complete ["--", "x"] (recording mockParseObserver.observer) (makeObserver (-1), [])).2.2
        = [Event.notifyArg "x"] ∧
      (complete ["--", "x"] (recording App.observer) (some slotsApp, [])).2.2
        = [Event.notifyArg "x"] ∧
      ((complete ["--", "x"] (recording App.observer) (some slotsApp, [])).2.1.map
          (fun app => (app.currentArgument, app.world))) = some (1, [("first", "x")]) ∧
      (complete ["x"] (recording App.observer) (some slotsApp, [])).2.2
        = [Event.completeArg "x"] := by
  have h := complete_afterEscape mockParseObserver.observer mockParseObserver.ready
    ["--", "x"] (makeObserver (-1)) 0 ["x"] (by decide) (by rfl) (by rfl) makeObserver_ready (by
      intro v _ st h
      obtain ⟨h1, h2⟩ := mock_write_ready st ("(arg " ++ v ++ ")") h
      refine ⟨?_, h2⟩
      show (((st.write ("(arg " ++ v ++ ")")).injectFault).1 &&
        !((st.write ("(arg " ++ v ++ ")")).injectFault).2.banArgs) = true
      rw [h1, h2.2.2.1]
      rfl)
  exact ⟨by rfl, by rw [h]; rfl, by rfl, by rfl, by rfl⟩

/-- C13. Parse mode and completion mode traverse the same grammar.  Take any
observer, a token list `A` whose scan in parse mode, from the state `s`, ends
without a failure (the parser raised no error and no notification returned
false), and any last token `t`.  After some number `k` of iterations the scan
of `complete (A ++ [t])` has produced no candidate and either stands before `t`
with the sticky flag up, having made exactly the calls of `parse A`, in the
same order and leaving the observer in the same state; or, when `A` holds the
token `--`, it has made these calls and then notified `t` as one more
positional argument, which ends it without any candidate.  In both cases the
calls of `parse A` are the first calls of `complete (A ++ [t])`, and none of
them is a completion callback or `acceptingArgs`: a scan in parse mode, of any
token list, makes no such call. -/
theorem complete_follows_parse {σ : Type} (obs : parseObserver σ) (s : σ) (A : List String)
    (t : String)
    (hok : (parseMain (parser.start A false) (recording obs) (s, [])).1.parseOK = true) :
    (∃ k,
      (completionScan obs (A ++ [t]) s k).1.completions = [] ∧
      (completionScan obs (A ++ [t]) s k).1.isPartial = false ∧
      (((completionScan obs (A ++ [t]) s k).1.rest = [t] ∧
          (completionScan obs (A ++ [t]) s k).1.parseOK = true ∧
          (completionScan obs (A ++ [t]) s k).2 = (parse A (recording obs) (s, [])).2) ∨
        ((completionScan obs (A ++ [t]) s k).1.rest = [] ∧
          (completionScan obs (A ++ [t]) s k).2 =
            ((obs.notifyArg t (parse A (recording obs) (s, [])).2.1).2,
              (parse A (recording obs) (s, [])).2.2 ++ [Event.notifyArg t]) ∧
          complete (A ++ [t]) (recording obs) (s, []) =
            (([], false),
              ((obs.notifyArg t (parse A (recording obs) (s, [])).2.1).2,
                (parse A (recording obs) (s, [])).2.2 ++ [Event.notifyArg t]))))) ∧
      (parse A (recording obs) (s, [])).2.2 <+:
        (complete (A ++ [t]) (recording obs) (s, [])).2.2 ∧
      (∀ e ∈ (parse A (recording obs) (s, [])).2.2, e.isCompletion = false) ∧
      (∀ (toks : List String) (s0 : σ),
        ∀ e ∈ (parse toks (recording obs) (s0, [])).2.2, e.isCompletion = false) := by
  have htr : trails t (parser.start A false) (parser.start (A ++ [t]) true) :=
    ⟨rfl, rfl, rfl, rfl, rfl, rfl⟩
  have hlen : (parser.start A false).args.length - (parser.start A false).current
      = A.length := rfl
  have hok' : (parseMainLoop (recording obs) A.length (parser.start A false) (s, [])).1.parseOK
      = true := hok
  obtain ⟨m, hm⟩ := parseMainLoop_trailing (recording obs) A.length htr (s, [])
    (by rw [start_rest]) hok'
  have hpA : (parse A (recording obs) (s, [])).2 =
      (parseMainLoop (recording obs) A.length (parser.start A false) (s, [])).2 := rfl
  have hsplit := parseMain_split (recording obs) m (parser.start (A ++ [t]) true) (s, [])
  have hcomp : complete (A ++ [t]) (recording obs) (s, []) =
      (((parseMain (completionScan obs (A ++ [t]) s m).1 (recording obs)
          (completionScan obs (A ++ [t]) s m).2).1.completions,
        (parseMain (completionScan obs (A ++ [t]) s m).1 (recording obs)
          (completionScan obs (A ++ [t]) s m).2).1.isPartial),
        (parseMain (completionScan obs (A ++ [t]) s m).1 (recording obs)
          (completionScan obs (A ++ [t]) s m).2).2) := by
    unfold complete completionScan
    rw [hsplit]
  rcases hm with ⟨h1, h2, h3⟩ | h
  · refine ⟨⟨m, h1.2.2.2.2.1, h1.2.2.2.2.2, Or.inl ⟨h3, ?_, ?_⟩⟩, ?_, ?_, ?_⟩
    · exact h1.2.1.trans hok'
    · rw [hpA]
      exact h2
    · rw [hcomp, hpA, ← h2]
      exact parseMain_respects (recording_respects_log obs) _ _
    · exact parse_no_completion obs A s
    · exact fun toks s0 => parse_no_completion obs toks s0
  · obtain ⟨e1, e2, e3, e4, e5, e6⟩ := h
    have hstop := parseMain_stop (recording obs) (completionScan obs (A ++ [t]) s m).1
      (completionScan obs (A ++ [t]) s m).2 (Or.inl e2)
    have hst : (completionScan obs (A ++ [t]) s m).2 =
        ((obs.notifyArg t (parse A (recording obs) (s, [])).2.1).2,
          (parse A (recording obs) (s, [])).2.2 ++ [Event.notifyArg t]) := by
      rw [hpA]
      exact e5
    have hfin : complete (A ++ [t]) (recording obs) (s, []) =
        (([], false),
          ((obs.notifyArg t (parse A (recording obs) (s, [])).2.1).2,
            (parse A (recording obs) (s, [])).2.2 ++ [Event.notifyArg t])) := by
      rw [hcomp, hstop, ← hst]
      show (((completionScan obs (A ++ [t]) s m).1.completions,
        (completionScan obs (A ++ [t]) s m).1.isPartial), _) = _
      have e3' : (completionScan obs (A ++ [t]) s m).1.completions = [] := e3
      have e4' : (completionScan obs (A ++ [t]) s m).1.isPartial = false := e4
      rw [e3', e4']
    refine ⟨⟨m, e3, e4, Or.inr ⟨e2, hst, hfin⟩⟩, ?_, ?_, ?_⟩
    · rw [hfin]
      exact List.prefix_append _ _
    · exact parse_no_completion obs A s
    · exact fun toks s0 => parse_no_completion obs toks s0

/-- C13 on the mock of the tests: the calls of `parse` for `-a --bar=1 x` are the
first calls of `complete` for these tokens followed by `--f`. -/
theorem complete_follows_parse_witness :
    (parseMain (parser.start ["-a", "--bar=1", "x"] false)
        (recording mockParseObserver.observer) (makeObserver (-1), [])).1.parseOK = true ∧
      (parse ["-a", "--bar=1", "x"] (recording mockParseObserver.observer)
          (makeObserver (-1), [])).2.2 <+:
        (complete (["-a", "--bar=1", "x"] ++ ["--f"]) (recording mockParseObserver.observer)
          (makeObserver (-1), [])).2.2 ∧
      (complete (["-a", "--bar=1", "x"] ++ ["--f"]) (recording mockParseObserver.observer)
          (makeObserver (-1), [])).2.2 =
        [Event.shortFlagInfo 'a', Event.notifyShortFlag 'a', Event.longFlagInfo "bar",
          Event.notifyLongFlagValue "bar" "1", Event.notifyArg "x", Event.longFlagInfo "f",
          Event.completeLongFlag "f"] :=
  ⟨by rfl,
    (complete_follows_parse mockParseObserver.observer (makeObserver (-1))
      ["-a", "--bar=1", "x"] "--f" (by rfl)).2.1,
    by rfl⟩

end cmdline

namespace cmdline
open parser

/-- The clip point of a text that is valid UTF-8.  `completionClipPoint prefix
breaks` is 0 when no character of `breaks` occurs in the prefix (so also when
either string is empty), and otherwise the byte offset just past the last
character of the prefix that is in `breaks`.  Hence it is at most the byte
length of the prefix, the prefix splits at it into `A` and a remainder `B`
without a character of `breaks`, and when it is positive `A` ends with a
character of `breaks`. -/
theorem completionClipPoint_last (pfx breaks : String) :
    ((∀ c ∈ pfx.data, c ∉ breaks.data) → completionClipPoint pfx breaks = 0) ∧
      (∀ A b B, pfx.data = A ++ b :: B → b ∈ breaks.data → (∀ c ∈ B, c ∉ breaks.data) →
        completionClipPoint pfx breaks = (String.mk (A ++ [b])).utf8ByteSize) ∧
      completionClipPoint "" breaks = 0 ∧ completionClipPoint pfx "" = 0 ∧
      completionClipPoint pfx breaks ≤ pfx.utf8ByteSize ∧
      ∃ A B, pfx.data = A ++ B ∧
        completionClipPoint pfx breaks = (String.mk A).utf8ByteSize ∧
        (∀ c ∈ B, c ∉ breaks.data) ∧
        (0 < completionClipPoint pfx breaks → ∃ A' b, A = A' ++ [b] ∧ b ∈ breaks.data) := by
  have h1 : (∀ c ∈ pfx.data, c ∉ breaks.data) → completionClipPoint pfx breaks = 0 :=
    fun h => clipLoop_none _ _ _ (Nat.le_refl _) h
  have h2 : ∀ A b B, pfx.data = A ++ b :: B → b ∈ breaks.data → (∀ c ∈ B, c ∉ breaks.data) →
      completionClipPoint pfx breaks = (String.mk (A ++ [b])).utf8ByteSize := by
    intro A b B e hb hB
    unfold completionClipPoint
    rw [e]
    have hl : (A ++ b :: B).length = A.length + 1 + B.length := by
      simp only [List.length_append, List.length_cons]
      omega
    rw [hl]
    exact clipLoop_last A B breaks.data b hb hB B.length (Nat.le_refl _)
  have hpfx : pfx = String.mk pfx.data := rfl
  refine ⟨h1, h2, rfl, ?_, ?_, ?_⟩
  · exact clipLoop_none _ _ _ (Nat.le_refl _) (fun c _ hc => absurd hc (List.not_mem_nil c))
  · rcases last_break pfx.data breaks.data with h | ⟨A, b, B, e, hb, hB⟩
    · rw [h1 h]
      exact Nat.zero_le _
    · rw [h2 A b B e hb hB]
      have e2 : pfx.utf8ByteSize = (String.mk ((A ++ [b]) ++ B)).utf8ByteSize := by
        rw [List.append_assoc, List.singleton_append, ← e]
      rw [e2, size_append (A ++ [b]) B]
      omega
  · rcases last_break pfx.data breaks.data with h | ⟨A, b, B, e, hb, hB⟩
    · refine ⟨[], pfx.data, rfl, ?_, h, ?_⟩
      · rw [h1 h]; rfl
      · rw [h1 h]
        intro h0
        exact absurd h0 (Nat.lt_irrefl 0)
    · exact ⟨A ++ [b], B, by rw [e]; simp, h2 A b B e hb hB, hB, fun _ => ⟨A, b, rfl, hb⟩⟩

/-- The clip point of the prefix `--path=a:b` with the breaks `=:` is 9, just
past the `:`. -/
theorem completionClipPoint_last_witness :
    completionClipPoint "--path=a:b" "=:" = 9 ∧ completionClipPoint "abc" "=:" = 0 :=
  ⟨(completionClipPoint_last "--path=a:b" "=:").2.1 "--path=a".data ':' ['b'] (by rfl)
      (by decide) (by decide),
    (completionClipPoint_last "abc" "=:").1 (by decide)⟩

/-- C25. `Enum.Parse` accepts a text exactly when the text is equal to a member
of `Possible`, and then returns the text itself; otherwise it returns the error
whose message is the quoted text, ` is not in `, and the set as `TypeName`
renders it, the members between braces and separated by commas.  An `Enum`
without a member rejects every text. -/
theorem Enum_Parse_exact (quote : String → String) (p : Enum) (text : String) :
    (text ∈ p.Possible → p.Parse quote text = Except.ok text) ∧
      (text ∉ p.Possible →
        p.Parse quote text = Except.error (quote text ++ " is not in " ++ p.TypeName)) ∧
      ((∃ v, p.Parse quote text = Except.ok v) ↔ text ∈ p.Possible) ∧
      (∀ v, p.Parse quote text = Except.ok v → v = text) ∧
      p.TypeName = "\x7b" ++ ",".intercalate p.Possible ++ "\x7d" ∧
      (p.Possible = [] → p.TypeName = "\x7b\x7d" ∧
        p.Parse quote text = Except.error (quote text ++ " is not in " ++ "\x7b\x7d")) := by
  have h1 : text ∈ p.Possible → p.Parse quote text = Except.ok text := by
    intro h
    unfold Enum.Parse
    rw [Enum.parseLoop_mem text _ h]
  have h2 : text ∉ p.Possible →
      p.Parse quote text = Except.error (quote text ++ " is not in " ++ p.TypeName) := by
    intro h
    unfold Enum.Parse
    rw [Enum.parseLoop_not_mem text _ h]
  refine ⟨h1, h2, ?_, ?_, rfl, ?_⟩
  · constructor
    · rintro ⟨v, hv⟩
      by_contra hn
      rw [h2 hn] at hv
      cases hv
    · exact fun h => ⟨text, h1 h⟩
  · intro v hv
    by_cases hm : text ∈ p.Possible
    · rw [h1 hm] at hv
      cases hv
      rfl
    · rw [h2 hm] at hv
      cases hv
  · intro he
    have hn : text ∉ p.Possible := by rw [he]; exact List.not_mem_nil _
    have e : p.TypeName = "\x7b\x7d" := by
      unfold Enum.TypeName
      rw [he]
      decide
    refine ⟨e, ?_⟩
    rw [h2 hn, e]

/-- C25 on the set `colors`: `red` is accepted, and `Red`, `re` and ` red` are
rejected with a message that names the text and the set. -/
theorem Enum_Parse_exact_witness :
    colors.Parse plainQuote "red" = Except.ok "red" ∧
      colors.Parse plainQuote "Red" = Except.error "\"Red\" is not in \x7bred,green,ab:x\x7d" ∧
      colors.Parse plainQuote "re" = Except.error "\"re\" is not in \x7bred,green,ab:x\x7d" ∧
      colors.Parse plainQuote " red" = Except.error "\" red\" is not in \x7bred,green,ab:x\x7d" :=
  ⟨(Enum_Parse_exact plainQuote colors "red").1 (by decide),
    (Enum_Parse_exact plainQuote colors "Red").2.1 (by decide),
    (Enum_Parse_exact plainQuote colors "re").2.1 (by decide),
    (Enum_Parse_exact plainQuote colors " red").2.1 (by decide)⟩

/-- C26. `Enum.Complete` proposes, in the declared order, exactly the members
of `Possible` that have the typed text as a prefix, each by `FinalCompletion`
and none by `PartialCompletion`.  Every candidate it proposes is accepted by
`Enum.Parse`, and a text that `Enum.Parse` accepts is among the candidates
proposed for it. -/
theorem Enum_Complete_members (quote : String → String) (p : Enum) (text : String) :
    p.Complete text =
        (p.Possible.filter (fun m => decide (text.data <+: m.data))).map Completion.Final ∧
      (∀ c, c ∈ p.Complete text ↔
        ∃ m ∈ p.Possible, text.data <+: m.data ∧ c = Completion.Final m) ∧
      List.Sublist ((p.Complete text).map Completion.text) p.Possible ∧
      (p.Complete text).any Completion.isPartial = false ∧
      (∀ c ∈ p.Complete text, p.Parse quote c.text = Except.ok c.text) ∧
      (∀ v, p.Parse quote text = Except.ok v → Completion.Final text ∈ p.Complete text) := by
  have hmem : ∀ c, c ∈ p.Complete text ↔
      ∃ m ∈ p.Possible, text.data <+: m.data ∧ c = Completion.Final m := by
    intro c
    unfold Enum.Complete
    rw [List.mem_map]
    constructor
    · rintro ⟨m, hm, rfl⟩
      rw [List.mem_filter, decide_eq_true_eq] at hm
      exact ⟨m, hm.1, hm.2, rfl⟩
    · rintro ⟨m, hm, hp, rfl⟩
      exact ⟨m, by rw [List.mem_filter, decide_eq_true_eq]; exact ⟨hm, hp⟩, rfl⟩
  refine ⟨rfl, hmem, ?_, ?_, ?_, ?_⟩
  · unfold Enum.Complete
    rw [List.map_map]
    have e : (Completion.text ∘ fun possible => Completion.Final possible) = id := rfl
    rw [e, List.map_id]
    exact List.filter_sublist _
  · rw [List.any_eq_false]
    intro c hc
    obtain ⟨m, -, -, rfl⟩ := (hmem c).1 hc
    simp [Completion.isPartial]
  · intro c hc
    obtain ⟨m, hm, -, rfl⟩ := (hmem c).1 hc
    exact Enum.Parse_mem quote p m hm
  · intro v hv
    have hm : text ∈ p.Possible := by
      by_contra hn
      unfold Enum.Parse at hv
      rw [Enum.parseLoop_not_mem text _ hn] at hv
      cases hv
    exact (hmem _).2 ⟨text, hm, List.prefix_refl _, rfl⟩

/-- C26 on the set `colors`: the candidates for `r`, for the whole word `green`
and for `x`. -/
theorem Enum_Complete_members_witness :
    colors.Complete "r" = [Completion.Final "red"] ∧
      colors.Complete "" = [Completion.Final "red", Completion.Final "green",
        Completion.Final "ab:x"] ∧
      Completion.Final "green" ∈ colors.Complete "green" ∧
      colors.Complete "x" = [] :=
  ⟨by rfl, by rfl,
    (Enum_Complete_members plainQuote colors "green").2.2.2.2.2 "green" (by rfl),
    by rfl⟩

/-- C22, read for every last token `--name=frag`. On `colorApp` the handler of
`--color` proposes `red` for `r`, yet a last token `--color=r` that is read as
the value of a preceding `--color`, or that follows the token `--`, yields no
candidate: in the first case the handler is asked to complete the whole text
`--color=r`, in the second the token is notified as a positional argument. -/
theorem complete_longValue_not_fresh :
    colorApp.completeLongFlagValue "color" "r" = some [Completion.Final "red"] ∧
      (complete ["--color=r"] (recording App.observer) (some colorApp, [])).1
        = (["--color=red"], false) ∧
      (complete ["--color", "--color=r"] (recording App.observer) (some colorApp, [])).1
        = ([], false) ∧
      (complete ["--color", "--color=r"] (recording App.observer) (some colorApp, [])).2.2
        = [Event.longFlagInfo "color", Event.completeLongFlagValue "color" "--color=r"] ∧
      (complete ["--", "--color=r"] (recording App.observer) (some colorApp, [])).1
        = ([], false) ∧
      (complete ["--", "--color=r"] (recording App.observer) (some colorApp, [])).2.2
        = [Event.notifyArg "--color=r"] :=
  ⟨by rfl, by rfl, by rfl, by rfl, by rfl, by rfl⟩

/-- C22, amended. Long-flag-value completion.  Let the scan in completion mode
have reached a fresh token without a failure, and let `name`, not empty and
without `=`, be known to the observer as a long flag that takes a value.  When
the token is the last one and reads `--name=frag`, `complete` returns exactly
`--name=` followed by `c` for each candidate `c` that the observer's
`completeLongFlagValue` proposes for `name` and `frag`; when the token is
`--name` and the one last token `frag` follows it, `complete` returns exactly
those proposals with nothing in front.  In both forms the order is that of the
proposals, the result is partial exactly when one proposal was made by
`PartialCompletion`, and the parser calls nothing but the lookup of the flag
and that one completion.  On an App the proposals for a registered flag are
those of the `Complete` of the flag's value handler. -/
theorem complete_longValue {σ : Type} (obs : parseObserver σ) (toks : List String) (s : σ)
    (k : Nat) (name frag : String)
    (hok : (completionScan obs toks s k).1.parseOK = true)
    (hne : name ≠ "") (heq : '=' ∉ name.data)
    (hinfo : (obs.longFlagInfo name (completionScan obs toks s k).2.1).1 = (true, true)) :
    ((completionScan obs toks s k).1.rest = ["--" ++ name ++ "=" ++ frag] →
        complete toks (recording obs) (s, []) =
          (((obs.completeLongFlagValue name frag
                (obs.longFlagInfo name (completionScan obs toks s k).2.1).2).1.map
              (fun c => "--" ++ name ++ "=" ++ c.text),
            (obs.completeLongFlagValue name frag
                (obs.longFlagInfo name (completionScan obs toks s k).2.1).2).1.any
              Completion.isPartial),
           ((obs.completeLongFlagValue name frag
                (obs.longFlagInfo name (completionScan obs toks s k).2.1).2).2,
            (completionScan obs toks s k).2.2 ++
              [Event.longFlagInfo name, Event.completeLongFlagValue name frag]))) ∧
      ((completionScan obs toks s k).1.rest = ["--" ++ name, frag] →
        complete toks (recording obs) (s, []) =
          (((obs.completeLongFlagValue name frag
                (obs.longFlagInfo name (completionScan obs toks s k).2.1).2).1.map
              Completion.text,
            (obs.completeLongFlagValue name frag
                (obs.longFlagInfo name (completionScan obs toks s k).2.1).2).1.any
              Completion.isPartial),
           ((obs.completeLongFlagValue name frag
                (obs.longFlagInfo name (completionScan obs toks s k).2.1).2).2,
            (completionScan obs toks s k).2.2 ++
              [Event.longFlagInfo name, Event.completeLongFlagValue name frag]))) ∧
      (∀ (ω : Type) (app : App ω) (i : Nat) (f : Flag ω) (h : ValueHandler ω),
        app.flagAt (app.longToFlag.lookup name) = some (i, f) → f.Value = some h →
          (App.observer.completeLongFlagValue name frag (some app)).1
            = h.Complete frag app.world) := by
  have hinfo' : ((recording obs).longFlagInfo name (completionScan obs toks s k).2).1
      = (true, true) := hinfo
  refine ⟨?_, ?_, ?_⟩
  · intro hr
    have ht : "--" ++ name ++ "=" ++ frag = "--" ++ (name ++ "=" ++ frag) := by
      simp only [String.append_assoc]
    rw [ht] at hr
    obtain ⟨⟨h1, h2, h3, h4, h5⟩, e⟩ := complete_reached (recording obs) toks (s, []) k
      ("--" ++ (name ++ "=" ++ frag)) (completionScan obs toks s k).1
      (completionScan obs toks s k).2 rfl hr hok
    have hne' : name ++ "=" ++ frag ≠ "" := by
      intro h
      have := congrArg String.length h
      simp only [String.length_append] at this
      have h0 : "=".length = 1 := by decide
      have h00 : "".length = 0 := by decide
      omega
    rw [e, parseToken_long _ _ _ _ hne',
      parseLongFlag_completeAssign (recording obs) _ name frag _ heq h1 hinfo']
    have h3' : (completionScan obs toks s k).1.completions = [] := by simpa [getNext] using h3
    have h4' : (completionScan obs toks s k).1.isPartial = false := by simpa [getNext] using h4
    simp [deliver_completions, h3', h4', getNext, String.append_assoc]
  · intro hr
    have hq := start_ahead_quiet (recording obs) toks (s, []) k true
      (by show (completionScan obs toks s k).1.rest ≠ []; rw [hr]; simp)
    have hq1 : (completionScan obs toks s k).1.completions = [] := hq.1
    have hq2 : (completionScan obs toks s k).1.isPartial = false := hq.2
    have hcomp : (completionScan obs toks s k).1.completing = true :=
      (parseMainLoop_le (recording obs) k (parser.start toks true) (s, [])).2.2
    have hrest : (completionScan obs toks s k).1.getNext.2.rest = [frag] := by
      rw [getNext_rest, hr]; rfl
    have hcomp' : (completionScan obs toks s k).1.getNext.2.completing = true := hcomp
    have hstep := parseLongFlag_completeNext (recording obs)
      (completionScan obs toks s k).1.getNext.2 name frag (completionScan obs toks s k).2 heq
      hcomp' hrest hinfo'
    have e : parseMain (parser.start toks true) (recording obs) (s, []) =
        parseLongFlag (completionScan obs toks s k).1.getNext.2 name.data (recording obs)
          (completionScan obs toks s k).2 := by
      have h1 := parseMain_split (recording obs) k (parser.start toks true) (s, [])
      rw [← h1]
      have h2 := parseMain_cons (recording obs) (completionScan obs toks s k).1
        (completionScan obs toks s k).2 ("--" ++ name) [frag] hr hok
      rw [parseToken_long _ _ _ _ hne] at h2
      rw [show parseMainLoop (recording obs) k (parser.start toks true) (s, [])
        = completionScan obs toks s k from rfl, h2]
      apply parseMain_stop
      left
      rw [hstep, deliver_rest]
      show (completionScan obs toks s k).1.getNext.2.getNext.2.rest = []
      rw [getNext_rest, hrest]
      rfl
    unfold complete
    simp only [e, hstep]
    simp [deliver_completions, hq1, hq2, getNext]
  · intro ω app i f h hf hv
    show (App.step [] (fun a => (a.completeLongFlagValue name frag).map (fun c => (c, a)))
      (some app)).1 = _
    simp [App.step, App.completeLongFlagValue, App.completeValue, hf, hv]

/-- C22 on `colorApp`: `--color=r` gives `--color=red`, and `--color` `r` gives
`red`, each not partial. -/
theorem complete_longValue_witness :
    (completionScan App.observer ["--color=r"] (some colorApp) 0).1.rest
        = ["--" ++ "color" ++ "=" ++ "r"] ∧
      (complete ["--color=r"] (recording App.observer) (some colorApp, [])).1
        = (["--color=red"], false) ∧
      (completionScan App.observer ["--color", "r"] (some colorApp) 0).1.rest
        = ["--" ++ "color", "r"] ∧
      (complete ["--color", "r"] (recording App.observer) (some colorApp, [])).1
        = (["red"], false) := by
  have h1 := (complete_longValue App.observer ["--color=r"] (some colorApp) 0 "color" "r"
    (by rfl) (by decide) (by decide) (by rfl)).1 (by rfl)
  have h2 := (complete_longValue App.observer ["--color", "r"] (some colorApp) 0 "color" "r"
    (by rfl) (by decide) (by decide) (by rfl)).2.1 (by rfl)
  exact ⟨by rfl, by rw [h1]; rfl, by rfl, by rw [h2]; rfl⟩

/-- C21, as the code behaves. Take an App state `app` in which no slot accepts
a further positional argument, reached by the scan in completion mode standing,
without a failure, before its last token `t`, a fresh token that does not begin
with `-`.  When `t` is empty, `complete` falls back to the enumeration of the
flags: `-` and each short flag that `completeShortFlag` offers, then `--` and
each long flag that `completeLongFlag` offers for the empty prefix, with no
bare `--`, and `completeArg` is not called.  When `t` is not empty there is no
fallback: the parser calls `completeArg` with `t`, which in `App.completeArg`
dereferences a `nil` argument and panics (the state `none`), so that no
candidate is returned. -/
theorem complete_noSlot {ω : Type} (toks : List String) (s : Option (App ω)) (k : Nat)
    (t : String) (app : App ω)
    (hr : (completionScan App.observer toks s k).1.rest = [t])
    (hok : (completionScan App.observer toks s k).1.parseOK = true)
    (hd : t.data.head? ≠ some '-')
    (hs : (completionScan App.observer toks s k).2.1 = some app)
    (ha : app.acceptingArgs = false) :
    (t = "" →
        complete toks (recording App.observer) (s, []) =
          ((app.completeShortFlag.map (fun c => "-" ++ c.text) ++
              (app.completeLongFlag "").map (fun c => "--" ++ c.text),
            (app.completeShortFlag.any Completion.isPartial ||
              (app.completeLongFlag "").any Completion.isPartial)),
           (some app,
            (completionScan App.observer toks s k).2.2 ++
              [Event.acceptingArgs, Event.completeShortFlag, Event.acceptingArgs,
                Event.completeLongFlag ""]))) ∧
      (t ≠ "" →
        app.completeArg t = none ∧
        complete toks (recording App.observer) (s, []) =
          (([], false),
           (none, (completionScan App.observer toks s k).2.2 ++ [Event.completeArg t]))) := by
  constructor
  · intro ht
    subst ht
    have h := complete_emptyFallback App.observer toks s k hr hok (by
      rw [hs]
      exact ha)
    rw [h, hs]
    simp [App.observer, App.step, ha]
  · intro ht
    have hn := App.completeArg_noSlot app t ha
    refine ⟨hn, ?_⟩
    have h := complete_freshArg App.observer toks s k t hr hok hd (Or.inl ht)
    rw [h, hs]
    simp [App.observer, App.step, hn, ht]

/-- C21 on `colorApp`, which has the flag `--color`/`-c` and no slot: the empty
token is completed to the flags, and the token `x` makes `complete` panic. -/
theorem complete_noSlot_witness :
    colorApp.acceptingArgs = false ∧
      (complete [""] (recording App.observer) (some colorApp, [])).1
        = (["-c", "--color"], false) ∧
      (complete ["x"] (recording App.observer) (some colorApp, [])).2
        = (none, [Event.completeArg "x"]) ∧
      colorApp.runCompletion ["--generate-bash-completion", "", "x"] = ([], false) := by
  have h1 := (complete_noSlot [""] (some colorApp) 0 "" colorApp (by rfl) (by rfl) (by decide)
    (by rfl) (by rfl)).1 (by rfl)
  have h2 := ((complete_noSlot ["x"] (some colorApp) 0 "x" colorApp (by rfl) (by rfl)
    (by decide) (by rfl) (by rfl)).2 (by decide)).2
  exact ⟨by rfl, by rw [h1]; rfl, by rw [h2]; rfl, by rfl⟩

/-- C27, as the code behaves for a value attached to a short flag. When the
scan in completion mode reaches its last token as a fresh token, without a
failure, and that token is `-Pxv`, where the characters `P` are short flags
without a value with notifications that return true, `x` is a flag that takes a
value and `v` is not empty, `complete` returns, for each candidate `c` that the
observer's `completeShortFlagValue` proposes for `x` and `v`, the parser's
`prependCompletion` followed by `c`.  That prefix is not set for this token: it
is what an earlier token left there, the empty string at the start of a scan,
so that the candidate is `c` alone and does not begin with `-Px`. -/
theorem complete_attachedValue {σ : Type} (obs : parseObserver σ) (Inv : σ → Prop)
    (toks : List String) (s : σ) (k : Nat) (P : List Char) (x : Char) (v : List Char)
    (hr : (completionScan obs toks s k).1.rest = ["-" ++ String.mk (P ++ x :: v)])
    (hok : (completionScan obs toks s k).1.parseOK = true)
    (hd : (P ++ x :: v).head? ≠ some '-')
    (hv : v ≠ [])
    (hf : obs.firesCluster Inv P)
    (hx : ∀ st, Inv st → (obs.shortFlagInfo x st).1 = (true, true))
    (h0 : Inv (completionScan obs toks s k).2.1) :
    complete toks (recording obs) (s, []) =
        (((obs.completeShortFlagValue x (String.mk v)
              (obs.shortFlagInfo x (replay obs (flagToken.cluster P).calls
                (completionScan obs toks s k).2.1)).2).1.map
            (fun c => (completionScan obs toks s k).1.prependCompletion ++ c.text),
          (obs.completeShortFlagValue x (String.mk v)
              (obs.shortFlagInfo x (replay obs (flagToken.cluster P).calls
                (completionScan obs toks s k).2.1)).2).1.any Completion.isPartial),
         ((obs.completeShortFlagValue x (String.mk v)
              (obs.shortFlagInfo x (replay obs (flagToken.cluster P).calls
                (completionScan obs toks s k).2.1)).2).2,
          (completionScan obs toks s k).2.2 ++ (flagToken.cluster P).calls ++
            [Event.shortFlagInfo x, Event.completeShortFlagValue x (String.mk v)])) ∧
      (completionScan obs toks s 0).1.prependCompletion = "" := by
  refine ⟨?_, rfl⟩
  obtain ⟨⟨h1, h2, h3, h4, h5⟩, e⟩ := complete_reached (recording obs) toks (s, []) k
    ("-" ++ String.mk (P ++ x :: v)) (completionScan obs toks s k).1
    (completionScan obs toks s k).2 rfl hr hok
  rw [e, parseToken_cluster _ _ _ _ (by simp) hd]
  obtain ⟨hl, hi⟩ := parseShortFlagLoop_fired obs Inv P hf (P ++ x :: v) (x :: v)
    (completionScan obs toks s k).1.getNext.2
    (completionScan obs toks s k).2.1 (completionScan obs toks s k).2.2 h0 h2
  have hx' : ((recording obs).shortFlagInfo x
      (replay obs (flagToken.cluster P).calls (completionScan obs toks s k).2.1,
        (completionScan obs toks s k).2.2 ++ (flagToken.cluster P).calls)).1 = (true, true) :=
    hx _ hi
  unfold parseShortFlag
  rw [hl, parseShortFlagLoop_completeAttached (recording obs) _ x v _ _ hv h2 h1 hx']
  have h3' : (completionScan obs toks s k).1.completions = [] := by simpa [getNext] using h3
  have h4' : (completionScan obs toks s k).1.isPartial = false := by simpa [getNext] using h4
  simp [deliver_completions, h3', h4', getNext]

/-- C27 on `colorApp`, whose handler for `-c` proposes only members of `colors`
that begin with the text it is given. For the one token `-cr` the candidate is
`red`, which does not begin with `-cr`; after the token `--color=red` the
candidate for `-cr` is `--color=red`, with the prefix of the earlier token; and
for `-cab:x` with the word break `:` the clip point 5 lies beyond the four
bytes of the candidate `ab:x`, so that the slice in `Run` panics. -/
theorem complete_attachedValue_witness :
    (completionScan App.observer ["-cr"] (some colorApp) 0).1.rest
        = ["-" ++ String.mk ([] ++ 'c' :: ['r'])] ∧
      colorApp.completeShortFlagValue 'c' "r" = some [Completion.Final "red"] ∧
      (complete ["-cr"] (recording App.observer) (some colorApp, [])).1 = (["red"], false) ∧
      (complete ["--color=red", "-cr"] (recording App.observer) (some colorApp, [])).1
        = (["--color=red"], false) ∧
      (complete ["-cab:x"] App.observer (some { colorApp with completing := true })).1
        = (["ab:x"], false) ∧
      completionClipPoint "-cab:x" ":" = 5 ∧
      sliceFrom "ab:x" 5 = none ∧
      colorApp.runCompletion ["--generate-bash-completion", ":", "-cab:x"] = ([], false) := by
  have h1 := (complete_attachedValue App.observer
    (fun st => (App.observer.shortFlagInfo 'c' st).1 = (true, true))
    ["-cr"] (some colorApp) 0 [] 'c' ['r'] (by rfl) (by rfl) (by decide) (by decide)
    (firesCluster_nil _ _) (fun _ h => h) (by rfl)).1
  have h2 := (complete_attachedValue App.observer
    (fun st => (App.observer.shortFlagInfo 'c' st).1 = (true, true))
    ["--color=red", "-cr"] (some colorApp) 1 [] 'c' ['r'] (by rfl) (by rfl) (by decide)
    (by decide) (firesCluster_nil _ _) (fun _ h => h) (by rfl)).1
  exact ⟨by rfl, by rfl, by rw [h1]; rfl, by rw [h2]; rfl, by rfl, by rfl, by rfl, by rfl⟩

/-- C23, as the code behaves. Let `Run` be asked for the completions (its
arguments are `--generate-bash-completion`, the word breaks and the tokens),
let `complete` return, without a panic, the candidates `options` with the flag
`isPartial`, and let `n` be the clip point of the last argument.  When `n` lies
within every candidate, `Run` reaches its exit and has written exactly one
line, the candidate from `n` on followed by one space, if there is exactly one
candidate and `isPartial` is false, and in every other case one line for each
candidate, in order, the candidate from `n` on with nothing appended.  When a
candidate is shorter than `n`, the slice `o[n:]` panics: `Run` does not reach
its exit and has written fewer lines than there are candidates, none at all
when the short candidate is the single final one. -/
theorem runCompletion_lines {ω : Type} (app app' : App ω) (args options : List String)
    (isPartial : Bool) (n : Nat)
    (hlen : 2 ≤ args.length)
    (hres : complete (args.drop 2) App.observer (some { app with completing := true })
      = ((options, isPartial), some app'))
    (hn : completionClipPoint (args.getLastD "") (args.getD 1 "") = n) :
    ((∀ o ∈ options, n ≤ o.utf8ByteSize) →
        app.runCompletion args =
          (if options.length = 1 ∧ isPartial = false then
              options.map (fun o => (goBytes o).drop n ++ goBytes " ")
            else options.map (fun o => (goBytes o).drop n), true) ∧
        (app.runCompletion args).1.length = options.length) ∧
      ((∃ o ∈ options, o.utf8ByteSize < n) →
        (app.runCompletion args).2 = false ∧
        (app.runCompletion args).1.length < options.length) ∧
      (∀ o, options = [o] → isPartial = false → o.utf8ByteSize < n →
        app.runCompletion args = ([], false)) ∧
      goBytes " " = [32] := by
  have e : app.runCompletion args = printOptions options isPartial n := by
    unfold App.runCompletion
    rw [if_neg (by omega)]
    simp only [hres, hn]
  refine ⟨?_, ?_, ?_, by rfl⟩
  · intro hclip
    rw [e, printOptions_inside _ _ _ hclip]
    refine ⟨rfl, ?_⟩
    split_ifs <;> simp
  · intro hshort
    rw [e]
    exact printOptions_outside options isPartial n hshort
  · intro o ho hp hlt
    rw [e, ho, hp]
    unfold printOptions
    simp only [List.length_singleton, decide_True, Bool.not_false, Bool.and_self, if_true,
      List.headD_cons, sliceFrom_outside o n hlt]

/-- C23 on `colorApp`. With the word break `=`, the one final candidate for
`--color=r` gives the one line `red` followed by a space, and the three
candidates for `--color=` are written one per line without a space.  With the
word break `:`, the token `-cab:` has the single final candidate `ab:x`, of
four bytes, and the clip point 5: `Run` panics and writes no line. -/
theorem runCompletion_lines_witness :
    colorApp.runCompletion ["--generate-bash-completion", "=", "--color=r"]
        = ([goBytes "red "], true) ∧
      colorApp.runCompletion ["--generate-bash-completion", "=", "--color="]
        = ([goBytes "red", goBytes "green", goBytes "ab:x"], true) ∧
      (complete ["-cab:"] App.observer (some { colorApp with completing := true })).1
        = (["ab:x"], false) ∧
      completionClipPoint "-cab:" ":" = 5 ∧
      colorApp.runCompletion ["--generate-bash-completion", ":", "-cab:"] = ([], false) := by
  have h1 := ((runCompletion_lines colorApp
    ((complete ["--color=r"] App.observer (some { colorApp with completing := true })).2.getD
      colorApp)
    ["--generate-bash-completion", "=", "--color=r"] ["--color=red"] false 8 (by decide)
    (by rfl) (by rfl)).1 (by
      intro o ho
      rw [List.mem_singleton.1 ho]
      decide)).1
  have h2 := (runCompletion_lines colorApp
    ((complete ["-cab:"] App.observer (some { colorApp with completing := true })).2.getD
      colorApp)
    ["--generate-bash-completion", ":", "-cab:"] ["ab:x"] false 5 (by decide)
    (by rfl) (by rfl)).2.2.1 "ab:x" rfl rfl (by decide)
  exact ⟨by rw [h1]; rfl, by rfl, by rfl, by rfl, h2⟩

/-- C2, as the code behaves on Go strings, which are sequences of bytes that
need not be valid UTF-8.  For a long flag `name` (not empty, without `=`) that
the observer knows as taking a value, and for every `VALUE`: the one token
`--name=VALUE` notifies `name` with `string([]rune(VALUE))`, the text that the
runes read from `VALUE` are written back to, while the two tokens `--name` and
`VALUE` notify `name` with `VALUE` as it stands.  Likewise for a short flag `x`
that takes a value and a `VALUE` that is not empty: `-xVALUE` notifies `x` with
`string([]rune(VALUE))`, and `-x` followed by `VALUE` notifies `x` with `VALUE`.
The two texts are equal when `VALUE` is valid UTF-8, and then the two forms
agree; they differ for the byte 0xFF, which is read as the rune U+FFFD and
written back as three bytes. -/
theorem parse_valueForms_bytes {σ : Type} (obs : bytes.parseObserver σ) (s : σ)
    (name : String) (x : Char) (VALUE : bytes.GoString)
    (hne : name ≠ "") (heq : '=' ∉ name.data) (hx : x ≠ '-') :
    ((obs.longFlagInfo (bytes.lit name) s).1 = (true, true) →
        bytes.parse [bytes.lit ("--" ++ name ++ "=") ++ VALUE] obs s =
            ((obs.notifyLongFlagValue (bytes.lit name) (bytes.ofRunes (bytes.runes VALUE))
                  (obs.longFlagInfo (bytes.lit name) s).2).1 &&
                decide (obs.NumErrors
                  (obs.notifyLongFlagValue (bytes.lit name) (bytes.ofRunes (bytes.runes VALUE))
                    (obs.longFlagInfo (bytes.lit name) s).2).2 = 0),
              (obs.notifyLongFlagValue (bytes.lit name) (bytes.ofRunes (bytes.runes VALUE))
                (obs.longFlagInfo (bytes.lit name) s).2).2) ∧
          bytes.parse [bytes.lit ("--" ++ name), VALUE] obs s =
            ((obs.notifyLongFlagValue (bytes.lit name) VALUE
                  (obs.longFlagInfo (bytes.lit name) s).2).1 &&
                decide (obs.NumErrors
                  (obs.notifyLongFlagValue (bytes.lit name) VALUE
                    (obs.longFlagInfo (bytes.lit name) s).2).2 = 0),
              (obs.notifyLongFlagValue (bytes.lit name) VALUE
                (obs.longFlagInfo (bytes.lit name) s).2).2)) ∧
      ((obs.shortFlagInfo x s).1 = (true, true) → VALUE ≠ [] →
        bytes.parse [bytes.lit ("-" ++ String.singleton x) ++ VALUE] obs s =
            ((obs.notifyShortFlagValue x (bytes.ofRunes (bytes.runes VALUE))
                  (obs.shortFlagInfo x s).2).1 &&
                decide (obs.NumErrors
                  (obs.notifyShortFlagValue x (bytes.ofRunes (bytes.runes VALUE))
                    (obs.shortFlagInfo x s).2).2 = 0),
              (obs.notifyShortFlagValue x (bytes.ofRunes (bytes.runes VALUE))
                (obs.shortFlagInfo x s).2).2) ∧
          bytes.parse [bytes.lit ("-" ++ String.singleton x), VALUE] obs s =
            ((obs.notifyShortFlagValue x VALUE (obs.shortFlagInfo x s).2).1 &&
                decide (obs.NumErrors
                  (obs.notifyShortFlagValue x VALUE (obs.shortFlagInfo x s).2).2 = 0),
              (obs.notifyShortFlagValue x VALUE (obs.shortFlagInfo x s).2).2)) ∧
      (∀ text : String, VALUE = bytes.lit text →
        bytes.ofRunes (bytes.runes VALUE) = VALUE) ∧
      bytes.ofRunes (bytes.runes [0xFF]) = [0xEF, 0xBF, 0xBD] := by
  refine ⟨?_, ?_, ?_, by rfl⟩
  · intro hi
    constructor
    · rw [bytes.parse_one, bytes.runes_lit_append]
      have e : ("--" ++ name ++ "=").data ++ bytes.runes VALUE =
          '-' :: '-' :: (name.data ++ '=' :: bytes.runes VALUE) := by
        simp [String.data_append]
      have hl : name.data ++ '=' :: bytes.runes VALUE ≠ [] := by simp
      rw [e, bytes.parseToken_long_bytes _ _ _ _ hl,
        bytes.parseLongFlag_assign_bytes obs _ name _ s heq rfl hi]
      cases (obs.notifyLongFlagValue (bytes.lit name) (bytes.ofRunes (bytes.runes VALUE))
        (obs.longFlagInfo (bytes.lit name) s).2).1 <;> rfl
    · have hr : bytes.runes (bytes.lit ("--" ++ name)) = '-' :: '-' :: name.data := by
        rw [bytes.runes_lit]
        simp [String.data_append]
      have hl : name.data ≠ [] := by
        intro h
        apply hne
        cases name
        simp_all
      have hstep := bytes.parseLongFlag_next_bytes obs
        (bytes.parser.start [bytes.lit ("--" ++ name), VALUE] false).getNext.2 name s heq rfl
        (by rfl) hi
      rw [bytes.parse_two obs s _ VALUE _ _ (by
        rw [hr, bytes.parseToken_long_bytes _ _ _ _ hl, hstep]) (by
          cases (obs.notifyLongFlagValue (bytes.lit name)
            (bytes.parser.start [bytes.lit ("--" ++ name), VALUE] false).getNext.2.getNext.1
            (obs.longFlagInfo (bytes.lit name) s).2).1 <;> rfl)]
      cases hb : (obs.notifyLongFlagValue (bytes.lit name) VALUE
        (obs.longFlagInfo (bytes.lit name) s).2).1 <;>
        simp [bytes.parser.start, bytes.parser.getNext, bytes.parser.status, hb]
  · intro hi hV
    constructor
    · rw [bytes.parse_one, bytes.runes_lit_append]
      have e : ("-" ++ String.singleton x).data ++ bytes.runes VALUE =
          '-' :: x :: bytes.runes VALUE := by
        simp [String.data_append, String.singleton]
      rw [e, bytes.parseToken_short_bytes _ _ _ _ _ hx,
        (bytes.parseShortFlag_value_bytes obs _ x _ s rfl rfl hi).1 (bytes.runes_ne_nil _ hV)]
      cases (obs.notifyShortFlagValue x (bytes.ofRunes (bytes.runes VALUE))
        (obs.shortFlagInfo x s).2).1 <;> rfl
    · have hr : bytes.runes (bytes.lit ("-" ++ String.singleton x)) = ['-', x] := by
        rw [bytes.runes_lit]
        simp [String.data_append, String.singleton]
      have hstep := (bytes.parseShortFlag_value_bytes obs
        (bytes.parser.start [bytes.lit ("-" ++ String.singleton x), VALUE] false).getNext.2
        x [] s rfl rfl hi).2 (by rfl)
      rw [bytes.parse_two obs s _ VALUE _ _ (by
        rw [hr, bytes.parseToken_short_bytes _ _ _ _ _ hx, hstep]) (by
          cases (obs.notifyShortFlagValue x
            (bytes.parser.start [bytes.lit ("-" ++ String.singleton x), VALUE]
              false).getNext.2.getNext.1 (obs.shortFlagInfo x s).2).1 <;> rfl)]
      cases hb : (obs.notifyShortFlagValue x VALUE (obs.shortFlagInfo x s).2).1 <;>
        simp [bytes.parser.start, bytes.parser.getNext, bytes.parser.status, hb]
  · intro text ht
    rw [ht]
    exact bytes.ofRunes_runes_lit text

/-- C2 on the observer `bytes.demo` for the value that is the one byte 0xFF:
`--bar=` with the byte attached notifies `bar` with the three bytes of U+FFFD,
and `--bar` followed by the byte notifies `bar` with the byte; likewise `-c`.
For the value `é`, which is valid UTF-8, both forms notify the same two
bytes. -/
theorem parse_valueForms_bytes_witness :
    (bytes.parse [bytes.lit "--bar=" ++ [0xFF]] bytes.demo []).2
        = [bytes.Note.notifyLongFlagValue (bytes.lit "bar") [0xEF, 0xBF, 0xBD]] ∧
      (bytes.parse [bytes.lit "--bar", [0xFF]] bytes.demo []).2
        = [bytes.Note.notifyLongFlagValue (bytes.lit "bar") [0xFF]] ∧
      (bytes.parse [bytes.lit "-c" ++ [0xFF]] bytes.demo []).2
        = [bytes.Note.notifyShortFlagValue 'c' [0xEF, 0xBF, 0xBD]] ∧
      (bytes.parse [bytes.lit "-c", [0xFF]] bytes.demo []).2
        = [bytes.Note.notifyShortFlagValue 'c' [0xFF]] ∧
      (bytes.parse [bytes.lit "--bar=é"] bytes.demo []).2
        = [bytes.Note.notifyLongFlagValue (bytes.lit "bar") [0xC3, 0xA9]] ∧
      (bytes.parse [bytes.lit "--bar", bytes.lit "é"] bytes.demo []).2
        = [bytes.Note.notifyLongFlagValue (bytes.lit "bar") [0xC3, 0xA9]] := by
  have h := (parse_valueForms_bytes bytes.demo [] "bar" 'c' [0xFF] (by decide) (by decide)
    (by decide)).1 (by rfl)
  have h1 := h.1
  have h2 := h.2
  have e1 : bytes.lit ("--" ++ "bar" ++ "=") = bytes.lit "--bar=" := by rfl
  have e2 : bytes.lit ("--" ++ "bar") = bytes.lit "--bar" := by rfl
  rw [e1] at h1
  rw [e2] at h2
  exact ⟨by rw [h1]; rfl, by rw [h2]; rfl, by rfl, by rfl, by rfl, by rfl⟩

/-- C24, as the code behaves on Go strings, which are sequences of bytes that
need not be valid UTF-8.  `completionClipPoint prefix breaks` is 0 when no
rune of `breaks` is among the runes of the prefix (so also when either string
is empty); otherwise, with the runes of the prefix split at the last one that
is a rune of `breaks` into `A`, that rune `b` and `B`, it is the number of
bytes of `string(A ++ [b])`, the runes written back.  It is at most the number
of bytes of the runes of the whole prefix written back.  When the prefix is
valid UTF-8 that is the prefix itself, and the result is an offset into it;
otherwise it need not be: every byte that is not UTF-8 is read as the rune
U+FFFD and written back as three bytes. -/
theorem completionClipPoint_bytes (pfx breaks : bytes.GoString) :
    ((∀ c ∈ bytes.runes pfx, c ∉ bytes.runes breaks) →
        bytes.completionClipPoint pfx breaks = 0) ∧
      (∀ A b B, bytes.runes pfx = A ++ b :: B → b ∈ bytes.runes breaks →
        (∀ c ∈ B, c ∉ bytes.runes breaks) →
        bytes.completionClipPoint pfx breaks = (bytes.ofRunes (A ++ [b])).length) ∧
      bytes.completionClipPoint [] breaks = 0 ∧ bytes.completionClipPoint pfx [] = 0 ∧
      bytes.completionClipPoint pfx breaks ≤ (bytes.ofRunes (bytes.runes pfx)).length ∧
      (∀ text : String, pfx = bytes.lit text →
        bytes.ofRunes (bytes.runes pfx) = pfx ∧
        bytes.completionClipPoint pfx breaks ≤ pfx.length ∧
        ∃ A B : String, text = A ++ B ∧
          pfx = bytes.lit A ++ bytes.lit B ∧
          bytes.completionClipPoint pfx breaks = (bytes.lit A).length ∧
          (∀ c ∈ B.data, c ∉ bytes.runes breaks) ∧
          (0 < bytes.completionClipPoint pfx breaks →
            ∃ A' b, A.data = A' ++ [b] ∧ b ∈ bytes.runes breaks)) := by
  have h1 : (∀ c ∈ bytes.runes pfx, c ∉ bytes.runes breaks) →
      bytes.completionClipPoint pfx breaks = 0 :=
    fun h => clipLoop_none _ _ _ (Nat.le_refl _) h
  have h2 : ∀ A b B, bytes.runes pfx = A ++ b :: B → b ∈ bytes.runes breaks →
      (∀ c ∈ B, c ∉ bytes.runes breaks) →
      bytes.completionClipPoint pfx breaks = (bytes.ofRunes (A ++ [b])).length := by
    intro A b B e hb hB
    unfold bytes.completionClipPoint
    rw [e, bytes.length_ofRunes]
    have hl : (A ++ b :: B).length = A.length + 1 + B.length := by
      simp only [List.length_append, List.length_cons]
      omega
    rw [hl]
    exact clipLoop_last A B (bytes.runes breaks) b hb hB B.length (Nat.le_refl _)
  refine ⟨h1, h2, rfl, ?_, ?_, ?_⟩
  · exact clipLoop_none _ _ _ (Nat.le_refl _) (fun c _ hc => absurd hc (List.not_mem_nil c))
  · rcases last_break (bytes.runes pfx) (bytes.runes breaks) with h | ⟨A, b, B, e, hb, hB⟩
    · rw [h1 h]
      exact Nat.zero_le _
    · rw [h2 A b B e hb hB, bytes.length_ofRunes, bytes.length_ofRunes, e]
      have e2 : A ++ b :: B = (A ++ [b]) ++ B := by simp
      rw [e2, size_append (A ++ [b]) B]
      omega
  · intro text ht
    subst ht
    have hrt := bytes.ofRunes_runes_lit text
    have hr := bytes.runes_lit text
    refine ⟨hrt, ?_, ?_⟩
    · rcases last_break text.data (bytes.runes breaks) with h | ⟨A, b, B, e, hb, hB⟩
      · rw [h1 (by rw [hr]; exact h)]
        exact Nat.zero_le _
      · rw [h2 A b B (by rw [hr]; exact e) hb hB, bytes.length_ofRunes]
        have e3 : (bytes.lit text).length = (String.mk ((A ++ [b]) ++ B)).utf8ByteSize := by
          show (goBytes text).length = _
          rw [goBytes_length]
          congr 1
          show text = String.mk ((A ++ [b]) ++ B)
          rw [List.append_assoc, List.singleton_append, ← e]
        rw [e3, size_append (A ++ [b]) B]
        omega
    · rcases last_break text.data (bytes.runes breaks) with h | ⟨A, b, B, e, hb, hB⟩
      · refine ⟨"", text, ?_, ?_, ?_, h, ?_⟩
        · exact (String.empty_append text).symm
        · rfl
        · rw [h1 (by rw [hr]; exact h)]
          rfl
        · rw [h1 (by rw [hr]; exact h)]
          intro h0
          exact absurd h0 (Nat.lt_irrefl 0)
      · have et : text = String.mk (A ++ [b]) ++ String.mk B := by
          show text = String.mk ((A ++ [b]) ++ B)
          rw [List.append_assoc, List.singleton_append, ← e]
        refine ⟨String.mk (A ++ [b]), String.mk B, et, ?_, ?_, hB, fun _ => ⟨A, b, rfl, hb⟩⟩
        · show goBytes text = _
          rw [et]
          exact goBytes_append _ _
        · exact h2 A b B (by rw [hr]; exact e) hb hB

/-- C24 at the prefix of the two bytes 0xE9 and `:`, with the break `:`: the
byte 0xE9 alone is not UTF-8, the runes of the prefix are U+FFFD and `:`, and
the result is 4, the number of bytes of these two runes written back, which is
beyond the end of the prefix.  At the prefix `é:`, which is valid UTF-8, the
result is 3, the length of the prefix. -/
theorem completionClipPoint_bytes_witness :
    bytes.runes [0xE9, 0x3A] = [bytes.RuneError, ':'] ∧
      bytes.completionClipPoint [0xE9, 0x3A] [0x3A] = 4 ∧
      ([0xE9, 0x3A] : bytes.GoString).length = 2 ∧
      bytes.lit "é:" = [0xC3, 0xA9, 0x3A] ∧
      bytes.completionClipPoint (bytes.lit "é:") [0x3A] = 3 :=
  ⟨by rfl,
    (completionClipPoint_bytes [0xE9, 0x3A] [0x3A]).2.1 [bytes.RuneError] ':' [] (by rfl)
      (by decide) (by decide),
    by rfl, by rfl, by rfl⟩

/-- C11. Take an App whose value handlers are all lenient (their `Notify`
always returns true, as that of an `Int32Handler` or `StringHandler` with
`AffectsParsing = false` does), and a command line that is structurally valid
for it: a list of units, each of them a token of flags without a value, a flag
with its value (attached or in the next token) or a positional argument,
followed or not by `--` and positional arguments, for which `App.plan` finds
the actions `acts`: every flag is registered, a flag used without a value takes
none and has a callback, a flag used with a value takes one, and every
positional argument has a slot with a handler.  Then the scan is not cut
short: the sticky flag stays up, every token is consumed, the App does not
panic, and the calls made are exactly those of the units in the order of the
tokens.  The App it leaves is the one that the actions lead to: every value of
the command line has been handed, in the order of the tokens, to the handler
registered for its flag or slot, and the error count has grown by the number
of errors that these handlers logged.  `parse` returns true exactly when no
error had been recorded before and no handler logged an error for a value; one
logged error makes it false.  When every handler logs at most one error for a
value, as those of the library do, the error count grows by exactly the number
of values for which an error was logged.  A handler of the library with
`AffectsParsing = false` is lenient and logs the one error of its parser for a
text that the parser rejects, none for a text that it accepts when a callback
or a pointer is bound, and the one error `missing consumer` when neither is. -/
theorem parse_lenient {ω : Type} (app : App ω) (items : List Item)
    (esc : Option (List String)) (acts : List (Action ω))
    (hl : app.lenient) (hshape : ∀ it ∈ items, it.shaped)
    (hplan : app.plan app.currentArgument items esc = some acts) :
    ((parseMain (parser.start (commandLine items esc) false) (recording App.observer)
        (some app, [])).1.parseOK = true ∧
      (parseMain (parser.start (commandLine items esc) false) (recording App.observer)
        (some app, [])).1.rest = [] ∧
      ∃ app',
        parse (commandLine items esc) (recording App.observer) (some app, []) =
          (decide (app'.numErrors = 0), some app', expectedCalls items esc) ∧
        parse (commandLine items esc) App.observer (some app) =
          (decide (app'.numErrors = 0), some app') ∧
        app'.world = (runActions acts app.world).1 ∧
        app'.numErrors =
          app.numErrors + ((runActions acts app.world).2.flatMap (fun r => r.2)).length ∧
        (app'.numErrors = 0 ↔
          app.numErrors = 0 ∧ ∀ r ∈ (runActions acts app.world).2, r.2 = []) ∧
        (app.oneError →
          app'.numErrors = app.numErrors +
            ((runActions acts app.world).2.filter (fun r => !r.2.isEmpty)).length)) ∧
    ((runActions acts app.world).2.map Prod.fst = givenValues items esc ∧
      (∀ h v, Action.hand h v ∈ acts → app.handles h) ∧
      (∀ r ∈ (runActions acts app.world).2,
        ∃ h v w, Action.hand h v ∈ acts ∧ r = (v, (h.Notify v w).1))) ∧
    (∀ (h : ValueHandler ω) (text : String) (a : App ω),
      (App.notifyHandler h text a).1 = (h.Notify text a.world).2.1 ∧
      (App.notifyHandler h text a).2.numErrors
        = a.numErrors + (h.Notify text a.world).1.length) ∧
    (∀ (h : Int32Handler ω), h.AffectsParsing = false →
      h.handler.lenient ∧ h.handler.oneError ∧
      (∀ text w err, h.Parser.Parse text w = Except.error err →
        (h.handler.Notify text w).1 = [err]) ∧
      (∀ text w v, h.Parser.Parse text w = Except.ok v →
        (h.Callback.isSome = true ∨ h.Ptr.isSome = true) →
        (h.handler.Notify text w).1 = []) ∧
      (∀ text w v, h.Parser.Parse text w = Except.ok v →
        h.Callback = none → h.Ptr = none →
        (h.handler.Notify text w).1 = ["missing consumer"])) ∧
    (∀ (h : StringHandler ω), h.AffectsParsing = false →
      h.handler.lenient ∧ h.handler.oneError ∧
      (∀ text w err, h.Parser.Parse text w = Except.error err →
        (h.handler.Notify text w).1 = [err]) ∧
      (∀ text w v, h.Parser.Parse text w = Except.ok v →
        (h.Callback.isSome = true ∨ h.Ptr.isSome = true) →
        (h.handler.Notify text w).1 = []) ∧
      (∀ text w v, h.Parser.Parse text w = Except.ok v →
        h.Callback = none → h.Ptr = none →
        (h.handler.Notify text w).1 = ["missing consumer"])) := by
  obtain ⟨v1, v2⟩ := App.plan_hands app app.currentArgument items esc acts hplan
  refine ⟨?_, ⟨v2 app.world, v1, fun r hr => runActions_mem acts app.world r hr⟩, ?_, ?_, ?_⟩
  · obtain ⟨app', k, r1, r2, r3, haf⟩ := App.parseMain_plan items esc app
      (parser.start (commandLine items esc) false) [] acts hl hshape hplan rfl rfl rfl
    rw [List.nil_append] at r3
    obtain ⟨-, -, hw, hn⟩ := haf
    have hp : parse (commandLine items esc) (recording App.observer) (some app, []) =
        (decide (app'.numErrors = 0), some app', expectedCalls items esc) := by
      unfold parse
      simp only [r1, r3, Bool.true_and]
      rfl
    refine ⟨r1, r2, app', hp, ?_, hw, hn, ?_, ?_⟩
    · obtain ⟨s1, s2⟩ := parse_simulates (recording_simulates App.observer)
        (commandLine items esc) (some app, []) (some app) rfl
      rw [hp] at s1 s2
      rw [Prod.ext_iff]
      exact ⟨s1.symm, s2.symm⟩
    · rw [hn]
      constructor
      · intro h
        exact ⟨by omega, (length_flatMap_zero _).1 (by omega)⟩
      · rintro ⟨h1, h2⟩
        rw [h1, (length_flatMap_zero _).2 h2]
    · intro ho
      rw [hn, length_flatMap_errors]
      intro r hr
      obtain ⟨h, v, w, hm, rfl⟩ := runActions_mem acts app.world r hr
      exact ho h (v1 h v hm) v w
  · intro h text a
    refine ⟨rfl, ?_⟩
    unfold App.notifyHandler
    exact App.foldl_Error_numErrors _ (fun u => u) _
  · intro h ha
    refine ⟨Int32Handler.int32_lenient h ha, Int32Handler.int32_oneError h, ?_, ?_, ?_⟩
    · intro text w err he
      show (h.Notify text listLogger [] w).2.1 = [err]
      simp [Int32Handler.Notify, he, listLogger]
    · intro text w v hv hb
      show (h.Notify text listLogger [] w).2.1 = []
      unfold Int32Handler.Notify
      cases hc : h.Callback with
      | some c => simp [hv]
      | none =>
        cases hp : h.Ptr with
        | some p => simp [hv]
        | none => simp [hc, hp] at hb
    · intro text w v hv hc hp
      show (h.Notify text listLogger [] w).2.1 = ["missing consumer"]
      simp [Int32Handler.Notify, hv, hc, hp, listLogger]
  · intro h ha
    refine ⟨StringHandler.string_lenient h ha, StringHandler.string_oneError h, ?_, ?_, ?_⟩
    · intro text w err he
      show (h.Notify text listLogger [] w).2.1 = [err]
      simp [StringHandler.Notify, he, listLogger]
    · intro text w v hv hb
      show (h.Notify text listLogger [] w).2.1 = []
      unfold StringHandler.Notify
      cases hc : h.Callback with
      | some c => simp [hv]
      | none =>
        cases hp : h.Ptr with
        | some p => simp [hv]
        | none => simp [hc, hp] at hb
    · intro text w v hv hc hp
      show (h.Notify text listLogger [] w).2.1 = ["missing consumer"]
      simp [StringHandler.Notify, hv, hc, hp, listLogger]

/-- C11 on the App `mixApp`, with the flag `--num`/`-n` that takes a number,
the flag `--loud`/`-l` that takes none, a required slot and an excess slot.
The command line
`-ll --num=x 7 -ln y --loud --num -z -n7 -- --num 7` is structurally valid
for it.  The scan makes every call to the end; the seven values `x`, `7`, `y`,
`-z`, `7`, `--num` and `7` reach the handler in this order; four of them are
not the number 7 and each adds one error; the last 7 is stored; and `parse`
returns false. -/
theorem parse_lenient_witness :
    mixApp.lenient ∧ (∀ it ∈ mixItems, it.shaped) ∧
      mixApp.plan mixApp.currentArgument mixItems (some ["--num", "7"]) = some mixActs ∧
      commandLine mixItems (some ["--num", "7"]) =
        ["-ll", "--num=x", "7", "-ln", "y", "--loud", "--num", "-z", "-n7", "--",
          "--num", "7"] ∧
      (runActions mixActs mixApp.world).2 =
        [("x", ["bad"]), ("7", []), ("y", ["bad"]), ("-z", ["bad"]), ("7", []),
          ("--num", ["bad"]), ("7", [])] ∧
      (runActions mixActs mixApp.world).2.map Prod.fst =
        givenValues mixItems (some ["--num", "7"]) ∧
      (∃ app',
        parse (commandLine mixItems (some ["--num", "7"])) (recording App.observer)
            (some mixApp, []) =
          (false, some app', expectedCalls mixItems (some ["--num", "7"])) ∧
        app'.world = 7 ∧ app'.numErrors = 4) := by
  have hl : mixApp.lenient := by
    refine ⟨?_, ?_, ?_⟩
    · intro f hf h hv
      have e : mixApp.allFlags = [numFlag, loudFlag] := by rfl
      rw [e] at hf
      simp only [List.mem_cons, List.mem_singleton, List.not_mem_nil, or_false] at hf
      rcases hf with rfl | rfl
      · have e2 : numFlag.Value = some numHandler.handler := rfl
        rw [e2] at hv
        cases hv
        exact Int32Handler.int32_lenient _ rfl
      · cases hv
    · intro a ha h hv
      have e : mixApp.requiredArguments =
          [{ Name := "count", Value := some numHandler.handler }] := by rfl
      rw [e, List.mem_singleton] at ha
      subst ha
      cases hv
      exact Int32Handler.int32_lenient _ rfl
    · intro a ha h hv
      have e : mixApp.excessArguments =
          some { Name := "more", Value := some numHandler.handler } := by rfl
      rw [e] at ha
      cases ha
      cases hv
      exact Int32Handler.int32_lenient _ rfl
  have hs : ∀ it ∈ mixItems, it.shaped := by
    intro it hit
    simp only [mixItems, List.mem_cons, List.mem_singleton, List.not_mem_nil, or_false] at hit
    rcases hit with rfl | rfl | rfl | rfl | rfl | rfl | rfl <;>
      simp [Item.shaped]
  have hp : mixApp.plan mixApp.currentArgument mixItems (some ["--num", "7"]) = some mixActs := by
    rfl
  have hout : (runActions mixActs mixApp.world).2 =
      [("x", ["bad"]), ("7", []), ("y", ["bad"]), ("-z", ["bad"]), ("7", []),
        ("--num", ["bad"]), ("7", [])] := by rfl
  have hw : (runActions mixActs mixApp.world).1 = 7 := by rfl
  obtain ⟨⟨-, -, app', e1, -, e3, e4, -, -⟩, ⟨e5, -, -⟩, -⟩ :=
    parse_lenient mixApp mixItems (some ["--num", "7"]) mixActs hl hs hp
  have hn : app'.numErrors = 4 := by
    rw [e4, hout]
    rfl
  refine ⟨hl, hs, hp, by rfl, hout, e5, app', ?_, by rw [e3, hw], hn⟩
  rw [e1, hn]
  rfl

end cmdline
